import Mathlib

/-!
Verification of the chessica chess engine core against its specification.

The definitions below are a shallow embedding of the Rust sources:
`chessica/src/{board,bitboard,square,magic,zobrist,history}.rs`,
`chessica/src/lib.rs` (move encodings) and `chessica-engine/src/search.rs`.
Machine integers (`u64` bitboards, `u8`/`u16` clocks) are embedded as `Nat`
with explicit `% 2^w` masking exactly where the Rust code can wrap or drop
bits.  Fallible operations return `Option`.  The Zobrist hash keys are drawn
from a process-global random source in the Rust code, so every definition is
parameterised over an arbitrary key assignment `ZKeys`.
-/

namespace Chessica

/-- Number of values of a 64-bit word. -/
def U64 : Nat := 2 ^ 64

/-- All-ones 64-bit word, used to embed Rust `!x` on `u64` as `u64mask ^^^ x`. -/
def u64mask : Nat := 2 ^ 64 - 1

/-- The `Side` enum from `lib.rs`. -/
inductive Side where
  | White
  | Black
deriving DecidableEq, Repr

/-- The `Piece` enum from `lib.rs` (discriminants 1–6 in the Rust encoding). -/
inductive Piece where
  | Pawn
  | Knight
  | Bishop
  | Rook
  | Queen
  | King
deriving DecidableEq, Repr

/-- Piece values from `Piece::value` in `lib.rs`. -/
def Piece.value : Piece → Int
  | .Pawn => 100
  | .Knight => 300
  | .Bishop => 300
  | .Rook => 500
  | .Queen => 900
  | .King => 10000

/-- The `Piece as u8` discriminant (`Pawn = 1`, …, `King = 6`). -/
def Piece.toU8 : Piece → Nat
  | .Pawn => 1
  | .Knight => 2
  | .Bishop => 3
  | .Rook => 4
  | .Queen => 5
  | .King => 6

/-- The `From<u8> for Piece` conversion from `lib.rs`; the Rust code panics on
values outside 1–6, here such junk inputs map to `Pawn` and every use site is
guarded by how the byte was constructed. -/
def Piece.fromU8 : Nat → Piece
  | 1 => .Pawn
  | 2 => .Knight
  | 3 => .Bishop
  | 4 => .Rook
  | 5 => .Queen
  | 6 => .King
  | _ => .Pawn

/-- A board square, `square.rs`: `ordinal` is `rank * 8 + file`, `a1 = 0`. -/
structure Square where
  ordinal : Nat
deriving DecidableEq, Repr

/-- `Square::from_coords`. -/
def Square.fromCoords (rank file : Nat) : Square :=
  ⟨rank * 8 + file⟩

/-- `Square::rank`. -/
def Square.rank (s : Square) : Nat := s.ordinal / 8

/-- `Square::file`. -/
def Square.file (s : Square) : Nat := s.ordinal % 8

/-- `Square::bit` (`1 << ordinal`); the Rust shift overflows for ordinals ≥ 64
(such a square never arises in the developments below), embedded with a
64-bit mask. -/
def Square.bit (s : Square) : Nat := (1 <<< s.ordinal) % U64

/-- `Square::delta`: move by a (rank, file) offset, `none` when off the board. -/
def Square.delta (s : Square) (rankDelta fileDelta : Int) : Option Square :=
  let newRank : Int := (s.rank : Int) + rankDelta
  let newFile : Int := (s.file : Int) + fileDelta
  if newRank < 0 || newRank > 7 || newFile < 0 || newFile > 7 then
    none
  else
    some (Square.fromCoords newRank.toNat newFile.toNat)

/-- `Square::rank_char`. -/
def Square.rankChar (s : Square) : Char := Char.ofNat (0x31 + s.rank)

/-- `Square::file_char`. -/
def Square.fileChar (s : Square) : Char := Char.ofNat (0x61 + s.file)

/-- The `Display` instance for `Square` (file letter then rank digit). -/
def Square.toStr (s : Square) : String :=
  String.mk [s.fileChar, s.rankChar]

/-- `Square::from_str`: parse an algebraic square such as `e4`. -/
def Square.fromStr (cs : List Char) : Option Square :=
  match cs with
  | [f, r] =>
    if 0x61 ≤ f.toNat && f.toNat ≤ 0x68 && 0x31 ≤ r.toNat && r.toNat ≤ 0x38 then
      some (Square.fromCoords (r.toNat - 0x31) (f.toNat - 0x61))
    else
      none
  | _ => none

/-! ### Bitboards

A bitboard is a `u64`, embedded as a `Nat` kept below `2 ^ 64` by masking
the left shifts.  The operations mirror `bitboard.rs`. -/

/-- Bitwise complement of a 64-bit word (`!x` in Rust). -/
def bbNot (bb : Nat) : Nat := u64mask ^^^ bb

/-- `BitBoard::set`. -/
def bbSet (bb : Nat) (s : Square) : Nat := bb ||| s.bit

/-- `BitBoard::clear`. -/
def bbClear (bb : Nat) (s : Square) : Nat := bb &&& bbNot s.bit

/-- `BitBoard::is_occupied`. -/
def bbOccupied (bb : Nat) (s : Square) : Bool := bb &&& s.bit != 0

/-- `BitBoard::any`. -/
def bbAny (bb : Nat) : Bool := bb != 0

/-- `BitBoard::count` (`u64::count_ones`). -/
def bbCount (bb : Nat) : Nat := (List.range 64).countP (fun i => bb.testBit i)

/-- The consuming `Iterator` on `BitBoard`: squares in ascending ordinal. -/
def bbToList (bb : Nat) : List Square :=
  (List.range 64).filterMap (fun i => if bb.testBit i then some ⟨i⟩ else none)

/-- Index of the lowest set bit (`u64::trailing_zeros`), 64 for the zero word. -/
def bbLowBit (bb : Nat) : Nat :=
  ((List.range 64).find? (fun i => bb.testBit i)).getD 64

/-- `BitBoard::single`: the unique member square.  The Rust code panics unless
exactly one bit is set; the junk square 64 stands in for the panic and every
use site below is guarded. -/
def bbSingle (bb : Nat) : Square :=
  if bbCount bb = 1 then ⟨bbLowBit bb⟩ else ⟨64⟩

/-- Rank mask `RANK[i]`.  Modelled from the spec: `bitboard_masks.rs` is not
among the provided sources; §3 fixes bit `k` ⇔ square `k` with rank `k / 8`. -/
def RANK (i : Nat) : Nat := (0xff <<< (8 * i)) % U64

/-- File mask `FILE[i]`.  Modelled from the spec: `bitboard_masks.rs` is not
among the provided sources; §3 fixes bit `k` ⇔ square `k` with file `k % 8`. -/
def FILE (i : Nat) : Nat := (0x0101010101010101 <<< i) % U64

/-- `BitBoard::pawn_pushes` (one rank forward for the given side). -/
def bbPawnPushes (bb : Nat) : Side → Nat
  | .White => (bb <<< 8) % U64
  | .Black => bb >>> 8

/-- `BitBoard::pawn_left_captures`. -/
def bbPawnLeftCaptures (bb : Nat) : Side → Nat
  | .White => ((bb &&& bbNot (FILE 0)) <<< 7) % U64
  | .Black => (bb &&& bbNot (FILE 7)) >>> 7

/-- `BitBoard::pawn_right_captures`. -/
def bbPawnRightCaptures (bb : Nat) : Side → Nat
  | .White => ((bb &&& bbNot (FILE 7)) <<< 9) % U64
  | .Black => (bb &&& bbNot (FILE 0)) >>> 9

/-- `BitBoard::pawn_captures`. -/
def bbPawnCaptures (bb : Nat) (side : Side) : Nat :=
  bbPawnLeftCaptures bb side ||| bbPawnRightCaptures bb side

/-! ### Fixed attack masks

`masks.rs` is not among the provided sources.  The tables below are modelled
from the spec (§2 "Attack masks": knight/king/bishop-ray/rook-ray/bounding-box
/passed-pawn zones, §9 "three files ahead cone").  The ray masks reuse the
slider walk from `magic.rs`, which is part of the sources. -/

/-- One sliding ray from (but excluding) `cur`, stopping at the first blocker
(inclusive); the walk in `Slider::moves` from `magic.rs`.  The fuel bounds the
walk; 8 exceeds any board distance. -/
def rayWalk (cur : Square) (dr df : Int) (blockers : Nat) : Nat → Nat
  | 0 => 0
  | fuel + 1 =>
    match cur.delta dr df with
    | none => 0
    | some nxt =>
      if bbOccupied blockers nxt then nxt.bit
      else nxt.bit ||| rayWalk nxt dr df blockers fuel

/-- A sliding piece, `magic.rs` `Slider`. -/
structure Slider where
  deltas : List (Int × Int)

/-- `magic.rs` rook direction set. -/
def ROOK : Slider := ⟨[(0, 1), (1, 0), (0, -1), (-1, 0)]⟩

/-- `magic.rs` bishop direction set. -/
def BISHOP : Slider := ⟨[(-1, -1), (-1, 1), (1, -1), (1, 1)]⟩

/-- `Slider::moves`: attack set from `square` given `blockers`. -/
def Slider.moves (s : Slider) (sq : Square) (blockers : Nat) : Nat :=
  s.deltas.foldl (fun acc d => acc ||| rayWalk sq d.1 d.2 blockers 8) 0

/-- `Slider::blocker_mask` from `magic.rs`. -/
def Slider.blockerMask (s : Slider) (sq : Square) : Nat :=
  let m := s.moves sq 0
  let m := if sq.rank ≠ 0 then m &&& bbNot (RANK 0) else m
  let m := if sq.rank ≠ 7 then m &&& bbNot (RANK 7) else m
  let m := if sq.file ≠ 0 then m &&& bbNot (FILE 0) else m
  if sq.file ≠ 7 then m &&& bbNot (FILE 7) else m

/-- `MagicBitBoardTable::get_moves` for bishops, as built by
`build_magic_bishop_tables`: the table entry at the magic hash of
`all_pieces & blocker_mask` is `Slider::moves` of that masked occupancy
(`try_make_magic_table` fills it that way, and the hardcoded magics are
collision-free, which the `unwrap` in `build_magic_tables` enforces).  The
perfect-hash table layer is therefore embedded by its content. -/
def bishopMovesTbl (sq : Square) (allPieces : Nat) : Nat :=
  BISHOP.moves sq (allPieces &&& BISHOP.blockerMask sq)

/-- `MagicBitBoardTable::get_moves` for rooks; see `bishopMovesTbl`. -/
def rookMovesTbl (sq : Square) (allPieces : Nat) : Nat :=
  ROOK.moves sq (allPieces &&& ROOK.blockerMask sq)

/-- Fold a list of single-step offsets into an attack mask. -/
def stepMask (sq : Square) (ds : List (Int × Int)) : Nat :=
  ds.foldl (fun acc d => match sq.delta d.1 d.2 with
    | none => acc
    | some t => acc ||| t.bit) 0

/-- `KNIGHTS_MOVE[sq]`.  Modelled from the spec (fixed knight attack table). -/
def KNIGHTS_MOVE (sq : Square) : Nat :=
  stepMask sq [(1, 2), (2, 1), (2, -1), (1, -2), (-1, -2), (-2, -1), (-2, 1), (-1, 2)]

/-- `KINGS_MOVE[sq]`.  Modelled from the spec (fixed king attack table). -/
def KINGS_MOVE (sq : Square) : Nat :=
  stepMask sq [(1, 0), (1, 1), (0, 1), (-1, 1), (-1, 0), (-1, -1), (0, -1), (1, -1)]

/-- `BISHOPS_MOVE[sq]`: full diagonal rays.  Modelled from the spec
("bishop-ray" fixed mask = slider moves on an empty board). -/
def BISHOPS_MOVE (sq : Square) : Nat := BISHOP.moves sq 0

/-- `ROOKS_MOVE[sq]`: full orthogonal rays.  Modelled from the spec
("rook-ray" fixed mask = slider moves on an empty board). -/
def ROOKS_MOVE (sq : Square) : Nat := ROOK.moves sq 0

/-- `BOUNDING_BOX[a][b]`: the rectangle of squares spanned by `a` and `b`,
endpoints included.  Modelled from the spec ("bounding-box zones", used for
castling paths, check-blocking segments, pin rays and the en-passant
partial-pin test, all of which read it as this inclusive rectangle). -/
def BOUNDING_BOX (a b : Square) : Nat :=
  ((List.range 64).filterMap (fun i =>
    let s : Square := ⟨i⟩
    if min a.rank b.rank ≤ s.rank ∧ s.rank ≤ max a.rank b.rank ∧
       min a.file b.file ≤ s.file ∧ s.file ≤ max a.file b.file then
      some s.bit
    else none)).foldl (· ||| ·) 0

/-- `WHITE_PASSED_PAWN_ZONE[sq]`.  Modelled from the spec (§9): the
"three files ahead" cone seen from a white pawn. -/
def WHITE_PASSED_PAWN_ZONE (sq : Square) : Nat :=
  ((List.range 64).filterMap (fun i =>
    let s : Square := ⟨i⟩
    if sq.rank < s.rank ∧ sq.file - 1 ≤ s.file ∧ s.file ≤ sq.file + 1 then
      some s.bit
    else none)).foldl (· ||| ·) 0

/-- `BLACK_PASSED_PAWN_ZONE[sq]`.  Modelled from the spec (§9): the
"three files ahead" cone seen from a black pawn. -/
def BLACK_PASSED_PAWN_ZONE (sq : Square) : Nat :=
  ((List.range 64).filterMap (fun i =>
    let s : Square := ⟨i⟩
    if s.rank < sq.rank ∧ sq.file - 1 ≤ s.file ∧ s.file ≤ sq.file + 1 then
      some s.bit
    else none)).foldl (· ||| ·) 0

/-- `Square::knight_moves`. -/
def Square.knightMoves (s : Square) : Nat := KNIGHTS_MOVE s

/-- `Square::king_moves`. -/
def Square.kingMoves (s : Square) : Nat := KINGS_MOVE s

/-- `Square::bishop_moves`. -/
def Square.bishopMoves (s : Square) : Nat := BISHOPS_MOVE s

/-- `Square::rook_moves`. -/
def Square.rookMoves (s : Square) : Nat := ROOKS_MOVE s

/-- `Square::bounding_box`. -/
def Square.boundingBox (s t : Square) : Nat := BOUNDING_BOX s t

/-! ### Zobrist keys and hash flips

`zobrist.rs` draws its keys from `rand::thread_rng` once per process, so the
key values are not determined by the program text.  Every definition below is
parameterised over an arbitrary key assignment. -/

/-- The key material of `ZobristHashKeys` (`zobrist.rs`), as unspecified
64-bit values. -/
structure ZKeys where
  blackToMoveKey : Nat
  pieceKeys : Side → Piece → Nat → Nat
  shortCastlingKeys : Side → Nat
  longCastlingKeys : Side → Nat
  enPassantFileKeys : Nat → Nat

/-! ### Repetition history

`history.rs` wraps `counter::Counter<u64, u8>`, a `HashMap` from hash to
count whose equality is key-value-set equality.  It is embedded as an
association list kept sorted by key, which has the same equality; note that
`pop` decrements a count in place and never removes the entry, exactly as the
`Counter` index operations do. -/

/-- Insert-or-increment for the sorted association list behind `History`. -/
def histInsert : List (Nat × Nat) → Nat → List (Nat × Nat)
  | [], k => [(k, 1)]
  | (k0, c0) :: rest, k =>
    if k < k0 then (k, 1) :: (k0, c0) :: rest
    else if k = k0 then (k0, (c0 + 1) % 256) :: rest
    else (k0, c0) :: histInsert rest k

/-- Decrement-in-place for the sorted association list behind `History`
(`u8` wrapping at 0, which only the unreachable underflow path exercises). -/
def histDecr : List (Nat × Nat) → Nat → List (Nat × Nat)
  | [], _ => []
  | (k0, c0) :: rest, k =>
    if k = k0 then (k0, (c0 + 255) % 256) :: rest
    else (k0, c0) :: histDecr rest k

/-- `history.rs` `History`: the multiset of Zobrist hashes visited. -/
structure History where
  entries : List (Nat × Nat)
deriving DecidableEq, Repr

/-- `History::new`. -/
def History.new : History := ⟨[]⟩

/-- Count stored for a hash (0 when the map has no entry). -/
def History.countOf (h : History) (k : Nat) : Nat :=
  (((h.entries.find? (fun e => e.1 = k)).map (fun e => e.2)).getD 0)

/-- `History::push` (increment; the Rust function also returns the new count,
read back here via `countOf`). -/
def History.push (h : History) (k : Nat) : History := ⟨histInsert h.entries k⟩

/-- `History::pop` (decrement in place, entry retained). -/
def History.pop (h : History) (k : Nat) : History := ⟨histDecr h.entries k⟩

/-! ### Piece-square evaluation

`pst.rs` is not among the provided sources.  Modelled from the spec:
"PST evaluator: incremental piece-square material-plus-position score" (§2)
and "maintain a running signed sum, updated symmetrically in
add_piece/remove_piece" with color-mirroring (§9).  The concrete table
contents are unknown; the claims below depend only on the running-sum
add/remove symmetry, and the modelled table is the material component. -/

/-- Modelled from the spec: per-square value of a piece for the PST evaluator
(`pst.rs` absent); the material term with an unknown positional term taken
as 0. -/
def pstValue (p : Piece) (_sq : Square) : Int := p.value

/-- Signed (white-positive) PST contribution of one piece, per the spec's
color-mirrored running sum. -/
def pstSigned (side : Side) (p : Piece) (sq : Square) : Int :=
  match side with
  | .White => pstValue p sq
  | .Black => -pstValue p sq

/-! ### Moves (`lib.rs`) -/

/-- `RegularMove`: from/to squares plus the packed `pieces` byte
(low nibble mover, high nibble captured piece or 0). -/
structure RegularMove where
  fromSq : Square
  toSq : Square
  pieces : Nat
deriving DecidableEq, Repr

/-- `RegularMove::new`. -/
def RegularMove.new (piece : Piece) (fromSq toSq : Square)
    (capturedPiece : Option Piece) : RegularMove :=
  let pieces := piece.toU8 ||| (match capturedPiece with
    | some cp => cp.toU8 <<< 4
    | none => 0)
  ⟨fromSq, toSq, pieces⟩

/-- `RegularMove::piece`. -/
def RegularMove.piece (m : RegularMove) : Piece := Piece.fromU8 (m.pieces &&& 0x0f)

/-- `RegularMove::captured_piece`. -/
def RegularMove.capturedPiece (m : RegularMove) : Option Piece :=
  match m.pieces &&& 0xf0 with
  | 0 => none
  | cp => some (Piece.fromU8 (cp >>> 4))

/-- `RegularMove::is_capture`. -/
def RegularMove.isCapture (m : RegularMove) : Bool := m.pieces > 0x0f

/-- `RegularMove::is_pawn_involved`. -/
def RegularMove.isPawnInvolved (m : RegularMove) : Bool :=
  m.pieces &&& 0xf0 == 0x10 || m.pieces &&& 0x0f == 0x01

/-- `EnPassantCaptureMove`. -/
structure EnPassantCaptureMove where
  fromSq : Square
  toSq : Square
  capturedPawn : Square
deriving DecidableEq, Repr

/-- `PromotionMove`: from/to squares plus the packed `pieces` byte
(low nibble promotion piece, high nibble captured piece or 0). -/
structure PromotionMove where
  fromSq : Square
  toSq : Square
  pieces : Nat
deriving DecidableEq, Repr

/-- `PromotionMove::new`. -/
def PromotionMove.new (fromSq toSq : Square) (promotionPiece : Piece)
    (capturedPiece : Option Piece) : PromotionMove :=
  let pieces := promotionPiece.toU8 ||| (match capturedPiece with
    | some cp => cp.toU8 <<< 4
    | none => 0)
  ⟨fromSq, toSq, pieces⟩

/-- `PromotionMove::promotion_piece`. -/
def PromotionMove.promotionPiece (m : PromotionMove) : Piece :=
  Piece.fromU8 (m.pieces &&& 0x0f)

/-- `PromotionMove::captured_piece`. -/
def PromotionMove.capturedPiece (m : PromotionMove) : Option Piece :=
  match m.pieces &&& 0xf0 with
  | 0 => none
  | cp => some (Piece.fromU8 (cp >>> 4))

/-- `PromotionMove::is_capture`. -/
def PromotionMove.isCapture (m : PromotionMove) : Bool := m.pieces > 0x0f

/-- The `Move` enum from `lib.rs`. -/
inductive Move where
  | Regular (m : RegularMove)
  | ShortCastling (side : Side)
  | LongCastling (side : Side)
  | EnPassantCapture (m : EnPassantCaptureMove)
  | Promotion (m : PromotionMove)
deriving DecidableEq, Repr

/-- `Move::regular`. -/
def Move.regular (piece : Piece) (fromSq toSq : Square)
    (capturedPiece : Option Piece) : Move :=
  .Regular (RegularMove.new piece fromSq toSq capturedPiece)

/-- `Move::promotion`. -/
def Move.promotion (fromSq toSq : Square) (promotionPiece : Piece)
    (capturedPiece : Option Piece) : Move :=
  .Promotion (PromotionMove.new fromSq toSq promotionPiece capturedPiece)

/-- `Move::en_passant`. -/
def Move.enPassant (fromSq toSq capturedPawn : Square) : Move :=
  .EnPassantCapture ⟨fromSq, toSq, capturedPawn⟩

/-- `Move::from`. -/
def Move.fromSq : Move → Square
  | .Regular m => m.fromSq
  | .ShortCastling side => if side = Side.White then ⟨4⟩ else ⟨60⟩
  | .LongCastling side => if side = Side.White then ⟨4⟩ else ⟨60⟩
  | .EnPassantCapture m => m.fromSq
  | .Promotion m => m.fromSq

/-- `Move::to`. -/
def Move.toSq : Move → Square
  | .Regular m => m.toSq
  | .ShortCastling side => if side = Side.White then ⟨6⟩ else ⟨62⟩
  | .LongCastling side => if side = Side.White then ⟨2⟩ else ⟨58⟩
  | .EnPassantCapture m => m.toSq
  | .Promotion m => m.toSq

/-- `Move::is_capture`. -/
def Move.isCapture : Move → Bool
  | .Regular m => m.isCapture
  | .ShortCastling _ => false
  | .LongCastling _ => false
  | .EnPassantCapture _ => true
  | .Promotion m => m.isCapture

/-- `Move::piece`. -/
def Move.piece : Move → Piece
  | .Regular m => m.piece
  | .ShortCastling _ => .King
  | .LongCastling _ => .King
  | .EnPassantCapture _ => .Pawn
  | .Promotion _ => .Pawn

/-- `Move::captured_piece`. -/
def Move.capturedPiece : Move → Option Piece
  | .Regular m => m.capturedPiece
  | .ShortCastling _ => none
  | .LongCastling _ => none
  | .EnPassantCapture _ => some .Pawn
  | .Promotion m => m.capturedPiece

/-- `Move::is_pawn_involved`. -/
def Move.isPawnInvolved : Move → Bool
  | .Regular m => m.isPawnInvolved
  | .EnPassantCapture _ => true
  | .Promotion _ => true
  | _ => false

/-- `Move::capture_value`. -/
def Move.captureValue (m : Move) : Int :=
  match m.capturedPiece with
  | some p => p.value
  | none => 0

/-- `Piece::to_fen_char`. -/
def Piece.toFenChar (p : Piece) (side : Side) : Char :=
  let c : Char := match p with
    | .Pawn => 'p'
    | .Knight => 'n'
    | .Bishop => 'b'
    | .Rook => 'r'
    | .Queen => 'q'
    | .King => 'k'
  match side with
  | .White => c.toUpper
  | .Black => c

/-- `Move::to_uci_string`. -/
def Move.toUciString : Move → String
  | .Regular m => m.fromSq.toStr ++ m.toSq.toStr
  | .ShortCastling side => if side = Side.White then "e1g1" else "e8g8"
  | .LongCastling side => if side = Side.White then "e1c1" else "e8c8"
  | .EnPassantCapture m => m.fromSq.toStr ++ m.toSq.toStr
  | .Promotion m =>
    m.fromSq.toStr ++ m.toSq.toStr ++ String.mk [m.promotionPiece.toFenChar .Black]

/-! ### The board (`board.rs`) -/

/-- `MoveUndoInfo` from `board.rs`. -/
structure MoveUndoInfo where
  castlingRights : Nat
  halfMoveClock : Nat
  epSquare : Option Square
  isThreefoldRepetition : Bool
  passedPawns : Nat
deriving DecidableEq, Repr

/-- The `Board` struct from `board.rs`.  Bitboards are 64-bit words as `Nat`;
`castlingRights` is the `u8` flag nibble; the clocks carry their `u8`/`u16`
ranges via masking at the update sites.  The move stack grows at the head of
the list (the `Vec` grows at the tail; only the stack discipline is
observable). -/
structure Board where
  sideToMove : Side
  sideToNotMove : Side
  whitePieces : Nat
  blackPieces : Nat
  pawns : Nat
  bishops : Nat
  knights : Nat
  rooks : Nat
  queens : Nat
  kings : Nat
  passedPawns : Nat
  castlingRights : Nat
  halfMoveClock : Nat
  fullMoveNumber : Nat
  epSquare : Option Square
  zHash : Nat
  pstEval : Int
  moveStack : List (Move × MoveUndoInfo)
  hashHistory : History
  isThreefoldRepetition : Bool
deriving DecidableEq, Repr

/-- `Board::back_rank`. -/
def backRank : Side → Nat
  | .White => 0
  | .Black => 7

/-- `Board::pawn_double_push_rank`. -/
def pawnDoublePushRank : Side → Nat
  | .White => 3
  | .Black => 4

/-- `Board::short_castling_flag`. -/
def shortCastlingFlag : Side → Nat
  | .White => 0x1
  | .Black => 0x2

/-- `Board::long_castling_flag`. -/
def longCastlingFlag : Side → Nat
  | .White => 0x4
  | .Black => 0x8

/-- Complement of a `u8` flag byte (Rust `!flag` at width 8). -/
def u8Not (x : Nat) : Nat := 255 ^^^ x

/-- `Board::hash`. -/
def Board.hash (b : Board) : Nat := b.zHash

/-- `Board::get_pieces`. -/
def Board.getPieces (b : Board) : Side → Nat
  | .White => b.whitePieces
  | .Black => b.blackPieces

/-- `Board::get_piece`: the piece of the given side on a square, testing the
kind bitboards in the fixed source order. -/
def Board.getPiece (b : Board) (side : Side) (sq : Square) : Option Piece :=
  if !bbOccupied (b.getPieces side) sq then none
  else if bbOccupied b.pawns sq then some .Pawn
  else if bbOccupied b.bishops sq then some .Bishop
  else if bbOccupied b.knights sq then some .Knight
  else if bbOccupied b.rooks sq then some .Rook
  else if bbOccupied b.queens sq then some .Queen
  else if bbOccupied b.kings sq then some .King
  else none

/-- `Board::can_castle_short`. -/
def Board.canCastleShort (b : Board) (side : Side) : Bool :=
  b.castlingRights &&& shortCastlingFlag side == shortCastlingFlag side

/-- `Board::can_castle_long`. -/
def Board.canCastleLong (b : Board) (side : Side) : Bool :=
  b.castlingRights &&& longCastlingFlag side == longCastlingFlag side

/-- `Board::is_draw_by_threefold_repetition`. -/
def Board.isDrawByThreefoldRepetition (b : Board) : Bool := b.isThreefoldRepetition

/-- `Board::is_draw_by_fifty_move_rule`. -/
def Board.isDrawByFiftyMoveRule (b : Board) : Bool := b.halfMoveClock ≥ 100

/-- `Board::add_piece`. -/
def Board.addPiece (K : ZKeys) (b : Board) (side : Side) (p : Piece) (sq : Square) :
    Board :=
  let b := match side with
    | .White => { b with whitePieces := bbSet b.whitePieces sq }
    | .Black => { b with blackPieces := bbSet b.blackPieces sq }
  let b := match p with
    | .Pawn => { b with pawns := bbSet b.pawns sq }
    | .Bishop => { b with bishops := bbSet b.bishops sq }
    | .Knight => { b with knights := bbSet b.knights sq }
    | .Rook => { b with rooks := bbSet b.rooks sq }
    | .Queen => { b with queens := bbSet b.queens sq }
    | .King => { b with kings := bbSet b.kings sq }
  { b with zHash := b.zHash ^^^ K.pieceKeys side p sq.ordinal,
           pstEval := b.pstEval + pstSigned side p sq }

/-- `Board::remove_piece`. -/
def Board.removePiece (K : ZKeys) (b : Board) (side : Side) (p : Piece) (sq : Square) :
    Board :=
  let b := match side with
    | .White => { b with whitePieces := bbClear b.whitePieces sq }
    | .Black => { b with blackPieces := bbClear b.blackPieces sq }
  let b := match p with
    | .Pawn => { b with pawns := bbClear b.pawns sq }
    | .Bishop => { b with bishops := bbClear b.bishops sq }
    | .Knight => { b with knights := bbClear b.knights sq }
    | .Rook => { b with rooks := bbClear b.rooks sq }
    | .Queen => { b with queens := bbClear b.queens sq }
    | .King => { b with kings := bbClear b.kings sq }
  { b with zHash := b.zHash ^^^ K.pieceKeys side p sq.ordinal,
           pstEval := b.pstEval - pstSigned side p sq }

/-- `Board::apply_move` (move a piece and clear any castling rights the move
consumes, flipping the matching Zobrist keys). -/
def Board.applyMove (K : ZKeys) (b : Board) (side : Side) (p : Piece)
    (fromSq toSq : Square) : Board :=
  let b := b.removePiece K side p fromSq
  let b := b.addPiece K side p toSq
  match p with
  | .King =>
    let flag := longCastlingFlag side
    let b := if b.castlingRights &&& flag != 0 then
        { b with castlingRights := b.castlingRights &&& u8Not flag,
                 zHash := b.zHash ^^^ K.longCastlingKeys side }
      else b
    let flag := shortCastlingFlag side
    if b.castlingRights &&& flag != 0 then
      { b with castlingRights := b.castlingRights &&& u8Not flag,
               zHash := b.zHash ^^^ K.shortCastlingKeys side }
    else b
  | .Rook =>
    if fromSq.rank = backRank side then
      if fromSq.file = 0 then
        let flag := longCastlingFlag side
        if b.castlingRights &&& flag != 0 then
          { b with castlingRights := b.castlingRights &&& u8Not flag,
                   zHash := b.zHash ^^^ K.longCastlingKeys side }
        else b
      else if fromSq.file = 7 then
        let flag := shortCastlingFlag side
        if b.castlingRights &&& flag != 0 then
          { b with castlingRights := b.castlingRights &&& u8Not flag,
                   zHash := b.zHash ^^^ K.shortCastlingKeys side }
        else b
      else b
    else b
  | _ => b

/-- `Board::undo_move`. -/
def Board.undoMove (K : ZKeys) (b : Board) (side : Side) (p : Piece)
    (fromSq toSq : Square) : Board :=
  let b := b.removePiece K side p toSq
  b.addPiece K side p fromSq

/-- `Board::apply_capture` (remove a captured piece and clear the opponent's
castling right if a rook is taken on its home corner). -/
def Board.applyCapture (K : ZKeys) (b : Board) (side : Side) (p : Piece)
    (sq : Square) : Board :=
  let b := b.removePiece K side p sq
  if p = Piece.Rook then
    if sq.rank = backRank side then
      if sq.file = 0 then
        let flag := longCastlingFlag side
        if b.castlingRights &&& flag == flag then
          { b with castlingRights := b.castlingRights &&& u8Not flag,
                   zHash := b.zHash ^^^ K.longCastlingKeys side }
        else b
      else if sq.file = 7 then
        let flag := shortCastlingFlag side
        if b.castlingRights &&& flag == flag then
          { b with castlingRights := b.castlingRights &&& u8Not flag,
                   zHash := b.zHash ^^^ K.shortCastlingKeys side }
        else b
      else b
    else b
  else b

/-- `Board::undo_capture`. -/
def Board.undoCapture (K : ZKeys) (b : Board) (side : Side) (p : Piece)
    (sq : Square) : Board :=
  b.addPiece K side p sq

/-- `Board::apply_promotion`. -/
def Board.applyPromotion (K : ZKeys) (b : Board) (side : Side)
    (fromSq toSq : Square) (promotion : Piece) : Board :=
  let b := b.removePiece K side .Pawn fromSq
  b.addPiece K side promotion toSq

/-- `Board::undo_promotion`. -/
def Board.undoPromotion (K : ZKeys) (b : Board) (side : Side)
    (fromSq toSq : Square) (promotion : Piece) : Board :=
  let b := b.removePiece K side promotion toSq
  b.addPiece K side .Pawn fromSq

/-- `Board::apply_regular_move`. -/
def Board.applyRegularMove (K : ZKeys) (b : Board) (m : RegularMove) : Board :=
  let b := match m.capturedPiece with
    | some cp => b.applyCapture K b.sideToNotMove cp m.toSq
    | none =>
      if m.piece = Piece.Pawn then
        if b.sideToMove = Side.White then
          if m.fromSq.rank = 1 ∧ m.toSq.rank = 3 then
            { b with epSquare := m.fromSq.delta 1 0,
                     zHash := b.zHash ^^^ K.enPassantFileKeys m.toSq.file }
          else b
        else
          if m.fromSq.rank = 6 ∧ m.toSq.rank = 4 then
            { b with epSquare := m.fromSq.delta (-1) 0,
                     zHash := b.zHash ^^^ K.enPassantFileKeys m.toSq.file }
          else b
      else b
  b.applyMove K b.sideToMove m.piece m.fromSq m.toSq

/-- `Board::undo_regular_move`. -/
def Board.undoRegularMove (K : ZKeys) (b : Board) (m : RegularMove) : Board :=
  let b := b.undoMove K b.sideToNotMove m.piece m.fromSq m.toSq
  match m.capturedPiece with
  | some cp => b.undoCapture K b.sideToMove cp m.toSq
  | none => b

/-- Castling geometry for the side: (king from, king to, rook from, rook to). -/
def shortCastlingSquares : Side → Square × Square × Square × Square
  | .White => (⟨4⟩, ⟨6⟩, ⟨7⟩, ⟨5⟩)
  | .Black => (⟨60⟩, ⟨62⟩, ⟨63⟩, ⟨61⟩)

/-- Castling geometry for the side: (king from, king to, rook from, rook to). -/
def longCastlingSquares : Side → Square × Square × Square × Square
  | .White => (⟨4⟩, ⟨2⟩, ⟨0⟩, ⟨3⟩)
  | .Black => (⟨60⟩, ⟨58⟩, ⟨56⟩, ⟨59⟩)

/-- `Board::apply_short_castling_move`. -/
def Board.applyShortCastlingMove (K : ZKeys) (b : Board) : Board :=
  let (king, kingTo, rook, rookTo) := shortCastlingSquares b.sideToMove
  let b := b.applyMove K b.sideToMove .King king kingTo
  b.applyMove K b.sideToMove .Rook rook rookTo

/-- `Board::undo_short_castling_move`. -/
def Board.undoShortCastlingMove (K : ZKeys) (b : Board) : Board :=
  let (king, kingTo, rook, rookTo) := shortCastlingSquares b.sideToNotMove
  let b := b.undoMove K b.sideToNotMove .King king kingTo
  b.undoMove K b.sideToNotMove .Rook rook rookTo

/-- `Board::apply_long_castling_move`. -/
def Board.applyLongCastlingMove (K : ZKeys) (b : Board) : Board :=
  let (king, kingTo, rook, rookTo) := longCastlingSquares b.sideToMove
  let b := b.applyMove K b.sideToMove .King king kingTo
  b.applyMove K b.sideToMove .Rook rook rookTo

/-- `Board::undo_long_castling_move`. -/
def Board.undoLongCastlingMove (K : ZKeys) (b : Board) : Board :=
  let (king, kingTo, rook, rookTo) := longCastlingSquares b.sideToNotMove
  let b := b.undoMove K b.sideToNotMove .King king kingTo
  b.undoMove K b.sideToNotMove .Rook rook rookTo

/-- `Board::apply_ep_capture_move`. -/
def Board.applyEpCaptureMove (K : ZKeys) (b : Board) (m : EnPassantCaptureMove) :
    Board :=
  let b := b.applyCapture K b.sideToNotMove .Pawn m.capturedPawn
  b.applyMove K b.sideToMove .Pawn m.fromSq m.toSq

/-- `Board::undo_ep_capture_move`. -/
def Board.undoEpCaptureMove (K : ZKeys) (b : Board) (m : EnPassantCaptureMove) :
    Board :=
  let b := b.undoMove K b.sideToNotMove .Pawn m.fromSq m.toSq
  b.undoCapture K b.sideToMove .Pawn m.capturedPawn

/-- `Board::apply_promotion_move`. -/
def Board.applyPromotionMove (K : ZKeys) (b : Board) (m : PromotionMove) : Board :=
  let b := match m.capturedPiece with
    | some cp => b.applyCapture K b.sideToNotMove cp m.toSq
    | none => b
  b.applyPromotion K b.sideToMove m.fromSq m.toSq m.promotionPiece

/-- `Board::undo_promotion_move`. -/
def Board.undoPromotionMove (K : ZKeys) (b : Board) (m : PromotionMove) : Board :=
  let b := b.undoPromotion K b.sideToNotMove m.fromSq m.toSq m.promotionPiece
  match m.capturedPiece with
  | some cp => b.undoCapture K b.sideToMove cp m.toSq
  | none => b

/-- `Board::update_passed_pawns`. -/
def Board.updatePassedPawns (b : Board) : Board :=
  let whitePawns := b.pawns &&& b.whitePieces
  let blackPawns := b.pawns &&& b.blackPieces
  let pp := (bbToList whitePawns).foldl (fun acc wp =>
    if !bbAny (blackPawns &&& WHITE_PASSED_PAWN_ZONE wp) then acc ||| wp.bit
    else acc) 0
  let pp := (bbToList blackPawns).foldl (fun acc bp =>
    if !bbAny (whitePawns &&& BLACK_PASSED_PAWN_ZONE bp) then acc ||| bp.bit
    else acc) pp
  { b with passedPawns := pp }

/-- `Board::push`: make a move, recording undo information. -/
def Board.push (K : ZKeys) (b : Board) (m : Move) : Board :=
  let undo : MoveUndoInfo :=
    ⟨b.castlingRights, b.halfMoveClock, b.epSquare, b.isThreefoldRepetition,
      b.passedPawns⟩
  let b := match b.epSquare with
    | some ep => { b with zHash := b.zHash ^^^ K.enPassantFileKeys ep.file }
    | none => b
  let b := { b with epSquare := none }
  let b := match m with
    | .Regular rm =>
      let b := b.applyRegularMove K rm
      if rm.piece = Piece.Pawn || rm.isCapture then { b with halfMoveClock := 0 }
      else { b with halfMoveClock := (b.halfMoveClock + 1) % 256 }
    | .ShortCastling _ =>
      let b := b.applyShortCastlingMove K
      { b with halfMoveClock := (b.halfMoveClock + 1) % 256 }
    | .LongCastling _ =>
      let b := b.applyLongCastlingMove K
      { b with halfMoveClock := (b.halfMoveClock + 1) % 256 }
    | .EnPassantCapture em =>
      let b := b.applyEpCaptureMove K em
      { b with halfMoveClock := 0 }
    | .Promotion pm =>
      let b := b.applyPromotionMove K pm
      { b with halfMoveClock := 0 }
  let b := if m.isPawnInvolved then b.updatePassedPawns else b
  let b := { b with moveStack := (m, undo) :: b.moveStack }
  let b := { b with sideToMove := b.sideToNotMove, sideToNotMove := b.sideToMove }
  let b := { b with zHash := b.zHash ^^^ K.blackToMoveKey }
  let b := if b.sideToMove = Side.White then
      { b with fullMoveNumber := (b.fullMoveNumber + 1) % 65536 }
    else b
  let hh := b.hashHistory.push b.hash
  let hashCount : Nat := hh.countOf b.hash
  let b := { b with hashHistory := hh }
  if hashCount ≥ 3 then { b with isThreefoldRepetition := true } else b

/-- `Board::pop`: unmake the most recent move (a no-op on an empty stack). -/
def Board.pop (K : ZKeys) (b : Board) : Board :=
  match b.moveStack with
  | [] => b
  | (m, undo) :: rest =>
    let b := { b with moveStack := rest }
    let b := { b with hashHistory := b.hashHistory.pop b.hash }
    let b := match m with
      | .Regular rm => b.undoRegularMove K rm
      | .ShortCastling _ => b.undoShortCastlingMove K
      | .LongCastling _ => b.undoLongCastlingMove K
      | .EnPassantCapture em => b.undoEpCaptureMove K em
      | .Promotion pm => b.undoPromotionMove K pm
    let diff := b.castlingRights ^^^ undo.castlingRights
    let b := if diff != 0 then
        let b := if diff &&& shortCastlingFlag .White != 0 then
            { b with zHash := b.zHash ^^^ K.shortCastlingKeys .White }
          else b
        let b := if diff &&& longCastlingFlag .White != 0 then
            { b with zHash := b.zHash ^^^ K.longCastlingKeys .White }
          else b
        let b := if diff &&& shortCastlingFlag .Black != 0 then
            { b with zHash := b.zHash ^^^ K.shortCastlingKeys .Black }
          else b
        let b := if diff &&& longCastlingFlag .Black != 0 then
            { b with zHash := b.zHash ^^^ K.longCastlingKeys .Black }
          else b
        { b with castlingRights := undo.castlingRights }
      else b
    let b := match b.epSquare with
      | some ep => { b with zHash := b.zHash ^^^ K.enPassantFileKeys ep.file }
      | none => b
    let b := { b with epSquare := undo.epSquare }
    let b := match b.epSquare with
      | some ep => { b with zHash := b.zHash ^^^ K.enPassantFileKeys ep.file }
      | none => b
    let b := { b with halfMoveClock := undo.halfMoveClock }
    let b := { b with sideToMove := b.sideToNotMove, sideToNotMove := b.sideToMove }
    let b := { b with zHash := b.zHash ^^^ K.blackToMoveKey }
    let b := if b.sideToMove = Side.Black then
        { b with fullMoveNumber := (b.fullMoveNumber + 65535) % 65536 }
      else b
    { b with isThreefoldRepetition := undo.isThreefoldRepetition,
             passedPawns := undo.passedPawns }

/-- XOR the piece keys of all members of a bitboard into a hash value; one
loop of `Board::init_zobrist_hash`. -/
def zFlipAll (K : ZKeys) (side : Side) (p : Piece) (bb : Nat) (h : Nat) : Nat :=
  (bbToList bb).foldl (fun acc sq => acc ^^^ K.pieceKeys side p sq.ordinal) h

/-- `Board::init_zobrist_hash`. -/
def Board.initZobristHash (K : ZKeys) (b : Board) : Board :=
  let h := b.zHash
  let h := zFlipAll K .White .Pawn (b.pawns &&& b.whitePieces) h
  let h := zFlipAll K .White .Bishop (b.bishops &&& b.whitePieces) h
  let h := zFlipAll K .White .Knight (b.knights &&& b.whitePieces) h
  let h := zFlipAll K .White .Rook (b.rooks &&& b.whitePieces) h
  let h := zFlipAll K .White .Queen (b.queens &&& b.whitePieces) h
  let h := zFlipAll K .White .King (b.kings &&& b.whitePieces) h
  let h := zFlipAll K .Black .Pawn (b.pawns &&& b.blackPieces) h
  let h := zFlipAll K .Black .Bishop (b.bishops &&& b.blackPieces) h
  let h := zFlipAll K .Black .Knight (b.knights &&& b.blackPieces) h
  let h := zFlipAll K .Black .Rook (b.rooks &&& b.blackPieces) h
  let h := zFlipAll K .Black .Queen (b.queens &&& b.blackPieces) h
  let h := zFlipAll K .Black .King (b.kings &&& b.blackPieces) h
  let h := if b.canCastleShort .White then h ^^^ K.shortCastlingKeys .White else h
  let h := if b.canCastleLong .White then h ^^^ K.longCastlingKeys .White else h
  let h := if b.canCastleShort .Black then h ^^^ K.shortCastlingKeys .Black else h
  let h := if b.canCastleLong .Black then h ^^^ K.longCastlingKeys .Black else h
  let h := match b.epSquare with
    | some ep => h ^^^ K.enPassantFileKeys ep.file
    | none => h
  let h := if b.sideToMove = Side.Black then h ^^^ K.blackToMoveKey else h
  { b with zHash := h }

/-- Sum the signed PST contributions of all members of a bitboard; one loop of
`Board::init_pst_eval`. -/
def pstAddAll (side : Side) (p : Piece) (bb : Nat) (acc : Int) : Int :=
  (bbToList bb).foldl (fun a sq => a + pstSigned side p sq) acc

/-- `Board::init_pst_eval`. -/
def Board.initPstEval (b : Board) : Board :=
  let e := b.pstEval
  let e := pstAddAll .White .Pawn (b.pawns &&& b.whitePieces) e
  let e := pstAddAll .White .Bishop (b.bishops &&& b.whitePieces) e
  let e := pstAddAll .White .Knight (b.knights &&& b.whitePieces) e
  let e := pstAddAll .White .Rook (b.rooks &&& b.whitePieces) e
  let e := pstAddAll .White .Queen (b.queens &&& b.whitePieces) e
  let e := pstAddAll .White .King (b.kings &&& b.whitePieces) e
  let e := pstAddAll .Black .Pawn (b.pawns &&& b.blackPieces) e
  let e := pstAddAll .Black .Bishop (b.bishops &&& b.blackPieces) e
  let e := pstAddAll .Black .Knight (b.knights &&& b.blackPieces) e
  let e := pstAddAll .Black .Rook (b.rooks &&& b.blackPieces) e
  let e := pstAddAll .Black .Queen (b.queens &&& b.blackPieces) e
  let e := pstAddAll .Black .King (b.kings &&& b.blackPieces) e
  { b with pstEval := e }

/-- `Board::starting_position`. -/
def Board.startingPosition (K : ZKeys) : Board :=
  let b : Board := {
    sideToMove := .White
    sideToNotMove := .Black
    whitePieces := RANK 0 ||| RANK 1
    blackPieces := RANK 6 ||| RANK 7
    pawns := RANK 1 ||| RANK 6
    knights := (1 <<< 1) ||| (1 <<< 6) ||| (1 <<< 57) ||| (1 <<< 62)
    bishops := (1 <<< 2) ||| (1 <<< 5) ||| (1 <<< 58) ||| (1 <<< 61)
    rooks := (1 <<< 0) ||| (1 <<< 7) ||| (1 <<< 56) ||| (1 <<< 63)
    queens := (1 <<< 3) ||| (1 <<< 59)
    kings := (1 <<< 4) ||| (1 <<< 60)
    passedPawns := 0
    castlingRights := 0xf
    halfMoveClock := 0
    fullMoveNumber := 1
    epSquare := none
    zHash := 0
    pstEval := 0
    moveStack := []
    hashHistory := History.new
    isThreefoldRepetition := false }
  let b := b.initZobristHash K
  let b := b.initPstEval
  { b with hashHistory := b.hashHistory.push b.hash }

/-- The `Checks` struct from `board.rs`. -/
structure Checks where
  checkingPieces : Nat
  checkBlockingSquares : Nat
deriving DecidableEq, Repr

/-- `Board::attacked_squares`: every square the enemy attacks, with enemy
sliders seeing through our king. -/
def Board.attackedSquares (b : Board) (ownPieces enemyPieces allPieces : Nat) : Nat :=
  let a := bbPawnCaptures (b.pawns &&& enemyPieces) b.sideToNotMove
  let a := (bbToList (b.kings &&& enemyPieces)).foldl
    (fun acc k => acc ||| k.kingMoves) a
  let a := (bbToList (b.knights &&& enemyPieces)).foldl
    (fun acc k => acc ||| k.knightMoves) a
  let allPiecesExceptOwnKing := allPieces &&& bbNot (b.kings &&& ownPieces)
  let a := (bbToList ((b.bishops ||| b.queens) &&& enemyPieces)).foldl
    (fun acc s => acc ||| bishopMovesTbl s allPiecesExceptOwnKing) a
  (bbToList ((b.rooks ||| b.queens) &&& enemyPieces)).foldl
    (fun acc s => acc ||| rookMovesTbl s allPiecesExceptOwnKing) a

/-- `Board::checks`: the enemy pieces giving check and the squares on which a
slider check can be blocked. -/
def Board.checks (b : Board) (ownPieces enemyPieces allPieces : Nat) : Checks :=
  let ownKing := bbSingle (b.kings &&& ownPieces)
  let enemyPawns := b.pawns &&& enemyPieces
  let enemyKnights := b.knights &&& enemyPieces
  let enemyBishops := b.bishops &&& enemyPieces
  let enemyRooks := b.rooks &&& enemyPieces
  let enemyQueens := b.queens &&& enemyPieces
  let checkingPawns := enemyPawns &&& bbPawnCaptures ownKing.bit b.sideToMove
  let checkingKnights := enemyKnights &&& ownKing.knightMoves
  let checkingDiagSliders :=
    (enemyBishops ||| enemyQueens) &&& bishopMovesTbl ownKing allPieces
  let checkingOrthogSliders :=
    (enemyRooks ||| enemyQueens) &&& rookMovesTbl ownKing allPieces
  let checkingPieces := checkingPawns ||| checkingKnights |||
    (checkingDiagSliders ||| checkingOrthogSliders)
  let blocking := (bbToList checkingDiagSliders).foldl
    (fun acc s => acc ||| (ownKing.bishopMoves &&& s.boundingBox ownKing)) 0
  let blocking := (bbToList checkingOrthogSliders).foldl
    (fun acc s => acc ||| (ownKing.rookMoves &&& s.boundingBox ownKing)) blocking
  ⟨checkingPieces, blocking⟩

/-- `Board::diagonal_pins`. -/
def Board.diagonalPins (b : Board) (ownPieces enemyPieces : Nat) : Nat :=
  let ownKing := bbSingle (b.kings &&& ownPieces)
  let mask := ownKing.bishopMoves
  let pinners := (b.bishops ||| b.queens) &&& enemyPieces &&& mask
  (bbToList pinners).foldl (fun pinMask pinner =>
    let pinPath := mask &&& pinner.boundingBox ownKing &&& bbNot ownKing.bit
    if bbCount (ownPieces &&& pinPath) = 1 ∧ bbCount (enemyPieces &&& pinPath) = 1
    then pinMask ||| pinPath else pinMask) 0

/-- `Board::orthogonal_pins`. -/
def Board.orthogonalPins (b : Board) (ownPieces enemyPieces : Nat) : Nat :=
  let ownKing := bbSingle (b.kings &&& ownPieces)
  let mask := ownKing.rookMoves
  let pinners := (b.rooks ||| b.queens) &&& enemyPieces &&& mask
  (bbToList pinners).foldl (fun pinMask pinner =>
    let pinPath := mask &&& pinner.boundingBox ownKing &&& bbNot ownKing.bit
    if bbCount (ownPieces &&& pinPath) = 1 ∧ bbCount (enemyPieces &&& pinPath) = 1
    then pinMask ||| pinPath else pinMask) 0

/-- `Board::is_in_check`. -/
def Board.isInCheck (b : Board) : Bool :=
  let allPieces := b.whitePieces ||| b.blackPieces
  let (ownPieces, enemyPieces) := match b.sideToMove with
    | Side.White => (b.whitePieces, b.blackPieces)
    | Side.Black => (b.blackPieces, b.whitePieces)
  bbAny (b.checks ownPieces enemyPieces allPieces).checkingPieces

/-- `Board::legal_moves` / `Board::legal_moves_noalloc`: the full legal move
list, in generation order.  The `Vec` pushes become list appends; the early
return on double check keeps only the king-move segment. -/
def Board.legalMoves (b : Board) : List Move :=
  let (ownPieces, enemyPieces) := match b.sideToMove with
    | Side.White => (b.whitePieces, b.blackPieces)
    | Side.Black => (b.blackPieces, b.whitePieces)
  let allPieces := ownPieces ||| enemyPieces
  let attackedSquares := b.attackedSquares ownPieces enemyPieces allPieces
  let checks := b.checks ownPieces enemyPieces allPieces
  let diagonalPins := b.diagonalPins ownPieces enemyPieces
  let orthogonalPins := b.orthogonalPins ownPieces enemyPieces
  let pins := diagonalPins ||| orthogonalPins
  let ownKing := bbSingle (b.kings &&& ownPieces)
  let inCheck := bbAny checks.checkingPieces
  let kingMoveList :=
    (bbToList (ownKing.kingMoves &&& bbNot (ownPieces ||| attackedSquares))).map
      (fun sq => Move.regular .King ownKing sq (b.getPiece b.sideToNotMove sq))
  if bbCount checks.checkingPieces > 1 then
    kingMoveList
  else
    let dangerSquares := allPieces ||| attackedSquares
    let castleShortList := if !inCheck ∧ b.canCastleShort b.sideToMove then
        let kingToSquare := (ownKing.delta 0 2).getD ⟨64⟩
        let castlingPath := ownKing.boundingBox kingToSquare &&& bbNot ownKing.bit
        if !bbAny (castlingPath &&& dangerSquares) then
          [Move.ShortCastling b.sideToMove]
        else []
      else []
    let castleLongList := if !inCheck ∧ b.canCastleLong b.sideToMove then
        let kingToSquare := (ownKing.delta 0 (-2)).getD ⟨64⟩
        let extraSquare := (ownKing.delta 0 (-3)).getD ⟨64⟩
        let castlingPath := ownKing.boundingBox kingToSquare &&& bbNot ownKing.bit
        if !bbAny (castlingPath &&& dangerSquares) &&
            !bbOccupied allPieces extraSquare then
          [Move.LongCastling b.sideToMove]
        else []
      else []
    let checkEvasionMask := if inCheck then
        checks.checkingPieces ||| checks.checkBlockingSquares
      else u64mask
    let bqList := (bbToList (ownPieces &&& (b.bishops ||| b.queens))).flatMap
      (fun s =>
        let allowed := bishopMovesTbl s allPieces &&& bbNot ownPieces &&&
          checkEvasionMask
        let allowed := if bbOccupied diagonalPins s then allowed &&& diagonalPins
          else if bbOccupied orthogonalPins s then
            allowed &&& orthogonalPins &&& s.rookMoves
          else allowed
        let piece := if bbOccupied b.bishops s then Piece.Bishop else Piece.Queen
        (bbToList allowed).map
          (fun t => Move.regular piece s t (b.getPiece b.sideToNotMove t)))
    let rqList := (bbToList (ownPieces &&& (b.rooks ||| b.queens))).flatMap
      (fun s =>
        let allowed := rookMovesTbl s allPieces &&& bbNot ownPieces &&&
          checkEvasionMask
        let allowed := if bbOccupied diagonalPins s then
            allowed &&& diagonalPins &&& s.bishopMoves
          else if bbOccupied orthogonalPins s then allowed &&& orthogonalPins
          else allowed
        let piece := if bbOccupied b.rooks s then Piece.Rook else Piece.Queen
        (bbToList allowed).map
          (fun t => Move.regular piece s t (b.getPiece b.sideToNotMove t)))
    let knList := (bbToList (ownPieces &&& b.knights)).flatMap (fun s =>
      if bbOccupied pins s then []
      else
        (bbToList (s.knightMoves &&& bbNot ownPieces &&& checkEvasionMask)).map
          (fun t => Move.regular .Knight s t (b.getPiece b.sideToNotMove t)))
    let ownPawns := ownPieces &&& b.pawns
    let diagonallyPinnedPawns := ownPawns &&& diagonalPins
    let dpPawnList := (bbToList diagonallyPinnedPawns).flatMap (fun p =>
      let captureMask := bbPawnCaptures p.bit b.sideToMove &&& enemyPieces
      let legalCaptures := captureMask &&& diagonalPins &&& checkEvasionMask
      (bbToList legalCaptures).flatMap (fun c =>
        if c.rank = backRank b.sideToNotMove then
          [Piece.Queen, .Rook, .Knight, .Bishop].map (fun pp =>
            Move.promotion p c pp (b.getPiece b.sideToNotMove c))
        else [Move.regular .Pawn p c (b.getPiece b.sideToNotMove c)]))
    let orthogonallyPinnedPawns := ownPawns &&& orthogonalPins
    let opPawnList := (bbToList orthogonallyPinnedPawns).flatMap (fun p =>
      let pushMask := bbPawnPushes p.bit b.sideToMove &&& bbNot allPieces
      let legalPushes := pushMask &&& orthogonalPins &&& checkEvasionMask
      let pushes := (bbToList legalPushes).map
        (fun t => Move.regular .Pawn p t none)
      let doublePushRank := RANK (pawnDoublePushRank b.sideToMove)
      let doublePushMask := bbPawnPushes pushMask b.sideToMove &&&
        doublePushRank &&& bbNot allPieces
      let legalDoublePushes := doublePushMask &&& orthogonalPins &&&
        checkEvasionMask
      pushes ++ (bbToList legalDoublePushes).map
        (fun t => Move.regular .Pawn p t none))
    let unpinnedPawns := ownPawns &&& bbNot pins
    let pawnPushTargets := bbPawnPushes unpinnedPawns b.sideToMove &&&
      bbNot allPieces &&& checkEvasionMask
    let pawnPushees := bbPawnPushes pawnPushTargets b.sideToNotMove
    let pushList := ((bbToList pawnPushees).zip (bbToList pawnPushTargets)).flatMap
      (fun ft =>
        if ft.2.rank % 7 = 0 then
          [Piece.Queen, .Rook, .Knight, .Bishop].map (fun pp =>
            Move.promotion ft.1 ft.2 pp none)
        else [Move.regular .Pawn ft.1 ft.2 none])
    let pawnDoublePushRankBB := RANK (pawnDoublePushRank b.sideToMove)
    let pawnDoublePushes :=
      bbPawnPushes (bbPawnPushes unpinnedPawns b.sideToMove &&& bbNot allPieces)
        b.sideToMove &&& pawnDoublePushRankBB &&& bbNot allPieces &&&
        checkEvasionMask
    let pawnDoublePushees :=
      bbPawnPushes (bbPawnPushes pawnDoublePushes b.sideToNotMove) b.sideToNotMove
    let dpushList :=
      ((bbToList pawnDoublePushees).zip (bbToList pawnDoublePushes)).map
        (fun ft => Move.regular .Pawn ft.1 ft.2 none)
    let pawnLeftCapturesExclEp := bbPawnLeftCaptures unpinnedPawns b.sideToMove &&&
      enemyPieces &&& checkEvasionMask
    let pawnLeftCapturers :=
      bbPawnLeftCaptures pawnLeftCapturesExclEp b.sideToNotMove
    let pawnRightCapturesExclEp :=
      bbPawnRightCaptures unpinnedPawns b.sideToMove &&& enemyPieces &&&
        checkEvasionMask
    let pawnRightCapturers :=
      bbPawnRightCaptures pawnRightCapturesExclEp b.sideToNotMove
    let pawnCapturePairs :=
      (bbToList pawnLeftCapturers).zip (bbToList pawnLeftCapturesExclEp) ++
      (bbToList pawnRightCapturers).zip (bbToList pawnRightCapturesExclEp)
    let captureList := pawnCapturePairs.flatMap (fun ft =>
      let capturedPiece := b.getPiece b.sideToNotMove ft.2
      if ft.2.rank = backRank b.sideToNotMove then
        [Piece.Queen, .Rook, .Knight, .Bishop].map (fun pp =>
          Move.promotion ft.1 ft.2 pp capturedPiece)
      else [Move.regular .Pawn ft.1 ft.2 capturedPiece])
    let epList := match b.epSquare with
      | none => []
      | some epSquare =>
        let enemyPawn := bbPawnPushes epSquare.bit b.sideToNotMove
        let potentialCapturers :=
          (if bbOccupied diagonalPins epSquare then
            unpinnedPawns ||| diagonallyPinnedPawns
          else unpinnedPawns) &&& bbPawnCaptures epSquare.bit b.sideToNotMove
        let ownKingRank := RANK ownKing.rank
        let capturersOnOwnKingRank := potentialCapturers &&& ownKingRank
        let canCaptureEp :=
          if !bbAny (enemyPawn &&& checkEvasionMask) then false
          else if bbCount capturersOnOwnKingRank = 1 then
            let partialPinners := (b.rooks ||| b.queens) &&& enemyPieces &&&
              ownKingRank
            !(bbToList partialPinners).any (fun pp =>
              bbCount (pp.boundingBox ownKing &&& allPieces) < 5)
          else true
        if canCaptureEp then
          (bbToList potentialCapturers).map
            (fun p => Move.enPassant p epSquare (bbSingle enemyPawn))
        else []
    kingMoveList ++ castleShortList ++ castleLongList ++ bqList ++ rqList ++
      knList ++ dpPawnList ++ opPawnList ++ pushList ++ dpushList ++
      captureList ++ epList

/-- `Board::get_uci_move`: the legal move whose UCI string matches, the Rust
`Err(IllegalMoveError)` becoming `none`. -/
def Board.getUciMove (b : Board) (uci : String) : Option Move :=
  b.legalMoves.find? (fun m => m.toUciString = uci)

/-- `Board::push_uci`, with `none` for `Err(IllegalMoveError)`. -/
def Board.pushUci (K : ZKeys) (b : Board) (uci : String) : Option Board :=
  (b.getUciMove uci).map (fun m => b.push K m)

/-! ### FEN input and output

`Board::parse_fen` runs the regex
`([RNBQKPrnbqkp1-8/]{15,}) ([wb]) (K?Q?k?q?|-) ([a-h]?[1-8]?|-) (\d+) (\d+)`
with `Regex::captures` (leftmost match, greedy quantifiers) and then decodes
the six capture groups.  The matcher below hand-compiles that pattern.  Each
greedy run is followed in the pattern by a character outside its class, so
shortening a run can never rescue a failed continuation, and the two
alternations (`…|-`) have disjoint viable first characters; the deterministic
matcher therefore agrees with the regex on every input. -/

/-- Character class `[RNBQKPrnbqkp1-8/]` of the placement group. -/
def isPlacementChar (c : Char) : Bool :=
  ("RNBQKPrnbqkp/".toList.contains c) || ('1' ≤ c && c ≤ '8')

/-- Split off the maximal prefix run of a character class. -/
def takeRun (p : Char → Bool) : List Char → List Char × List Char
  | [] => ([], [])
  | c :: cs =>
    if p c then
      let (r, rest) := takeRun p cs
      (c :: r, rest)
    else ([], c :: cs)

/-- Take one optional literal character (`c?` in the pattern). -/
def takeOpt (c : Char) : List Char → List Char × List Char
  | [] => ([], [])
  | x :: xs => if x = c then ([c], xs) else ([], x :: xs)

/-- Take one optional character from a range (`[a-b]?` in the pattern). -/
def takeOptRange (lo hi : Char) : List Char → List Char × List Char
  | [] => ([], [])
  | x :: xs => if lo ≤ x && x ≤ hi then ([x], xs) else ([], x :: xs)

/-- Match the castling group `(K?Q?k?q?|-)` followed by a space, returning the
group text and the remainder after the space. -/
def matchCastlingGroup (cs : List Char) : Option (List Char × List Char) :=
  let (a, r) := takeOpt 'K' cs
  let (b, r) := takeOpt 'Q' r
  let (c, r) := takeOpt 'k' r
  let (d, r) := takeOpt 'q' r
  match r with
  | ' ' :: rest => some (a ++ b ++ c ++ d, rest)
  | _ =>
    match cs with
    | '-' :: ' ' :: rest => some (['-'], rest)
    | _ => none

/-- Match the en-passant group `([a-h]?[1-8]?|-)` followed by a space. -/
def matchEpGroup (cs : List Char) : Option (List Char × List Char) :=
  let (a, r) := takeOptRange 'a' 'h' cs
  let (b, r) := takeOptRange '1' '8' r
  match r with
  | ' ' :: rest => some (a ++ b, rest)
  | _ =>
    match cs with
    | '-' :: ' ' :: rest => some (['-'], rest)
    | _ => none

/-- The six capture groups of the FEN pattern, matched at the start of the
input. -/
def fenMatchAt (cs : List Char) :
    Option (List Char × Char × List Char × List Char × List Char × List Char) := do
  let (g1, r) := takeRun isPlacementChar cs
  if g1.length < 15 then none else
  match r with
  | ' ' :: r =>
    match r with
    | c2 :: ' ' :: r =>
      if c2 = 'w' || c2 = 'b' then do
        let (g3, r) ← matchCastlingGroup r
        let (g4, r) ← matchEpGroup r
        let (g5, r) := takeRun Char.isDigit r
        if g5.isEmpty then none else
        match r with
        | ' ' :: r =>
          let (g6, _) := takeRun Char.isDigit r
          if g6.isEmpty then none else
          some (g1, c2, g3, g4, g5, g6)
        | _ => none
      else none
    | _ => none
  | _ => none

/-- `Regex::captures`: the leftmost match of the FEN pattern. -/
def fenCaptures : List Char →
    Option (List Char × Char × List Char × List Char × List Char × List Char)
  | [] => none
  | c :: cs =>
    match fenMatchAt (c :: cs) with
    | some g => some g
    | none => fenCaptures cs

/-- `Piece::parse_fen_char`. -/
def Piece.parseFenChar (c : Char) : Option (Piece × Side) :=
  match c with
  | 'K' => some (.King, .White)
  | 'Q' => some (.Queen, .White)
  | 'R' => some (.Rook, .White)
  | 'B' => some (.Bishop, .White)
  | 'N' => some (.Knight, .White)
  | 'P' => some (.Pawn, .White)
  | 'k' => some (.King, .Black)
  | 'q' => some (.Queen, .Black)
  | 'r' => some (.Rook, .Black)
  | 'b' => some (.Bishop, .Black)
  | 'n' => some (.Knight, .Black)
  | 'p' => some (.Pawn, .Black)
  | _ => none

/-- Split a character list on `/`. -/
def splitOnSlash : List Char → List (List Char)
  | [] => [[]]
  | c :: rest =>
    if c = '/' then [] :: splitOnSlash rest
    else
      match splitOnSlash rest with
      | [] => [[c]]
      | r :: rs => (c :: r) :: rs

/-- Decimal value of a digit run (`str::parse` for unsigned integers). -/
def parseDigits (cs : List Char) : Nat :=
  cs.foldl (fun acc c => 10 * acc + (c.toNat - 0x30)) 0

/-- One character step of the `parse_fen` placement-row loop. -/
def parseRowStep (K : ZKeys) (rank : Nat) (acc : Option (Board × Nat))
    (c : Char) : Option (Board × Nat) := do
  let (b, file) ← acc
  if '1' ≤ c ∧ c ≤ '8' then
    pure (b, file + (c.toNat - 0x30))
  else
    match Piece.parseFenChar c with
    | some (piece, side) =>
      pure (b.addPiece K side piece (Square.fromCoords rank file), file + 1)
    | none => none

/-- One placement row of `Board::parse_fen`: walk the row characters at the
given rank, adding pieces and skipping digit runs. -/
def parseRowChars (K : ZKeys) (rank : Nat) (row : List Char) (b : Board) :
    Option Board :=
  if row.length > 8 then none
  else (row.foldl (parseRowStep K rank) (some (b, 0))).map Prod.fst

/-- `Board::parse_fen`.  Returns `none` both for `Err(FenParseError)` and for
the two numeric-overflow paths on which the Rust `unwrap` panics
(`half_move_clock > u8::MAX`, `full_move_number > u16::MAX`). -/
def parseFen (K : ZKeys) (fen : String) : Option Board := do
  let (g1, g2, g3, g4, g5, g6) ← fenCaptures fen.toList
  let rows := (splitOnSlash g1).reverse
  if rows.length ≠ 8 then none else do
  let (sideToMove, sideToNotMove) :=
    if g2 = 'w' then (Side.White, Side.Black) else (Side.Black, Side.White)
  let castlingRights : Nat :=
    (if g3.contains 'K' then shortCastlingFlag .White else 0) |||
    (if g3.contains 'Q' then longCastlingFlag .White else 0) |||
    (if g3.contains 'k' then shortCastlingFlag .Black else 0) |||
    (if g3.contains 'q' then longCastlingFlag .Black else 0)
  let epSquare : Option Square :=
    if g4 = ['-'] then none else Square.fromStr g4
  let halfMoveClock := parseDigits g5
  if halfMoveClock > 255 then none else do
  let fullMoveNumber := parseDigits g6
  if fullMoveNumber > 65535 then none else do
  let b : Board := {
    sideToMove, sideToNotMove
    whitePieces := 0, blackPieces := 0, pawns := 0, bishops := 0, knights := 0
    rooks := 0, queens := 0, kings := 0, passedPawns := 0
    castlingRights, halfMoveClock, fullMoveNumber, epSquare
    zHash := 0, pstEval := 0, moveStack := []
    hashHistory := History.new, isThreefoldRepetition := false }
  let b := b.initZobristHash K
  let b := b.initPstEval
  let b ← (rows.enum.foldl (fun acc rowi => do
    let b ← acc
    parseRowChars K rowi.1 rowi.2 b) (some b))
  let b := { b with hashHistory := b.hashHistory.push b.hash }
  pure b.updatePassedPawns

/-- One rank of `Board::to_fen_string`, with its run-length blanks. -/
def Board.fenRank (b : Board) (rank : Nat) : List Char :=
  let step := fun (acc : List Char × Nat) (file : Nat) =>
    let sq := Square.fromCoords rank file
    match b.getPiece .White sq with
    | some wp =>
      (acc.1 ++ (if acc.2 > 0 then [Char.ofNat (0x30 + acc.2)] else []) ++
        [wp.toFenChar .White], 0)
    | none =>
      match b.getPiece .Black sq with
      | some bp =>
        (acc.1 ++ (if acc.2 > 0 then [Char.ofNat (0x30 + acc.2)] else []) ++
          [bp.toFenChar .Black], 0)
      | none => (acc.1, acc.2 + 1)
  let (cs, blanks) := (List.range 8).foldl step ([], 0)
  cs ++ (if blanks > 0 then [Char.ofNat (0x30 + blanks)] else [])

/-- `Board::to_fen_string`. -/
def Board.toFenString (b : Board) : String :=
  let placement := ((List.range 8).reverse).foldl (fun acc rank =>
    acc ++ b.fenRank rank ++ (if rank > 0 then ['/'] else [])) []
  let sideStr := if b.sideToMove = Side.White then " w ".toList else " b ".toList
  let castling := if b.castlingRights = 0 then ['-']
    else
      (if b.canCastleShort .White then ['K'] else []) ++
      (if b.canCastleLong .White then ['Q'] else []) ++
      (if b.canCastleShort .Black then ['k'] else []) ++
      (if b.canCastleLong .Black then ['q'] else [])
  let ep := match b.epSquare with
    | some e => ' ' :: e.toStr.toList
    | none => " -".toList
  let nums := (' ' :: (Nat.repr b.halfMoveClock).toList) ++
    (' ' :: (Nat.repr b.fullMoveNumber).toList)
  String.mk (placement ++ sideStr ++ castling ++ ep ++ nums)

/-! ### Static exchange evaluation (`Board::static_exchange_score`) -/

/-- The mutable state of the SEE capture-exchange loop: the per-side attacker
pools, the occupancy, the running score and the piece currently on the
contested square. -/
structure SeeState where
  ownPawns : Nat
  ownKnights : Nat
  ownBishops : Nat
  ownRooks : Nat
  ownQueensDiag : Nat
  ownQueensOrth : Nat
  ownKing : Nat
  enemyPawns : Nat
  enemyKnights : Nat
  enemyBishops : Nat
  enemyRooks : Nat
  enemyQueensDiag : Nat
  enemyQueensOrth : Nat
  enemyKing : Nat
  allPieces : Nat
  score : Int
  pieceOnSquare : Piece
deriving Repr

/-- The nested `_pop_attacker` helper: the first attacker in the pool whose
ray to the square is unobstructed (for sliders), removed from the pool and
the occupancy. -/
def popAttacker (square : Square) (attackers allPieces : Nat)
    (blockerMask : Option Nat) : Option (Square × Nat × Nat) :=
  let attacker := match blockerMask with
    | some blockers => (bbToList attackers).find? (fun a =>
        bbCount (a.boundingBox square &&& allPieces &&& blockers) = 1)
    | none => (bbToList attackers).head?
  match attacker with
  | some a => some (a, bbClear attackers a, bbClear allPieces a)
  | none => none

/-- The enemy half of one SEE loop iteration: pop the least valuable enemy
attacker, in the fixed pawn/knight/bishop/rook/queen(diag)/queen(orth)/king
order, `none` when no attacker remains (the `break`). -/
def seePhaseEnemy (tgt : Square) (bMask rMask : Nat) (st : SeeState) :
    Option SeeState :=
  match popAttacker tgt st.enemyPawns st.allPieces none with
  | some (_, att, all) =>
    some { st with
        enemyPawns := att
        allPieces := all
        score := st.score - st.pieceOnSquare.value
        pieceOnSquare := .Pawn }
  | none =>
  match popAttacker tgt st.enemyKnights st.allPieces none with
  | some (_, att, all) =>
    some { st with
        enemyKnights := att
        allPieces := all
        score := st.score - st.pieceOnSquare.value
        pieceOnSquare := .Knight }
  | none =>
  match popAttacker tgt st.enemyBishops st.allPieces (some bMask) with
  | some (_, att, all) =>
    some { st with
        enemyBishops := att
        allPieces := all
        score := st.score - st.pieceOnSquare.value
        pieceOnSquare := .Bishop }
  | none =>
  match popAttacker tgt st.enemyRooks st.allPieces (some rMask) with
  | some (_, att, all) =>
    some { st with
        enemyRooks := att
        allPieces := all
        score := st.score - st.pieceOnSquare.value
        pieceOnSquare := .Rook }
  | none =>
  match popAttacker tgt st.enemyQueensDiag st.allPieces (some bMask) with
  | some (_, att, all) =>
    some { st with
        enemyQueensDiag := att
        allPieces := all
        score := st.score - st.pieceOnSquare.value
        pieceOnSquare := .Queen }
  | none =>
  match popAttacker tgt st.enemyQueensOrth st.allPieces (some rMask) with
  | some (_, att, all) =>
    some { st with
        enemyQueensOrth := att
        allPieces := all
        score := st.score - st.pieceOnSquare.value
        pieceOnSquare := .Queen }
  | none =>
  match popAttacker tgt st.enemyKing st.allPieces none with
  | some (_, att, all) =>
    some { st with
        enemyKing := att
        allPieces := all
        score := st.score - st.pieceOnSquare.value
        pieceOnSquare := .King }
  | none =>
  none

/-- The own-side half of one SEE loop iteration. -/
def seePhaseOwn (tgt : Square) (bMask rMask : Nat) (st : SeeState) :
    Option SeeState :=
  match popAttacker tgt st.ownPawns st.allPieces none with
  | some (_, att, all) =>
    some { st with
        ownPawns := att
        allPieces := all
        score := st.score + st.pieceOnSquare.value
        pieceOnSquare := .Pawn }
  | none =>
  match popAttacker tgt st.ownKnights st.allPieces none with
  | some (_, att, all) =>
    some { st with
        ownKnights := att
        allPieces := all
        score := st.score + st.pieceOnSquare.value
        pieceOnSquare := .Knight }
  | none =>
  match popAttacker tgt st.ownBishops st.allPieces (some bMask) with
  | some (_, att, all) =>
    some { st with
        ownBishops := att
        allPieces := all
        score := st.score + st.pieceOnSquare.value
        pieceOnSquare := .Bishop }
  | none =>
  match popAttacker tgt st.ownRooks st.allPieces (some rMask) with
  | some (_, att, all) =>
    some { st with
        ownRooks := att
        allPieces := all
        score := st.score + st.pieceOnSquare.value
        pieceOnSquare := .Rook }
  | none =>
  match popAttacker tgt st.ownQueensDiag st.allPieces (some bMask) with
  | some (_, att, all) =>
    some { st with
        ownQueensDiag := att
        allPieces := all
        score := st.score + st.pieceOnSquare.value
        pieceOnSquare := .Queen }
  | none =>
  match popAttacker tgt st.ownQueensOrth st.allPieces (some rMask) with
  | some (_, att, all) =>
    some { st with
        ownQueensOrth := att
        allPieces := all
        score := st.score + st.pieceOnSquare.value
        pieceOnSquare := .Queen }
  | none =>
  match popAttacker tgt st.ownKing st.allPieces none with
  | some (_, att, all) =>
    some { st with
        ownKing := att
        allPieces := all
        score := st.score + st.pieceOnSquare.value
        pieceOnSquare := .King }
  | none =>
  none

/-- The SEE exchange loop.  Every iteration of the Rust `loop` removes at
least one piece from the pools, so fuel 40 (more than the 32 board pieces)
makes the fuel bound unreachable. -/
def seeLoop (tgt : Square) (bMask rMask : Nat) : Nat → SeeState → Int
  | 0, st => st.score
  | fuel + 1, st =>
    match seePhaseEnemy tgt bMask rMask st with
    | none => st.score
    | some st =>
      match seePhaseOwn tgt bMask rMask st with
      | none => st.score
      | some st => seeLoop tgt bMask rMask fuel st

/-- `Board::static_exchange_score`. -/
def Board.staticExchangeScore (b : Board) (m : Move) : Int :=
  if !m.isCapture then 0
  else
    let fromSq := m.fromSq
    let tgt := m.toSq
    let allPieces := b.whitePieces ||| b.blackPieces
    let (ownPieces, enemyPieces) := match b.sideToMove with
      | Side.White => (bbClear b.whitePieces fromSq, b.blackPieces)
      | Side.Black => (bbClear b.blackPieces fromSq, b.whitePieces)
    let bishopMask := tgt.bishopMoves
    let rookMask := tgt.rookMoves
    let kings := b.kings &&& tgt.kingMoves
    let knights := b.knights &&& tgt.knightMoves
    let bishops := b.bishops &&& bishopMask
    let rooks := b.rooks &&& rookMask
    let queensDiagonal := b.queens &&& bishopMask
    let queensOrthogonal := b.queens &&& rookMask
    let squareBB := tgt.bit
    let ownPawns := b.pawns &&& ownPieces &&& bbPawnCaptures squareBB b.sideToNotMove
    let ownKnights := knights &&& ownPieces
    let ownBishops := bishops &&& ownPieces
    let ownRooks := rooks &&& ownPieces
    let ownQueensDiag := queensDiagonal &&& ownPieces
    let ownQueensOrth := queensOrthogonal &&& ownPieces
    let ownKing := kings &&& ownPieces
    let enemyPawns := b.pawns &&& enemyPieces &&& bbPawnCaptures squareBB b.sideToMove
    let enemyKnights := knights &&& enemyPieces
    let enemyBishops := bishops &&& enemyPieces
    let enemyRooks := rooks &&& enemyPieces
    let enemyQueensDiag := queensDiagonal &&& enemyPieces
    let enemyQueensOrth := queensOrthogonal &&& enemyPieces
    let enemyKing := kings &&& enemyPieces
    let (ownKing, enemyKing) :=
      if bbAny ownKing ∧ bbAny enemyKing then (0, 0) else (ownKing, enemyKing)
    let st : SeeState := {
      ownPawns, ownKnights, ownBishops, ownRooks, ownQueensDiag, ownQueensOrth,
      ownKing, enemyPawns, enemyKnights, enemyBishops, enemyRooks,
      enemyQueensDiag, enemyQueensOrth, enemyKing,
      allPieces := allPieces &&& bbNot fromSq.bit,
      score := m.captureValue,
      pieceOnSquare := m.piece }
    seeLoop tgt bishopMask rookMask 40 st

/-! ### Transposition table and move ordering (`chessica-engine/src/search.rs`) -/

/-- The tagged `Score` type returned by search nodes. -/
inductive Score where
  | LowerBound (s : Int)
  | UpperBound (s : Int)
  | Exact (s : Int)
deriving DecidableEq, Repr

/-- `ops::Neg for Score`. -/
def Score.neg : Score → Score
  | .Exact s => .Exact (-s)
  | .LowerBound s => .UpperBound (-s)
  | .UpperBound s => .LowerBound (-s)

/-- The `TTScore` payload of a transposition-table entry. -/
inductive TTScore where
  | Alpha (s : Int)
  | Beta (s : Int) (m : Move)
  | Pv (s : Int) (m : Move)
  | None
deriving DecidableEq, Repr

/-- A `TTEntry`. -/
structure TTEntry where
  positionHash : Nat
  depth : Nat
  score : TTScore
deriving DecidableEq, Repr

/-- `TTEntry::empty`. -/
def TTEntry.empty : TTEntry := ⟨0, 0, .None⟩

/-- The `TranspositionTable` struct. -/
structure TranspositionTable where
  size : Nat
  entries : List TTEntry
deriving DecidableEq, Repr

/-- `TranspositionTable::new`. -/
def TranspositionTable.new (keyBits : Nat) : TranspositionTable :=
  let size := 43 + (1 <<< keyBits)
  ⟨size, List.replicate size TTEntry.empty⟩

/-- `TranspositionTable::put`. -/
def TranspositionTable.put (tt : TranspositionTable) (position : Board)
    (depth : Nat) (score : TTScore) : TranspositionTable :=
  let idx := position.hash % tt.size
  let entry := tt.entries.getD idx TTEntry.empty
  if entry.positionHash = position.hash ∧ depth < entry.depth then tt
  else { tt with entries := tt.entries.set idx ⟨position.hash, depth, score⟩ }

/-- `TranspositionTable::get`. -/
def TranspositionTable.get (tt : TranspositionTable) (position : Board)
    (depth : Nat) (alpha beta : Int) : Option Score :=
  let idx := position.hash % tt.size
  let entry := tt.entries.getD idx TTEntry.empty
  if entry.depth ≥ depth ∧ entry.positionHash = position.hash then
    match entry.score with
    | .Pv s _ => some (.Exact s)
    | .Alpha s => if s ≤ alpha then some (.UpperBound s) else none
    | .Beta s _ => if s ≥ beta then some (.LowerBound s) else none
    | .None => none
  else none

/-- `TranspositionTable::get_pv_move`. -/
def TranspositionTable.getPvMove (tt : TranspositionTable) (position : Board) :
    Option Move :=
  let idx := position.hash % tt.size
  let entry := tt.entries.getD idx TTEntry.empty
  if entry.positionHash = position.hash then
    match entry.score with
    | .Pv _ m => some m
    | _ => none
  else none

/-- `TranspositionTable::get_move`. -/
def TranspositionTable.getMove (tt : TranspositionTable) (position : Board) :
    Option Move :=
  let idx := position.hash % tt.size
  let entry := tt.entries.getD idx TTEntry.empty
  if entry.positionHash = position.hash then
    match entry.score with
    | .Pv _ m => some m
    | .Beta _ m => some m
    | _ => none
  else none

/-- `TranspositionTable::clear`. -/
def TranspositionTable.clear (tt : TranspositionTable) : TranspositionTable :=
  { tt with entries := List.replicate tt.entries.length TTEntry.empty }

/-- `Vec::swap` on a move list (the Rust call panics out of bounds; the list
is returned unchanged there, and both uses are in bounds). -/
def listSwap (l : List Move) (i j : Nat) : List Move :=
  match l[i]?, l[j]? with
  | some a, some b => (l.set i b).set j a
  | _, _ => l

/-- The MVV-LVA sort key from `_search`:
`(-m.capture_value(), m.piece().value())`. -/
def mvvLvaKey (m : Move) : Int × Int := (-m.captureValue, m.piece.value)

/-- Lexicographic order on MVV-LVA keys; `sort_by_key` sorts stably by this
relation. -/
def mvvLvaLe (a b : Move) : Bool :=
  (mvvLvaKey a).1 < (mvvLvaKey b).1 ∨
    ((mvvLvaKey a).1 = (mvvLvaKey b).1 ∧ (mvvLvaKey a).2 ≤ (mvvLvaKey b).2)

/-- One hash-move / PV-move stage of the ordering block: find the target in
the tail from `sortFrom` (`.iter().skip(sort_from).position(..)`, an index
relative to `sortFrom`), and swap/advance exactly as the code does with that
relative index. -/
def orderSwapStage (target : Option Move) (moves : List Move) (sortFrom : Nat) :
    List Move × Nat :=
  match target with
  | some t =>
    match (moves.drop sortFrom).findIdx? (fun m => m = t) with
    | some h =>
      if h ≠ sortFrom then (listSwap moves sortFrom h, sortFrom + 1)
      else (moves, sortFrom)
    | none => (moves, sortFrom)
  | none => (moves, sortFrom)

/-- The move-ordering block of `Search::_search` (search.rs lines 285–306):
optionally swap the hash move and then the previous-PV move towards the
front, then stably sort the slice from `sort_from` on by the MVV-LVA key.
Note that `.iter().skip(sort_from).position(..)` yields an index relative to
`sort_from`, which the code then compares with `sort_from` and passes to
`swap` as if absolute; the embedding reproduces that faithfully. -/
def orderMoves (hashMove : Option Move) (pvMove : Option Move)
    (moves : List Move) : List Move :=
  let (moves, sortFrom) := orderSwapStage hashMove moves 0
  let (moves, sortFrom) := orderSwapStage pvMove moves sortFrom
  moves.take sortFrom ++
    (moves.drop sortFrom).insertionSort (fun a b => mvvLvaLe a b = true)

/-! ### Concrete instances used by the theorems below -/

/-- The all-zero key assignment, one admissible value of the runtime-random
`ZobristHashKeys` (used where the keys are irrelevant). -/
def zeroKeys : ZKeys := ⟨0, fun _ _ _ => 0, fun _ => 0, fun _ => 0, fun _ => 0⟩

/-- A small injective key assignment, another admissible value of the
runtime-random `ZobristHashKeys` (used where key distinctness matters). -/
def sampleKeys : ZKeys :=
  ⟨7,
   fun s p sq =>
     16 + ((((if s = Side.White then 0 else 1) * 6 + p.toU8) * 64 + sq) <<< 4),
   fun s => if s = Side.White then 2 else 3,
   fun s => if s = Side.White then 4 else 5,
   fun f => 8 + f⟩

/-- The decision `TranspositionTable::get` makes, as a function of the single
entry it reads. -/
def ttEntryDecision (entry : TTEntry) (positionHash : Nat) (depth : Nat)
    (alpha beta : Int) : Option Score :=
  if entry.depth ≥ depth ∧ entry.positionHash = positionHash then
    match entry.score with
    | .Pv s _ => some (.Exact s)
    | .Alpha s => if s ≤ alpha then some (.UpperBound s) else none
    | .Beta s _ => if s ≥ beta then some (.LowerBound s) else none
    | .None => none
  else none

/-- A position in which both a knight and a rook give check (double check),
for exercising the double-check branch of `legal_moves`. -/
def doubleCheckBoard : Board :=
  (parseFen zeroKeys "4k3/8/8/8/4r3/8/2n5/4K3 w - - 0 1").getD
    (Board.startingPosition zeroKeys)

/-- A position whose legal moves are all quiet (non-capture) moves of pieces
of different values, generation order king first. -/
def quietMovesBoard : Board :=
  (parseFen zeroKeys "k7/8/8/8/8/8/P7/K7 w - - 0 1").getD
    (Board.startingPosition zeroKeys)

/-- The double-check test of `legal_moves`: the popcount of the checking
pieces, with own/enemy derived from the side to move as in the source. -/
def Board.checkingPieceCount (b : Board) : Nat :=
  let (ownPieces, enemyPieces) := match b.sideToMove with
    | Side.White => (b.whitePieces, b.blackPieces)
    | Side.Black => (b.blackPieces, b.whitePieces)
  bbCount ((b.checks ownPieces enemyPieces (ownPieces ||| enemyPieces)).checkingPieces)

/-- The square of the side-to-move king, as `legal_moves` computes it. -/
def Board.ownKingSquare (b : Board) : Square :=
  let ownPieces := match b.sideToMove with
    | Side.White => b.whitePieces
    | Side.Black => b.blackPieces
  bbSingle (b.kings &&& ownPieces)

/-- The move list and split point after the two swap stages of `orderMoves`. -/
def orderStaged (hm pv : Option Move) (ms : List Move) : List Move × Nat :=
  orderSwapStage pv (orderSwapStage hm ms 0).1 (orderSwapStage hm ms 0).2

/-- The stably-sorted tail segment of `orderMoves`. -/
def orderedTail (hm pv : Option Move) (ms : List Move) : List Move :=
  ((orderStaged hm pv ms).1.drop (orderStaged hm pv ms).2).insertionSort
    (fun a b => mvvLvaLe a b = true)


/-- The cell `to_fen_string` prints for a square: the white piece if any,
else the black piece (the priority order of the two `get_piece` calls). -/
def Board.cellOf (b : Board) (sq : Square) : Option (Side × Piece) :=
  match b.getPiece .White sq with
  | some p => some (Side.White, p)
  | none =>
    match b.getPiece .Black sq with
    | some p => some (Side.Black, p)
    | none => none

/-- Run-length rendering of a rank of cells: the recursive form of the
blank-counting loop in `to_fen_string`. -/
def renderAux : List (Option (Side × Piece)) → Nat → List Char
  | [], blanks => if blanks > 0 then [Char.ofNat (0x30 + blanks)] else []
  | none :: rest, blanks => renderAux rest (blanks + 1)
  | some (side, p) :: rest, blanks =>
    (if blanks > 0 then [Char.ofNat (0x30 + blanks)] else []) ++
      (p.toFenChar side :: renderAux rest 0)

/-- The castling field of `to_fen_string` as a function of the rights
nibble. -/
def castlingChars (rights : Nat) : List Char :=
  if rights = 0 then ['-']
  else
    (if rights &&& shortCastlingFlag .White == shortCastlingFlag .White
      then ['K'] else []) ++
    (if rights &&& longCastlingFlag .White == longCastlingFlag .White
      then ['Q'] else []) ++
    (if rights &&& shortCastlingFlag .Black == shortCastlingFlag .Black
      then ['k'] else []) ++
    (if rights &&& longCastlingFlag .Black == longCastlingFlag .Black
      then ['q'] else [])

/-- The castling-rights nibble `parse_fen` rebuilds from a castling field. -/
def rightsOfChars (g : List Char) : Nat :=
  (if g.contains 'K' then shortCastlingFlag .White else 0) |||
  (if g.contains 'Q' then longCastlingFlag .White else 0) |||
  (if g.contains 'k' then shortCastlingFlag .Black else 0) |||
  (if g.contains 'q' then longCastlingFlag .Black else 0)

/-- One rendered rank row for an abstract cell assignment. -/
def rowCharsOf (cells : Nat → Nat → Option (Side × Piece)) (r : Nat) :
    List Char :=
  renderAux ((List.range 8).map (cells r)) 0

/-- The canonical FEN text of a position abstracted by its printable fields;
`to_fen_string` produces exactly this (see `toFenString_eq_renderFen`). -/
def renderFen (cells : Nat → Nat → Option (Side × Piece)) (stm : Side)
    (rights : Nat) (ep : Option Square) (hmc fmn : Nat) : List Char :=
  (((List.range 8).reverse).foldl (fun acc r =>
    acc ++ rowCharsOf cells r ++ (if r > 0 then ['/'] else [])) []) ++
  (if stm = Side.White then " w ".toList else " b ".toList) ++
  castlingChars rights ++
  (match ep with
   | some e => ' ' :: [e.fileChar, e.rankChar]
   | none => " -".toList) ++
  (' ' :: (Nat.repr hmc).toList) ++ (' ' :: (Nat.repr fmn).toList)

/-- The per-rank-and-file view of a board's printable cells. -/
def Board.cellFn (b : Board) (r f : Nat) : Option (Side × Piece) :=
  b.cellOf (Square.fromCoords r f)

/-- Fold a batch of piece placements into a board with `add_piece`. -/
def addAll (K : ZKeys) (b : Board) (L : List (Side × Piece × Square)) : Board :=
  L.foldl (fun acc e => acc.addPiece K e.1 e.2.1 e.2.2) b

/-- The placements one rank of cells contributes, files left to right. -/
def rankPlacements (cells : List (Option (Side × Piece))) (rank f0 : Nat) :
    List (Side × Piece × Square) :=
  match cells with
  | [] => []
  | none :: rest => rankPlacements rest rank (f0 + 1)
  | some (side, p) :: rest =>
    (side, p, Square.fromCoords rank f0) :: rankPlacements rest rank (f0 + 1)


/-- One step of the `to_fen_string` rank loop, at the level of cells. -/
def cellStep (acc : List Char × Nat) (cell : Option (Side × Piece)) :
    List Char × Nat :=
  match cell with
  | some (side, p) =>
    (acc.1 ++ (if acc.2 > 0 then [Char.ofNat (0x30 + acc.2)] else []) ++
      [p.toFenChar side], 0)
  | none => (acc.1, acc.2 + 1)


/-- The full placement list of a board description: each rank contributes its
placements, rank 0 first — the order in which `parse_fen` adds pieces. -/
def boardPlacements (cells : Nat → Nat → Option (Side × Piece)) :
    List (Side × Piece × Square) :=
  ((List.range 8).map (fun r =>
    rankPlacements ((List.range 8).map (cells r)) r 0)).flatten

/-- Whether the cell on the target ordinal satisfies a side/piece query. -/
def cellQuery (cells : Nat → Nat → Option (Side × Piece))
    (q : Side → Piece → Bool) (tgt : Nat) : Bool :=
  match cells (tgt / 8) (tgt % 8) with
  | some (s, p) => q s p
  | none => false


/-- The side-to-move character of the FEN text. -/
def sideChar : Side → Char
  | .White => 'w'
  | .Black => 'b'

/-- The en-passant field body of the FEN text. -/
def epCoreChars : Option Square → List Char
  | some e => [e.fileChar, e.rankChar]
  | none => ['-']

/-- The placement field of the canonical FEN text, rank 7 down to rank 0. -/
def placementOf (cells : Nat → Nat → Option (Side × Piece)) : List Char :=
  rowCharsOf cells 7 ++ '/' :: (rowCharsOf cells 6 ++ '/' ::
    (rowCharsOf cells 5 ++ '/' :: (rowCharsOf cells 4 ++ '/' ::
      (rowCharsOf cells 3 ++ '/' :: (rowCharsOf cells 2 ++ '/' ::
        (rowCharsOf cells 1 ++ '/' :: rowCharsOf cells 0))))))


/-- The board `parse_fen` produces from the canonical rendering of the given
printable fields (see `parseFen_render`). -/
def parseFenResult (K : ZKeys) (c : Nat → Nat → Option (Side × Piece))
    (stm : Side) (rights : Nat) (ep : Option Square) (hmc fmn : Nat) : Board :=
  let b : Board := {
    sideToMove := stm
    sideToNotMove := if stm = Side.White then Side.Black else Side.White
    whitePieces := 0, blackPieces := 0, pawns := 0, bishops := 0, knights := 0
    rooks := 0, queens := 0, kings := 0, passedPawns := 0
    castlingRights := rights, halfMoveClock := hmc, fullMoveNumber := fmn
    epSquare := ep
    zHash := 0, pstEval := 0, moveStack := []
    hashHistory := History.new, isThreefoldRepetition := false }
  let b := b.initZobristHash K
  let b := b.initPstEval
  let b := addAll K b (boardPlacements c)
  let b := { b with hashHistory := b.hashHistory.push b.hash }
  b.updatePassedPawns


/-- The kind bitboard of a board for a piece type. -/
def kindBB (b : Board) : Piece → Nat
  | .Pawn => b.pawns
  | .Bishop => b.bishops
  | .Knight => b.knights
  | .Rook => b.rooks
  | .Queen => b.queens
  | .King => b.kings

/-- All eight piece bitboards fit in a 64-bit word. -/
def boardsBounded (b : Board) : Prop :=
  b.whitePieces < 2 ^ 64 ∧ b.blackPieces < 2 ^ 64 ∧ b.pawns < 2 ^ 64 ∧
  b.bishops < 2 ^ 64 ∧ b.knights < 2 ^ 64 ∧ b.rooks < 2 ^ 64 ∧
  b.queens < 2 ^ 64 ∧ b.kings < 2 ^ 64

/-- The history map is sorted by key with `u8` counts — the invariant the
Rust `HashMap<u64, u8>` maintains by construction. -/
def histOk (h : History) : Prop :=
  List.Pairwise (fun a b : Nat × Nat => a.1 < b.1) h.entries ∧
  ∀ e ∈ h.entries, e.2 < 256

/-- The Zobrist key of an optional en-passant square (0 when absent). -/
def epKeyOf (K : ZKeys) : Option Square → Nat
  | some e => K.enPassantFileKeys e.file
  | none => 0

/-- XOR of the castling keys named by the set bits of a rights mask, in the
fixed order `pop` walks them. -/
def castleKeys (K : ZKeys) (mask : Nat) : Nat :=
  (if mask &&& shortCastlingFlag Side.White != 0
    then K.shortCastlingKeys Side.White else 0) ^^^
  (if mask &&& longCastlingFlag Side.White != 0
    then K.longCastlingKeys Side.White else 0) ^^^
  (if mask &&& shortCastlingFlag Side.Black != 0
    then K.shortCastlingKeys Side.Black else 0) ^^^
  (if mask &&& longCastlingFlag Side.Black != 0
    then K.longCastlingKeys Side.Black else 0)

/-- Occupancy consistency of a move on a board: the moved piece stands on its
origin, the destination is free for the mover (and holds exactly the captured
piece for a capture), and the auxiliary squares of castling and en passant
are consistent.  Together with consistent side fields, a bounded full-move
number and the history-map invariant, this is what `push`/`pop` undo
needs. -/
def pushPopSafe (b : Board) (m : Move) : Prop :=
  b.sideToNotMove = (if b.sideToMove = Side.White then Side.Black
    else Side.White) ∧
  b.fullMoveNumber < 65536 ∧
  boardsBounded b ∧
  histOk b.hashHistory ∧
  match m with
  | .Regular rm =>
    rm.fromSq.ordinal < 64 ∧ rm.toSq.ordinal < 64 ∧
    (b.getPieces b.sideToMove).testBit rm.fromSq.ordinal = true ∧
    (kindBB b rm.piece).testBit rm.fromSq.ordinal = true ∧
    (b.getPieces b.sideToMove).testBit rm.toSq.ordinal = false ∧
    (match rm.capturedPiece with
     | none =>
       (kindBB b rm.piece).testBit rm.toSq.ordinal = false ∧
       (rm.piece = Piece.Pawn → rm.fromSq.file = rm.toSq.file)
     | some cp =>
       (b.getPieces b.sideToNotMove).testBit rm.toSq.ordinal = true ∧
       (kindBB b cp).testBit rm.toSq.ordinal = true ∧
       (cp ≠ rm.piece →
         (kindBB b rm.piece).testBit rm.toSq.ordinal = false))
  | .ShortCastling _ =>
    let sqs := shortCastlingSquares b.sideToMove
    (b.getPieces b.sideToMove).testBit sqs.1.ordinal = true ∧
    b.kings.testBit sqs.1.ordinal = true ∧
    (b.getPieces b.sideToMove).testBit sqs.2.1.ordinal = false ∧
    b.kings.testBit sqs.2.1.ordinal = false ∧
    (b.getPieces b.sideToMove).testBit sqs.2.2.1.ordinal = true ∧
    b.rooks.testBit sqs.2.2.1.ordinal = true ∧
    (b.getPieces b.sideToMove).testBit sqs.2.2.2.ordinal = false ∧
    b.rooks.testBit sqs.2.2.2.ordinal = false
  | .LongCastling _ =>
    let sqs := longCastlingSquares b.sideToMove
    (b.getPieces b.sideToMove).testBit sqs.1.ordinal = true ∧
    b.kings.testBit sqs.1.ordinal = true ∧
    (b.getPieces b.sideToMove).testBit sqs.2.1.ordinal = false ∧
    b.kings.testBit sqs.2.1.ordinal = false ∧
    (b.getPieces b.sideToMove).testBit sqs.2.2.1.ordinal = true ∧
    b.rooks.testBit sqs.2.2.1.ordinal = true ∧
    (b.getPieces b.sideToMove).testBit sqs.2.2.2.ordinal = false ∧
    b.rooks.testBit sqs.2.2.2.ordinal = false
  | .EnPassantCapture em =>
    em.fromSq.ordinal < 64 ∧ em.toSq.ordinal < 64 ∧
    em.capturedPawn.ordinal < 64 ∧
    em.capturedPawn.ordinal ≠ em.fromSq.ordinal ∧
    (b.getPieces b.sideToMove).testBit em.fromSq.ordinal = true ∧
    b.pawns.testBit em.fromSq.ordinal = true ∧
    (b.getPieces b.sideToMove).testBit em.toSq.ordinal = false ∧
    b.pawns.testBit em.toSq.ordinal = false ∧
    (b.getPieces b.sideToNotMove).testBit em.capturedPawn.ordinal = true ∧
    b.pawns.testBit em.capturedPawn.ordinal = true
  | .Promotion pm =>
    pm.fromSq.ordinal < 64 ∧ pm.toSq.ordinal < 64 ∧
    (b.getPieces b.sideToMove).testBit pm.fromSq.ordinal = true ∧
    b.pawns.testBit pm.fromSq.ordinal = true ∧
    (b.getPieces b.sideToMove).testBit pm.toSq.ordinal = false ∧
    (match pm.capturedPiece with
     | none =>
       (kindBB b pm.promotionPiece).testBit pm.toSq.ordinal = false ∧
       b.pawns.testBit pm.toSq.ordinal = false
     | some cp =>
       (b.getPieces b.sideToNotMove).testBit pm.toSq.ordinal = true ∧
       (kindBB b cp).testBit pm.toSq.ordinal = true ∧
       (cp ≠ pm.promotionPiece →
         (kindBB b pm.promotionPiece).testBit pm.toSq.ordinal = false) ∧
       (cp ≠ Piece.Pawn → b.pawns.testBit pm.toSq.ordinal = false))


/-- The ten scalar fields the unmake helpers never touch. -/
def scalarFrame (a b : Board) : Prop :=
  a.sideToMove = b.sideToMove ∧ a.sideToNotMove = b.sideToNotMove ∧
  a.castlingRights = b.castlingRights ∧ a.epSquare = b.epSquare ∧
  a.halfMoveClock = b.halfMoveClock ∧ a.fullMoveNumber = b.fullMoveNumber ∧
  a.moveStack = b.moveStack ∧ a.hashHistory = b.hashHistory ∧
  a.isThreefoldRepetition = b.isThreefoldRepetition ∧
  a.passedPawns = b.passedPawns


/-- The castling-rights difference step of `Board::pop`. -/
def diffStep (K : ZKeys) (c0 : Nat) (b : Board) : Board :=
  let diff := b.castlingRights ^^^ c0
  if diff != 0 then
    let b := if diff &&& shortCastlingFlag .White != 0 then
        { b with zHash := b.zHash ^^^ K.shortCastlingKeys .White }
      else b
    let b := if diff &&& longCastlingFlag .White != 0 then
        { b with zHash := b.zHash ^^^ K.longCastlingKeys .White }
      else b
    let b := if diff &&& shortCastlingFlag .Black != 0 then
        { b with zHash := b.zHash ^^^ K.shortCastlingKeys .Black }
      else b
    let b := if diff &&& longCastlingFlag .Black != 0 then
        { b with zHash := b.zHash ^^^ K.longCastlingKeys .Black }
      else b
    { b with castlingRights := c0 }
  else b

/-- The part of the `pop` tail after the castling-rights difference step. -/
def popCont2 (K : ZKeys) (u : MoveUndoInfo) (b : Board) : Board :=
  let b := match b.epSquare with
    | some ep => { b with zHash := b.zHash ^^^ K.enPassantFileKeys ep.file }
    | none => b
  let b := { b with epSquare := u.epSquare }
  let b := match b.epSquare with
    | some ep => { b with zHash := b.zHash ^^^ K.enPassantFileKeys ep.file }
    | none => b
  let b := { b with halfMoveClock := u.halfMoveClock }
  let b := { b with sideToMove := b.sideToNotMove, sideToNotMove := b.sideToMove }
  let b := { b with zHash := b.zHash ^^^ K.blackToMoveKey }
  let b := if b.sideToMove = Side.Black then
      { b with fullMoveNumber := (b.fullMoveNumber + 65535) % 65536 }
    else b
  { b with isThreefoldRepetition := u.isThreefoldRepetition,
           passedPawns := u.passedPawns }

/-- The tail of `Board::pop` after the per-move unmake: the castling-diff
hash fixup, en-passant restoration, clocks, side swap and flags. -/
def popCont (K : ZKeys) (u : MoveUndoInfo) (b : Board) : Board :=
  popCont2 K u (diffStep K u.castlingRights b)

/-- The tail of `Board::push` after the per-move make: passed pawns, move
stack, side swap, hash flip, move counter, history and repetition flag. -/
def pushTail (K : ZKeys) (m : Move) (undo : MoveUndoInfo) (b : Board) :
    Board :=
  let b := if m.isPawnInvolved then b.updatePassedPawns else b
  let b := { b with moveStack := (m, undo) :: b.moveStack }
  let b := { b with sideToMove := b.sideToNotMove, sideToNotMove := b.sideToMove }
  let b := { b with zHash := b.zHash ^^^ K.blackToMoveKey }
  let b := if b.sideToMove = Side.White then
      { b with fullMoveNumber := (b.fullMoveNumber + 1) % 65536 }
    else b
  let hh := b.hashHistory.push b.hash
  let hashCount : Nat := hh.countOf b.hash
  let b := { b with hashHistory := hh }
  if hashCount ≥ 3 then { b with isThreefoldRepetition := true } else b


/-! ### Definitions for the push/pop restoration and search analyses -/

/-- Conditional clearing of a castling flag, as `apply_move` performs it. -/
def flagClear (c flag : Nat) : Nat :=
  if c &&& flag != 0 then c &&& u8Not flag else c

/-- The Zobrist key a conditional flag clear flips (0 when the flag is
clear). -/
def flagKey (key c flag : Nat) : Nat := if c &&& flag != 0 then key else 0

/-- Restoration statement for `push` followed by `pop`: every field returns
to its prior value, with the history map compared by its counts. -/
def restores (K : ZKeys) (b : Board) (m : Move) : Prop :=
  let b2 := (b.push K m).pop K
  b2.sideToMove = b.sideToMove ∧ b2.sideToNotMove = b.sideToNotMove ∧
  b2.whitePieces = b.whitePieces ∧ b2.blackPieces = b.blackPieces ∧
  b2.pawns = b.pawns ∧ b2.bishops = b.bishops ∧ b2.knights = b.knights ∧
  b2.rooks = b.rooks ∧ b2.queens = b.queens ∧ b2.kings = b.kings ∧
  b2.passedPawns = b.passedPawns ∧ b2.castlingRights = b.castlingRights ∧
  b2.halfMoveClock = b.halfMoveClock ∧
  b2.fullMoveNumber = b.fullMoveNumber ∧ b2.epSquare = b.epSquare ∧
  b2.zHash = b.zHash ∧ b2.pstEval = b.pstEval ∧
  b2.moveStack = b.moveStack ∧
  b2.isThreefoldRepetition = b.isThreefoldRepetition ∧
  (∀ q, b2.hashHistory.countOf q = b.hashHistory.countOf q)

/-- Conditional clearing of a castling flag, as `apply_capture` performs it
(the capture path tests `rights & flag == flag`). -/
def flagClearEq (c flag : Nat) : Nat :=
  if c &&& flag == flag then c &&& u8Not flag else c

/-- The Zobrist key a capture-side conditional flag clear flips. -/
def flagKeyEq (key c flag : Nat) : Nat := if c &&& flag == flag then key else 0

/-- The castling rights left by `apply_capture`'s corner-rook test. -/
def capRights (flagL flagS brank : Nat) (cp : Piece) (sq : Square)
    (c : Nat) : Nat :=
  if cp = Piece.Rook then
    if sq.rank = brank then
      if sq.file = 0 then flagClearEq c flagL
      else if sq.file = 7 then flagClearEq c flagS
      else c
    else c
  else c

/-- The castling keys `apply_capture`'s corner-rook test flips. -/
def capKeys (keyL keyS flagL flagS brank : Nat) (cp : Piece) (sq : Square)
    (c : Nat) : Nat :=
  if cp = Piece.Rook then
    if sq.rank = brank then
      if sq.file = 0 then flagKeyEq keyL c flagL
      else if sq.file = 7 then flagKeyEq keyS c flagS
      else 0
    else 0
  else 0

/-- The castling rights left by `apply_move`'s rook-from-corner test. -/
def rookClear (flagL flagS brank : Nat) (f : Square) (c : Nat) : Nat :=
  if f.rank = brank then
    if f.file = 0 then flagClear c flagL
    else if f.file = 7 then flagClear c flagS
    else c
  else c

/-- The castling keys `apply_move`'s rook-from-corner test flips. -/
def rookKeys (keyL keyS flagL flagS brank : Nat) (f : Square) (c : Nat) :
    Nat :=
  if f.rank = brank then
    if f.file = 0 then flagKey keyL c flagL
    else if f.file = 7 then flagKey keyS c flagS
    else 0
  else 0

/-- The Zobrist reconstruction of the spec: `hash()` compared with
`init_zobrist_hash` re-run from scratch (zeroed hash) on the current state. -/
def zobristInvariant (K : ZKeys) (b : Board) : Prop :=
  b.hash = ({ b with zHash := 0 }.initZobristHash K).zHash

/-! ### The search driver (`Search` from search.rs) -/

/-- `Board::is_passed_pawn`. -/
def Board.isPassedPawn (b : Board) (sq : Square) : Bool :=
  bbOccupied b.passedPawns sq

/-- Modelled from the spec: `PstEvaluator::score` (`pst.rs` absent) — the
accumulated white-positive material+PST total, signed for the side to move
("negamax-signed: + for side-to-move, − for opponent"). -/
def Board.getPstNegamaxScore (b : Board) : Int :=
  if b.sideToMove = Side.White then b.pstEval else -b.pstEval

/-- `Search::_eval`.  The `StdRng` jitter is modelled by the stream `pert`:
`pert d` stands for the d-th `gen_range(-5..5)` draw, and `draws` counts the
draws made so far; a seed of 0 never draws, exactly like the Rust `0 => 0`
arm.  The `eval_count` statistic has no observable effect and is omitted. -/
def searchEval (pert : Nat → Int) (rngSeed : Nat) (b : Board) (draws : Nat) :
    Int × Nat :=
  if b.isInCheck && b.legalMoves.isEmpty then (-30000, draws)
  else if b.isDrawByThreefoldRepetition then (0, draws)
  else if b.isDrawByFiftyMoveRule then (0, draws)
  else if rngSeed = 0 then (b.getPstNegamaxScore, draws)
  else (b.getPstNegamaxScore + pert draws, draws + 1)

/-- The quiescence move selection of `_qsearch` (not in check): key each move
by SEE for captures, 1 for passed-pawn pushes, 0 otherwise; keep the keys
`> 0`; stable-sort by descending key (`sorted_by_key(-key)`). -/
def qOrder (b : Board) (moves : List Move) : List Move :=
  let keyed := moves.map (fun m =>
    (m, if m.isCapture then b.staticExchangeScore m
        else if b.isPassedPawn m.fromSq then 1 else 0))
  ((keyed.filter (fun t => 0 < t.2)).insertionSort
    (fun a b => b.2 ≤ a.2)).map Prod.fst

/-- The move loop of `_qsearch`, with the recursive call abstracted as `f`
(invoked on the child position with the negated window and the current draw
count). -/
def qloop (K : ZKeys)
    (f : Board → Int → Int → Nat → Option (Score × Nat)) (b : Board) :
    List Move → Int → Int → Bool → Nat → Option (Score × Nat)
  | [], alpha, _, isPv, draws =>
    some (if isPv then (.Exact alpha, draws) else (.UpperBound alpha, draws))
  | m :: rest, alpha, beta, isPv, draws =>
    match f (b.push K m) (-beta) (-alpha) draws with
    | none => none
    | some (cs, draws1) =>
      match cs.neg with
      | .LowerBound s => some (.LowerBound s, draws1)
      | .UpperBound _ =>
        if alpha ≥ beta then some (.LowerBound alpha, draws1)
        else qloop K f b rest alpha beta isPv draws1
      | .Exact s =>
        let alpha1 := if s > alpha then s else alpha
        let isPv1 := if s > alpha then true else isPv
        if alpha1 ≥ beta then some (.LowerBound alpha1, draws1)
        else qloop K f b rest alpha1 beta isPv1 draws1

/-- `Search::_qsearch`, fuel-indexed (`none` when the fuel runs out before
the capture recursion bottoms out). -/
def qsearch (K : ZKeys) (pert : Nat → Int) (rngSeed : Nat) :
    Nat → Board → Int → Int → Nat → Option (Score × Nat)
  | 0, _, _, _, _ => none
  | fuel + 1, b, alpha, beta, draws =>
    let inCheck := b.isInCheck
    let ev := searchEval pert rngSeed b draws
    let standPat := ev.1
    let draws1 := ev.2
    let raised : Bool := !inCheck && decide (standPat > alpha)
    let alpha1 := if raised then standPat else alpha
    if raised = true ∧ alpha1 ≥ beta then
      some (.LowerBound alpha1, draws1)
    else
      let moves := b.legalMoves
      if moves.isEmpty then
        some (if inCheck then (.Exact standPat, draws1) else (.Exact 0, draws1))
      else
        let moves1 := if inCheck then moves else qOrder b moves
        qloop K (qsearch K pert rngSeed fuel) b moves1 alpha1 beta raised draws1

/-- The outcome of the `_search` move loop: an early beta-cutoff return, or
fall-through with the final `alpha` and PV move. -/
inductive LoopOut where
  | cut (s : Score) (tt : TranspositionTable) (pvTable : List (List Move))
      (draws : Nat)
  | fall (alpha : Int) (pvMove : Option Move) (tt : TranspositionTable)
      (pvTable : List (List Move)) (draws : Nat)

/-- The move loop of `_search`, with the recursive call abstracted as
`child` (invoked on the child position, the current table/PV/draw state and
the negated window). -/
def searchLoop (K : ZKeys)
    (child : Board → TranspositionTable → List (List Move) → Nat →
      Int → Int → Option (Score × TranspositionTable × List (List Move) × Nat))
    (b : Board) (depth : Nat) :
    List Move → Int → Int → Option Move → TranspositionTable →
    List (List Move) → Nat → Option LoopOut
  | [], alpha, _, pvMove, tt, pvTable, draws =>
    some (.fall alpha pvMove tt pvTable draws)
  | m :: rest, alpha, beta, pvMove, tt, pvTable, draws =>
    match child (b.push K m) tt pvTable draws (-beta) (-alpha) with
    | none => none
    | some (cs, tt1, pvT1, draws1) =>
      match cs.neg with
      | .LowerBound s =>
        some (.cut (.LowerBound s) (tt1.put b depth (.Beta s m)) pvT1 draws1)
      | .UpperBound _ =>
        if alpha ≥ beta then
          some (.cut (.LowerBound beta) (tt1.put b depth (.Beta beta m)) pvT1
            draws1)
        else searchLoop K child b depth rest alpha beta pvMove tt1 pvT1 draws1
      | .Exact s =>
        let alpha1 := if s > alpha then s else alpha
        let pvMove1 := if s > alpha ∧ s < beta then some m else pvMove
        if alpha1 ≥ beta then
          some (.cut (.LowerBound beta) (tt1.put b depth (.Beta beta m)) pvT1
            draws1)
        else searchLoop K child b depth rest alpha1 beta pvMove1 tt1 pvT1 draws1

/-- `Search::_search`, fuel-indexed.  Returns the score together with the
evolved transposition table, PV table and jitter-draw count. -/
def searchMain (K : ZKeys) (pert : Nat → Int) (rngSeed : Nat) :
    Nat → Board → TranspositionTable → List (List Move) → List Move → Nat →
    Nat → Nat → Int → Int →
    Option (Score × TranspositionTable × List (List Move) × Nat)
  | 0, _, _, _, _, _, _, _, _, _ => none
  | fuel + 1, b, tt, pvTable, lastPv, draws, depth, pvIdx, alpha, beta =>
    if depth = 0 then
      (qsearch K pert rngSeed (fuel + 1) b alpha beta draws).map
        (fun r => (r.1, tt, pvTable, r.2))
    else
      match tt.get b depth alpha beta with
      | some ttScore =>
        let pv := match tt.getPvMove b with
          | some m => [m]
          | none => []
        some (ttScore, tt, pvTable.set pvIdx pv, draws)
      | none =>
        let moves := b.legalMoves
        if moves.isEmpty then
          some (.Exact (if b.isInCheck then -30000 else 0), tt,
            pvTable.set pvIdx [], draws)
        else
          let moves1 := orderMoves (tt.getMove b) lastPv[pvIdx]? moves
          match searchLoop K
              (fun bd t pvT d a bt =>
                searchMain K pert rngSeed fuel bd t pvT lastPv d (depth - 1)
                  (pvIdx + 1) a bt)
              b depth moves1 alpha beta none tt pvTable draws with
          | none => none
          | some (.cut s tt1 pvT1 draws1) => some (s, tt1, pvT1, draws1)
          | some (.fall alpha1 pvMove tt1 pvT1 draws1) =>
            match pvMove with
            | some m =>
              let pvNew := m :: (if pvIdx + 1 < pvT1.length then
                pvT1.getD (pvIdx + 1) [] else [])
              some (.Exact alpha1, tt1.put b depth (.Pv alpha1 m),
                pvT1.set pvIdx pvNew, draws1)
            | none =>
              some (.UpperBound alpha1, tt1.put b depth (.Alpha alpha1),
                pvT1, draws1)

/-- `Search::search` for a `Search` fresh from `new_with_rng(maxDepth,
rngSeed)`: iterative deepening from depth 1 to `maxDepth` with the full
window, copying `pv_table[0]` into `last_pv` and truncating the PV table
after every iteration, finally returning the head of `last_pv`. -/
def searchRun (K : ZKeys) (pert : Nat → Int) (rngSeed : Nat) (fuel : Nat)
    (maxDepth : Nat) (b : Board) (tt : TranspositionTable) :
    Option (Option Move) :=
  match (List.range maxDepth).foldlM
      (fun (st : TranspositionTable × List (List Move) × List Move × Nat) i =>
        match searchMain K pert rngSeed fuel b st.1 st.2.1 st.2.2.1 st.2.2.2
            (i + 1) 0 (-32767) 32767 with
        | none => none
        | some (_, tt1, pvT1, draws1) =>
          some (tt1, List.replicate maxDepth ([] : List Move),
            pvT1.headD [], draws1))
      (tt, List.replicate maxDepth ([] : List Move), ([] : List Move), 0) with
  | none => none
  | some (_, _, lastPv, _) => some lastPv.head?

/-- The child evaluator `_search` uses at depth 1: a depth-0 recursive call,
i.e. a quiescence search. -/
def depth0Child (K : ZKeys) (pert : Nat → Int) (rs fuel : Nat)
    (lastPv : List Move) :
    Board → TranspositionTable → List (List Move) → Nat → Int → Int →
    Option (Score × TranspositionTable × List (List Move) × Nat) :=
  fun bd t pvT d a bt => searchMain K pert rs fuel bd t pvT lastPv d 0 1 a bt

/-- A bare-kings position (black king a8, white king h1) used to exercise the
depth-1 search contract concretely. -/
def kingsOnlyBoard : Board :=
  (parseFen sampleKeys "k7/8/8/8/8/8/8/7K w - - 0 1").getD
    (Board.startingPosition sampleKeys)

/-- XOR of `f` over a list of bit indices. -/
def xorAll (f : Nat → Nat) : List Nat → Nat
  | [] => 0
  | i :: l => f i ^^^ xorAll f l

/-- The piece-key XOR of one masked bitboard: the closed form of one
`init_zobrist_hash` loop. -/
def zSum (K : ZKeys) (s : Side) (p : Piece) (bb : Nat) : Nat :=
  xorAll (fun i => if bb.testBit i then K.pieceKeys s p i else 0)
    (List.range 64)

/-- The side-to-move component of the scratch hash. -/
def stmKeyOf (K : ZKeys) : Side → Nat
  | .White => 0
  | .Black => K.blackToMoveKey

/-- The piece component of the scratch hash, in the loop order of
`init_zobrist_hash`. -/
def zPieces (K : ZKeys) (b : Board) : Nat :=
  zSum K .White .Pawn (b.pawns &&& b.whitePieces) ^^^
  zSum K .White .Bishop (b.bishops &&& b.whitePieces) ^^^
  zSum K .White .Knight (b.knights &&& b.whitePieces) ^^^
  zSum K .White .Rook (b.rooks &&& b.whitePieces) ^^^
  zSum K .White .Queen (b.queens &&& b.whitePieces) ^^^
  zSum K .White .King (b.kings &&& b.whitePieces) ^^^
  zSum K .Black .Pawn (b.pawns &&& b.blackPieces) ^^^
  zSum K .Black .Bishop (b.bishops &&& b.blackPieces) ^^^
  zSum K .Black .Knight (b.knights &&& b.blackPieces) ^^^
  zSum K .Black .Rook (b.rooks &&& b.blackPieces) ^^^
  zSum K .Black .Queen (b.queens &&& b.blackPieces) ^^^
  zSum K .Black .King (b.kings &&& b.blackPieces)

/-- The from-scratch Zobrist hash of a board state: piece keys, castling
keys, en-passant key and side-to-move key. -/
def zScratch (K : ZKeys) (b : Board) : Nat :=
  zPieces K b ^^^ castleKeys K b.castlingRights ^^^ epKeyOf K b.epSquare ^^^
    stmKeyOf K b.sideToMove

/-- The hash/recompute mismatch of a board (zero exactly when the stored
hash matches the from-scratch value). -/
def zDefect (K : ZKeys) (b : Board) : Nat := b.zHash ^^^ zScratch K b

/-- The opposing side. -/
def otherSide : Side → Side
  | .White => .Black
  | .Black => .White

/-- No piece of either colour stands on the square. -/
def sqEmptyAll (b : Board) (sq : Square) : Prop :=
  b.whitePieces.testBit sq.ordinal = false ∧
  b.blackPieces.testBit sq.ordinal = false ∧
  b.pawns.testBit sq.ordinal = false ∧
  b.bishops.testBit sq.ordinal = false ∧
  b.knights.testBit sq.ordinal = false ∧
  b.rooks.testBit sq.ordinal = false ∧
  b.queens.testBit sq.ordinal = false ∧
  b.kings.testBit sq.ordinal = false

/-- The square holds exactly one piece: the given kind of the given side. -/
def sqHoldsExactly (b : Board) (side : Side) (p : Piece) (sq : Square) :
    Prop :=
  (b.getPieces side).testBit sq.ordinal = true ∧
  (b.getPieces (otherSide side)).testBit sq.ordinal = false ∧
  (kindBB b p).testBit sq.ordinal = true ∧
  (Piece.Pawn ≠ p → b.pawns.testBit sq.ordinal = false) ∧
  (Piece.Bishop ≠ p → b.bishops.testBit sq.ordinal = false) ∧
  (Piece.Knight ≠ p → b.knights.testBit sq.ordinal = false) ∧
  (Piece.Rook ≠ p → b.rooks.testBit sq.ordinal = false) ∧
  (Piece.Queen ≠ p → b.queens.testBit sq.ordinal = false) ∧
  (Piece.King ≠ p → b.kings.testBit sq.ordinal = false)

/-- The eight piece bitboards agree at bit `k`. -/
def boardBitsEq (A B : Board) (k : Nat) : Prop :=
  A.whitePieces.testBit k = B.whitePieces.testBit k ∧
  A.blackPieces.testBit k = B.blackPieces.testBit k ∧
  A.pawns.testBit k = B.pawns.testBit k ∧
  A.bishops.testBit k = B.bishops.testBit k ∧
  A.knights.testBit k = B.knights.testBit k ∧
  A.rooks.testBit k = B.rooks.testBit k ∧
  A.queens.testBit k = B.queens.testBit k ∧
  A.kings.testBit k = B.kings.testBit k

/-- The undo record `push` saves. -/
def pushUndo (b : Board) : MoveUndoInfo :=
  ⟨b.castlingRights, b.halfMoveClock, b.epSquare, b.isThreefoldRepetition,
    b.passedPawns⟩

/-- The en-passant clearing stage at the start of `push`. -/
def epClearStage (K : ZKeys) (b : Board) : Board :=
  match b.epSquare with
  | some ep => { b with
      zHash := b.zHash ^^^ K.enPassantFileKeys ep.file,
      epSquare := none }
  | none => { b with epSquare := none }

/-- The per-kind make stage of `push`. -/
def makeStage (K : ZKeys) (m : Move) (b : Board) : Board :=
  match m with
  | .Regular rm => b.applyRegularMove K rm
  | .ShortCastling _ => b.applyShortCastlingMove K
  | .LongCastling _ => b.applyLongCastlingMove K
  | .EnPassantCapture em => b.applyEpCaptureMove K em
  | .Promotion pm => b.applyPromotionMove K pm

/-- The half-move-clock stage of `push`. -/
def clockStage (m : Move) (b : Board) : Board :=
  match m with
  | .Regular rm => if rm.piece = Piece.Pawn || rm.isCapture
      then { b with halfMoveClock := 0 }
      else { b with halfMoveClock := (b.halfMoveClock + 1) % 256 }
  | .ShortCastling _ => { b with halfMoveClock := (b.halfMoveClock + 1) % 256 }
  | .LongCastling _ => { b with halfMoveClock := (b.halfMoveClock + 1) % 256 }
  | .EnPassantCapture _ => { b with halfMoveClock := 0 }
  | .Promotion _ => { b with halfMoveClock := 0 }

/-- The occupancy facts the incremental hash maintenance of one move
needs. -/
def zMakeSafe (b : Board) (m : Move) : Prop :=
  match m with
  | .Regular rm =>
    rm.fromSq.ordinal < 64 ∧ rm.toSq.ordinal < 64 ∧
    sqHoldsExactly b b.sideToMove rm.piece rm.fromSq ∧
    (match rm.capturedPiece with
     | none => sqEmptyAll b rm.toSq ∧
         (rm.piece = Piece.Pawn → rm.fromSq.file = rm.toSq.file)
     | some cp => sqHoldsExactly b b.sideToNotMove cp rm.toSq)
  | .ShortCastling _ =>
    sqHoldsExactly b b.sideToMove Piece.King
      (shortCastlingSquares b.sideToMove).1 ∧
    sqEmptyAll b (shortCastlingSquares b.sideToMove).2.1 ∧
    sqHoldsExactly b b.sideToMove Piece.Rook
      (shortCastlingSquares b.sideToMove).2.2.1 ∧
    sqEmptyAll b (shortCastlingSquares b.sideToMove).2.2.2
  | .LongCastling _ =>
    sqHoldsExactly b b.sideToMove Piece.King
      (longCastlingSquares b.sideToMove).1 ∧
    sqEmptyAll b (longCastlingSquares b.sideToMove).2.1 ∧
    sqHoldsExactly b b.sideToMove Piece.Rook
      (longCastlingSquares b.sideToMove).2.2.1 ∧
    sqEmptyAll b (longCastlingSquares b.sideToMove).2.2.2
  | .EnPassantCapture em =>
    em.fromSq.ordinal < 64 ∧ em.toSq.ordinal < 64 ∧
    em.capturedPawn.ordinal < 64 ∧
    em.capturedPawn.ordinal ≠ em.fromSq.ordinal ∧
    em.capturedPawn.ordinal ≠ em.toSq.ordinal ∧
    sqHoldsExactly b b.sideToMove Piece.Pawn em.fromSq ∧
    sqEmptyAll b em.toSq ∧
    sqHoldsExactly b b.sideToNotMove Piece.Pawn em.capturedPawn
  | .Promotion pm =>
    pm.fromSq.ordinal < 64 ∧ pm.toSq.ordinal < 64 ∧
    pm.promotionPiece ≠ Piece.Pawn ∧
    sqHoldsExactly b b.sideToMove Piece.Pawn pm.fromSq ∧
    (match pm.capturedPiece with
     | none => sqEmptyAll b pm.toSq
     | some cp => sqHoldsExactly b b.sideToNotMove cp pm.toSq)

/-- The occupancy conditions under which one `push` maintains the
incremental Zobrist hash: `pushPopSafe` plus full knowledge of the
occupancy of every square the move touches. -/
def zobristSafe (b : Board) (m : Move) : Prop :=
  pushPopSafe b m ∧ zMakeSafe b m

/-- The per-kind unmake stage of `pop`. -/
def unmakeStage (K : ZKeys) (m : Move) (b : Board) : Board :=
  match m with
  | .Regular rm => b.undoRegularMove K rm
  | .ShortCastling _ => b.undoShortCastlingMove K
  | .LongCastling _ => b.undoLongCastlingMove K
  | .EnPassantCapture em => b.undoEpCaptureMove K em
  | .Promotion pm => b.undoPromotionMove K pm

/-- The stack / history stage at the start of `pop`. -/
def popPre (b : Board) (rest : List (Move × MoveUndoInfo)) : Board :=
  { b with moveStack := rest, hashHistory := b.hashHistory.pop b.zHash }

/-- The occupancy facts the incremental hash maintenance of one unmake
needs. -/
def zUnmakeSafe (b : Board) (m : Move) : Prop :=
  match m with
  | .Regular rm =>
    rm.fromSq.ordinal < 64 ∧ rm.toSq.ordinal < 64 ∧
    rm.fromSq.ordinal ≠ rm.toSq.ordinal ∧
    sqHoldsExactly b b.sideToNotMove rm.piece rm.toSq ∧
    sqEmptyAll b rm.fromSq
  | .ShortCastling _ =>
    sqHoldsExactly b b.sideToNotMove Piece.King
      (shortCastlingSquares b.sideToNotMove).2.1 ∧
    sqEmptyAll b (shortCastlingSquares b.sideToNotMove).1 ∧
    sqHoldsExactly b b.sideToNotMove Piece.Rook
      (shortCastlingSquares b.sideToNotMove).2.2.2 ∧
    sqEmptyAll b (shortCastlingSquares b.sideToNotMove).2.2.1
  | .LongCastling _ =>
    sqHoldsExactly b b.sideToNotMove Piece.King
      (longCastlingSquares b.sideToNotMove).2.1 ∧
    sqEmptyAll b (longCastlingSquares b.sideToNotMove).1 ∧
    sqHoldsExactly b b.sideToNotMove Piece.Rook
      (longCastlingSquares b.sideToNotMove).2.2.2 ∧
    sqEmptyAll b (longCastlingSquares b.sideToNotMove).2.2.1
  | .EnPassantCapture em =>
    em.fromSq.ordinal < 64 ∧ em.toSq.ordinal < 64 ∧
    em.capturedPawn.ordinal < 64 ∧
    em.fromSq.ordinal ≠ em.toSq.ordinal ∧
    em.capturedPawn.ordinal ≠ em.fromSq.ordinal ∧
    em.capturedPawn.ordinal ≠ em.toSq.ordinal ∧
    sqHoldsExactly b b.sideToNotMove Piece.Pawn em.toSq ∧
    sqEmptyAll b em.fromSq ∧
    sqEmptyAll b em.capturedPawn
  | .Promotion pm =>
    pm.fromSq.ordinal < 64 ∧ pm.toSq.ordinal < 64 ∧
    pm.fromSq.ordinal ≠ pm.toSq.ordinal ∧
    sqHoldsExactly b b.sideToNotMove pm.promotionPiece pm.toSq ∧
    sqEmptyAll b pm.fromSq

/-- The number of files a FEN placement row claims: digits count for their
value, every other character for one file. -/
def rowWidth : List Char → Nat
  | [] => 0
  | c :: cs => (if '1' ≤ c ∧ c ≤ '8' then c.toNat - 0x30 else 1) + rowWidth cs

/-- The FEN placement field fits the board: every row claims at most eight
files (trivially true when the FEN does not even match the grammar). -/
def fenFits (fen : String) : Bool :=
  match fenCaptures fen.toList with
  | none => true
  | some g => (splitOnSlash g.1).all (fun row => rowWidth row ≤ 8)


/-! ## Theorems -/

/-- C9: `is_draw_by_fifty_move_rule()` returns true exactly when
`half_move_clock ≥ 100` (the threshold is 100 half-moves, not 50 or 99). -/
theorem fiftyMoveRule_iff_clock_ge_100 (b : Board) :
    b.isDrawByFiftyMoveRule = true ↔ 100 ≤ b.halfMoveClock := by
  simp [Board.isDrawByFiftyMoveRule]

/-- C10: calling `pop()` on a board whose move stack is empty leaves every
field unchanged. -/
theorem pop_on_empty_stack_is_noop (K : ZKeys) (b : Board)
    (h : b.moveStack = []) : b.pop K = b := by
  unfold Board.pop
  split
  · rfl
  · next m undo rest heq => rw [h] at heq; cases heq

/-- Witness for `pop_on_empty_stack_is_noop` at the starting position. -/
theorem pop_on_empty_stack_is_noop_witness :
    (Board.startingPosition zeroKeys).moveStack = [] ∧
      Board.pop zeroKeys (Board.startingPosition zeroKeys) =
        Board.startingPosition zeroKeys :=
  ⟨by decide, pop_on_empty_stack_is_noop zeroKeys _ (by decide)⟩

/-- C3 counterexample: `TranspositionTable::new(1)` allocates `43 + 2^1 = 45`
entries, not `2^1`, and the entry index of hash 45 is `45 % 45 = 0`, not
`45 & (2^1 − 1) = 1`. -/
theorem tt_powerOfTwo_size_and_mask_indexing_cex :
    (TranspositionTable.new 1).size ≠ 2 ^ 1 ∧
      (TranspositionTable.new 1).entries.length ≠ 2 ^ 1 ∧
      45 % (TranspositionTable.new 1).size ≠ 45 &&& (2 ^ 1 - 1) := by
  decide

/-- C3 amended: `TranspositionTable::new(k)` creates a table of `43 + 2^k`
entries, every lookup reads exactly the entry at `hash % size`, and every
store writes at most the entry at `hash % size` (all other entries and the
size are unchanged). -/
theorem tt_size_and_modulo_indexing (k : Nat) (tt : TranspositionTable)
    (b : Board) (d : Nat) (s : TTScore) (alpha beta : Int) (i : Nat)
    (hi : i ≠ b.hash % tt.size) :
    (TranspositionTable.new k).size = 43 + 2 ^ k ∧
    (TranspositionTable.new k).entries.length = 43 + 2 ^ k ∧
    tt.get b d alpha beta =
      ttEntryDecision (tt.entries.getD (b.hash % tt.size) TTEntry.empty)
        b.hash d alpha beta ∧
    (tt.put b d s).entries[i]? = tt.entries[i]? ∧
    (tt.put b d s).size = tt.size := by
  refine ⟨?_, ?_, rfl, ?_, ?_⟩
  · simp [TranspositionTable.new, Nat.shiftLeft_eq]
  · simp [TranspositionTable.new, Nat.shiftLeft_eq]
  · unfold TranspositionTable.put
    dsimp only
    split
    · rfl
    · exact List.getElem?_set_ne (Ne.symm hi)
  · unfold TranspositionTable.put
    dsimp only
    split <;> rfl

/-- Witness for `tt_size_and_modulo_indexing` at concrete inputs. -/
theorem tt_size_and_modulo_indexing_witness :
    ((1 : Nat) ≠
      (Board.startingPosition zeroKeys).hash % (TranspositionTable.new 1).size) ∧
    ((TranspositionTable.new 1).size = 43 + 2 ^ 1 ∧
      (TranspositionTable.new 1).entries.length = 43 + 2 ^ 1 ∧
      (TranspositionTable.new 1).get (Board.startingPosition zeroKeys) 0 0 0 =
        ttEntryDecision
          ((TranspositionTable.new 1).entries.getD
            ((Board.startingPosition zeroKeys).hash %
              (TranspositionTable.new 1).size) TTEntry.empty)
          (Board.startingPosition zeroKeys).hash 0 0 0 ∧
      ((TranspositionTable.new 1).put (Board.startingPosition zeroKeys) 0
        .None).entries[1]? = (TranspositionTable.new 1).entries[1]? ∧
      ((TranspositionTable.new 1).put (Board.startingPosition zeroKeys) 0
        .None).size = (TranspositionTable.new 1).size) :=
  ⟨by decide,
    tt_size_and_modulo_indexing 1 (TranspositionTable.new 1)
      (Board.startingPosition zeroKeys) 0 .None 0 0 1 (by decide)⟩


/-- C5: when two or more enemy pieces give check (double check), every move
`legal_moves` emits is a Regular king move from the king's current square;
in particular no castling, slider, knight or pawn move is emitted. -/
theorem doubleCheck_emits_only_king_moves (b : Board)
    (h : 1 < b.checkingPieceCount) :
    ∀ m ∈ b.legalMoves, ∃ toSq cap,
      m = Move.regular .King b.ownKingSquare toSq cap := by
  intro m hm
  unfold Board.legalMoves at hm
  unfold Board.checkingPieceCount at h
  unfold Board.ownKingSquare
  cases hside : b.sideToMove <;>
    simp only [hside] at h hm <;>
  · rw [if_pos h] at hm
    obtain ⟨sq, -, rfl⟩ := List.mem_map.mp hm
    exact ⟨sq, _, rfl⟩

/-- Witness for `doubleCheck_emits_only_king_moves` on a double-check
position. -/
theorem doubleCheck_emits_only_king_moves_witness :
    1 < doubleCheckBoard.checkingPieceCount ∧
      ∀ m ∈ doubleCheckBoard.legalMoves, ∃ toSq cap,
        m = Move.regular .King doubleCheckBoard.ownKingSquare toSq cap :=
  ⟨by decide, doubleCheck_emits_only_king_moves doubleCheckBoard (by decide)⟩


/-- Helper: replacing a known entry and prepending it is a permutation of
prepending the replacement. -/
theorem swapHead_perm {α : Type} (x : α) :
    ∀ (xs : List α) (m : Nat) (b : α), xs[m]? = some b →
      (b :: xs.set m x).Perm (x :: xs)
  | [], m, b, h => by simp at h
  | y :: t, 0, b, h => by
    simp at h
    subst h
    simpa using List.Perm.swap x y t
  | y :: t, m + 1, b, h => by
    simp only [List.getElem?_cons_succ] at h
    have ih := swapHead_perm x t m b h
    have e : (y :: t).set (m + 1) x = y :: t.set m x := rfl
    rw [e]
    exact (List.Perm.swap y b _).trans ((ih.cons y).trans (List.Perm.swap x y t))

/-- Helper: the double `set` of `listSwap` is a permutation. -/
theorem set_set_perm {α : Type} :
    ∀ (l : List α) (i j : Nat) (a b : α), l[i]? = some a → l[j]? = some b →
      ((l.set i b).set j a).Perm l
  | [], _, _, _, _, hi, _ => by simp at hi
  | x :: t, 0, 0, a, b, hi, hj => by
    simp at hi hj
    subst hi; subst hj
    simp
  | x :: t, 0, j + 1, a, b, hi, hj => by
    simp at hi
    subst hi
    simp only [List.getElem?_cons_succ] at hj
    simpa using swapHead_perm x t j b hj
  | x :: t, i + 1, 0, a, b, hi, hj => by
    simp at hj
    subst hj
    simp only [List.getElem?_cons_succ] at hi
    simpa using swapHead_perm x t i a hi
  | x :: t, i + 1, j + 1, a, b, hi, hj => by
    simp only [List.getElem?_cons_succ] at hi hj
    have e : ((x :: t).set (i + 1) b).set (j + 1) a = x :: (t.set i b).set j a := rfl
    rw [e]
    exact (set_set_perm t i j a b hi hj).cons x

/-- Helper: `listSwap` permutes its input. -/
theorem listSwap_perm (l : List Move) (i j : Nat) : (listSwap l i j).Perm l := by
  unfold listSwap
  split
  · next a b hi hj => exact set_set_perm l i j a b hi hj
  · exact List.Perm.refl l

/-- Helper: each swap stage of `orderMoves` permutes its input. -/
theorem orderSwapStage_perm (t : Option Move) (ms : List Move) (s : Nat) :
    (orderSwapStage t ms s).1.Perm ms := by
  unfold orderSwapStage
  split
  · split
    · split
      · exact listSwap_perm ms s _
      · exact List.Perm.refl ms
    · exact List.Perm.refl ms
  · exact List.Perm.refl ms

/-- Helper: the MVV-LVA key order is transitive. -/
theorem mvvLvaLe_trans (a b c : Move) (h1 : mvvLvaLe a b) (h2 : mvvLvaLe b c) :
    mvvLvaLe a c := by
  simp only [mvvLvaLe, mvvLvaKey, decide_eq_true_eq] at h1 h2 ⊢
  omega

/-- Helper: the MVV-LVA key order is total. -/
theorem mvvLvaLe_total (a b : Move) : mvvLvaLe a b || mvvLvaLe b a := by
  simp only [mvvLvaLe, mvvLvaKey, Bool.or_eq_true, decide_eq_true_eq]
  omega

/-- Helper: the MVV-LVA key order as a total relation. -/
theorem mvvLvaRel_isTotal : IsTotal Move (fun a b => mvvLvaLe a b = true) :=
  ⟨fun a b => by
    have h := mvvLvaLe_total a b
    simpa [Bool.or_eq_true] using h⟩

/-- Helper: the MVV-LVA key order as a transitive relation. -/
theorem mvvLvaRel_isTrans : IsTrans Move (fun a b => mvvLvaLe a b = true) :=
  ⟨fun a b c h1 h2 => mvvLvaLe_trans a b c h1 h2⟩

/-- Helper: `orderMoves` splits as the untouched prefix plus the stably
sorted tail. -/
theorem orderMoves_eq_take_append_orderedTail (hm pv : Option Move)
    (ms : List Move) :
    orderMoves hm pv ms =
      (orderStaged hm pv ms).1.take (orderStaged hm pv ms).2 ++
        orderedTail hm pv ms := by
  rcases h1 : orderSwapStage hm ms 0 with ⟨l1, s1⟩
  rcases h2 : orderSwapStage pv l1 s1 with ⟨l2, s2⟩
  simp [orderMoves, orderStaged, orderedTail, h1, h2]

/-- C6 counterexample: in a position whose legal moves are all quiet
(non-capture) moves, the `_search` ordering reorders them by ascending
attacker value (pawn moves jump ahead of the king moves generated first), so
non-captures do not end up in their original stable relative order. -/
theorem moveOrdering_noncaptures_reordered_cex :
    parseFen zeroKeys "k7/8/8/8/8/8/P7/K7 w - - 0 1" = some quietMovesBoard ∧
    quietMovesBoard.legalMoves.all (fun m => !m.isCapture) = true ∧
    orderMoves none none quietMovesBoard.legalMoves ≠
      quietMovesBoard.legalMoves := by
  refine ⟨by decide, by decide, ?_⟩
  intro h
  have hs : (orderMoves none none quietMovesBoard.legalMoves).Pairwise
      (fun a b => mvvLvaLe a b = true) := by
    have e : orderMoves none none quietMovesBoard.legalMoves =
        (quietMovesBoard.legalMoves).insertionSort
          (fun a b => mvvLvaLe a b = true) := rfl
    rw [e]
    haveI := mvvLvaRel_isTotal
    haveI := mvvLvaRel_isTrans
    exact List.sorted_insertionSort _ _
  rw [h] at hs
  have hns : ¬ (quietMovesBoard.legalMoves).Pairwise
      (fun a b => mvvLvaLe a b = true) := by decide
  exact hns hs

/-- C6 amended: after the hash-move and previous-PV swap stages, the
remaining moves are stably sorted by the key
`(−capture_value, attacker value)` — a permutation of the generated moves in
which every later move has a capture value no larger (most valuable victim
first, with non-captures at the very end since their capture value is 0) and,
within equal capture values, a non-smaller attacker value (least valuable
attacker first; non-captures end up ordered by ascending attacker value, not
in their original relative order). -/
theorem moveOrdering_mvvLva_sorted (hm pv : Option Move) (ms : List Move) :
    orderMoves hm pv ms =
      (orderStaged hm pv ms).1.take (orderStaged hm pv ms).2 ++
        orderedTail hm pv ms ∧
    (orderMoves hm pv ms).Perm ms ∧
    (orderedTail hm pv ms).Pairwise (fun a b => mvvLvaLe a b = true) ∧
    (orderedTail hm pv ms).Pairwise
      (fun a b => b.captureValue ≤ a.captureValue) ∧
    (orderedTail hm pv ms).Pairwise
      (fun a b => a.captureValue = b.captureValue →
        a.piece.value ≤ b.piece.value) := by
  have hdec := orderMoves_eq_take_append_orderedTail hm pv ms
  have hsorted : (orderedTail hm pv ms).Pairwise (fun a b => mvvLvaLe a b = true) := by
    unfold orderedTail
    haveI := mvvLvaRel_isTotal
    haveI := mvvLvaRel_isTrans
    exact List.sorted_insertionSort _ _
  have hstaged : (orderStaged hm pv ms).1.Perm ms := by
    unfold orderStaged
    exact (orderSwapStage_perm _ _ _).trans (orderSwapStage_perm _ _ _)
  have impA : ∀ a b : Move, mvvLvaLe a b = true →
      b.captureValue ≤ a.captureValue := by
    intro a b h
    simp only [mvvLvaLe, mvvLvaKey, decide_eq_true_eq] at h
    omega
  have impB : ∀ a b : Move, mvvLvaLe a b = true →
      a.captureValue = b.captureValue → a.piece.value ≤ b.piece.value := by
    intro a b h hcv
    simp only [mvvLvaLe, mvvLvaKey, decide_eq_true_eq] at h
    omega
  refine ⟨hdec, ?_, hsorted, ?_, ?_⟩
  · rw [hdec]
    have p1 : (orderedTail hm pv ms).Perm
        ((orderStaged hm pv ms).1.drop (orderStaged hm pv ms).2) := by
      unfold orderedTail
      exact List.perm_insertionSort _ _
    have h3 : ((orderStaged hm pv ms).1.take (orderStaged hm pv ms).2 ++
        (orderStaged hm pv ms).1.drop (orderStaged hm pv ms).2).Perm ms := by
      rw [List.take_append_drop]
      exact hstaged
    exact (p1.append_left _).trans h3
  · exact hsorted.imp (fun h => impA _ _ h)
  · exact hsorted.imp (fun h => impB _ _ h)


/-- C7: `static_exchange_score` returns the four specified values on the
four SEE regression positions (the move looked up via `get_uci_move`). -/
theorem see_regression_values :
    ((parseFen zeroKeys
        "2bq1rk1/1pppbp2/r1n2np1/pB1Pp2p/Q2NP3/2P2N2/PP3PPP/R1B1K2R w KQ - 0 1").bind
      (fun b => (b.getUciMove "d5c6").map b.staticExchangeScore) = some 300) ∧
    ((parseFen zeroKeys
        "2bq1rk1/1pppbp2/r1n2np1/pB1Pp2p/Q3P3/2P2N2/PP2NPPP/R1B1K2R w KQ - 0 1").bind
      (fun b => (b.getUciMove "d5c6").map b.staticExchangeScore) = some (-800)) ∧
    ((parseFen zeroKeys
        "r1bq1rk1/ppp1ppbp/n2p1np1/4P3/2PP4/2N2N2/PP2BPPP/R1BQ1RK1 b - - 0 1").bind
      (fun b => (b.getUciMove "d6e5").map b.staticExchangeScore) = some 0) ∧
    ((parseFen zeroKeys
        "r2q1rk1/pppnppbp/n5p1/4P3/2P3b1/2N2N2/PP2BPPP/R1BQ1RK1 b - - 0 1").bind
      (fun b => (b.getUciMove "g7e5").map b.staticExchangeScore) = some 100) := by
  exact ⟨by decide, by decide, by decide, by decide⟩


/-- Helper: `Nat.toDigitsCore` treats its accumulator as a suffix. -/
theorem toDigitsCore_append (f : Nat) :
    ∀ (n : Nat) (ds : List Char),
      Nat.toDigitsCore 10 f n ds = Nat.toDigitsCore 10 f n [] ++ ds := by
  induction f with
  | zero => intro n ds; simp [Nat.toDigitsCore]
  | succ f ih =>
    intro n ds
    simp only [Nat.toDigitsCore]
    by_cases h : n / 10 = 0
    · simp [h]
    · simp only [h, if_false]
      rw [ih (n / 10) (Nat.digitChar (n % 10) :: ds),
        ih (n / 10) [Nat.digitChar (n % 10)]]
      simp

/-- Helper: any sufficient fuel yields the same digit list. -/
theorem toDigitsCore_fuel (f1 : Nat) :
    ∀ (f2 n : Nat) (ds : List Char), n < f1 → n < f2 →
      Nat.toDigitsCore 10 f1 n ds = Nat.toDigitsCore 10 f2 n ds := by
  induction f1 with
  | zero => intro f2 n ds h1 _; omega
  | succ f1 ih =>
    intro f2 n ds h1 h2
    cases f2 with
    | zero => omega
    | succ f2 =>
      simp only [Nat.toDigitsCore]
      by_cases h : n / 10 = 0
      · simp [h]
      · simp only [h, if_false]
        have hn : n ≠ 0 := by
          intro e
          exact h (by simp [e])
        have hlt : n / 10 < n := Nat.div_lt_self (by omega) (by omega)
        exact ih f2 (n / 10) _ (by omega) (by omega)

/-- Helper: decimal digit characters decode back to their value and are
digits. -/
theorem digitChar_decode (d : Nat) (h : d < 10) :
    (Nat.digitChar d).toNat - 0x30 = d ∧ (Nat.digitChar d).isDigit = true := by
  interval_cases d <;> exact ⟨by decide, by decide⟩

/-- Helper: `Nat.toDigits 10` of a multi-digit number splits off its last
digit. -/
theorem toDigits_split (n : Nat) (h : n / 10 ≠ 0) :
    Nat.toDigits 10 n = Nat.toDigits 10 (n / 10) ++ [Nat.digitChar (n % 10)] := by
  have hn : n ≠ 0 := by
    intro e
    exact h (by simp [e])
  have hlt : n / 10 < n := Nat.div_lt_self (by omega) (by omega)
  show Nat.toDigitsCore 10 (n + 1) n [] = _
  simp only [Nat.toDigitsCore, h, if_false]
  rw [toDigitsCore_fuel n (n / 10 + 1) (n / 10) _ (by omega) (by omega)]
  exact toDigitsCore_append _ _ _

/-- Helper: folding the decimal parse step over `Nat.toDigits 10 n`
recovers `n`. -/
theorem parseFold_toDigits (n : Nat) :
    ∀ acc, (Nat.toDigits 10 n).foldl (fun a c => 10 * a + (c.toNat - 0x30)) acc =
      acc * 10 ^ (Nat.toDigits 10 n).length + n := by
  induction n using Nat.strong_induction_on with
  | _ n ih =>
    intro acc
    by_cases h : n / 10 = 0
    · have hn : n < 10 := by omega
      have e : Nat.toDigits 10 n = [Nat.digitChar (n % 10)] := by
        show Nat.toDigitsCore 10 (n + 1) n [] = _
        simp [Nat.toDigitsCore, h]
      rw [e]
      simp only [List.foldl, List.length_singleton]
      rw [(digitChar_decode (n % 10) (by omega)).1]
      omega
    · have hn : n ≠ 0 := by
        intro e
        exact h (by simp [e])
      have hlt : n / 10 < n := Nat.div_lt_self (by omega) (by omega)
      rw [toDigits_split n h, List.foldl_append, List.length_append]
      simp only [List.foldl, List.length_singleton]
      rw [ih (n / 10) hlt acc, (digitChar_decode (n % 10) (by omega)).1]
      rw [Nat.pow_succ]
      have : 10 * (acc * 10 ^ (Nat.toDigits 10 (n / 10)).length + n / 10) +
          n % 10 = acc * (10 ^ (Nat.toDigits 10 (n / 10)).length * 10) +
          (10 * (n / 10) + n % 10) := by ring
      rw [this, Nat.div_add_mod]

/-- Helper: every character of `Nat.toDigits 10 n` is a decimal digit. -/
theorem toDigits_all_digits (n : Nat) :
    ∀ c ∈ Nat.toDigits 10 n, c.isDigit = true := by
  induction n using Nat.strong_induction_on with
  | _ n ih =>
    by_cases h : n / 10 = 0
    · have e : Nat.toDigits 10 n = [Nat.digitChar (n % 10)] := by
        show Nat.toDigitsCore 10 (n + 1) n [] = _
        simp [Nat.toDigitsCore, h]
      rw [e]
      intro c hc
      simp at hc
      subst hc
      exact (digitChar_decode (n % 10) (by omega)).2
    · have hn : n ≠ 0 := by
        intro e
        exact h (by simp [e])
      have hlt : n / 10 < n := Nat.div_lt_self (by omega) (by omega)
      rw [toDigits_split n h]
      intro c hc
      rcases List.mem_append.mp hc with hc | hc
      · exact ih (n / 10) hlt c hc
      · simp at hc
        subst hc
        exact (digitChar_decode (n % 10) (by omega)).2

/-- Helper: `Nat.toDigits 10 n` is never empty. -/
theorem toDigits_ne_nil (n : Nat) : Nat.toDigits 10 n ≠ [] := by
  by_cases h : n / 10 = 0
  · have e : Nat.toDigits 10 n = [Nat.digitChar (n % 10)] := by
      show Nat.toDigitsCore 10 (n + 1) n [] = _
      simp [Nat.toDigitsCore, h]
    simp [e]
  · rw [toDigits_split n h]
    simp

/-- Helper: parsing the decimal representation of `n` gives back `n`. -/
theorem parseDigits_repr (n : Nat) : parseDigits (Nat.repr n).toList = n := by
  have e : (Nat.repr n).toList = Nat.toDigits 10 n := rfl
  unfold parseDigits
  rw [e]
  simpa using parseFold_toDigits n 0


/-- Helper: a run of matching characters followed by a non-matching head is
split off whole by `takeRun`. -/
theorem takeRun_split (p : Char → Bool) :
    ∀ (xs rest : List Char), (∀ c ∈ xs, p c = true) →
      (∀ c, rest.head? = some c → p c = false) →
      takeRun p (xs ++ rest) = (xs, rest) := by
  intro xs
  induction xs with
  | nil =>
    intro rest _ hr
    cases rest with
    | nil => rfl
    | cons c cs =>
      have := hr c rfl
      simp [takeRun, this]
  | cons x xs ih =>
    intro rest hx hr
    have hpx : p x = true := hx x (by simp)
    simp only [List.cons_append, takeRun, hpx, if_true]
    rw [show takeRun p (xs.append rest) = takeRun p (xs ++ rest) from rfl,
      ih rest (fun c hc => hx c (by simp [hc])) hr]

/-- Helper: `splitOnSlash` peels a slash-free row off the front. -/
theorem splitOnSlash_append :
    ∀ (xs rest : List Char), (∀ c ∈ xs, c ≠ '/') →
      splitOnSlash (xs ++ '/' :: rest) = xs :: splitOnSlash rest := by
  intro xs
  induction xs with
  | nil => intro rest _; rfl
  | cons x xs ih =>
    intro rest h
    have hx : x ≠ '/' := h x (by simp)
    have e := ih rest (fun c hc => h c (by simp [hc]))
    rw [List.cons_append]
    show (if x = '/' then [] :: splitOnSlash (xs ++ '/' :: rest)
      else
        match splitOnSlash (xs ++ '/' :: rest) with
        | [] => [[x]]
        | r :: rs => (x :: r) :: rs) = (x :: xs) :: splitOnSlash rest
    rw [if_neg hx, e]

/-- Helper: `splitOnSlash` of a slash-free list is that single row. -/
theorem splitOnSlash_single :
    ∀ (xs : List Char), (∀ c ∈ xs, c ≠ '/') → splitOnSlash xs = [xs] := by
  intro xs
  induction xs with
  | nil => intro _; rfl
  | cons x xs ih =>
    intro h
    have hx : x ≠ '/' := h x (by simp)
    have e := ih (fun c hc => h c (by simp [hc]))
    show (if x = '/' then [] :: splitOnSlash xs
      else
        match splitOnSlash xs with
        | [] => [[x]]
        | r :: rs => (x :: r) :: rs) = [x :: xs]
    rw [if_neg hx, e]

/-- Helper: the rank-loop fold of `to_fen_string` computes `renderAux`. -/
theorem foldRender_eq_renderAux :
    ∀ (cells : List (Option (Side × Piece))) (cs : List Char) (blanks : Nat),
      (cells.foldl cellStep (cs, blanks)).1 ++
        (if (cells.foldl cellStep (cs, blanks)).2 > 0 then
          [Char.ofNat (0x30 + (cells.foldl cellStep (cs, blanks)).2)]
        else []) = cs ++ renderAux cells blanks := by
  intro cells
  induction cells with
  | nil => intro cs blanks; rfl
  | cons cell rest ih =>
    intro cs blanks
    cases cell with
    | none =>
      simp only [List.foldl, cellStep]
      rw [ih cs (blanks + 1)]
      rfl
    | some sp =>
      rcases sp with ⟨side, p⟩
      simp only [List.foldl, cellStep]
      rw [ih _ 0]
      simp [renderAux, List.append_assoc]


/-- Helper: every character a rank rendering emits is a placement character
other than the slash. -/
theorem renderAux_chars :
    ∀ (cells : List (Option (Side × Piece))) (blanks : Nat),
      blanks + cells.length ≤ 8 →
      ∀ c ∈ renderAux cells blanks, isPlacementChar c = true ∧ c ≠ '/' := by
  intro cells
  induction cells with
  | nil =>
    intro blanks hb c hc
    simp only [renderAux] at hc
    rcases Nat.eq_zero_or_pos blanks with h0 | h0
    · simp [h0] at hc
    · rw [if_pos h0] at hc
      simp at hc
      subst hc
      simp at hb
      interval_cases blanks <;> exact ⟨by decide, by decide⟩
  | cons cell rest ih =>
    intro blanks hb c hc
    cases cell with
    | none =>
      exact ih (blanks + 1) (by simp at hb ⊢; omega) c hc
    | some sp =>
      rcases sp with ⟨side, p⟩
      simp only [renderAux] at hc
      rcases List.mem_append.mp hc with hc | hc
      · rcases Nat.eq_zero_or_pos blanks with h0 | h0
        · simp [h0] at hc
        · rw [if_pos h0] at hc
          simp at hc
          subst hc
          simp at hb
          have hble : blanks ≤ 8 := by omega
          interval_cases blanks <;> exact ⟨by decide, by decide⟩
      · rcases List.mem_cons.mp hc with hc | hc
        · subst hc
          cases p <;> cases side <;> exact ⟨by decide, by decide⟩
        · exact ih 0 (by simp at hb ⊢; omega) c hc
  
/-- Helper: a rank rendering is never empty when it covers any files. -/
theorem renderAux_ne_nil :
    ∀ (cells : List (Option (Side × Piece))) (blanks : Nat),
      0 < blanks + cells.length → renderAux cells blanks ≠ [] := by
  intro cells
  induction cells with
  | nil =>
    intro blanks hb
    simp at hb
    simp [renderAux, hb]
  | cons cell rest ih =>
    intro blanks hb
    cases cell with
    | none => exact ih (blanks + 1) (by omega)
    | some sp =>
      rcases sp with ⟨side, p⟩
      simp [renderAux]

/-- Helper: a rank rendering fits in 8 characters. -/
theorem renderAux_length :
    ∀ (cells : List (Option (Side × Piece))) (blanks : Nat),
      (renderAux cells blanks).length ≤
        cells.length + (if blanks = 0 then 0 else 1) := by
  intro cells
  induction cells with
  | nil =>
    intro blanks
    by_cases h0 : blanks = 0
    · simp [renderAux, h0]
    · simp [renderAux, Nat.pos_of_ne_zero h0, h0]
  | cons cell rest ih =>
    intro blanks
    cases cell with
    | none =>
      have hrest := ih (blanks + 1)
      simp only [renderAux, List.length_cons]
      rw [if_neg (Nat.add_one_ne_zero blanks)] at hrest
      by_cases h0 : blanks = 0
      · subst h0
        simp only [if_pos rfl]
        simpa using hrest
      · simp only [if_neg h0]
        omega
    | some sp =>
      rcases sp with ⟨side, p⟩
      have hrest : (renderAux rest 0).length ≤ rest.length := by
        simpa using ih 0
      by_cases h0 : blanks = 0
      · simp only [renderAux, h0, List.length_append, List.length_cons]
        simp
        omega
      · simp only [renderAux, List.length_append, List.length_cons]
        rw [if_pos (Nat.pos_of_ne_zero h0), if_neg h0]
        simp
        omega

/-- Helper: the castling field round-trips for every rights nibble. -/
theorem castling_roundtrip (r : Nat) (hr : r < 16) (rest : List Char) :
    matchCastlingGroup (castlingChars r ++ ' ' :: rest) =
      some (castlingChars r, rest) ∧
    rightsOfChars (castlingChars r) = r := by
  interval_cases r <;> exact ⟨rfl, rfl⟩

/-- Helper: the en-passant field round-trips for every on-board square. -/
theorem ep_roundtrip (e : Square) (he : e.ordinal < 64) (rest : List Char) :
    matchEpGroup (e.fileChar :: e.rankChar :: ' ' :: rest) =
      some ([e.fileChar, e.rankChar], rest) ∧
    Square.fromStr [e.fileChar, e.rankChar] = some e ∧
    ([e.fileChar, e.rankChar] ≠ ['-']) := by
  obtain ⟨o⟩ := e
  simp only [Square.ordinal] at he
  interval_cases o <;> exact ⟨rfl, rfl, by decide⟩

/-- Helper: the `fenRank` loop is `renderAux` over the cells of the rank. -/
theorem fenRank_eq_renderAux (b : Board) (r : Nat) :
    b.fenRank r = renderAux ((List.range 8).map (b.cellFn r)) 0 := by
  have hstep : (fun (acc : List Char × Nat) (file : Nat) =>
      match b.getPiece .White (Square.fromCoords r file) with
      | some wp =>
        (acc.1 ++ (if acc.2 > 0 then [Char.ofNat (0x30 + acc.2)] else []) ++
          [wp.toFenChar .White], 0)
      | none =>
        match b.getPiece .Black (Square.fromCoords r file) with
        | some bp =>
          (acc.1 ++ (if acc.2 > 0 then [Char.ofNat (0x30 + acc.2)] else []) ++
            [bp.toFenChar .Black], 0)
        | none => (acc.1, acc.2 + 1)) =
      (fun acc file => cellStep acc (b.cellFn r file)) := by
    funext acc file
    unfold Board.cellFn Board.cellOf cellStep
    rcases h1 : b.getPiece .White (Square.fromCoords r file) with _ | p1
    · rcases h2 : b.getPiece .Black (Square.fromCoords r file) with _ | p2 <;>
        simp
    · simp
  simp only [Board.fenRank]
  rw [hstep]
  rw [← List.foldl_map (b.cellFn r) cellStep (List.range 8) ([], 0)]
  rcases hp : ((List.range 8).map (b.cellFn r)).foldl cellStep ([], 0) with ⟨cs, blanks⟩
  have := foldRender_eq_renderAux ((List.range 8).map (b.cellFn r)) [] 0
  rw [hp] at this
  simpa using this


/-- Helper: `to_fen_string` produces exactly the canonical rendering of the
board's printable fields. -/
theorem toFenString_eq_renderFen (b : Board) :
    (b.toFenString).toList =
      renderFen b.cellFn b.sideToMove b.castlingRights b.epSquare
        b.halfMoveClock b.fullMoveNumber := by
  have hrow : b.fenRank = fun r => rowCharsOf b.cellFn r := by
    funext r
    exact fenRank_eq_renderAux b r
  simp only [Board.toFenString, renderFen, hrow]
  have hcastle : (if b.castlingRights = 0 then ['-']
      else
        (if b.canCastleShort .White then ['K'] else []) ++
        (if b.canCastleLong .White then ['Q'] else []) ++
        (if b.canCastleShort .Black then ['k'] else []) ++
        (if b.canCastleLong .Black then ['q'] else [])) =
      castlingChars b.castlingRights := by
    unfold castlingChars Board.canCastleShort Board.canCastleLong
    rfl
  rw [hcastle]
  have hmk : ∀ l : List Char, (String.mk l).toList = l := fun _ => rfl
  rw [hmk]
  have hstr : ∀ e : Square, e.toStr.data = [e.fileChar, e.rankChar] :=
    fun _ => rfl
  cases hep : b.epSquare with
  | none => simp [List.append_assoc]
  | some e => simp [hstr, List.append_assoc]

/-- Helper: piece characters are not digits and decode back through
`parse_fen_char`. -/
theorem pieceChar_decode (p : Piece) (side : Side) :
    (¬('1' ≤ p.toFenChar side ∧ p.toFenChar side ≤ '8')) ∧
      Piece.parseFenChar (p.toFenChar side) = some (p, side) := by
  cases p <;> cases side <;> exact ⟨by decide, rfl⟩

/-- Helper: blank-count characters are digits in `'1'..'8'` and decode to
their count. -/
theorem blankChar_decode (blanks : Nat) (h1 : 1 ≤ blanks) (h8 : blanks ≤ 8) :
    ('1' ≤ Char.ofNat (0x30 + blanks) ∧ Char.ofNat (0x30 + blanks) ≤ '8') ∧
      (Char.ofNat (0x30 + blanks)).toNat - 0x30 = blanks := by
  interval_cases blanks <;> exact ⟨by decide, by decide⟩

/-- Helper: parsing a rendered rank row performs exactly the adds of its
cells' placements. -/
theorem parseFold_renderAux (K : ZKeys) (rank : Nat) :
    ∀ (cells : List (Option (Side × Piece))) (blanks : Nat) (bb : Board)
      (f : Nat), blanks + cells.length ≤ 8 →
      (renderAux cells blanks).foldl (parseRowStep K rank) (some (bb, f)) =
        some (addAll K bb (rankPlacements cells rank (f + blanks)),
          f + blanks + cells.length) := by
  intro cells
  induction cells with
  | nil =>
    intro blanks bb f hb
    rcases Nat.eq_zero_or_pos blanks with h0 | h0
    · subst h0
      rfl
    · simp only [renderAux, if_pos h0, List.foldl]
      have hd := blankChar_decode blanks h0 (by simpa using hb)
      simp only [parseRowStep, Option.bind_eq_bind, Option.some_bind,
        Option.pure_def]
      rw [if_pos hd.1, hd.2]
      rfl
  | cons cell rest ih =>
    intro blanks bb f hb
    cases cell with
    | none =>
      have hstep := ih (blanks + 1) bb f (by simp at hb ⊢; omega)
      simp only [renderAux]
      rw [hstep]
      have h1 : f + (blanks + 1) = f + blanks + 1 := by omega
      rw [h1]
      simp only [rankPlacements, List.length_cons, Option.some.injEq,
        Prod.mk.injEq]
      exact ⟨trivial, by omega⟩
    | some sp =>
      rcases sp with ⟨side, p⟩
      simp only [renderAux, List.foldl_append]
      have hchunk : (if blanks > 0 then [Char.ofNat (0x30 + blanks)]
          else []).foldl (parseRowStep K rank) (some (bb, f)) =
          some (bb, f + blanks) := by
        rcases Nat.eq_zero_or_pos blanks with h0 | h0
        · subst h0
          rfl
        · rw [if_pos h0]
          have hd := blankChar_decode blanks h0 (by simp at hb; omega)
          simp only [List.foldl, parseRowStep, Option.bind_eq_bind,
            Option.some_bind, Option.pure_def]
          rw [if_pos hd.1, hd.2]
      rw [hchunk]
      simp only [List.foldl]
      have hp := pieceChar_decode p side
      simp only [parseRowStep, Option.bind_eq_bind, Option.some_bind,
        Option.pure_def]
      rw [if_neg hp.1, hp.2]
      have hstep := ih 0
        (bb.addPiece K side p (Square.fromCoords rank (f + blanks)))
        (f + blanks + 1) (by simp at hb ⊢; omega)
      simp only [Nat.add_zero] at hstep
      rw [hstep]
      simp only [rankPlacements, addAll, List.foldl, List.length_cons,
        Option.some.injEq, Prod.mk.injEq]
      exact ⟨trivial, by omega⟩

/-- Helper: `Square::bit` is the plain power of two for on-board ordinals. -/
theorem square_bit_eq (s : Square) (h : s.ordinal < 64) :
    s.bit = 2 ^ s.ordinal := by
  unfold Square.bit U64
  rw [Nat.shiftLeft_eq, one_mul]
  exact Nat.mod_eq_of_lt (Nat.pow_lt_pow_right one_lt_two h)

/-- Helper: `BitBoard::is_occupied` is `testBit` for on-board ordinals. -/
theorem bbOccupied_eq_testBit (bb : Nat) (s : Square) (h : s.ordinal < 64) :
    bbOccupied bb s = bb.testBit s.ordinal := by
  unfold bbOccupied
  rw [square_bit_eq s h, Nat.and_two_pow]
  cases htb : bb.testBit s.ordinal <;> simp [htb, Nat.pow_eq_zero]

/-- Helper: `BitBoard::set` sets exactly the addressed bit. -/
theorem bbSet_testBit (bb : Nat) (s : Square) (h : s.ordinal < 64) (k : Nat) :
    (bbSet bb s).testBit k = (bb.testBit k || decide (s.ordinal = k)) := by
  unfold bbSet
  rw [square_bit_eq s h, Nat.testBit_or, Nat.testBit_two_pow]

/-- Helper: `add_piece` leaves the scalar fields alone and sets exactly one
bit of the side and kind bitboards. -/
theorem addPiece_spec (K : ZKeys) (b : Board) (side : Side) (p : Piece)
    (sq : Square) (h : sq.ordinal < 64) :
    ((b.addPiece K side p sq).sideToMove = b.sideToMove ∧
     (b.addPiece K side p sq).castlingRights = b.castlingRights ∧
     (b.addPiece K side p sq).halfMoveClock = b.halfMoveClock ∧
     (b.addPiece K side p sq).fullMoveNumber = b.fullMoveNumber ∧
     (b.addPiece K side p sq).epSquare = b.epSquare) ∧
    ∀ k : Nat,
      ((b.addPiece K side p sq).whitePieces.testBit k =
        (b.whitePieces.testBit k ||
          (decide (side = Side.White) && decide (sq.ordinal = k)))) ∧
      ((b.addPiece K side p sq).blackPieces.testBit k =
        (b.blackPieces.testBit k ||
          (decide (side = Side.Black) && decide (sq.ordinal = k)))) ∧
      ((b.addPiece K side p sq).pawns.testBit k =
        (b.pawns.testBit k ||
          (decide (p = Piece.Pawn) && decide (sq.ordinal = k)))) ∧
      ((b.addPiece K side p sq).bishops.testBit k =
        (b.bishops.testBit k ||
          (decide (p = Piece.Bishop) && decide (sq.ordinal = k)))) ∧
      ((b.addPiece K side p sq).knights.testBit k =
        (b.knights.testBit k ||
          (decide (p = Piece.Knight) && decide (sq.ordinal = k)))) ∧
      ((b.addPiece K side p sq).rooks.testBit k =
        (b.rooks.testBit k ||
          (decide (p = Piece.Rook) && decide (sq.ordinal = k)))) ∧
      ((b.addPiece K side p sq).queens.testBit k =
        (b.queens.testBit k ||
          (decide (p = Piece.Queen) && decide (sq.ordinal = k)))) ∧
      ((b.addPiece K side p sq).kings.testBit k =
        (b.kings.testBit k ||
          (decide (p = Piece.King) && decide (sq.ordinal = k)))) := by
  cases side <;> cases p <;>
    exact ⟨⟨rfl, rfl, rfl, rfl, rfl⟩, fun k => by
      simp [Board.addPiece, bbSet_testBit _ _ h]⟩

/-- Helper: folding `add_piece` over a placement list leaves the scalar
fields alone, and each bitboard bit records whether some placement of the
matching side or kind lands on it. -/
theorem addAll_spec (K : ZKeys) :
    ∀ (L : List (Side × Piece × Square)) (b : Board),
      (∀ e ∈ L, e.2.2.ordinal < 64) →
      ((addAll K b L).sideToMove = b.sideToMove ∧
       (addAll K b L).castlingRights = b.castlingRights ∧
       (addAll K b L).halfMoveClock = b.halfMoveClock ∧
       (addAll K b L).fullMoveNumber = b.fullMoveNumber ∧
       (addAll K b L).epSquare = b.epSquare) ∧
      ∀ k : Nat,
        ((addAll K b L).whitePieces.testBit k =
          (b.whitePieces.testBit k || L.any (fun e =>
            decide (e.1 = Side.White) && decide (e.2.2.ordinal = k)))) ∧
        ((addAll K b L).blackPieces.testBit k =
          (b.blackPieces.testBit k || L.any (fun e =>
            decide (e.1 = Side.Black) && decide (e.2.2.ordinal = k)))) ∧
        ((addAll K b L).pawns.testBit k =
          (b.pawns.testBit k || L.any (fun e =>
            decide (e.2.1 = Piece.Pawn) && decide (e.2.2.ordinal = k)))) ∧
        ((addAll K b L).bishops.testBit k =
          (b.bishops.testBit k || L.any (fun e =>
            decide (e.2.1 = Piece.Bishop) && decide (e.2.2.ordinal = k)))) ∧
        ((addAll K b L).knights.testBit k =
          (b.knights.testBit k || L.any (fun e =>
            decide (e.2.1 = Piece.Knight) && decide (e.2.2.ordinal = k)))) ∧
        ((addAll K b L).rooks.testBit k =
          (b.rooks.testBit k || L.any (fun e =>
            decide (e.2.1 = Piece.Rook) && decide (e.2.2.ordinal = k)))) ∧
        ((addAll K b L).queens.testBit k =
          (b.queens.testBit k || L.any (fun e =>
            decide (e.2.1 = Piece.Queen) && decide (e.2.2.ordinal = k)))) ∧
        ((addAll K b L).kings.testBit k =
          (b.kings.testBit k || L.any (fun e =>
            decide (e.2.1 = Piece.King) && decide (e.2.2.ordinal = k)))) := by
  intro L
  induction L with
  | nil =>
    intro b _
    exact ⟨⟨rfl, rfl, rfl, rfl, rfl⟩, fun k => by simp [addAll]⟩
  | cons e L ih =>
    intro b hord
    rcases e with ⟨s, p, sq⟩
    have hsq : sq.ordinal < 64 := hord (s, p, sq) (by simp)
    have hih := ih (b.addPiece K s p sq)
      (fun e he => hord e (by simp [he]))
    have hap := addPiece_spec K b s p sq hsq
    have hbase : addAll K b ((s, p, sq) :: L) =
        addAll K (b.addPiece K s p sq) L := rfl
    rw [hbase]
    refine ⟨⟨hih.1.1.trans hap.1.1, hih.1.2.1.trans hap.1.2.1,
      hih.1.2.2.1.trans hap.1.2.2.1, hih.1.2.2.2.1.trans hap.1.2.2.2.1,
      hih.1.2.2.2.2.trans hap.1.2.2.2.2⟩, ?_⟩
    intro k
    obtain ⟨i1, i2, i3, i4, i5, i6, i7, i8⟩ := hih.2 k
    obtain ⟨a1, a2, a3, a4, a5, a6, a7, a8⟩ := hap.2 k
    refine ⟨?_, ?_, ?_, ?_, ?_, ?_, ?_, ?_⟩
    · simp only [List.any_cons]
      rw [i1, a1, Bool.or_assoc]
    · simp only [List.any_cons]
      rw [i2, a2, Bool.or_assoc]
    · simp only [List.any_cons]
      rw [i3, a3, Bool.or_assoc]
    · simp only [List.any_cons]
      rw [i4, a4, Bool.or_assoc]
    · simp only [List.any_cons]
      rw [i5, a5, Bool.or_assoc]
    · simp only [List.any_cons]
      rw [i6, a6, Bool.or_assoc]
    · simp only [List.any_cons]
      rw [i7, a7, Bool.or_assoc]
    · simp only [List.any_cons]
      rw [i8, a8, Bool.or_assoc]

/-- Helper: every placement of one rank row lies on the board. -/
theorem rankPlacements_ord (rank : Nat) (hr : rank < 8) :
    ∀ (cells : List (Option (Side × Piece))) (f0 : Nat),
      f0 + cells.length ≤ 8 →
      ∀ e ∈ rankPlacements cells rank f0, e.2.2.ordinal < 64 := by
  intro cells
  induction cells with
  | nil =>
    intro f0 _ e he
    simp [rankPlacements] at he
  | cons cell rest ih =>
    intro f0 hb e he
    cases cell with
    | none =>
      exact ih (f0 + 1) (by simp at hb ⊢; omega) e he
    | some sp =>
      rcases sp with ⟨s, p⟩
      simp only [rankPlacements] at he
      rcases List.mem_cons.mp he with he | he
      · subst he
        show (Square.fromCoords rank f0).ordinal < 64
        simp only [Square.fromCoords]
        simp at hb
        omega
      · exact ih (f0 + 1) (by simp at hb ⊢; omega) e he

/-- Helper: a side/piece query hits some placement of a rank row exactly when
it hits a listed cell whose board position is the target. -/
theorem rankPlacements_any_iff (q : Side → Piece → Bool) (tgt rank : Nat) :
    ∀ (cells : List (Option (Side × Piece))) (f0 : Nat),
      ((rankPlacements cells rank f0).any (fun e =>
          q e.1 e.2.1 && decide (e.2.2.ordinal = tgt)) = true ↔
        ∃ i s p, cells[i]? = some (some (s, p)) ∧
          tgt = rank * 8 + f0 + i ∧ q s p = true) := by
  intro cells
  induction cells with
  | nil =>
    intro f0
    simp [rankPlacements]
  | cons cell rest ih =>
    intro f0
    cases cell with
    | none =>
      simp only [rankPlacements]
      rw [ih (f0 + 1)]
      constructor
      · rintro ⟨i, s, p, hcell, htgt, hq⟩
        exact ⟨i + 1, s, p, by simpa using hcell, by omega, hq⟩
      · rintro ⟨i, s, p, hcell, htgt, hq⟩
        cases i with
        | zero => simp at hcell
        | succ j =>
          exact ⟨j, s, p, by simpa using hcell, by omega, hq⟩
    | some sp =>
      rcases sp with ⟨s0, p0⟩
      simp only [rankPlacements, List.any_cons, Bool.or_eq_true]
      rw [ih (f0 + 1)]
      constructor
      · rintro (h | ⟨i, s, p, hcell, htgt, hq⟩)
        · obtain ⟨hq, hd⟩ := Bool.and_eq_true_iff.mp h
          have htgt : tgt = rank * 8 + f0 := by
            have := of_decide_eq_true hd
            simp only [Square.fromCoords] at this
            omega
          exact ⟨0, s0, p0, by simp, by omega, hq⟩
        · exact ⟨i + 1, s, p, by simpa using hcell, by omega, hq⟩
      · rintro ⟨i, s, p, hcell, htgt, hq⟩
        cases i with
        | zero =>
          left
          simp only [List.getElem?_cons_zero, Option.some.injEq] at hcell
          obtain ⟨hs, hp⟩ : s0 = s ∧ p0 = p := by
            have := hcell
            simp at this
            exact ⟨this.1, this.2⟩
          subst hs
          subst hp
          refine Bool.and_eq_true_iff.mpr ⟨hq, decide_eq_true ?_⟩
          simp only [Square.fromCoords]
          omega
        | succ j =>
          right
          exact ⟨j, s, p, by simpa using hcell, by omega, hq⟩

/-- Helper: every placement of a full board description lies on the board. -/
theorem boardPlacements_ord (c : Nat → Nat → Option (Side × Piece)) :
    ∀ e ∈ boardPlacements c, e.2.2.ordinal < 64 := by
  intro e he
  simp only [boardPlacements, List.mem_flatten, List.mem_map] at he
  obtain ⟨l, ⟨r, hr, hl⟩, hel⟩ := he
  subst hl
  exact rankPlacements_ord r (List.mem_range.mp hr) _ 0 (by simp) e hel

/-- Helper: a side/piece query hits some placement of the board description
exactly when the described cell at the target coordinates satisfies it. -/
theorem boardPlacements_any_iff (c : Nat → Nat → Option (Side × Piece))
    (q : Side → Piece → Bool) (tgt : Nat) :
    ((boardPlacements c).any (fun e =>
        q e.1 e.2.1 && decide (e.2.2.ordinal = tgt)) = true ↔
      ∃ r f s p, r < 8 ∧ f < 8 ∧ tgt = r * 8 + f ∧
        c r f = some (s, p) ∧ q s p = true) := by
  rw [List.any_eq_true]
  constructor
  · rintro ⟨e, he, hqe⟩
    simp only [boardPlacements, List.mem_flatten, List.mem_map] at he
    obtain ⟨l, ⟨r, hr, hl⟩, hel⟩ := he
    subst hl
    have hr8 : r < 8 := List.mem_range.mp hr
    have hany : (rankPlacements ((List.range 8).map (c r)) r 0).any
        (fun e => q e.1 e.2.1 && decide (e.2.2.ordinal = tgt)) = true :=
      List.any_eq_true.mpr ⟨e, hel, hqe⟩
    obtain ⟨i, s, p, hcell, htgt, hq⟩ :=
      (rankPlacements_any_iff q tgt r _ 0).mp hany
    have hi8 : i < 8 := by
      by_contra hge
      rw [List.getElem?_map, List.getElem?_eq_none (by simp; omega)] at hcell
      simp at hcell
    rw [List.getElem?_map, List.getElem?_range hi8] at hcell
    simp only [Option.map_some, Option.map_some', Option.some.injEq] at hcell
    exact ⟨r, i, s, p, hr8, hi8, by omega, hcell, hq⟩
  · rintro ⟨r, f, s, p, hr8, hf8, htgt, hcell, hq⟩
    have hany := (rankPlacements_any_iff q tgt r
        ((List.range 8).map (c r)) 0).mpr ⟨f, s, p, by
          rw [List.getElem?_map, List.getElem?_range hf8]
          simp [hcell], by omega, hq⟩
    obtain ⟨e, hel, hqe⟩ := List.any_eq_true.mp hany
    refine ⟨e, ?_, hqe⟩
    simp only [boardPlacements, List.mem_flatten, List.mem_map]
    exact ⟨_, ⟨r, List.mem_range.mpr hr8, rfl⟩, hel⟩
/-- Helper: a board built by adding every described placement onto zeroed
piece bitboards reads back exactly the described cells. -/
theorem addAll_cellOf (K : ZKeys) (c : Nat → Nat → Option (Side × Piece))
    (b0 : Board) (h0 : b0.whitePieces = 0 ∧ b0.blackPieces = 0 ∧
      b0.pawns = 0 ∧ b0.bishops = 0 ∧ b0.knights = 0 ∧ b0.rooks = 0 ∧
      b0.queens = 0 ∧ b0.kings = 0)
    (r f : Nat) (hr : r < 8) (hf : f < 8) :
    (addAll K b0 (boardPlacements c)).cellOf (Square.fromCoords r f) =
      c r f := by
  obtain ⟨z1, z2, z3, z4, z5, z6, z7, z8⟩ := h0
  have hspec := addAll_spec K (boardPlacements c) b0 (boardPlacements_ord c)
  obtain ⟨e1, e2, e3, e4, e5, e6, e7, e8⟩ := hspec.2 (r * 8 + f)
  rw [z1, Nat.zero_testBit, Bool.false_or] at e1
  rw [z2, Nat.zero_testBit, Bool.false_or] at e2
  rw [z3, Nat.zero_testBit, Bool.false_or] at e3
  rw [z4, Nat.zero_testBit, Bool.false_or] at e4
  rw [z5, Nat.zero_testBit, Bool.false_or] at e5
  rw [z6, Nat.zero_testBit, Bool.false_or] at e6
  rw [z7, Nat.zero_testBit, Bool.false_or] at e7
  rw [z8, Nat.zero_testBit, Bool.false_or] at e8
  have hq : ∀ q : Side → Piece → Bool,
      ((boardPlacements c).any (fun e =>
        q e.1 e.2.1 && decide (e.2.2.ordinal = r * 8 + f)) =
        (match c r f with
         | some (s, p) => q s p
         | none => false)) := by
    intro q
    rcases hc : c r f with _ | ⟨s, p⟩
    · show _ = false
      refine Bool.eq_false_iff.mpr ?_
      intro htrue
      obtain ⟨r2, f2, s2, p2, hr2, hf2, htgt, hcell, _⟩ :=
        (boardPlacements_any_iff c q (r * 8 + f)).mp htrue
      have hrf : r2 = r ∧ f2 = f := by omega
      rw [hrf.1, hrf.2, hc] at hcell
      cases hcell
    · show _ = q s p
      cases hqv : q s p
      · refine Bool.eq_false_iff.mpr ?_
        intro htrue
        obtain ⟨r2, f2, s2, p2, hr2, hf2, htgt, hcell, hq2⟩ :=
          (boardPlacements_any_iff c q (r * 8 + f)).mp htrue
        have hrf : r2 = r ∧ f2 = f := by omega
        rw [hrf.1, hrf.2, hc] at hcell
        obtain ⟨hs2, hp2⟩ := Prod.mk.injEq .. ▸ Option.some.inj hcell
        rw [← hs2, ← hp2] at hq2
        rw [hq2] at hqv
        cases hqv
      · exact (boardPlacements_any_iff c q (r * 8 + f)).mpr
          ⟨r, f, s, p, hr, hf, rfl, hc, hqv⟩
  have a1 : (addAll K b0 (boardPlacements c)).whitePieces.testBit (r * 8 + f) =
      (match c r f with
       | some (s, _) => decide (s = Side.White)
       | none => false) := by
    rw [e1]; exact hq (fun s _ => decide (s = Side.White))
  have a2 : (addAll K b0 (boardPlacements c)).blackPieces.testBit (r * 8 + f) =
      (match c r f with
       | some (s, _) => decide (s = Side.Black)
       | none => false) := by
    rw [e2]; exact hq (fun s _ => decide (s = Side.Black))
  have a3 : (addAll K b0 (boardPlacements c)).pawns.testBit (r * 8 + f) =
      (match c r f with
       | some (_, p) => decide (p = Piece.Pawn)
       | none => false) := by
    rw [e3]; exact hq (fun _ p => decide (p = Piece.Pawn))
  have a4 : (addAll K b0 (boardPlacements c)).bishops.testBit (r * 8 + f) =
      (match c r f with
       | some (_, p) => decide (p = Piece.Bishop)
       | none => false) := by
    rw [e4]; exact hq (fun _ p => decide (p = Piece.Bishop))
  have a5 : (addAll K b0 (boardPlacements c)).knights.testBit (r * 8 + f) =
      (match c r f with
       | some (_, p) => decide (p = Piece.Knight)
       | none => false) := by
    rw [e5]; exact hq (fun _ p => decide (p = Piece.Knight))
  have a6 : (addAll K b0 (boardPlacements c)).rooks.testBit (r * 8 + f) =
      (match c r f with
       | some (_, p) => decide (p = Piece.Rook)
       | none => false) := by
    rw [e6]; exact hq (fun _ p => decide (p = Piece.Rook))
  have a7 : (addAll K b0 (boardPlacements c)).queens.testBit (r * 8 + f) =
      (match c r f with
       | some (_, p) => decide (p = Piece.Queen)
       | none => false) := by
    rw [e7]; exact hq (fun _ p => decide (p = Piece.Queen))
  have a8 : (addAll K b0 (boardPlacements c)).kings.testBit (r * 8 + f) =
      (match c r f with
       | some (_, p) => decide (p = Piece.King)
       | none => false) := by
    rw [e8]; exact hq (fun _ p => decide (p = Piece.King))
  have ho64 : (Square.fromCoords r f).ordinal < 64 := by
    simp only [Square.fromCoords]
    omega
  have hbEq : ∀ bb : Nat, bbOccupied bb (Square.fromCoords r f) =
      bb.testBit (r * 8 + f) := fun bb => bbOccupied_eq_testBit bb _ ho64
  rcases hc : c r f with _ | ⟨s, p⟩ <;> rw [hc] at a1 a2 a3 a4 a5 a6 a7 a8
  · simp [Board.cellOf, Board.getPiece, Board.getPieces, hbEq, a1, a2]
  · cases s <;> cases p <;>
      simp [Board.cellOf, Board.getPiece, Board.getPieces, hbEq,
        a1, a2, a3, a4, a5, a6, a7, a8]

/-- Helper: the canonical FEN text decomposed into its six fields. -/
theorem renderFen_shape (c : Nat → Nat → Option (Side × Piece)) (stm : Side)
    (rights : Nat) (ep : Option Square) (hmc fmn : Nat) :
    renderFen c stm rights ep hmc fmn =
      placementOf c ++ ' ' :: sideChar stm :: ' ' ::
        (castlingChars rights ++ ' ' ::
          (epCoreChars ep ++ ' ' ::
            ((Nat.repr hmc).toList ++ ' ' :: (Nat.repr fmn).toList))) := by
  have h8 : (List.range 8).reverse = [7, 6, 5, 4, 3, 2, 1, 0] := rfl
  have hw : " w ".toList = [' ', 'w', ' '] := rfl
  have hb : " b ".toList = [' ', 'b', ' '] := rfl
  have hd : " -".toList = [' ', '-'] := rfl
  unfold renderFen placementOf
  rw [h8]
  cases stm <;> cases ep <;>
    norm_num [sideChar, epCoreChars, hw, hb, hd, List.append_assoc] <;>
    rfl

/-- Helper: every character of one rendered row is a placement character
other than the slash. -/
theorem rowCharsOf_chars (c : Nat → Nat → Option (Side × Piece)) (r : Nat) :
    ∀ ch ∈ rowCharsOf c r, isPlacementChar ch = true ∧ ch ≠ '/' := by
  intro ch hch
  exact renderAux_chars ((List.range 8).map (c r)) 0 (by simp) ch hch

/-- Helper: every character of the placement field is a placement
character. -/
theorem placementOf_chars (c : Nat → Nat → Option (Side × Piece)) :
    ∀ ch ∈ placementOf c, isPlacementChar ch = true := by
  intro ch hch
  simp only [placementOf, List.mem_append, List.mem_cons] at hch
  rcases hch with h | h | h | h | h | h | h | h | h | h | h | h | h | h | h <;>
    first
      | exact (rowCharsOf_chars c _ ch h).1
      | (subst h; decide)

/-- Helper: the placement field is at least 15 characters long. -/
theorem placementOf_length (c : Nat → Nat → Option (Side × Piece)) :
    15 ≤ (placementOf c).length := by
  have hpos : ∀ r : Nat, 0 < (rowCharsOf c r).length := fun r =>
    List.length_pos.mpr (renderAux_ne_nil ((List.range 8).map (c r)) 0
      (by simp))
  simp only [placementOf, List.length_append, List.length_cons]
  have p0 := hpos 0
  have p1 := hpos 1
  have p2 := hpos 2
  have p3 := hpos 3
  have p4 := hpos 4
  have p5 := hpos 5
  have p6 := hpos 6
  have p7 := hpos 7
  omega

/-- Helper: `(Nat.repr n).toList` is the digit list of `n`. -/
theorem repr_toList (n : Nat) : (Nat.repr n).toList = Nat.toDigits 10 n := rfl

/-- Helper: the six FEN capture groups match at the head of the canonical
rendering. -/
theorem fenMatchAt_render (c : Nat → Nat → Option (Side × Piece)) (stm : Side)
    (rights : Nat) (ep : Option Square) (hmc fmn : Nat) (hr : rights < 16)
    (he : ∀ e, ep = some e → e.ordinal < 64) :
    fenMatchAt (renderFen c stm rights ep hmc fmn) =
      some (placementOf c, sideChar stm, castlingChars rights, epCoreChars ep,
        (Nat.repr hmc).toList, (Nat.repr fmn).toList) := by
  rw [renderFen_shape]
  have htake := takeRun_split isPlacementChar (placementOf c)
    (' ' :: sideChar stm :: ' ' :: (castlingChars rights ++ ' ' ::
      (epCoreChars ep ++ ' ' ::
        ((Nat.repr hmc).toList ++ ' ' :: (Nat.repr fmn).toList))))
    (placementOf_chars c)
    (by intro ch hh; simp at hh; subst hh; decide)
  have hlen : ¬ (placementOf c).length < 15 := by
    have := placementOf_length c
    omega
  have hcg := (castling_roundtrip rights hr
    (epCoreChars ep ++ ' ' ::
      ((Nat.repr hmc).toList ++ ' ' :: (Nat.repr fmn).toList))).1
  have hdig5 : ∀ ch ∈ (Nat.repr hmc).toList, Char.isDigit ch = true := by
    rw [repr_toList]
    exact fun ch h => toDigits_all_digits hmc ch h
  have hdig6 : ∀ ch ∈ (Nat.repr fmn).toList, Char.isDigit ch = true := by
    rw [repr_toList]
    exact fun ch h => toDigits_all_digits fmn ch h
  have htake5 := takeRun_split Char.isDigit ((Nat.repr hmc).toList)
    (' ' :: (Nat.repr fmn).toList) hdig5
    (by intro ch hh; simp at hh; subst hh; decide)
  have htake6 : takeRun Char.isDigit ((Nat.repr fmn).toList) =
      ((Nat.repr fmn).toList, []) := by
    have h := takeRun_split Char.isDigit ((Nat.repr fmn).toList) [] hdig6
      (by intro ch hh; simp at hh)
    simpa using h
  have h5ne : (Nat.repr hmc).toList ≠ [] := by
    rw [repr_toList]
    exact toDigits_ne_nil hmc
  have h6ne : (Nat.repr fmn).toList ≠ [] := by
    rw [repr_toList]
    exact toDigits_ne_nil fmn
  have hepnone : ∀ X : List Char, matchEpGroup ('-' :: ' ' :: X) =
      some (['-'], X) := fun X => rfl
  simp only [String.toList] at htake htake5 htake6 h5ne h6ne hcg ⊢
  cases ep with
  | none =>
    cases stm <;>
      (simp only [sideChar, epCoreChars, List.cons_append, List.nil_append,
        List.singleton_append] at htake hcg ⊢
       simp [fenMatchAt, htake, hlen, hcg, htake5, htake6, h5ne, h6ne,
         hepnone])
  | some e =>
    have hepm := (ep_roundtrip e (he e rfl)
      ((Nat.repr hmc).toList ++ ' ' :: (Nat.repr fmn).toList)).1
    simp only [String.toList] at hepm
    cases stm <;>
      (simp only [sideChar, epCoreChars, List.cons_append, List.nil_append,
        List.singleton_append] at htake hcg ⊢
       simp [fenMatchAt, htake, hlen, hcg, htake5, htake6, h5ne, h6ne, hepm])

/-- Helper: when the whole input matches, `captures` returns that match. -/
theorem fenCaptures_eq_matchAt (cs : List Char)
    (g : List Char × Char × List Char × List Char × List Char × List Char)
    (h : fenMatchAt cs = some g) (hne : cs ≠ []) : fenCaptures cs = some g := by
  cases cs with
  | nil => exact absurd rfl hne
  | cons c0 rest => simp [fenCaptures, h]

/-- Helper: the six capture groups of the canonical rendering. -/
theorem fenCaptures_render (c : Nat → Nat → Option (Side × Piece)) (stm : Side)
    (rights : Nat) (ep : Option Square) (hmc fmn : Nat) (hr : rights < 16)
    (he : ∀ e, ep = some e → e.ordinal < 64) :
    fenCaptures (renderFen c stm rights ep hmc fmn) =
      some (placementOf c, sideChar stm, castlingChars rights, epCoreChars ep,
        (Nat.repr hmc).toList, (Nat.repr fmn).toList) := by
  refine fenCaptures_eq_matchAt _ _
    (fenMatchAt_render c stm rights ep hmc fmn hr he) ?_
  rw [renderFen_shape]
  intro habs
  have : placementOf c = [] ∧
      (' ' :: sideChar stm :: ' ' :: (castlingChars rights ++ ' ' ::
        (epCoreChars ep ++ ' ' ::
          ((Nat.repr hmc).toList ++ ' ' :: (Nat.repr fmn).toList)))) =
        ([] : List Char) := List.append_eq_nil.mp habs
  cases this.2

/-- Helper: `splitOnSlash` cuts the placement field back into its eight
rows. -/
theorem splitOnSlash_placement (c : Nat → Nat → Option (Side × Piece)) :
    splitOnSlash (placementOf c) =
      [rowCharsOf c 7, rowCharsOf c 6, rowCharsOf c 5, rowCharsOf c 4,
       rowCharsOf c 3, rowCharsOf c 2, rowCharsOf c 1, rowCharsOf c 0] := by
  have hs : ∀ r, ∀ ch ∈ rowCharsOf c r, ch ≠ '/' := fun r ch h =>
    (rowCharsOf_chars c r ch h).2
  unfold placementOf
  rw [splitOnSlash_append _ _ (hs 7), splitOnSlash_append _ _ (hs 6),
    splitOnSlash_append _ _ (hs 5), splitOnSlash_append _ _ (hs 4),
    splitOnSlash_append _ _ (hs 3), splitOnSlash_append _ _ (hs 2),
    splitOnSlash_append _ _ (hs 1), splitOnSlash_single _ (hs 0)]

/-- Helper: parsing one rendered row adds that rank's placements. -/
theorem parseRowChars_render (K : ZKeys) (rank : Nat)
    (c : Nat → Nat → Option (Side × Piece)) (b : Board) :
    parseRowChars K rank (rowCharsOf c rank) b =
      some (addAll K b (rankPlacements ((List.range 8).map (c rank)) rank 0)) := by
  unfold parseRowChars rowCharsOf
  have hlen := renderAux_length ((List.range 8).map (c rank)) 0
  rw [if_neg (by simp at hlen ⊢; omega)]
  rw [parseFold_renderAux K rank ((List.range 8).map (c rank)) 0 b 0 (by simp)]
  rfl

/-- Helper: two `add_piece` folds in sequence are the fold of the
concatenated placements. -/
theorem addAll_append (K : ZKeys) (b : Board)
    (L1 L2 : List (Side × Piece × Square)) :
    addAll K (addAll K b L1) L2 = addAll K b (L1 ++ L2) := by
  simp [addAll, List.foldl_append]

/-- Helper: `cellOf` only reads the eight piece bitboards. -/
theorem cellOf_congr (b1 b2 : Board)
    (h : b1.whitePieces = b2.whitePieces ∧ b1.blackPieces = b2.blackPieces ∧
      b1.pawns = b2.pawns ∧ b1.bishops = b2.bishops ∧
      b1.knights = b2.knights ∧ b1.rooks = b2.rooks ∧
      b1.queens = b2.queens ∧ b1.kings = b2.kings) (sq : Square) :
    b1.cellOf sq = b2.cellOf sq := by
  obtain ⟨h1, h2, h3, h4, h5, h6, h7, h8⟩ := h
  simp [Board.cellOf, Board.getPiece, Board.getPieces,
    h1, h2, h3, h4, h5, h6, h7, h8]

/-- Helper: `parse_fen` on any string whose text is the canonical rendering
returns exactly the rebuilt board. -/
theorem parseFen_render (K : ZKeys) (c : Nat → Nat → Option (Side × Piece))
    (stm : Side) (rights : Nat) (ep : Option Square) (hmc fmn : Nat)
    (fen : String) (hfen : fen.toList = renderFen c stm rights ep hmc fmn)
    (hr : rights < 16) (hhm : hmc < 256) (hfm : fmn < 65536)
    (he : ∀ e, ep = some e → e.ordinal < 64) :
    parseFen K fen = some (parseFenResult K c stm rights ep hmc fmn) := by
  have hepEq : (if epCoreChars ep = ['-'] then none
      else Square.fromStr (epCoreChars ep)) = ep := by
    cases ep with
    | none => simp [epCoreChars]
    | some e =>
      have h := ep_roundtrip e (he e rfl) []
      simp [epCoreChars, h.2.2, h.2.1]
  have hstmEq : (if sideChar stm = 'w' then (Side.White, Side.Black)
      else (Side.Black, Side.White)) =
      (stm, if stm = Side.White then Side.Black else Side.White) := by
    cases stm <;> rfl
  have hrev : ([rowCharsOf c 7, rowCharsOf c 6, rowCharsOf c 5,
      rowCharsOf c 4, rowCharsOf c 3, rowCharsOf c 2, rowCharsOf c 1,
      rowCharsOf c 0] : List (List Char)).reverse =
      [rowCharsOf c 0, rowCharsOf c 1, rowCharsOf c 2, rowCharsOf c 3,
       rowCharsOf c 4, rowCharsOf c 5, rowCharsOf c 6, rowCharsOf c 7] := by
    rfl
  have hcr : ((if (castlingChars rights).contains 'K'
        then shortCastlingFlag Side.White else 0) |||
      (if (castlingChars rights).contains 'Q'
        then longCastlingFlag Side.White else 0) |||
      (if (castlingChars rights).contains 'k'
        then shortCastlingFlag Side.Black else 0) |||
      (if (castlingChars rights).contains 'q'
        then longCastlingFlag Side.Black else 0)) = rights :=
    (castling_roundtrip rights hr []).2
  have hbp : boardPlacements c =
      rankPlacements ((List.range 8).map (c 0)) 0 0 ++
      (rankPlacements ((List.range 8).map (c 1)) 1 0 ++
      (rankPlacements ((List.range 8).map (c 2)) 2 0 ++
      (rankPlacements ((List.range 8).map (c 3)) 3 0 ++
      (rankPlacements ((List.range 8).map (c 4)) 4 0 ++
      (rankPlacements ((List.range 8).map (c 5)) 5 0 ++
      (rankPlacements ((List.range 8).map (c 6)) 6 0 ++
      (rankPlacements ((List.range 8).map (c 7)) 7 0 ++ []))))))) := rfl
  unfold parseFen
  rw [hfen, fenCaptures_render c stm rights ep hmc fmn hr he]
  simp only [Option.bind_eq_bind, Option.some_bind]
  rw [splitOnSlash_placement, hrev]
  rw [if_neg (by simp)]
  rw [hstmEq, hcr, hepEq, parseDigits_repr, parseDigits_repr]
  rw [if_neg (by omega), if_neg (by omega)]
  simp only [List.enum, List.enumFrom, List.foldl_cons, List.foldl_nil,
    Option.bind_eq_bind, Option.some_bind, parseRowChars_render]
  norm_num [parseFenResult, hbp, addAll_append, List.append_assoc,
    List.append_nil, Option.pure_def]

/-- Helper: the rebuilt board keeps the parsed scalar fields. -/
theorem parseFenResult_fields (K : ZKeys)
    (c : Nat → Nat → Option (Side × Piece)) (stm : Side) (rights : Nat)
    (ep : Option Square) (hmc fmn : Nat) :
    (parseFenResult K c stm rights ep hmc fmn).sideToMove = stm ∧
    (parseFenResult K c stm rights ep hmc fmn).castlingRights = rights ∧
    (parseFenResult K c stm rights ep hmc fmn).epSquare = ep ∧
    (parseFenResult K c stm rights ep hmc fmn).halfMoveClock = hmc ∧
    (parseFenResult K c stm rights ep hmc fmn).fullMoveNumber = fmn := by
  have hfr := (addAll_spec K (boardPlacements c)
    (({ sideToMove := stm
        sideToNotMove := if stm = Side.White then Side.Black else Side.White
        whitePieces := 0, blackPieces := 0, pawns := 0, bishops := 0
        knights := 0, rooks := 0, queens := 0, kings := 0, passedPawns := 0
        castlingRights := rights, halfMoveClock := hmc, fullMoveNumber := fmn
        epSquare := ep
        zHash := 0, pstEval := 0, moveStack := []
        hashHistory := History.new,
        isThreefoldRepetition := false } : Board).initZobristHash K).initPstEval
    (boardPlacements_ord c)).1
  exact ⟨hfr.1, hfr.2.1, hfr.2.2.2.2, hfr.2.2.1, hfr.2.2.2.1⟩

/-- Helper: the rebuilt board reads back exactly the described cells. -/
theorem parseFenResult_cellOf (K : ZKeys)
    (c : Nat → Nat → Option (Side × Piece)) (stm : Side) (rights : Nat)
    (ep : Option Square) (hmc fmn : Nat) (r f : Nat) (hr : r < 8)
    (hf : f < 8) :
    (parseFenResult K c stm rights ep hmc fmn).cellOf
      (Square.fromCoords r f) = c r f := by
  have hcell := addAll_cellOf K c
    (({ sideToMove := stm
        sideToNotMove := if stm = Side.White then Side.Black else Side.White
        whitePieces := 0, blackPieces := 0, pawns := 0, bishops := 0
        knights := 0, rooks := 0, queens := 0, kings := 0, passedPawns := 0
        castlingRights := rights, halfMoveClock := hmc, fullMoveNumber := fmn
        epSquare := ep
        zHash := 0, pstEval := 0, moveStack := []
        hashHistory := History.new,
        isThreefoldRepetition := false } : Board).initZobristHash K).initPstEval
    ⟨rfl, rfl, rfl, rfl, rfl, rfl, rfl, rfl⟩ r f hr hf
  refine Eq.trans ?_ hcell
  exact cellOf_congr _ _ ⟨rfl, rfl, rfl, rfl, rfl, rfl, rfl, rfl⟩ _

/-- Helper: one rendered row only depends on the cells of its rank. -/
theorem rowCharsOf_congr (c1 c2 : Nat → Nat → Option (Side × Piece)) (r : Nat)
    (h : ∀ f, f < 8 → c1 r f = c2 r f) : rowCharsOf c1 r = rowCharsOf c2 r := by
  unfold rowCharsOf
  congr 1
  exact List.map_congr_left (fun f hf => h f (List.mem_range.mp hf))

/-- Helper: the canonical rendering only depends on the on-board cells. -/
theorem renderFen_congr (c1 c2 : Nat → Nat → Option (Side × Piece))
    (stm : Side) (rights : Nat) (ep : Option Square) (hmc fmn : Nat)
    (h : ∀ r f, r < 8 → f < 8 → c1 r f = c2 r f) :
    renderFen c1 stm rights ep hmc fmn = renderFen c2 stm rights ep hmc fmn := by
  have hrow : ∀ r, r < 8 → rowCharsOf c1 r = rowCharsOf c2 r := fun r hr =>
    rowCharsOf_congr c1 c2 r (fun f hf => h r f hr hf)
  rw [renderFen_shape, renderFen_shape]
  have hplace : placementOf c1 = placementOf c2 := by
    unfold placementOf
    rw [hrow 7 (by omega), hrow 6 (by omega), hrow 5 (by omega),
      hrow 4 (by omega), hrow 3 (by omega), hrow 2 (by omega),
      hrow 1 (by omega), hrow 0 (by omega)]
  rw [hplace]

/-- Helper: strings with the same character list are equal. -/
theorem string_of_toList_eq (s t : String) (h : s.toList = t.toList) :
    s = t := by
  cases s with
  | mk d1 =>
    cases t with
    | mk d2 =>
      exact congrArg String.mk h

/-- C4 (amended): for every board whose printable fields are in range — the
castling nibble below 16, the clocks within `u8`/`u16`, the en-passant
square on the board — `parse_fen` accepts the emitted FEN text and the
reparsed board renders the identical text. -/
theorem fen_canonical_round_trip (K : ZKeys) (b : Board)
    (hr : b.castlingRights < 16) (hh : b.halfMoveClock < 256)
    (hf : b.fullMoveNumber < 65536)
    (he : ∀ e, b.epSquare = some e → e.ordinal < 64) :
    ∃ b2, parseFen K b.toFenString = some b2 ∧
      b2.toFenString = b.toFenString := by
  have hfen := toFenString_eq_renderFen b
  have hp := parseFen_render K b.cellFn b.sideToMove b.castlingRights
    b.epSquare b.halfMoveClock b.fullMoveNumber b.toFenString hfen hr hh hf he
  refine ⟨_, hp, ?_⟩
  obtain ⟨f1, f2, f3, f4, f5⟩ := parseFenResult_fields K b.cellFn b.sideToMove
    b.castlingRights b.epSquare b.halfMoveClock b.fullMoveNumber
  apply string_of_toList_eq
  rw [toFenString_eq_renderFen, hfen, f1, f2, f3, f4, f5]
  apply renderFen_congr
  intro r f hr8 hf8
  exact parseFenResult_cellOf K b.cellFn b.sideToMove b.castlingRights
    b.epSquare b.halfMoveClock b.fullMoveNumber r f hr8 hf8

/-- C4 (counterexample): the FEN text `8/8/8/8/8/8/8/44 w - - 0 1` is
well-formed in the claim's sense — eight slash-separated rows of digits
`1`-`8` and piece letters, each row covering eight files — and `parse_fen`
accepts it, but `to_fen_string` of the result is the canonicalised text
`8/8/8/8/8/8/8/8 w - - 0 1`, not the original string. -/
theorem fen_round_trip_cex :
    ((parseFen zeroKeys "8/8/8/8/8/8/8/44 w - - 0 1").map Board.toFenString =
      some "8/8/8/8/8/8/8/8 w - - 0 1") ∧
    ("8/8/8/8/8/8/8/8 w - - 0 1" : String) ≠ "8/8/8/8/8/8/8/44 w - - 0 1" := by
  exact ⟨by decide, by decide⟩

/-- C4 witness: the canonical round trip instantiated on the starting
position. -/
theorem fen_canonical_round_trip_witness :
    ∃ b2, parseFen zeroKeys (Board.startingPosition zeroKeys).toFenString =
        some b2 ∧
      b2.toFenString = (Board.startingPosition zeroKeys).toFenString :=
  fen_canonical_round_trip zeroKeys (Board.startingPosition zeroKeys)
    (by decide) (by decide) (by decide)
    (fun e h => by
      rw [show (Board.startingPosition zeroKeys).epSquare = none from rfl]
        at h
      cases h)

/-- Helper: XOR on `Nat` is left-commutative (for AC normalisation). -/
theorem natXor_left_comm (a b c : Nat) : a ^^^ (b ^^^ c) = b ^^^ (a ^^^ c) := by
  rw [← Nat.xor_assoc, Nat.xor_comm a b, Nat.xor_assoc]

/-- Helper: `BitBoard::clear` at the bit level. -/
theorem bbClear_testBit (bb : Nat) (s : Square) (h : s.ordinal < 64)
    (k : Nat) : (bbClear bb s).testBit k =
      (bb.testBit k && (decide (k < 64)).xor (decide (s.ordinal = k))) := by
  unfold bbClear bbNot u64mask
  rw [square_bit_eq s h, Nat.testBit_and, Nat.testBit_xor,
    Nat.testBit_two_pow, Nat.testBit_two_pow_sub_one]

/-- Helper: 64-bit words have no bits at positions 64 and above. -/
theorem testBit_high (X : Nat) (hX : X < 2 ^ 64) (k : Nat) (hk : 64 ≤ k) :
    X.testBit k = false :=
  Nat.testBit_eq_false_of_lt
    (lt_of_lt_of_le hX (Nat.pow_le_pow_right (by omega) hk))

/-- Helper: `BitBoard::set` stays below `2^64`. -/
theorem bbSet_lt (bb : Nat) (s : Square) (hb : bb < 2 ^ 64)
    (h : s.ordinal < 64) : bbSet bb s < 2 ^ 64 := by
  unfold bbSet
  exact Nat.or_lt_two_pow hb
    (by rw [square_bit_eq s h]
        exact Nat.pow_lt_pow_right (by omega) h)

/-- Helper: `BitBoard::clear` stays below `2^64`. -/
theorem bbClear_lt (bb : Nat) (s : Square) (hb : bb < 2 ^ 64) :
    bbClear bb s < 2 ^ 64 :=
  lt_of_le_of_lt Nat.and_le_left hb

/-- Helper: clearing and re-setting an occupied square is the identity. -/
theorem bbRestore_cs (X : Nat) (hX : X < 2 ^ 64) (a : Square)
    (hao : a.ordinal < 64) (ha : X.testBit a.ordinal = true) :
    bbSet (bbClear X a) a = X := by
  apply Nat.eq_of_testBit_eq
  intro k
  by_cases hk : k < 64
  · rw [bbSet_testBit _ _ hao, bbClear_testBit _ _ hao]
    by_cases hka : a.ordinal = k
    · subst hka
      simp [ha]
    · simp [hka, hk]
  · rw [bbSet_testBit _ _ hao, bbClear_testBit _ _ hao,
      testBit_high X hX k (by omega)]
    have hne : a.ordinal ≠ k := by omega
    simp [hne]

/-- Helper: setting and re-clearing a free square is the identity. -/
theorem bbRestore_sc (X : Nat) (hX : X < 2 ^ 64) (a : Square)
    (hao : a.ordinal < 64) (ha : X.testBit a.ordinal = false) :
    bbClear (bbSet X a) a = X := by
  apply Nat.eq_of_testBit_eq
  intro k
  by_cases hk : k < 64
  · rw [bbClear_testBit _ _ hao, bbSet_testBit _ _ hao]
    by_cases hka : a.ordinal = k
    · subst hka
      simp [ha, hk]
    · simp [hka, hk]
  · rw [bbClear_testBit _ _ hao, bbSet_testBit _ _ hao,
      testBit_high X hX k (by omega)]
    have hne : a.ordinal ≠ k := by omega
    simp [hne]

/-- Helper: setting an untouched square does not change other bits. -/
theorem bbSet_testBit_ne (X : Nat) (a : Square) (k : Nat)
    (ha : a.ordinal < 64) (h : a.ordinal ≠ k) :
    (bbSet X a).testBit k = X.testBit k := by
  rw [bbSet_testBit _ _ ha]
  simp [h]

/-- Helper: clearing an untouched square does not change other low bits. -/
theorem bbClear_testBit_ne (X : Nat) (a : Square) (k : Nat)
    (ha : a.ordinal < 64) (hk : k < 64) (h : a.ordinal ≠ k) :
    (bbClear X a).testBit k = X.testBit k := by
  rw [bbClear_testBit _ _ ha]
  simp [h, hk]

/-- Helper: a piece move (clear the origin, set the destination) is undone by
the reverse move. -/
theorem bbRestore_move (X : Nat) (hX : X < 2 ^ 64) (a b : Square)
    (hao : a.ordinal < 64) (hbo : b.ordinal < 64)
    (ha : X.testBit a.ordinal = true) (hb : X.testBit b.ordinal = false) :
    bbSet (bbClear (bbSet (bbClear X a) b) b) a = X := by
  have hne : a.ordinal ≠ b.ordinal := by
    intro h
    rw [← h, ha] at hb
    cases hb
  have step1 : bbClear (bbSet (bbClear X a) b) b = bbClear X a := by
    refine bbRestore_sc (bbClear X a) (bbClear_lt X a hX) b hbo ?_
    rw [bbClear_testBit_ne X a b.ordinal hao hbo hne]
    exact hb
  rw [step1]
  exact bbRestore_cs X hX a hao ha

/-- Helper: a capture by the same piece kind (clear the target, move the
attacker there) is undone by the reverse sequence on the shared bitboard. -/
theorem bbRestore_capSame (X : Nat) (hX : X < 2 ^ 64) (f t : Square)
    (hfo : f.ordinal < 64) (hto : t.ordinal < 64)
    (hf : X.testBit f.ordinal = true) (ht : X.testBit t.ordinal = true)
    (hne : f.ordinal ≠ t.ordinal) :
    bbSet (bbSet (bbClear (bbSet (bbClear (bbClear X t) f) t) t) f) t = X := by
  have hY : bbClear X t < 2 ^ 64 := bbClear_lt X t hX
  have hZ : bbClear (bbClear X t) f < 2 ^ 64 := bbClear_lt _ f hY
  have step1 : bbClear (bbSet (bbClear (bbClear X t) f) t) t =
      bbClear (bbClear X t) f := by
    refine bbRestore_sc _ hZ t hto ?_
    rw [bbClear_testBit_ne _ f t.ordinal hfo hto hne,
      bbClear_testBit _ _ hto]
    simp [hto]
  rw [step1]
  have step2 : bbSet (bbClear (bbClear X t) f) f = bbClear X t := by
    refine bbRestore_cs _ hY f hfo ?_
    rw [bbClear_testBit_ne _ t f.ordinal hto hfo (fun h => hne h.symm)]
    exact hf
  rw [step2]
  exact bbRestore_cs X hX t hto ht

/-- Helper: the double move of castling on the shared side bitboard is undone
by the reverse double move. -/
theorem bbRestore_castle (X : Nat) (hX : X < 2 ^ 64) (kf kt rf rt : Square)
    (h1 : kf.ordinal < 64) (h2 : kt.ordinal < 64) (h3 : rf.ordinal < 64)
    (h4 : rt.ordinal < 64)
    (hkf : X.testBit kf.ordinal = true) (hkt : X.testBit kt.ordinal = false)
    (hrf : X.testBit rf.ordinal = true) (hrt : X.testBit rt.ordinal = false)
    (hkfrf : kf.ordinal ≠ rf.ordinal) (hktrt : kt.ordinal ≠ rt.ordinal) :
    bbSet (bbClear (bbSet (bbClear
      (bbSet (bbClear (bbSet (bbClear X kf) kt) rf) rt) rt) rf) kt) kf =
      X := by
  have hkfkt : kf.ordinal ≠ kt.ordinal := by
    intro h
    rw [← h, hkf] at hkt
    cases hkt
  have hkfrt : kf.ordinal ≠ rt.ordinal := by
    intro h
    rw [← h, hkf] at hrt
    cases hrt
  have hrfkt : rf.ordinal ≠ kt.ordinal := by
    intro h
    rw [← h, hrf] at hkt
    cases hkt
  have hrfrt : rf.ordinal ≠ rt.ordinal := by
    intro h
    rw [← h, hrf] at hrt
    cases hrt
  have b1 : bbClear X kf < 2 ^ 64 := bbClear_lt X kf hX
  have b2 : bbSet (bbClear X kf) kt < 2 ^ 64 := bbSet_lt _ kt b1 h2
  have b3 : bbClear (bbSet (bbClear X kf) kt) rf < 2 ^ 64 := bbClear_lt _ rf b2
  have step1 : bbClear (bbSet
      (bbClear (bbSet (bbClear X kf) kt) rf) rt) rt =
      bbClear (bbSet (bbClear X kf) kt) rf := by
    refine bbRestore_sc _ b3 rt h4 ?_
    rw [bbClear_testBit_ne _ rf rt.ordinal h3 h4 hrfrt,
      bbSet_testBit_ne _ kt rt.ordinal h2 (fun h => hktrt h),
      bbClear_testBit_ne _ kf rt.ordinal h1 h4 hkfrt]
    exact hrt
  rw [step1]
  have step2 : bbSet (bbClear (bbSet (bbClear X kf) kt) rf) rf =
      bbSet (bbClear X kf) kt := by
    refine bbRestore_cs _ b2 rf h3 ?_
    rw [bbSet_testBit_ne _ kt rf.ordinal h2 (fun h => hrfkt h.symm),
      bbClear_testBit_ne _ kf rf.ordinal h1 h3 hkfrf]
    exact hrf
  rw [step2]
  have step3 : bbClear (bbSet (bbClear X kf) kt) kt = bbClear X kf := by
    refine bbRestore_sc _ b1 kt h2 ?_
    rw [bbClear_testBit_ne _ kf kt.ordinal h1 h2 hkfkt]
    exact hkt
  rw [step3]
  exact bbRestore_cs X hX kf h1 hkf

/-- Helper: the en-passant sequence on the shared pawn bitboard (clear the
captured pawn, move the capturing pawn) is undone by the reverse sequence. -/
theorem bbRestore_ep (X : Nat) (hX : X < 2 ^ 64) (c f t : Square)
    (hco : c.ordinal < 64) (hfo : f.ordinal < 64) (hto : t.ordinal < 64)
    (hc : X.testBit c.ordinal = true) (hf : X.testBit f.ordinal = true)
    (ht : X.testBit t.ordinal = false) (hcf : c.ordinal ≠ f.ordinal) :
    bbSet (bbSet (bbClear (bbSet (bbClear (bbClear X c) f) t) t) f) c = X := by
  have hct : c.ordinal ≠ t.ordinal := by
    intro h
    rw [← h, hc] at ht
    cases ht
  have hft : f.ordinal ≠ t.ordinal := by
    intro h
    rw [← h, hf] at ht
    cases ht
  have b1 : bbClear X c < 2 ^ 64 := bbClear_lt X c hX
  have b2 : bbClear (bbClear X c) f < 2 ^ 64 := bbClear_lt _ f b1
  have step1 : bbClear (bbSet (bbClear (bbClear X c) f) t) t =
      bbClear (bbClear X c) f := by
    refine bbRestore_sc _ b2 t hto ?_
    rw [bbClear_testBit_ne _ f t.ordinal hfo hto hft,
      bbClear_testBit_ne _ c t.ordinal hco hto hct]
    exact ht
  rw [step1]
  have step2 : bbSet (bbClear (bbClear X c) f) f = bbClear X c := by
    refine bbRestore_cs _ b1 f hfo ?_
    rw [bbClear_testBit_ne _ c f.ordinal hco hfo hcf]
    exact hf
  rw [step2]
  exact bbRestore_cs X hX c hco hc

/-- Helper: `countOf` on a cons cell. -/
theorem countOf_cons (k0 c0 : Nat) (rest : List (Nat × Nat)) (q : Nat) :
    History.countOf ⟨(k0, c0) :: rest⟩ q =
      if k0 = q then c0 else History.countOf ⟨rest⟩ q := by
  unfold History.countOf
  by_cases h : k0 = q <;> simp [List.find?, h]

/-- Helper: a key below every stored key is absent. -/
theorem countOf_absent (l : List (Nat × Nat)) (q : Nat)
    (h : ∀ e ∈ l, q < e.1) : History.countOf ⟨l⟩ q = 0 := by
  induction l with
  | nil => rfl
  | cons e rest ih =>
    rcases e with ⟨k0, c0⟩
    rw [countOf_cons]
    rw [if_neg (by have := h (k0, c0) (by simp); omega)]
    exact ih (fun e he => h e (by simp [he]))

/-- Helper: pushing and then popping a hash restores every count in the
history map (though a fresh key is retained with an explicit zero count). -/
theorem histCounts_insert_decr :
    ∀ (l : List (Nat × Nat)) (k : Nat),
      List.Pairwise (fun a b : Nat × Nat => a.1 < b.1) l →
      (∀ e ∈ l, e.2 < 256) →
      ∀ q, History.countOf ⟨histDecr (histInsert l k) k⟩ q =
        History.countOf ⟨l⟩ q := by
  intro l
  induction l with
  | nil =>
    intro k _ _ q
    show History.countOf ⟨histDecr [(k, 1)] k⟩ q = History.countOf ⟨[]⟩ q
    rw [show histDecr [(k, 1)] k = [(k, (1 + 255) % 256)] from by
      simp [histDecr]]
    rw [countOf_cons]
    split <;> rfl
  | cons e rest ih =>
    rcases e with ⟨k0, c0⟩
    intro k hsort hcnt q
    have hsTail : List.Pairwise (fun a b : Nat × Nat => a.1 < b.1) rest :=
      hsort.of_cons
    have hcTail : ∀ e ∈ rest, e.2 < 256 := fun e he => hcnt e (by simp [he])
    by_cases hlt : k < k0
    · rw [show histInsert ((k0, c0) :: rest) k = (k, 1) :: (k0, c0) :: rest
        from by simp [histInsert, hlt]]
      rw [show histDecr ((k, 1) :: (k0, c0) :: rest) k =
          (k, (1 + 255) % 256) :: (k0, c0) :: rest from by simp [histDecr]]
      rw [countOf_cons]
      by_cases hq : k = q
      · subst hq
        rw [if_pos rfl]
        rw [countOf_cons, if_neg (by omega)]
        rw [countOf_absent rest k (fun e he => by
          have := (List.pairwise_cons.mp hsort).1 e he
          omega)]
      · rw [if_neg hq]
    · by_cases heq : k = k0
      · subst heq
        rw [show histInsert ((k, c0) :: rest) k =
            (k, (c0 + 1) % 256) :: rest from by simp [histInsert, hlt]]
        rw [show histDecr ((k, (c0 + 1) % 256) :: rest) k =
            (k, ((c0 + 1) % 256 + 255) % 256) :: rest from by simp [histDecr]]
        have hc : c0 < 256 := hcnt (k, c0) (by simp)
        rw [countOf_cons, countOf_cons,
          show ((c0 + 1) % 256 + 255) % 256 = c0 from by omega]
      · rw [show histInsert ((k0, c0) :: rest) k =
            (k0, c0) :: histInsert rest k from by
          simp [histInsert, hlt, heq]]
        rw [show histDecr ((k0, c0) :: histInsert rest k) k =
            (k0, c0) :: histDecr (histInsert rest k) k from by
          simp [histDecr, fun h => heq h]]
        rw [countOf_cons, countOf_cons]
        by_cases hq : k0 = q
        · rw [if_pos hq, if_pos hq]
        · rw [if_neg hq, if_neg hq]
          exact ih k hsTail hcTail q


/-- Helper: the scalar frame is reflexive and composes. -/
theorem scalarFrame_refl (a : Board) : scalarFrame a a :=
  ⟨rfl, rfl, rfl, rfl, rfl, rfl, rfl, rfl, rfl, rfl⟩

/-- Helper: the scalar frame is transitive. -/
theorem scalarFrame_trans {a b c : Board} (h1 : scalarFrame a b)
    (h2 : scalarFrame b c) : scalarFrame a c :=
  ⟨h1.1.trans h2.1, h1.2.1.trans h2.2.1, h1.2.2.1.trans h2.2.2.1,
   h1.2.2.2.1.trans h2.2.2.2.1, h1.2.2.2.2.1.trans h2.2.2.2.2.1,
   h1.2.2.2.2.2.1.trans h2.2.2.2.2.2.1,
   h1.2.2.2.2.2.2.1.trans h2.2.2.2.2.2.2.1,
   h1.2.2.2.2.2.2.2.1.trans h2.2.2.2.2.2.2.2.1,
   h1.2.2.2.2.2.2.2.2.1.trans h2.2.2.2.2.2.2.2.2.1,
   h1.2.2.2.2.2.2.2.2.2.trans h2.2.2.2.2.2.2.2.2.2⟩

/-- Helper: `add_piece` only touches bitboards, hash and evaluation. -/
theorem addPiece_frame (K : ZKeys) (b : Board) (side : Side) (p : Piece)
    (sq : Square) : scalarFrame (b.addPiece K side p sq) b := by
  cases side <;> cases p <;>
    exact ⟨rfl, rfl, rfl, rfl, rfl, rfl, rfl, rfl, rfl, rfl⟩

/-- Helper: `remove_piece` only touches bitboards, hash and evaluation. -/
theorem removePiece_frame (K : ZKeys) (b : Board) (side : Side) (p : Piece)
    (sq : Square) : scalarFrame (b.removePiece K side p sq) b := by
  cases side <;> cases p <;>
    exact ⟨rfl, rfl, rfl, rfl, rfl, rfl, rfl, rfl, rfl, rfl⟩

/-- Helper: `undo_move` keeps the scalar frame. -/
theorem undoMove_frame (K : ZKeys) (b : Board) (side : Side) (p : Piece)
    (fromSq toSq : Square) :
    scalarFrame (b.undoMove K side p fromSq toSq) b := by
  unfold Board.undoMove
  exact scalarFrame_trans
    (addPiece_frame K (b.removePiece K side p toSq) side p fromSq)
    (removePiece_frame K b side p toSq)

/-- Helper: `undo_capture` keeps the scalar frame. -/
theorem undoCapture_frame (K : ZKeys) (b : Board) (side : Side) (p : Piece)
    (sq : Square) : scalarFrame (b.undoCapture K side p sq) b :=
  addPiece_frame K b side p sq

/-- Helper: `undo_regular_move` keeps the scalar frame. -/
theorem undoRegularMove_frame (K : ZKeys) (b : Board) (rm : RegularMove) :
    scalarFrame (b.undoRegularMove K rm) b := by
  unfold Board.undoRegularMove
  rcases h : rm.capturedPiece with _ | cp
  · exact undoMove_frame K b b.sideToNotMove rm.piece rm.fromSq rm.toSq
  · exact scalarFrame_trans
      (undoCapture_frame K _ _ cp rm.toSq)
      (undoMove_frame K b b.sideToNotMove rm.piece rm.fromSq rm.toSq)

/-- Helper: `undo_short_castling_move` keeps the scalar frame. -/
theorem undoShortCastlingMove_frame (K : ZKeys) (b : Board) :
    scalarFrame (b.undoShortCastlingMove K) b := by
  unfold Board.undoShortCastlingMove
  cases hs : b.sideToNotMove <;>
    exact scalarFrame_trans (undoMove_frame K _ _ _ _ _)
      (undoMove_frame K b _ _ _ _)

/-- Helper: `undo_long_castling_move` keeps the scalar frame. -/
theorem undoLongCastlingMove_frame (K : ZKeys) (b : Board) :
    scalarFrame (b.undoLongCastlingMove K) b := by
  unfold Board.undoLongCastlingMove
  cases hs : b.sideToNotMove <;>
    exact scalarFrame_trans (undoMove_frame K _ _ _ _ _)
      (undoMove_frame K b _ _ _ _)

/-- Helper: `undo_ep_capture_move` keeps the scalar frame. -/
theorem undoEpCaptureMove_frame (K : ZKeys) (b : Board)
    (em : EnPassantCaptureMove) :
    scalarFrame (b.undoEpCaptureMove K em) b := by
  unfold Board.undoEpCaptureMove
  exact scalarFrame_trans (undoCapture_frame K _ _ _ _)
    (undoMove_frame K b _ _ _ _)

/-- Helper: `undo_promotion_move` keeps the scalar frame. -/
theorem undoPromotionMove_frame (K : ZKeys) (b : Board)
    (pm : PromotionMove) :
    scalarFrame (b.undoPromotionMove K pm) b := by
  unfold Board.undoPromotionMove Board.undoPromotion
  rcases h : pm.capturedPiece with _ | cp
  · exact scalarFrame_trans (addPiece_frame K _ _ _ _)
      (removePiece_frame K b _ _ _)
  · exact scalarFrame_trans (undoCapture_frame K _ _ _ _)
      (scalarFrame_trans (addPiece_frame K _ _ _ _)
        (removePiece_frame K b _ _ _))

/-- Helper: `castleKeys` of the empty mask is zero. -/
theorem castleKeys_zero (K : ZKeys) : castleKeys K 0 = 0 := by
  simp [castleKeys]

/-- Helper: hoist the conditional of a hash-only update into the field. -/
theorem ite_z (c : Prop) [Decidable c] (B : Board) (x : Nat) :
    (if c then { B with zHash := B.zHash ^^^ x } else B) =
    { B with zHash := B.zHash ^^^ (if c then x else 0) } := by
  split <;> simp

/-- Helper: hoist the conditional of a full-move-number update into the
field. -/
theorem ite_fmn (c : Prop) [Decidable c] (B : Board) (x : Nat) :
    (if c then { B with fullMoveNumber := x } else B) =
    { B with fullMoveNumber := if c then x else B.fullMoveNumber } := by
  split <;> simp

/-- Helper: fold the en-passant hash flip of `push`/`pop` into one XOR. -/
theorem epMatch_z (K : ZKeys) (B : Board) :
    (match B.epSquare with
     | some ep => { B with zHash := B.zHash ^^^ K.enPassantFileKeys ep.file }
     | none => B) =
    { B with zHash := B.zHash ^^^ epKeyOf K B.epSquare } := by
  cases h : B.epSquare with
  | none =>
    simp only [epKeyOf, Nat.xor_zero]
    rw [← h]
  | some e => simp [epKeyOf]

/-- Helper: `pop` factors through `popCont`. -/
theorem pop_eq_popCont (K : ZKeys) (b' : Board) (m : Move) (u : MoveUndoInfo)
    (rest : List (Move × MoveUndoInfo))
    (hstack : b'.moveStack = (m, u) :: rest) :
    b'.pop K = popCont K u (match m with
      | .Regular rm => ({ b' with
          moveStack := rest,
          hashHistory := b'.hashHistory.pop b'.zHash }).undoRegularMove K rm
      | .ShortCastling _ => ({ b' with
          moveStack := rest,
          hashHistory := b'.hashHistory.pop b'.zHash }).undoShortCastlingMove K
      | .LongCastling _ => ({ b' with
          moveStack := rest,
          hashHistory := b'.hashHistory.pop b'.zHash }).undoLongCastlingMove K
      | .EnPassantCapture em => ({ b' with
          moveStack := rest,
          hashHistory := b'.hashHistory.pop b'.zHash }).undoEpCaptureMove K em
      | .Promotion pm => ({ b' with
          moveStack := rest,
          hashHistory := b'.hashHistory.pop b'.zHash }).undoPromotionMove K pm) := by
  obtain ⟨f1, f2, f3, f4, f5, f6, f7, f8, f9, f10, f11, f12, f13, f14, f15,
    f16, f17, f18, f19, f20⟩ := b'
  simp only at hstack
  subst hstack
  cases m <;> rfl

/-- Helper: `push` factors through `pushTail`. -/
theorem push_eq_pushTail (K : ZKeys) (b : Board) (m : Move) :
    b.push K m = pushTail K m
      ⟨b.castlingRights, b.halfMoveClock, b.epSquare, b.isThreefoldRepetition,
        b.passedPawns⟩
      (let b1 : Board := match b.epSquare with
        | some ep => { b with
            zHash := b.zHash ^^^ K.enPassantFileKeys ep.file, epSquare := none }
        | none => { b with epSquare := none }
      match m with
      | .Regular rm =>
        let x := b1.applyRegularMove K rm
        if rm.piece = Piece.Pawn || rm.isCapture then
          { x with halfMoveClock := 0 }
        else { x with halfMoveClock := (x.halfMoveClock + 1) % 256 }
      | .ShortCastling _ =>
        let x := b1.applyShortCastlingMove K
        { x with halfMoveClock := (x.halfMoveClock + 1) % 256 }
      | .LongCastling _ =>
        let x := b1.applyLongCastlingMove K
        { x with halfMoveClock := (x.halfMoveClock + 1) % 256 }
      | .EnPassantCapture em =>
        let x := b1.applyEpCaptureMove K em
        { x with halfMoveClock := 0 }
      | .Promotion pm =>
        let x := b1.applyPromotionMove K pm
        { x with halfMoveClock := 0 }) := by
  obtain ⟨f1, f2, f3, f4, f5, f6, f7, f8, f9, f10, f11, f12, f13, f14, f15,
    f16, f17, f18, f19, f20⟩ := b
  cases f15 <;> cases m <;> rfl


/-- Helper: the castling-rights difference step as one record update. -/
theorem diffStep_spec (K : ZKeys) (c0 : Nat) (B : Board) :
    diffStep K c0 B =
    { B with castlingRights := c0,
             zHash := B.zHash ^^^ castleKeys K (B.castlingRights ^^^ c0) } := by
  unfold diffStep
  by_cases hd : ((B.castlingRights ^^^ c0) != 0) = true
  · rw [if_pos hd]
    by_cases h1 : ((B.castlingRights ^^^ c0) &&&
        shortCastlingFlag Side.White != 0) = true <;>
    by_cases h2 : ((B.castlingRights ^^^ c0) &&&
        longCastlingFlag Side.White != 0) = true <;>
    by_cases h3 : ((B.castlingRights ^^^ c0) &&&
        shortCastlingFlag Side.Black != 0) = true <;>
    by_cases h4 : ((B.castlingRights ^^^ c0) &&&
        longCastlingFlag Side.Black != 0) = true <;>
      simp [h1, h2, h3, h4, castleKeys, Nat.xor_zero, Nat.xor_assoc]
  · rw [if_neg hd]
    have h0 : B.castlingRights = c0 := by
      have := hd
      simp only [bne_iff_ne, ne_eq, Decidable.not_not] at this
      exact Nat.xor_eq_zero.mp this
    rw [← h0, Nat.xor_self, castleKeys_zero, Nat.xor_zero]

/-- Helper: the rest of the `pop` tail as one record update. -/
theorem popCont2_spec (K : ZKeys) (u : MoveUndoInfo) (D : Board) :
    popCont2 K u D = { D with
      epSquare := u.epSquare,
      halfMoveClock := u.halfMoveClock,
      sideToMove := D.sideToNotMove,
      sideToNotMove := D.sideToMove,
      fullMoveNumber := if D.sideToNotMove = Side.Black
        then (D.fullMoveNumber + 65535) % 65536 else D.fullMoveNumber,
      isThreefoldRepetition := u.isThreefoldRepetition,
      passedPawns := u.passedPawns,
      zHash := D.zHash ^^^
        epKeyOf K D.epSquare ^^^ epKeyOf K u.epSquare ^^^
        K.blackToMoveKey } := by
  unfold popCont2
  rcases hep1 : D.epSquare with _ | e1 <;>
    rcases hep2 : u.epSquare with _ | e2 <;>
      by_cases hsd : D.sideToNotMove = Side.Black <;>
        simp [epKeyOf, hsd, Nat.xor_zero, Nat.xor_assoc]

/-- Helper: the whole `pop` tail as one record update. -/
theorem popCont_spec (K : ZKeys) (u : MoveUndoInfo) (U : Board) :
    popCont K u U = { U with
      castlingRights := u.castlingRights,
      epSquare := u.epSquare,
      halfMoveClock := u.halfMoveClock,
      sideToMove := U.sideToNotMove,
      sideToNotMove := U.sideToMove,
      fullMoveNumber := if U.sideToNotMove = Side.Black
        then (U.fullMoveNumber + 65535) % 65536 else U.fullMoveNumber,
      isThreefoldRepetition := u.isThreefoldRepetition,
      passedPawns := u.passedPawns,
      zHash := U.zHash ^^^
        castleKeys K (U.castlingRights ^^^ u.castlingRights) ^^^
        epKeyOf K U.epSquare ^^^ epKeyOf K u.epSquare ^^^
        K.blackToMoveKey } := by
  unfold popCont
  rw [diffStep_spec, popCont2_spec]

/-- Helper: the `push` tail as one record update. -/
theorem pushTail_spec (K : ZKeys) (m : Move) (undo : MoveUndoInfo)
    (A : Board) :
    pushTail K m undo A = { A with
      passedPawns := if m.isPawnInvolved
        then A.updatePassedPawns.passedPawns else A.passedPawns,
      moveStack := (m, undo) :: A.moveStack,
      sideToMove := A.sideToNotMove,
      sideToNotMove := A.sideToMove,
      zHash := A.zHash ^^^ K.blackToMoveKey,
      fullMoveNumber := if A.sideToNotMove = Side.White
        then (A.fullMoveNumber + 1) % 65536 else A.fullMoveNumber,
      hashHistory := A.hashHistory.push (A.zHash ^^^ K.blackToMoveKey),
      isThreefoldRepetition := if 3 ≤
          (A.hashHistory.push (A.zHash ^^^ K.blackToMoveKey)).countOf
            (A.zHash ^^^ K.blackToMoveKey)
        then true else A.isThreefoldRepetition } := by
  unfold pushTail
  by_cases hpw : m.isPawnInvolved = true <;>
    by_cases hw : A.sideToNotMove = Side.White <;>
      by_cases h3 : 3 ≤
        (A.hashHistory.push (A.zHash ^^^ K.blackToMoveKey)).countOf
          (A.zHash ^^^ K.blackToMoveKey) <;>
        simp [hpw, hw, h3, Board.hash, Board.updatePassedPawns]



/-- Helper: `pushTail` pushes the move onto the stack. -/
theorem pushTail_moveStack (K : ZKeys) (m : Move) (u : MoveUndoInfo)
    (A : Board) : (pushTail K m u A).moveStack = (m, u) :: A.moveStack := by
  rw [pushTail_spec]

/-- Helper: `pop` after `pushTail` dispatches on the pushed move. -/
theorem pop_pushTail (K : ZKeys) (m : Move) (u : MoveUndoInfo) (A : Board) :
    (pushTail K m u A).pop K = popCont K u (match m with
      | .Regular rm => ({ pushTail K m u A with
          moveStack := A.moveStack,
          hashHistory := (pushTail K m u A).hashHistory.pop
            (pushTail K m u A).zHash }).undoRegularMove K rm
      | .ShortCastling _ => ({ pushTail K m u A with
          moveStack := A.moveStack,
          hashHistory := (pushTail K m u A).hashHistory.pop
            (pushTail K m u A).zHash }).undoShortCastlingMove K
      | .LongCastling _ => ({ pushTail K m u A with
          moveStack := A.moveStack,
          hashHistory := (pushTail K m u A).hashHistory.pop
            (pushTail K m u A).zHash }).undoLongCastlingMove K
      | .EnPassantCapture em => ({ pushTail K m u A with
          moveStack := A.moveStack,
          hashHistory := (pushTail K m u A).hashHistory.pop
            (pushTail K m u A).zHash }).undoEpCaptureMove K em
      | .Promotion pm => ({ pushTail K m u A with
          moveStack := A.moveStack,
          hashHistory := (pushTail K m u A).hashHistory.pop
            (pushTail K m u A).zHash }).undoPromotionMove K pm) := by
  cases m <;>
    exact pop_eq_popCont K _ _ _ _ (pushTail_moveStack K _ _ _)

/-- Helper: the castling double move on the shared side bitboard is undone by
king-then-rook reverse moves (the order `undo_*_castling_move` uses). -/
theorem bbRestore_castleU (X : Nat) (hX : X < 2 ^ 64) (kf kt rf rt : Square)
    (h1 : kf.ordinal < 64) (h2 : kt.ordinal < 64) (h3 : rf.ordinal < 64)
    (h4 : rt.ordinal < 64)
    (hkf : X.testBit kf.ordinal = true) (hkt : X.testBit kt.ordinal = false)
    (hrf : X.testBit rf.ordinal = true) (hrt : X.testBit rt.ordinal = false)
    (hkfrf : kf.ordinal ≠ rf.ordinal) (hktrt : kt.ordinal ≠ rt.ordinal) :
    bbSet (bbClear (bbSet (bbClear
      (bbSet (bbClear (bbSet (bbClear X kf) kt) rf) rt) kt) kf) rt) rf =
      X := by
  have hkfkt : kf.ordinal ≠ kt.ordinal := fun h => by
    rw [← h, hkf] at hkt; cases hkt
  have hkfrt : kf.ordinal ≠ rt.ordinal := fun h => by
    rw [← h, hkf] at hrt; cases hrt
  have hrfkt : rf.ordinal ≠ kt.ordinal := fun h => by
    rw [← h, hrf] at hkt; cases hkt
  have hrfrt : rf.ordinal ≠ rt.ordinal := fun h => by
    rw [← h, hrf] at hrt; cases hrt
  apply Nat.eq_of_testBit_eq
  intro k
  by_cases hk : k < 64
  · rw [bbSet_testBit _ _ h3, bbClear_testBit _ _ h4, bbSet_testBit _ _ h1,
      bbClear_testBit _ _ h2, bbSet_testBit _ _ h4, bbClear_testBit _ _ h3,
      bbSet_testBit _ _ h2, bbClear_testBit _ _ h1]
    by_cases e1 : kf.ordinal = k <;> by_cases e2 : kt.ordinal = k <;>
      by_cases e3 : rf.ordinal = k <;> by_cases e4 : rt.ordinal = k <;>
        simp_all
  · rw [bbSet_testBit _ _ h3, bbClear_testBit _ _ h4, bbSet_testBit _ _ h1,
      bbClear_testBit _ _ h2, bbSet_testBit _ _ h4, bbClear_testBit _ _ h3,
      bbSet_testBit _ _ h2, bbClear_testBit _ _ h1,
      testBit_high X hX k (by omega)]
    have n1 : kf.ordinal ≠ k := by omega
    have n2 : kt.ordinal ≠ k := by omega
    have n3 : rf.ordinal ≠ k := by omega
    have n4 : rt.ordinal ≠ k := by omega
    simp [n1, n2, n3, n4, hk]

/-- Helper: `apply_short_castling_move` as one record update, White to
move. -/
theorem applyShortCastlingMove_White_spec (K : ZKeys) (b : Board)
    (hstm : b.sideToMove = Side.White) :
    b.applyShortCastlingMove K = { b with
      whitePieces :=
        bbSet (bbClear (bbSet (bbClear b.whitePieces ⟨4⟩) ⟨6⟩) ⟨7⟩) ⟨5⟩,
      rooks := bbSet (bbClear b.rooks ⟨7⟩) ⟨5⟩,
      kings := bbSet (bbClear b.kings ⟨4⟩) ⟨6⟩,
      castlingRights := flagClear (flagClear b.castlingRights 4) 1,
      zHash := b.zHash ^^^ K.pieceKeys Side.White Piece.King 4 ^^^
        K.pieceKeys Side.White Piece.King 6 ^^^
        flagKey (K.longCastlingKeys Side.White) b.castlingRights 4 ^^^
        flagKey (K.shortCastlingKeys Side.White) b.castlingRights 1 ^^^
        K.pieceKeys Side.White Piece.Rook 7 ^^^
        K.pieceKeys Side.White Piece.Rook 5,
      pstEval := b.pstEval - pstSigned Side.White Piece.King ⟨4⟩ +
        pstSigned Side.White Piece.King ⟨6⟩ -
        pstSigned Side.White Piece.Rook ⟨7⟩ +
        pstSigned Side.White Piece.Rook ⟨5⟩ } := by
  obtain ⟨f1, f2, f3, f4, f5, f6, f7, f8, f9, f10, f11, f12, f13, f14, f15,
    f16, f17, f18, f19, f20⟩ := b
  have h1 : f1 = Side.White := hstm
  subst h1
  by_cases hL : (f12 &&& 4 != 0) = true <;>
    by_cases hS : (f12 &&& 1 != 0) = true <;>
      simp only [Board.applyShortCastlingMove, shortCastlingSquares,
        Board.applyMove, Board.removePiece, Board.addPiece, flagClear,
        flagKey, u8Not, longCastlingFlag, shortCastlingFlag, backRank,
        hL, hS, Nat.and_assoc, Nat.and_zero, Nat.xor_zero,
        Square.rank, Square.file, Nat.reduceDiv, Nat.reduceMod,
        bne_self_eq_false, Bool.false_eq_true, Nat.reduceEqDiff,
        show ((255 : Nat) ^^^ 4) &&& 1 = 1 from by decide,
        show ((255 : Nat) ^^^ 1) &&& 1 = 0 from by decide,
        reduceIte]

/-- Helper: `undo_short_castling_move` as one record update, White moved. -/
theorem undoShortCastlingMove_White_spec (K : ZKeys) (b : Board)
    (hsnm : b.sideToNotMove = Side.White) :
    b.undoShortCastlingMove K = { b with
      whitePieces :=
        bbSet (bbClear (bbSet (bbClear b.whitePieces ⟨6⟩) ⟨4⟩) ⟨5⟩) ⟨7⟩,
      rooks := bbSet (bbClear b.rooks ⟨5⟩) ⟨7⟩,
      kings := bbSet (bbClear b.kings ⟨6⟩) ⟨4⟩,
      zHash := b.zHash ^^^ K.pieceKeys Side.White Piece.King 6 ^^^
        K.pieceKeys Side.White Piece.King 4 ^^^
        K.pieceKeys Side.White Piece.Rook 5 ^^^
        K.pieceKeys Side.White Piece.Rook 7,
      pstEval := b.pstEval - pstSigned Side.White Piece.King ⟨6⟩ +
        pstSigned Side.White Piece.King ⟨4⟩ -
        pstSigned Side.White Piece.Rook ⟨5⟩ +
        pstSigned Side.White Piece.Rook ⟨7⟩ } := by
  obtain ⟨f1, f2, f3, f4, f5, f6, f7, f8, f9, f10, f11, f12, f13, f14, f15,
    f16, f17, f18, f19, f20⟩ := b
  have h2 : f2 = Side.White := hsnm
  subst h2
  rfl

/-- Helper: the castling keys the rights diff names are exactly the keys the
White king-move clears flipped. -/
theorem castleKeys_flagClear_shortW (K : ZKeys) (c : Nat) :
    castleKeys K (flagClear (flagClear c 4) 1 ^^^ c) =
      flagKey (K.shortCastlingKeys Side.White) c 1 ^^^
      flagKey (K.longCastlingKeys Side.White) c 4 := by
  by_cases hL : (c &&& 4 != 0) = true <;>
    by_cases hS : (c &&& 1 != 0) = true <;>
      simp only [castleKeys, flagClear, flagKey, u8Not, shortCastlingFlag,
        longCastlingFlag, hL, hS, reduceIte, Nat.reduceXor,
        Nat.and_assoc, Nat.and_xor_distrib_right, Nat.and_zero, Nat.zero_and,
        show (251 : Nat) &&& 254 = 250 from by decide,
        show (250 : Nat) &&& 1 = 0 from by decide,
        show (250 : Nat) &&& 2 = 2 from by decide,
        show (250 : Nat) &&& 4 = 0 from by decide,
        show (250 : Nat) &&& 8 = 8 from by decide,
        show (251 : Nat) &&& 1 = 1 from by decide,
        show (251 : Nat) &&& 2 = 2 from by decide,
        show (251 : Nat) &&& 4 = 0 from by decide,
        show (251 : Nat) &&& 8 = 8 from by decide,
        show (254 : Nat) &&& 1 = 0 from by decide,
        show (254 : Nat) &&& 2 = 2 from by decide,
        show (254 : Nat) &&& 4 = 4 from by decide,
        show (254 : Nat) &&& 8 = 8 from by decide,
        Nat.xor_self, Nat.xor_zero, Nat.zero_xor, bne_self_eq_false,
        Bool.false_eq_true]

/-- Helper: `apply_short_castling_move` as one record update, Black to
move. -/
theorem applyShortCastlingMove_Black_spec (K : ZKeys) (b : Board)
    (hstm : b.sideToMove = Side.Black) :
    b.applyShortCastlingMove K = { b with
      blackPieces :=
        bbSet (bbClear (bbSet (bbClear b.blackPieces ⟨60⟩) ⟨62⟩) ⟨63⟩) ⟨61⟩,
      rooks := bbSet (bbClear b.rooks ⟨63⟩) ⟨61⟩,
      kings := bbSet (bbClear b.kings ⟨60⟩) ⟨62⟩,
      castlingRights := flagClear (flagClear b.castlingRights 8) 2,
      zHash := b.zHash ^^^ K.pieceKeys Side.Black Piece.King 60 ^^^
        K.pieceKeys Side.Black Piece.King 62 ^^^
        flagKey (K.longCastlingKeys Side.Black) b.castlingRights 8 ^^^
        flagKey (K.shortCastlingKeys Side.Black) b.castlingRights 2 ^^^
        K.pieceKeys Side.Black Piece.Rook 63 ^^^
        K.pieceKeys Side.Black Piece.Rook 61,
      pstEval := b.pstEval - pstSigned Side.Black Piece.King ⟨60⟩ +
        pstSigned Side.Black Piece.King ⟨62⟩ -
        pstSigned Side.Black Piece.Rook ⟨63⟩ +
        pstSigned Side.Black Piece.Rook ⟨61⟩ } := by
  obtain ⟨f1, f2, f3, f4, f5, f6, f7, f8, f9, f10, f11, f12, f13, f14, f15,
    f16, f17, f18, f19, f20⟩ := b
  have h1 : f1 = Side.Black := hstm
  subst h1
  by_cases hL : (f12 &&& 8 != 0) = true <;>
    by_cases hS : (f12 &&& 2 != 0) = true <;>
      simp only [Board.applyShortCastlingMove, shortCastlingSquares,
        Board.applyMove, Board.removePiece, Board.addPiece, flagClear,
        flagKey, u8Not, longCastlingFlag, shortCastlingFlag, backRank,
        hL, hS, Nat.and_assoc, Nat.and_zero, Nat.xor_zero,
        Square.rank, Square.file, Nat.reduceDiv, Nat.reduceMod,
        bne_self_eq_false, Bool.false_eq_true, Nat.reduceEqDiff,
        eq_self_iff_true, if_true, if_false,
        show ((255 : Nat) ^^^ 8) &&& 2 = 2 from by decide,
        show ((255 : Nat) ^^^ 2) &&& 2 = 0 from by decide,
        reduceIte]

/-- Helper: `undo_short_castling_move` as one record update, Black moved. -/
theorem undoShortCastlingMove_Black_spec (K : ZKeys) (b : Board)
    (hsnm : b.sideToNotMove = Side.Black) :
    b.undoShortCastlingMove K = { b with
      blackPieces :=
        bbSet (bbClear (bbSet (bbClear b.blackPieces ⟨62⟩) ⟨60⟩) ⟨61⟩) ⟨63⟩,
      rooks := bbSet (bbClear b.rooks ⟨61⟩) ⟨63⟩,
      kings := bbSet (bbClear b.kings ⟨62⟩) ⟨60⟩,
      zHash := b.zHash ^^^ K.pieceKeys Side.Black Piece.King 62 ^^^
        K.pieceKeys Side.Black Piece.King 60 ^^^
        K.pieceKeys Side.Black Piece.Rook 61 ^^^
        K.pieceKeys Side.Black Piece.Rook 63,
      pstEval := b.pstEval - pstSigned Side.Black Piece.King ⟨62⟩ +
        pstSigned Side.Black Piece.King ⟨60⟩ -
        pstSigned Side.Black Piece.Rook ⟨61⟩ +
        pstSigned Side.Black Piece.Rook ⟨63⟩ } := by
  obtain ⟨f1, f2, f3, f4, f5, f6, f7, f8, f9, f10, f11, f12, f13, f14, f15,
    f16, f17, f18, f19, f20⟩ := b
  have h2 : f2 = Side.Black := hsnm
  subst h2
  rfl

/-- Helper: the castling keys the rights diff names are exactly the keys the
Black king-move clears flipped. -/
theorem castleKeys_flagClear_shortB (K : ZKeys) (c : Nat) :
    castleKeys K (flagClear (flagClear c 8) 2 ^^^ c) =
      flagKey (K.shortCastlingKeys Side.Black) c 2 ^^^
      flagKey (K.longCastlingKeys Side.Black) c 8 := by
  by_cases hL : (c &&& 8 != 0) = true <;>
    by_cases hS : (c &&& 2 != 0) = true <;>
      simp only [castleKeys, flagClear, flagKey, u8Not, shortCastlingFlag,
        longCastlingFlag, hL, hS, reduceIte, Nat.reduceXor,
        Nat.and_assoc, Nat.and_xor_distrib_right, Nat.and_zero, Nat.zero_and,
        show (247 : Nat) &&& 253 = 245 from by decide,
        show (245 : Nat) &&& 1 = 1 from by decide,
        show (245 : Nat) &&& 2 = 0 from by decide,
        show (245 : Nat) &&& 4 = 4 from by decide,
        show (245 : Nat) &&& 8 = 0 from by decide,
        show (247 : Nat) &&& 1 = 1 from by decide,
        show (247 : Nat) &&& 2 = 2 from by decide,
        show (247 : Nat) &&& 4 = 4 from by decide,
        show (247 : Nat) &&& 8 = 0 from by decide,
        show (253 : Nat) &&& 1 = 1 from by decide,
        show (253 : Nat) &&& 2 = 0 from by decide,
        show (253 : Nat) &&& 4 = 4 from by decide,
        show (253 : Nat) &&& 8 = 8 from by decide,
        Nat.xor_self, Nat.xor_zero, Nat.zero_xor, bne_self_eq_false,
        Bool.false_eq_true]

theorem restores_short (K : ZKeys) (b : Board) (s : Side)
    (hsafe : pushPopSafe b (.ShortCastling s)) :
    restores K b (.ShortCastling s) := by
  obtain ⟨hside0, hfmn, hbb, hhist, hcomp⟩ := hsafe
  obtain ⟨hbw, hbk2, hbp, hbbi, hbn, hbr, hbq, hbki⟩ := hbb
  obtain ⟨hh1, hh2⟩ := hhist
  dsimp only [restores]
  rw [push_eq_pushTail K b (.ShortCastling s)]
  rcases hstm : b.sideToMove with _ | _ <;>
    rw [hstm] at hside0 hcomp <;>
    simp only [reduceIte, reduceCtorEq, eq_self_iff_true, if_true,
      if_false, shortCastlingSquares, Board.getPieces] at hside0 hcomp
  case White =>
    obtain ⟨hc1, hc2, hc3, hc4, hc5, hc6, hc7, hc8⟩ := hcomp
    rcases hep : b.epSquare with _ | e <;>
      (dsimp only
       simp only [applyShortCastlingMove_White_spec, hstm, hside0]
       rw [pop_pushTail]
       dsimp only
       simp only [pushTail_spec, Move.isPawnInvolved, reduceIte]
       simp only [undoShortCastlingMove_White_spec]
       simp only [popCont_spec, reduceIte, reduceCtorEq, epKeyOf]
       refine ⟨trivial, trivial, ?_, trivial, trivial, trivial, trivial,
         ?_, trivial, ?_, trivial, trivial, trivial, trivial, trivial,
         ?_, ?_, trivial, trivial, ?_⟩
       · exact bbRestore_castleU b.whitePieces hbw ⟨4⟩ ⟨6⟩ ⟨7⟩ ⟨5⟩
           (by decide) (by decide) (by decide) (by decide)
           hc1 hc3 hc5 hc7 (by decide) (by decide)
       · exact bbRestore_move b.rooks hbr ⟨7⟩ ⟨5⟩ (by decide) (by decide)
           hc6 hc8
       · exact bbRestore_move b.kings hbki ⟨4⟩ ⟨6⟩ (by decide) (by decide)
           hc2 hc4
       · rw [castleKeys_flagClear_shortW]
         simp only [Nat.xor_assoc, Nat.xor_comm, natXor_left_comm,
           Nat.xor_cancel_left, Nat.xor_self, Nat.xor_zero, Nat.zero_xor]
       · ring
       · intro q
         dsimp only [History.push, History.pop]
         exact histCounts_insert_decr _ _ hh1 hh2 q)
  case Black =>
    obtain ⟨hc1, hc2, hc3, hc4, hc5, hc6, hc7, hc8⟩ := hcomp
    rcases hep : b.epSquare with _ | e <;>
      (dsimp only
       simp only [applyShortCastlingMove_Black_spec, hstm, hside0]
       rw [pop_pushTail]
       dsimp only
       simp only [pushTail_spec, Move.isPawnInvolved, reduceIte,
         reduceCtorEq, eq_self_iff_true, if_true, if_false]
       simp only [undoShortCastlingMove_Black_spec]
       simp only [popCont_spec, reduceIte, reduceCtorEq, eq_self_iff_true,
         if_true, if_false, epKeyOf]
       refine ⟨trivial, trivial, trivial, ?_, trivial, trivial, trivial,
         ?_, trivial, ?_, trivial, trivial, trivial, ?_, trivial,
         ?_, ?_, trivial, trivial, ?_⟩
       · exact bbRestore_castleU b.blackPieces hbk2 ⟨60⟩ ⟨62⟩ ⟨63⟩ ⟨61⟩
           (by decide) (by decide) (by decide) (by decide)
           hc1 hc3 hc5 hc7 (by decide) (by decide)
       · exact bbRestore_move b.rooks hbr ⟨63⟩ ⟨61⟩ (by decide) (by decide)
           hc6 hc8
       · exact bbRestore_move b.kings hbki ⟨60⟩ ⟨62⟩ (by decide) (by decide)
           hc2 hc4
       · omega
       · rw [castleKeys_flagClear_shortB]
         simp only [Nat.xor_assoc, Nat.xor_comm, natXor_left_comm,
           Nat.xor_cancel_left, Nat.xor_self, Nat.xor_zero, Nat.zero_xor]
       · ring
       · intro q
         dsimp only [History.push, History.pop]
         exact histCounts_insert_decr _ _ hh1 hh2 q)

/-- Helper: `apply_long_castling_move` as one record update, White to
move. -/
theorem applyLongCastlingMove_White_spec (K : ZKeys) (b : Board)
    (hstm : b.sideToMove = Side.White) :
    b.applyLongCastlingMove K = { b with
      whitePieces :=
        bbSet (bbClear (bbSet (bbClear b.whitePieces ⟨4⟩) ⟨2⟩) ⟨0⟩) ⟨3⟩,
      rooks := bbSet (bbClear b.rooks ⟨0⟩) ⟨3⟩,
      kings := bbSet (bbClear b.kings ⟨4⟩) ⟨2⟩,
      castlingRights := flagClear (flagClear b.castlingRights 4) 1,
      zHash := b.zHash ^^^ K.pieceKeys Side.White Piece.King 4 ^^^
        K.pieceKeys Side.White Piece.King 2 ^^^
        flagKey (K.longCastlingKeys Side.White) b.castlingRights 4 ^^^
        flagKey (K.shortCastlingKeys Side.White) b.castlingRights 1 ^^^
        K.pieceKeys Side.White Piece.Rook 0 ^^^
        K.pieceKeys Side.White Piece.Rook 3,
      pstEval := b.pstEval - pstSigned Side.White Piece.King ⟨4⟩ +
        pstSigned Side.White Piece.King ⟨2⟩ -
        pstSigned Side.White Piece.Rook ⟨0⟩ +
        pstSigned Side.White Piece.Rook ⟨3⟩ } := by
  obtain ⟨f1, f2, f3, f4, f5, f6, f7, f8, f9, f10, f11, f12, f13, f14, f15,
    f16, f17, f18, f19, f20⟩ := b
  have h1 : f1 = Side.White := hstm
  subst h1
  by_cases hL : (f12 &&& 4 != 0) = true <;>
    by_cases hS : (f12 &&& 1 != 0) = true <;>
      simp only [Board.applyLongCastlingMove, longCastlingSquares,
        Board.applyMove, Board.removePiece, Board.addPiece, flagClear,
        flagKey, u8Not, longCastlingFlag, shortCastlingFlag, backRank,
        hL, hS, Nat.and_assoc, Nat.and_zero, Nat.xor_zero,
        Square.rank, Square.file, Nat.reduceDiv, Nat.reduceMod,
        bne_self_eq_false, Bool.false_eq_true, Nat.reduceEqDiff,
        eq_self_iff_true, if_true, if_false,
        show ((255 : Nat) ^^^ 4) &&& 1 = 1 from by decide,
        show ((255 : Nat) ^^^ 1) &&& 1 = 0 from by decide,
        show ((255 : Nat) ^^^ 4) &&& 4 = 0 from by decide,
        show ((255 : Nat) ^^^ 1) &&& 4 = 4 from by decide,
        reduceIte]

/-- Helper: `undo_long_castling_move` as one record update, White moved. -/
theorem undoLongCastlingMove_White_spec (K : ZKeys) (b : Board)
    (hsnm : b.sideToNotMove = Side.White) :
    b.undoLongCastlingMove K = { b with
      whitePieces :=
        bbSet (bbClear (bbSet (bbClear b.whitePieces ⟨2⟩) ⟨4⟩) ⟨3⟩) ⟨0⟩,
      rooks := bbSet (bbClear b.rooks ⟨3⟩) ⟨0⟩,
      kings := bbSet (bbClear b.kings ⟨2⟩) ⟨4⟩,
      zHash := b.zHash ^^^ K.pieceKeys Side.White Piece.King 2 ^^^
        K.pieceKeys Side.White Piece.King 4 ^^^
        K.pieceKeys Side.White Piece.Rook 3 ^^^
        K.pieceKeys Side.White Piece.Rook 0,
      pstEval := b.pstEval - pstSigned Side.White Piece.King ⟨2⟩ +
        pstSigned Side.White Piece.King ⟨4⟩ -
        pstSigned Side.White Piece.Rook ⟨3⟩ +
        pstSigned Side.White Piece.Rook ⟨0⟩ } := by
  obtain ⟨f1, f2, f3, f4, f5, f6, f7, f8, f9, f10, f11, f12, f13, f14, f15,
    f16, f17, f18, f19, f20⟩ := b
  have h2 : f2 = Side.White := hsnm
  subst h2
  rfl

/-- Helper: `apply_long_castling_move` as one record update, Black to
move. -/
theorem applyLongCastlingMove_Black_spec (K : ZKeys) (b : Board)
    (hstm : b.sideToMove = Side.Black) :
    b.applyLongCastlingMove K = { b with
      blackPieces :=
        bbSet (bbClear (bbSet (bbClear b.blackPieces ⟨60⟩) ⟨58⟩) ⟨56⟩) ⟨59⟩,
      rooks := bbSet (bbClear b.rooks ⟨56⟩) ⟨59⟩,
      kings := bbSet (bbClear b.kings ⟨60⟩) ⟨58⟩,
      castlingRights := flagClear (flagClear b.castlingRights 8) 2,
      zHash := b.zHash ^^^ K.pieceKeys Side.Black Piece.King 60 ^^^
        K.pieceKeys Side.Black Piece.King 58 ^^^
        flagKey (K.longCastlingKeys Side.Black) b.castlingRights 8 ^^^
        flagKey (K.shortCastlingKeys Side.Black) b.castlingRights 2 ^^^
        K.pieceKeys Side.Black Piece.Rook 56 ^^^
        K.pieceKeys Side.Black Piece.Rook 59,
      pstEval := b.pstEval - pstSigned Side.Black Piece.King ⟨60⟩ +
        pstSigned Side.Black Piece.King ⟨58⟩ -
        pstSigned Side.Black Piece.Rook ⟨56⟩ +
        pstSigned Side.Black Piece.Rook ⟨59⟩ } := by
  obtain ⟨f1, f2, f3, f4, f5, f6, f7, f8, f9, f10, f11, f12, f13, f14, f15,
    f16, f17, f18, f19, f20⟩ := b
  have h1 : f1 = Side.Black := hstm
  subst h1
  by_cases hL : (f12 &&& 8 != 0) = true <;>
    by_cases hS : (f12 &&& 2 != 0) = true <;>
      simp only [Board.applyLongCastlingMove, longCastlingSquares,
        Board.applyMove, Board.removePiece, Board.addPiece, flagClear,
        flagKey, u8Not, longCastlingFlag, shortCastlingFlag, backRank,
        hL, hS, Nat.and_assoc, Nat.and_zero, Nat.xor_zero,
        Square.rank, Square.file, Nat.reduceDiv, Nat.reduceMod,
        bne_self_eq_false, Bool.false_eq_true, Nat.reduceEqDiff,
        eq_self_iff_true, if_true, if_false,
        show ((255 : Nat) ^^^ 8) &&& 2 = 2 from by decide,
        show ((255 : Nat) ^^^ 2) &&& 2 = 0 from by decide,
        show ((255 : Nat) ^^^ 8) &&& 8 = 0 from by decide,
        show ((255 : Nat) ^^^ 2) &&& 8 = 8 from by decide,
        reduceIte]

/-- Helper: `undo_long_castling_move` as one record update, Black moved. -/
theorem undoLongCastlingMove_Black_spec (K : ZKeys) (b : Board)
    (hsnm : b.sideToNotMove = Side.Black) :
    b.undoLongCastlingMove K = { b with
      blackPieces :=
        bbSet (bbClear (bbSet (bbClear b.blackPieces ⟨58⟩) ⟨60⟩) ⟨59⟩) ⟨56⟩,
      rooks := bbSet (bbClear b.rooks ⟨59⟩) ⟨56⟩,
      kings := bbSet (bbClear b.kings ⟨58⟩) ⟨60⟩,
      zHash := b.zHash ^^^ K.pieceKeys Side.Black Piece.King 58 ^^^
        K.pieceKeys Side.Black Piece.King 60 ^^^
        K.pieceKeys Side.Black Piece.Rook 59 ^^^
        K.pieceKeys Side.Black Piece.Rook 56,
      pstEval := b.pstEval - pstSigned Side.Black Piece.King ⟨58⟩ +
        pstSigned Side.Black Piece.King ⟨60⟩ -
        pstSigned Side.Black Piece.Rook ⟨59⟩ +
        pstSigned Side.Black Piece.Rook ⟨56⟩ } := by
  obtain ⟨f1, f2, f3, f4, f5, f6, f7, f8, f9, f10, f11, f12, f13, f14, f15,
    f16, f17, f18, f19, f20⟩ := b
  have h2 : f2 = Side.Black := hsnm
  subst h2
  rfl

theorem restores_long (K : ZKeys) (b : Board) (s : Side)
    (hsafe : pushPopSafe b (.LongCastling s)) :
    restores K b (.LongCastling s) := by
  obtain ⟨hside0, hfmn, hbb, hhist, hcomp⟩ := hsafe
  obtain ⟨hbw, hbk2, hbp, hbbi, hbn, hbr, hbq, hbki⟩ := hbb
  obtain ⟨hh1, hh2⟩ := hhist
  dsimp only [restores]
  rw [push_eq_pushTail K b (.LongCastling s)]
  rcases hstm : b.sideToMove with _ | _ <;>
    rw [hstm] at hside0 hcomp <;>
    simp only [reduceIte, reduceCtorEq, eq_self_iff_true, if_true,
      if_false, longCastlingSquares, Board.getPieces] at hside0 hcomp
  case White =>
    obtain ⟨hc1, hc2, hc3, hc4, hc5, hc6, hc7, hc8⟩ := hcomp
    rcases hep : b.epSquare with _ | e <;>
      (dsimp only
       simp only [applyLongCastlingMove_White_spec, hstm, hside0]
       rw [pop_pushTail]
       dsimp only
       simp only [pushTail_spec, Move.isPawnInvolved, reduceIte,
         reduceCtorEq, eq_self_iff_true, if_true, if_false]
       simp only [undoLongCastlingMove_White_spec]
       simp only [popCont_spec, reduceIte, reduceCtorEq, eq_self_iff_true,
         if_true, if_false, epKeyOf]
       refine ⟨trivial, trivial, ?_, trivial, trivial, trivial, trivial,
         ?_, trivial, ?_, trivial, trivial, trivial, trivial, trivial,
         ?_, ?_, trivial, trivial, ?_⟩
       · exact bbRestore_castleU b.whitePieces hbw ⟨4⟩ ⟨2⟩ ⟨0⟩ ⟨3⟩
           (by decide) (by decide) (by decide) (by decide)
           hc1 hc3 hc5 hc7 (by decide) (by decide)
       · exact bbRestore_move b.rooks hbr ⟨0⟩ ⟨3⟩ (by decide) (by decide)
           hc6 hc8
       · exact bbRestore_move b.kings hbki ⟨4⟩ ⟨2⟩ (by decide) (by decide)
           hc2 hc4
       · rw [castleKeys_flagClear_shortW]
         simp only [Nat.xor_assoc, Nat.xor_comm, natXor_left_comm,
           Nat.xor_cancel_left, Nat.xor_self, Nat.xor_zero, Nat.zero_xor]
       · ring
       · intro q
         dsimp only [History.push, History.pop]
         exact histCounts_insert_decr _ _ hh1 hh2 q)
  case Black =>
    obtain ⟨hc1, hc2, hc3, hc4, hc5, hc6, hc7, hc8⟩ := hcomp
    rcases hep : b.epSquare with _ | e <;>
      (dsimp only
       simp only [applyLongCastlingMove_Black_spec, hstm, hside0]
       rw [pop_pushTail]
       dsimp only
       simp only [pushTail_spec, Move.isPawnInvolved, reduceIte,
         reduceCtorEq, eq_self_iff_true, if_true, if_false]
       simp only [undoLongCastlingMove_Black_spec]
       simp only [popCont_spec, reduceIte, reduceCtorEq, eq_self_iff_true,
         if_true, if_false, epKeyOf]
       refine ⟨trivial, trivial, trivial, ?_, trivial, trivial, trivial,
         ?_, trivial, ?_, trivial, trivial, trivial, ?_, trivial,
         ?_, ?_, trivial, trivial, ?_⟩
       · exact bbRestore_castleU b.blackPieces hbk2 ⟨60⟩ ⟨58⟩ ⟨56⟩ ⟨59⟩
           (by decide) (by decide) (by decide) (by decide)
           hc1 hc3 hc5 hc7 (by decide) (by decide)
       · exact bbRestore_move b.rooks hbr ⟨56⟩ ⟨59⟩ (by decide) (by decide)
           hc6 hc8
       · exact bbRestore_move b.kings hbki ⟨60⟩ ⟨58⟩ (by decide) (by decide)
           hc2 hc4
       · omega
       · rw [castleKeys_flagClear_shortB]
         simp only [Nat.xor_assoc, Nat.xor_comm, natXor_left_comm,
           Nat.xor_cancel_left, Nat.xor_self, Nat.xor_zero, Nat.zero_xor]
       · ring
       · intro q
         dsimp only [History.push, History.pop]
         exact histCounts_insert_decr _ _ hh1 hh2 q)

/-- Helper: `apply_ep_capture_move` as one record update, White to move. -/
theorem applyEpCaptureMove_White_spec (K : ZKeys) (b : Board)
    (m : EnPassantCaptureMove) (hstm : b.sideToMove = Side.White)
    (hsnm : b.sideToNotMove = Side.Black) :
    b.applyEpCaptureMove K m = { b with
      whitePieces := bbSet (bbClear b.whitePieces m.fromSq) m.toSq,
      blackPieces := bbClear b.blackPieces m.capturedPawn,
      pawns := bbSet (bbClear (bbClear b.pawns m.capturedPawn) m.fromSq)
        m.toSq,
      zHash := b.zHash ^^^
        K.pieceKeys Side.Black Piece.Pawn m.capturedPawn.ordinal ^^^
        K.pieceKeys Side.White Piece.Pawn m.fromSq.ordinal ^^^
        K.pieceKeys Side.White Piece.Pawn m.toSq.ordinal,
      pstEval := b.pstEval - pstSigned Side.Black Piece.Pawn m.capturedPawn -
        pstSigned Side.White Piece.Pawn m.fromSq +
        pstSigned Side.White Piece.Pawn m.toSq } := by
  obtain ⟨f1, f2, f3, f4, f5, f6, f7, f8, f9, f10, f11, f12, f13, f14, f15,
    f16, f17, f18, f19, f20⟩ := b
  have h1 : f1 = Side.White := hstm
  have h2 : f2 = Side.Black := hsnm
  subst h1
  subst h2
  rfl

/-- Helper: `undo_ep_capture_move` as one record update, White moved. -/
theorem undoEpCaptureMove_White_spec (K : ZKeys) (b : Board)
    (m : EnPassantCaptureMove) (hsm : b.sideToMove = Side.Black)
    (hsnm : b.sideToNotMove = Side.White) :
    b.undoEpCaptureMove K m = { b with
      whitePieces := bbSet (bbClear b.whitePieces m.toSq) m.fromSq,
      blackPieces := bbSet b.blackPieces m.capturedPawn,
      pawns := bbSet (bbSet (bbClear b.pawns m.toSq) m.fromSq)
        m.capturedPawn,
      zHash := b.zHash ^^^
        K.pieceKeys Side.White Piece.Pawn m.toSq.ordinal ^^^
        K.pieceKeys Side.White Piece.Pawn m.fromSq.ordinal ^^^
        K.pieceKeys Side.Black Piece.Pawn m.capturedPawn.ordinal,
      pstEval := b.pstEval - pstSigned Side.White Piece.Pawn m.toSq +
        pstSigned Side.White Piece.Pawn m.fromSq +
        pstSigned Side.Black Piece.Pawn m.capturedPawn } := by
  obtain ⟨f1, f2, f3, f4, f5, f6, f7, f8, f9, f10, f11, f12, f13, f14, f15,
    f16, f17, f18, f19, f20⟩ := b
  have h1 : f1 = Side.Black := hsm
  have h2 : f2 = Side.White := hsnm
  subst h1
  subst h2
  rfl

/-- Helper: `apply_ep_capture_move` as one record update, Black to move. -/
theorem applyEpCaptureMove_Black_spec (K : ZKeys) (b : Board)
    (m : EnPassantCaptureMove) (hstm : b.sideToMove = Side.Black)
    (hsnm : b.sideToNotMove = Side.White) :
    b.applyEpCaptureMove K m = { b with
      blackPieces := bbSet (bbClear b.blackPieces m.fromSq) m.toSq,
      whitePieces := bbClear b.whitePieces m.capturedPawn,
      pawns := bbSet (bbClear (bbClear b.pawns m.capturedPawn) m.fromSq)
        m.toSq,
      zHash := b.zHash ^^^
        K.pieceKeys Side.White Piece.Pawn m.capturedPawn.ordinal ^^^
        K.pieceKeys Side.Black Piece.Pawn m.fromSq.ordinal ^^^
        K.pieceKeys Side.Black Piece.Pawn m.toSq.ordinal,
      pstEval := b.pstEval - pstSigned Side.White Piece.Pawn m.capturedPawn -
        pstSigned Side.Black Piece.Pawn m.fromSq +
        pstSigned Side.Black Piece.Pawn m.toSq } := by
  obtain ⟨f1, f2, f3, f4, f5, f6, f7, f8, f9, f10, f11, f12, f13, f14, f15,
    f16, f17, f18, f19, f20⟩ := b
  have h1 : f1 = Side.Black := hstm
  have h2 : f2 = Side.White := hsnm
  subst h1
  subst h2
  rfl

/-- Helper: `undo_ep_capture_move` as one record update, Black moved. -/
theorem undoEpCaptureMove_Black_spec (K : ZKeys) (b : Board)
    (m : EnPassantCaptureMove) (hsm : b.sideToMove = Side.White)
    (hsnm : b.sideToNotMove = Side.Black) :
    b.undoEpCaptureMove K m = { b with
      blackPieces := bbSet (bbClear b.blackPieces m.toSq) m.fromSq,
      whitePieces := bbSet b.whitePieces m.capturedPawn,
      pawns := bbSet (bbSet (bbClear b.pawns m.toSq) m.fromSq)
        m.capturedPawn,
      zHash := b.zHash ^^^
        K.pieceKeys Side.Black Piece.Pawn m.toSq.ordinal ^^^
        K.pieceKeys Side.Black Piece.Pawn m.fromSq.ordinal ^^^
        K.pieceKeys Side.White Piece.Pawn m.capturedPawn.ordinal,
      pstEval := b.pstEval - pstSigned Side.Black Piece.Pawn m.toSq +
        pstSigned Side.Black Piece.Pawn m.fromSq +
        pstSigned Side.White Piece.Pawn m.capturedPawn } := by
  obtain ⟨f1, f2, f3, f4, f5, f6, f7, f8, f9, f10, f11, f12, f13, f14, f15,
    f16, f17, f18, f19, f20⟩ := b
  have h1 : f1 = Side.White := hsm
  have h2 : f2 = Side.Black := hsnm
  subst h1
  subst h2
  rfl

theorem restores_ep (K : ZKeys) (b : Board) (em : EnPassantCaptureMove)
    (hsafe : pushPopSafe b (.EnPassantCapture em)) :
    restores K b (.EnPassantCapture em) := by
  obtain ⟨hside0, hfmn, hbb, hhist, hcomp⟩ := hsafe
  obtain ⟨hbw, hbk2, hbp, hbbi, hbn, hbr, hbq, hbki⟩ := hbb
  obtain ⟨hh1, hh2⟩ := hhist
  dsimp only [restores]
  rw [push_eq_pushTail K b (.EnPassantCapture em)]
  rcases hstm : b.sideToMove with _ | _ <;>
    rw [hstm] at hside0 hcomp <;>
    simp only [reduceIte, reduceCtorEq, eq_self_iff_true, if_true,
      if_false, Board.getPieces] at hside0 hcomp
  case White =>
    obtain ⟨ho1, ho2, ho3, hone, hc1, hc2, hc3, hc4, hc5, hc6⟩ := hcomp
    rw [hside0] at hc5
    rcases hep : b.epSquare with _ | e <;>
      (dsimp only
       simp only [applyEpCaptureMove_White_spec, hstm, hside0]
       rw [pop_pushTail]
       dsimp only
       simp only [pushTail_spec, Move.isPawnInvolved, reduceIte,
         reduceCtorEq, eq_self_iff_true, if_true, if_false]
       simp only [undoEpCaptureMove_White_spec]
       simp only [popCont_spec, reduceIte, reduceCtorEq, eq_self_iff_true,
         if_true, if_false, epKeyOf]
       refine ⟨trivial, trivial, ?_, ?_, ?_, trivial, trivial,
         trivial, trivial, trivial, trivial, trivial, trivial, trivial,
         trivial, ?_, ?_, trivial, trivial, ?_⟩
       · exact bbRestore_move b.whitePieces hbw em.fromSq em.toSq ho1 ho2
           hc1 hc3
       · exact bbRestore_cs b.blackPieces hbk2 em.capturedPawn ho3 hc5
       · exact bbRestore_ep b.pawns hbp em.capturedPawn em.fromSq em.toSq
           ho3 ho1 ho2 hc6 hc2 hc4 hone
       · simp only [Nat.xor_self, castleKeys_zero, Nat.xor_assoc,
           Nat.xor_comm, natXor_left_comm, Nat.xor_cancel_left,
           Nat.xor_zero, Nat.zero_xor]
       · ring
       · intro q
         dsimp only [History.push, History.pop]
         exact histCounts_insert_decr _ _ hh1 hh2 q)
  case Black =>
    obtain ⟨ho1, ho2, ho3, hone, hc1, hc2, hc3, hc4, hc5, hc6⟩ := hcomp
    rw [hside0] at hc5
    rcases hep : b.epSquare with _ | e <;>
      (dsimp only
       simp only [applyEpCaptureMove_Black_spec, hstm, hside0]
       rw [pop_pushTail]
       dsimp only
       simp only [pushTail_spec, Move.isPawnInvolved, reduceIte,
         reduceCtorEq, eq_self_iff_true, if_true, if_false]
       simp only [undoEpCaptureMove_Black_spec]
       simp only [popCont_spec, reduceIte, reduceCtorEq, eq_self_iff_true,
         if_true, if_false, epKeyOf]
       refine ⟨trivial, trivial, ?_, ?_, ?_, trivial, trivial,
         trivial, trivial, trivial, trivial, trivial, trivial, ?_,
         trivial, ?_, ?_, trivial, trivial, ?_⟩
       · exact bbRestore_cs b.whitePieces hbw em.capturedPawn ho3 hc5
       · exact bbRestore_move b.blackPieces hbk2 em.fromSq em.toSq ho1 ho2
           hc1 hc3
       · exact bbRestore_ep b.pawns hbp em.capturedPawn em.fromSq em.toSq
           ho3 ho1 ho2 hc6 hc2 hc4 hone
       · omega
       · simp only [Nat.xor_self, castleKeys_zero, Nat.xor_assoc,
           Nat.xor_comm, natXor_left_comm, Nat.xor_cancel_left,
           Nat.xor_zero, Nat.zero_xor]
       · ring
       · intro q
         dsimp only [History.push, History.pop]
         exact histCounts_insert_decr _ _ hh1 hh2 q)

/-- Helper: `remove_piece` with the touched bitboards selected by side and
kind. -/
theorem removePiece_ite_spec (K : ZKeys) (b : Board) (side : Side)
    (p : Piece) (sq : Square) :
    b.removePiece K side p sq = { b with
      whitePieces := if side = Side.White then bbClear b.whitePieces sq
        else b.whitePieces,
      blackPieces := if side = Side.Black then bbClear b.blackPieces sq
        else b.blackPieces,
      pawns := if p = Piece.Pawn then bbClear b.pawns sq else b.pawns,
      bishops := if p = Piece.Bishop then bbClear b.bishops sq else b.bishops,
      knights := if p = Piece.Knight then bbClear b.knights sq else b.knights,
      rooks := if p = Piece.Rook then bbClear b.rooks sq else b.rooks,
      queens := if p = Piece.Queen then bbClear b.queens sq else b.queens,
      kings := if p = Piece.King then bbClear b.kings sq else b.kings,
      zHash := b.zHash ^^^ K.pieceKeys side p sq.ordinal,
      pstEval := b.pstEval - pstSigned side p sq } := by
  obtain ⟨f1, f2, f3, f4, f5, f6, f7, f8, f9, f10, f11, f12, f13, f14, f15,
    f16, f17, f18, f19, f20⟩ := b
  cases side <;> cases p <;>
    simp only [Board.removePiece, reduceCtorEq, eq_self_iff_true, if_true,
      if_false]

/-- Helper: `add_piece` with the touched bitboards selected by side and
kind. -/
theorem addPiece_ite_spec (K : ZKeys) (b : Board) (side : Side)
    (p : Piece) (sq : Square) :
    b.addPiece K side p sq = { b with
      whitePieces := if side = Side.White then bbSet b.whitePieces sq
        else b.whitePieces,
      blackPieces := if side = Side.Black then bbSet b.blackPieces sq
        else b.blackPieces,
      pawns := if p = Piece.Pawn then bbSet b.pawns sq else b.pawns,
      bishops := if p = Piece.Bishop then bbSet b.bishops sq else b.bishops,
      knights := if p = Piece.Knight then bbSet b.knights sq else b.knights,
      rooks := if p = Piece.Rook then bbSet b.rooks sq else b.rooks,
      queens := if p = Piece.Queen then bbSet b.queens sq else b.queens,
      kings := if p = Piece.King then bbSet b.kings sq else b.kings,
      zHash := b.zHash ^^^ K.pieceKeys side p sq.ordinal,
      pstEval := b.pstEval + pstSigned side p sq } := by
  obtain ⟨f1, f2, f3, f4, f5, f6, f7, f8, f9, f10, f11, f12, f13, f14, f15,
    f16, f17, f18, f19, f20⟩ := b
  cases side <;> cases p <;>
    simp only [Board.addPiece, reduceCtorEq, eq_self_iff_true, if_true,
      if_false]

/-- Helper: `undo_move` with the touched bitboards selected by side and
kind. -/
theorem undoMove_ite_spec (K : ZKeys) (b : Board) (side : Side)
    (p : Piece) (f t : Square) :
    b.undoMove K side p f t = { b with
      whitePieces := if side = Side.White then
        bbSet (bbClear b.whitePieces t) f else b.whitePieces,
      blackPieces := if side = Side.Black then
        bbSet (bbClear b.blackPieces t) f else b.blackPieces,
      pawns := if p = Piece.Pawn then bbSet (bbClear b.pawns t) f
        else b.pawns,
      bishops := if p = Piece.Bishop then bbSet (bbClear b.bishops t) f
        else b.bishops,
      knights := if p = Piece.Knight then bbSet (bbClear b.knights t) f
        else b.knights,
      rooks := if p = Piece.Rook then bbSet (bbClear b.rooks t) f
        else b.rooks,
      queens := if p = Piece.Queen then bbSet (bbClear b.queens t) f
        else b.queens,
      kings := if p = Piece.King then bbSet (bbClear b.kings t) f
        else b.kings,
      zHash := b.zHash ^^^ K.pieceKeys side p t.ordinal ^^^
        K.pieceKeys side p f.ordinal,
      pstEval := b.pstEval - pstSigned side p t + pstSigned side p f } := by
  obtain ⟨f1, f2, f3, f4, f5, f6, f7, f8, f9, f10, f11, f12, f13, f14, f15,
    f16, f17, f18, f19, f20⟩ := b
  cases side <;> cases p <;>
    simp only [Board.undoMove, Board.removePiece, Board.addPiece,
      reduceCtorEq, eq_self_iff_true, if_true, if_false]

/-- Helper: `apply_capture` with the corner-rook castling-rights test folded
into `capRights`/`capKeys`. -/
theorem applyCapture_spec (K : ZKeys) (b : Board) (side : Side)
    (cp : Piece) (sq : Square) :
    b.applyCapture K side cp sq = { b with
      whitePieces := if side = Side.White then bbClear b.whitePieces sq
        else b.whitePieces,
      blackPieces := if side = Side.Black then bbClear b.blackPieces sq
        else b.blackPieces,
      pawns := if cp = Piece.Pawn then bbClear b.pawns sq else b.pawns,
      bishops := if cp = Piece.Bishop then bbClear b.bishops sq
        else b.bishops,
      knights := if cp = Piece.Knight then bbClear b.knights sq
        else b.knights,
      rooks := if cp = Piece.Rook then bbClear b.rooks sq else b.rooks,
      queens := if cp = Piece.Queen then bbClear b.queens sq else b.queens,
      kings := if cp = Piece.King then bbClear b.kings sq else b.kings,
      castlingRights := capRights (longCastlingFlag side)
        (shortCastlingFlag side) (backRank side) cp sq b.castlingRights,
      zHash := b.zHash ^^^ K.pieceKeys side cp sq.ordinal ^^^
        capKeys (K.longCastlingKeys side) (K.shortCastlingKeys side)
          (longCastlingFlag side) (shortCastlingFlag side) (backRank side)
          cp sq b.castlingRights,
      pstEval := b.pstEval - pstSigned side cp sq } := by
  obtain ⟨f1, f2, f3, f4, f5, f6, f7, f8, f9, f10, f11, f12, f13, f14, f15,
    f16, f17, f18, f19, f20⟩ := b
  cases cp
  case Rook =>
    cases side
    case White =>
      by_cases hr : Square.rank sq = backRank Side.White <;>
        by_cases hf0 : Square.file sq = 0 <;>
          by_cases hf7 : Square.file sq = 7 <;>
            by_cases hL : (f12 &&& longCastlingFlag Side.White ==
              longCastlingFlag Side.White) = true <;>
            by_cases hS : (f12 &&& shortCastlingFlag Side.White ==
              shortCastlingFlag Side.White) = true <;>
            simp only [Board.applyCapture, Board.removePiece, capRights,
              capKeys, flagClearEq, flagKeyEq, hr, hf0, hf7, hL, hS,
              reduceCtorEq, eq_self_iff_true, if_true, if_false,
              Nat.xor_zero]
    case Black =>
      by_cases hr : Square.rank sq = backRank Side.Black <;>
        by_cases hf0 : Square.file sq = 0 <;>
          by_cases hf7 : Square.file sq = 7 <;>
            by_cases hL : (f12 &&& longCastlingFlag Side.Black ==
              longCastlingFlag Side.Black) = true <;>
            by_cases hS : (f12 &&& shortCastlingFlag Side.Black ==
              shortCastlingFlag Side.Black) = true <;>
            simp only [Board.applyCapture, Board.removePiece, capRights,
              capKeys, flagClearEq, flagKeyEq, hr, hf0, hf7, hL, hS,
              reduceCtorEq, eq_self_iff_true, if_true, if_false,
              Nat.xor_zero]
  all_goals
    cases side <;>
      simp only [Board.applyCapture, Board.removePiece, capRights, capKeys,
        reduceCtorEq, eq_self_iff_true, if_true, if_false, Nat.xor_zero]

/-- Helper: cancelling the middle term of a chained XOR difference. -/
theorem xor_mid (a b c : Nat) : (a ^^^ b) ^^^ (b ^^^ c) = a ^^^ c := by
  rw [Nat.xor_assoc, ← Nat.xor_assoc b b c, Nat.xor_self, Nat.zero_xor]

/-- Helper: an XOR of terms clear at a bit mask stays clear there. -/
theorem xor_and_zero (x y g : Nat) (hx : x &&& g = 0) (hy : y &&& g = 0) :
    (x ^^^ y) &&& g = 0 := by
  rw [Nat.and_xor_distrib_right, hx, hy, Nat.xor_self]

/-- Helper: a conditional flag clear only changes bits inside the flag. -/
theorem flagClear_xor_and (c F g : Nat) (hf : (255 ^^^ F) &&& g = g) :
    (flagClear c F ^^^ c) &&& g = 0 := by
  unfold flagClear u8Not
  by_cases hF : (c &&& F != 0) = true
  · rw [if_pos hF, Nat.and_xor_distrib_right, Nat.and_assoc, hf,
      Nat.xor_self]
  · rw [if_neg hF, Nat.xor_self, Nat.zero_and]

/-- Helper: a conditional capture-side flag clear only changes bits inside
the flag. -/
theorem flagClearEq_xor_and (c F g : Nat) (hf : (255 ^^^ F) &&& g = g) :
    (flagClearEq c F ^^^ c) &&& g = 0 := by
  unfold flagClearEq u8Not
  by_cases hF : (c &&& F == F) = true
  · rw [if_pos hF, Nat.and_xor_distrib_right, Nat.and_assoc, hf,
      Nat.xor_self]
  · rw [if_neg hF, Nat.xor_self, Nat.zero_and]

/-- Helper: the White king-move flag clears only change White's flag bits. -/
theorem kingDiffW_and (c g : Nat) (h4f : (255 ^^^ 4) &&& g = g)
    (h1f : (255 ^^^ 1) &&& g = g) :
    (flagClear (flagClear c 4) 1 ^^^ c) &&& g = 0 := by
  rw [← xor_mid (flagClear (flagClear c 4) 1) (flagClear c 4) c]
  exact xor_and_zero _ _ _ (flagClear_xor_and _ 1 g h1f)
    (flagClear_xor_and _ 4 g h4f)

/-- Helper: the Black king-move flag clears only change Black's flag bits. -/
theorem kingDiffB_and (c g : Nat) (h8f : (255 ^^^ 8) &&& g = g)
    (h2f : (255 ^^^ 2) &&& g = g) :
    (flagClear (flagClear c 8) 2 ^^^ c) &&& g = 0 := by
  rw [← xor_mid (flagClear (flagClear c 8) 2) (flagClear c 8) c]
  exact xor_and_zero _ _ _ (flagClear_xor_and _ 2 g h2f)
    (flagClear_xor_and _ 8 g h8f)

/-- Helper: `castleKeys` splits over an XOR of masks touching disjoint
flags. -/
theorem castleKeys_split (K : ZKeys) (x y : Nat)
    (h1 : x &&& 1 = 0 ∨ y &&& 1 = 0) (h2 : x &&& 2 = 0 ∨ y &&& 2 = 0)
    (h4 : x &&& 4 = 0 ∨ y &&& 4 = 0) (h8 : x &&& 8 = 0 ∨ y &&& 8 = 0) :
    castleKeys K (x ^^^ y) = castleKeys K x ^^^ castleKeys K y := by
  rcases h1 with h1 | h1 <;> rcases h2 with h2 | h2 <;>
    rcases h4 with h4 | h4 <;> rcases h8 with h8 | h8 <;>
      simp only [castleKeys, shortCastlingFlag, longCastlingFlag,
        Nat.and_xor_distrib_right, h1, h2, h4, h8, Nat.zero_xor,
        Nat.xor_zero, bne_self_eq_false, Bool.false_eq_true, if_false,
        Nat.xor_assoc, Nat.xor_comm, natXor_left_comm, Nat.xor_cancel_left,
        Nat.xor_self]

/-- Helper: the castling key named by a single conditional clear of the
White short flag. -/
theorem castleKeys_single1 (K : ZKeys) (c : Nat) :
    castleKeys K (flagClear c 1 ^^^ c) =
      flagKey (K.shortCastlingKeys Side.White) c 1 := by
  by_cases hF : (c &&& 1 != 0) = true <;>
    simp only [castleKeys, flagClear, flagKey, u8Not, shortCastlingFlag,
      longCastlingFlag, hF, reduceIte, Nat.reduceXor,
      Nat.and_assoc, Nat.and_xor_distrib_right, Nat.and_zero, Nat.zero_and,
      show (254 : Nat) &&& 1 = 0 from by decide,
      show (254 : Nat) &&& 2 = 2 from by decide,
      show (254 : Nat) &&& 4 = 4 from by decide,
      show (254 : Nat) &&& 8 = 8 from by decide,
      Nat.xor_self, Nat.xor_zero, Nat.zero_xor, bne_self_eq_false,
      Bool.false_eq_true, if_false]

/-- Helper: the castling key named by a single conditional clear of the
White long flag. -/
theorem castleKeys_single4 (K : ZKeys) (c : Nat) :
    castleKeys K (flagClear c 4 ^^^ c) =
      flagKey (K.longCastlingKeys Side.White) c 4 := by
  by_cases hF : (c &&& 4 != 0) = true <;>
    simp only [castleKeys, flagClear, flagKey, u8Not, shortCastlingFlag,
      longCastlingFlag, hF, reduceIte, Nat.reduceXor,
      Nat.and_assoc, Nat.and_xor_distrib_right, Nat.and_zero, Nat.zero_and,
      show (251 : Nat) &&& 1 = 1 from by decide,
      show (251 : Nat) &&& 2 = 2 from by decide,
      show (251 : Nat) &&& 4 = 0 from by decide,
      show (251 : Nat) &&& 8 = 8 from by decide,
      Nat.xor_self, Nat.xor_zero, Nat.zero_xor, bne_self_eq_false,
      Bool.false_eq_true, if_false]

/-- Helper: the castling key named by a single conditional clear of the
Black short flag. -/
theorem castleKeys_single2 (K : ZKeys) (c : Nat) :
    castleKeys K (flagClear c 2 ^^^ c) =
      flagKey (K.shortCastlingKeys Side.Black) c 2 := by
  by_cases hF : (c &&& 2 != 0) = true <;>
    simp only [castleKeys, flagClear, flagKey, u8Not, shortCastlingFlag,
      longCastlingFlag, hF, reduceIte, Nat.reduceXor,
      Nat.and_assoc, Nat.and_xor_distrib_right, Nat.and_zero, Nat.zero_and,
      show (253 : Nat) &&& 1 = 1 from by decide,
      show (253 : Nat) &&& 2 = 0 from by decide,
      show (253 : Nat) &&& 4 = 4 from by decide,
      show (253 : Nat) &&& 8 = 8 from by decide,
      Nat.xor_self, Nat.xor_zero, Nat.zero_xor, bne_self_eq_false,
      Bool.false_eq_true, if_false]

/-- Helper: the castling key named by a single conditional clear of the
Black long flag. -/
theorem castleKeys_single8 (K : ZKeys) (c : Nat) :
    castleKeys K (flagClear c 8 ^^^ c) =
      flagKey (K.longCastlingKeys Side.Black) c 8 := by
  by_cases hF : (c &&& 8 != 0) = true <;>
    simp only [castleKeys, flagClear, flagKey, u8Not, shortCastlingFlag,
      longCastlingFlag, hF, reduceIte, Nat.reduceXor,
      Nat.and_assoc, Nat.and_xor_distrib_right, Nat.and_zero, Nat.zero_and,
      show (247 : Nat) &&& 1 = 1 from by decide,
      show (247 : Nat) &&& 2 = 2 from by decide,
      show (247 : Nat) &&& 4 = 4 from by decide,
      show (247 : Nat) &&& 8 = 0 from by decide,
      Nat.xor_self, Nat.xor_zero, Nat.zero_xor, bne_self_eq_false,
      Bool.false_eq_true, if_false]

/-- Helper: the castling key named by a single capture-side conditional
clear of flag 1. -/
theorem castleKeys_singleEq1 (K : ZKeys) (c : Nat) :
    castleKeys K (flagClearEq c 1 ^^^ c) =
      flagKeyEq (K.shortCastlingKeys Side.White) c 1 := by
  by_cases hF : (c &&& 1 == 1) = true
  · have hF2 : c &&& 1 = 1 := by simpa using hF
    simp only [castleKeys, flagClearEq, flagKeyEq, u8Not, shortCastlingFlag,
      longCastlingFlag, hF, reduceIte, Nat.reduceXor,
      Nat.and_assoc, Nat.and_xor_distrib_right, Nat.and_zero, Nat.zero_and,
      show (254 : Nat) &&& 1 = 0 from by decide,
      show (254 : Nat) &&& 2 = 2 from by decide,
      show (254 : Nat) &&& 4 = 4 from by decide,
      show (254 : Nat) &&& 8 = 8 from by decide,
      hF2, show ((1 : Nat) != 0) = true from rfl,
      Nat.xor_self, Nat.xor_zero, Nat.zero_xor, bne_self_eq_false,
      Bool.false_eq_true, if_false, if_true, eq_self_iff_true,
      beq_self_eq_true]
  · simp only [castleKeys, flagClearEq, flagKeyEq, u8Not, shortCastlingFlag,
      longCastlingFlag, hF, if_false, Nat.xor_self, Nat.zero_and,
      bne_self_eq_false, Bool.false_eq_true, Nat.xor_zero, Nat.zero_xor]

/-- Helper: the castling key named by a single capture-side conditional
clear of flag 4. -/
theorem castleKeys_singleEq4 (K : ZKeys) (c : Nat) :
    castleKeys K (flagClearEq c 4 ^^^ c) =
      flagKeyEq (K.longCastlingKeys Side.White) c 4 := by
  by_cases hF : (c &&& 4 == 4) = true
  · have hF2 : c &&& 4 = 4 := by simpa using hF
    simp only [castleKeys, flagClearEq, flagKeyEq, u8Not, shortCastlingFlag,
      longCastlingFlag, hF, reduceIte, Nat.reduceXor,
      Nat.and_assoc, Nat.and_xor_distrib_right, Nat.and_zero, Nat.zero_and,
      show (251 : Nat) &&& 1 = 1 from by decide,
      show (251 : Nat) &&& 2 = 2 from by decide,
      show (251 : Nat) &&& 4 = 0 from by decide,
      show (251 : Nat) &&& 8 = 8 from by decide,
      hF2, show ((4 : Nat) != 0) = true from rfl,
      Nat.xor_self, Nat.xor_zero, Nat.zero_xor, bne_self_eq_false,
      Bool.false_eq_true, if_false, if_true, eq_self_iff_true,
      beq_self_eq_true]
  · simp only [castleKeys, flagClearEq, flagKeyEq, u8Not, shortCastlingFlag,
      longCastlingFlag, hF, if_false, Nat.xor_self, Nat.zero_and,
      bne_self_eq_false, Bool.false_eq_true, Nat.xor_zero, Nat.zero_xor]

/-- Helper: the castling key named by a single capture-side conditional
clear of flag 2. -/
theorem castleKeys_singleEq2 (K : ZKeys) (c : Nat) :
    castleKeys K (flagClearEq c 2 ^^^ c) =
      flagKeyEq (K.shortCastlingKeys Side.Black) c 2 := by
  by_cases hF : (c &&& 2 == 2) = true
  · have hF2 : c &&& 2 = 2 := by simpa using hF
    simp only [castleKeys, flagClearEq, flagKeyEq, u8Not, shortCastlingFlag,
      longCastlingFlag, hF, reduceIte, Nat.reduceXor,
      Nat.and_assoc, Nat.and_xor_distrib_right, Nat.and_zero, Nat.zero_and,
      show (253 : Nat) &&& 1 = 1 from by decide,
      show (253 : Nat) &&& 2 = 0 from by decide,
      show (253 : Nat) &&& 4 = 4 from by decide,
      show (253 : Nat) &&& 8 = 8 from by decide,
      hF2, show ((2 : Nat) != 0) = true from rfl,
      Nat.xor_self, Nat.xor_zero, Nat.zero_xor, bne_self_eq_false,
      Bool.false_eq_true, if_false, if_true, eq_self_iff_true,
      beq_self_eq_true]
  · simp only [castleKeys, flagClearEq, flagKeyEq, u8Not, shortCastlingFlag,
      longCastlingFlag, hF, if_false, Nat.xor_self, Nat.zero_and,
      bne_self_eq_false, Bool.false_eq_true, Nat.xor_zero, Nat.zero_xor]

/-- Helper: the castling key named by a single capture-side conditional
clear of flag 8. -/
theorem castleKeys_singleEq8 (K : ZKeys) (c : Nat) :
    castleKeys K (flagClearEq c 8 ^^^ c) =
      flagKeyEq (K.longCastlingKeys Side.Black) c 8 := by
  by_cases hF : (c &&& 8 == 8) = true
  · have hF2 : c &&& 8 = 8 := by simpa using hF
    simp only [castleKeys, flagClearEq, flagKeyEq, u8Not, shortCastlingFlag,
      longCastlingFlag, hF, reduceIte, Nat.reduceXor,
      Nat.and_assoc, Nat.and_xor_distrib_right, Nat.and_zero, Nat.zero_and,
      show (247 : Nat) &&& 1 = 1 from by decide,
      show (247 : Nat) &&& 2 = 2 from by decide,
      show (247 : Nat) &&& 4 = 4 from by decide,
      show (247 : Nat) &&& 8 = 0 from by decide,
      hF2, show ((8 : Nat) != 0) = true from rfl,
      Nat.xor_self, Nat.xor_zero, Nat.zero_xor, bne_self_eq_false,
      Bool.false_eq_true, if_false, if_true, eq_self_iff_true,
      beq_self_eq_true]
  · simp only [castleKeys, flagClearEq, flagKeyEq, u8Not, shortCastlingFlag,
      longCastlingFlag, hF, if_false, Nat.xor_self, Nat.zero_and,
      bne_self_eq_false, Bool.false_eq_true, Nat.xor_zero, Nat.zero_xor]

/-- Helper: `apply_move` of the king as one record update, White side. -/
theorem applyMove_king_W_spec (K : ZKeys) (b : Board) (f t : Square) :
    b.applyMove K Side.White Piece.King f t = { b with
      whitePieces := bbSet (bbClear b.whitePieces f) t,
      kings := bbSet (bbClear b.kings f) t,
      castlingRights := flagClear (flagClear b.castlingRights 4) 1,
      zHash := b.zHash ^^^ K.pieceKeys Side.White Piece.King f.ordinal ^^^
        K.pieceKeys Side.White Piece.King t.ordinal ^^^
        flagKey (K.longCastlingKeys Side.White) b.castlingRights 4 ^^^
        flagKey (K.shortCastlingKeys Side.White) b.castlingRights 1,
      pstEval := b.pstEval - pstSigned Side.White Piece.King f +
        pstSigned Side.White Piece.King t } := by
  obtain ⟨f1, f2, f3, f4, f5, f6, f7, f8, f9, f10, f11, f12, f13, f14, f15,
    f16, f17, f18, f19, f20⟩ := b
  by_cases hL : (f12 &&& 4 != 0) = true <;>
    by_cases hS : (f12 &&& 1 != 0) = true <;>
      simp only [Board.applyMove, Board.removePiece, Board.addPiece,
        flagClear, flagKey, u8Not, longCastlingFlag, shortCastlingFlag,
        hL, hS, Nat.and_assoc, Nat.and_zero, Nat.xor_zero,
        show ((255 : Nat) ^^^ 4) &&& 1 = 1 from by decide,
        Bool.false_eq_true, eq_self_iff_true, if_true, if_false,
        reduceIte]

/-- Helper: `apply_move` of the king as one record update, Black side. -/
theorem applyMove_king_B_spec (K : ZKeys) (b : Board) (f t : Square) :
    b.applyMove K Side.Black Piece.King f t = { b with
      blackPieces := bbSet (bbClear b.blackPieces f) t,
      kings := bbSet (bbClear b.kings f) t,
      castlingRights := flagClear (flagClear b.castlingRights 8) 2,
      zHash := b.zHash ^^^ K.pieceKeys Side.Black Piece.King f.ordinal ^^^
        K.pieceKeys Side.Black Piece.King t.ordinal ^^^
        flagKey (K.longCastlingKeys Side.Black) b.castlingRights 8 ^^^
        flagKey (K.shortCastlingKeys Side.Black) b.castlingRights 2,
      pstEval := b.pstEval - pstSigned Side.Black Piece.King f +
        pstSigned Side.Black Piece.King t } := by
  obtain ⟨f1, f2, f3, f4, f5, f6, f7, f8, f9, f10, f11, f12, f13, f14, f15,
    f16, f17, f18, f19, f20⟩ := b
  by_cases hL : (f12 &&& 8 != 0) = true <;>
    by_cases hS : (f12 &&& 2 != 0) = true <;>
      simp only [Board.applyMove, Board.removePiece, Board.addPiece,
        flagClear, flagKey, u8Not, longCastlingFlag, shortCastlingFlag,
        hL, hS, Nat.and_assoc, Nat.and_zero, Nat.xor_zero,
        show ((255 : Nat) ^^^ 8) &&& 2 = 2 from by decide,
        Bool.false_eq_true, eq_self_iff_true, if_true, if_false,
        reduceIte]

/-- Helper: `apply_move` of a rook as one record update, White side. -/
theorem applyMove_rook_W_spec (K : ZKeys) (b : Board) (f t : Square) :
    b.applyMove K Side.White Piece.Rook f t = { b with
      whitePieces := bbSet (bbClear b.whitePieces f) t,
      rooks := bbSet (bbClear b.rooks f) t,
      castlingRights := rookClear 4 1 0 f b.castlingRights,
      zHash := b.zHash ^^^ K.pieceKeys Side.White Piece.Rook f.ordinal ^^^
        K.pieceKeys Side.White Piece.Rook t.ordinal ^^^
        rookKeys (K.longCastlingKeys Side.White)
          (K.shortCastlingKeys Side.White) 4 1 0 f b.castlingRights,
      pstEval := b.pstEval - pstSigned Side.White Piece.Rook f +
        pstSigned Side.White Piece.Rook t } := by
  obtain ⟨f1, f2, f3, f4, f5, f6, f7, f8, f9, f10, f11, f12, f13, f14, f15,
    f16, f17, f18, f19, f20⟩ := b
  by_cases hr : Square.rank f = 0 <;>
    by_cases hf0 : Square.file f = 0 <;>
      by_cases hf7 : Square.file f = 7 <;>
        by_cases hL : (f12 &&& 4 != 0) = true <;>
          by_cases hS : (f12 &&& 1 != 0) = true <;>
            simp only [Board.applyMove, Board.removePiece, Board.addPiece,
              rookClear, rookKeys, flagClear, flagKey, u8Not, backRank,
              longCastlingFlag, shortCastlingFlag, hr, hf0, hf7, hL, hS,
              reduceCtorEq, eq_self_iff_true, if_true, if_false,
              Nat.xor_zero]

/-- Helper: `apply_move` of a rook as one record update, Black side. -/
theorem applyMove_rook_B_spec (K : ZKeys) (b : Board) (f t : Square) :
    b.applyMove K Side.Black Piece.Rook f t = { b with
      blackPieces := bbSet (bbClear b.blackPieces f) t,
      rooks := bbSet (bbClear b.rooks f) t,
      castlingRights := rookClear 8 2 7 f b.castlingRights,
      zHash := b.zHash ^^^ K.pieceKeys Side.Black Piece.Rook f.ordinal ^^^
        K.pieceKeys Side.Black Piece.Rook t.ordinal ^^^
        rookKeys (K.longCastlingKeys Side.Black)
          (K.shortCastlingKeys Side.Black) 8 2 7 f b.castlingRights,
      pstEval := b.pstEval - pstSigned Side.Black Piece.Rook f +
        pstSigned Side.Black Piece.Rook t } := by
  obtain ⟨f1, f2, f3, f4, f5, f6, f7, f8, f9, f10, f11, f12, f13, f14, f15,
    f16, f17, f18, f19, f20⟩ := b
  by_cases hr : Square.rank f = 7 <;>
    by_cases hf0 : Square.file f = 0 <;>
      by_cases hf7 : Square.file f = 7 <;>
        by_cases hL : (f12 &&& 8 != 0) = true <;>
          by_cases hS : (f12 &&& 2 != 0) = true <;>
            simp only [Board.applyMove, Board.removePiece, Board.addPiece,
              rookClear, rookKeys, flagClear, flagKey, u8Not, backRank,
              longCastlingFlag, shortCastlingFlag, hr, hf0, hf7, hL, hS,
              reduceCtorEq, eq_self_iff_true, if_true, if_false,
              Nat.xor_zero]

/-- Helper: `apply_move` of a pawn, bishop, knight or queen as one record
update. -/
theorem applyMove_plain_spec (K : ZKeys) (b : Board) (side : Side)
    (p : Piece) (f t : Square) (hK : p ≠ Piece.King) (hR : p ≠ Piece.Rook) :
    b.applyMove K side p f t = { b with
      whitePieces := if side = Side.White then
        bbSet (bbClear b.whitePieces f) t else b.whitePieces,
      blackPieces := if side = Side.Black then
        bbSet (bbClear b.blackPieces f) t else b.blackPieces,
      pawns := if p = Piece.Pawn then bbSet (bbClear b.pawns f) t
        else b.pawns,
      bishops := if p = Piece.Bishop then bbSet (bbClear b.bishops f) t
        else b.bishops,
      knights := if p = Piece.Knight then bbSet (bbClear b.knights f) t
        else b.knights,
      queens := if p = Piece.Queen then bbSet (bbClear b.queens f) t
        else b.queens,
      zHash := b.zHash ^^^ K.pieceKeys side p f.ordinal ^^^
        K.pieceKeys side p t.ordinal,
      pstEval := b.pstEval - pstSigned side p f + pstSigned side p t } := by
  obtain ⟨f1, f2, f3, f4, f5, f6, f7, f8, f9, f10, f11, f12, f13, f14, f15,
    f16, f17, f18, f19, f20⟩ := b
  cases p
  case King => exact absurd rfl hK
  case Rook => exact absurd rfl hR
  all_goals
    cases side <;>
      simp only [Board.applyMove, Board.removePiece, Board.addPiece,
        reduceCtorEq, eq_self_iff_true, if_true, if_false]

/-- Helper: `apply_promotion` as one record update. -/
theorem applyPromotion_spec (K : ZKeys) (b : Board) (side : Side)
    (f t : Square) (pp : Piece) :
    b.applyPromotion K side f t pp = { b with
      whitePieces := if side = Side.White then
        bbSet (bbClear b.whitePieces f) t else b.whitePieces,
      blackPieces := if side = Side.Black then
        bbSet (bbClear b.blackPieces f) t else b.blackPieces,
      pawns := if pp = Piece.Pawn then bbSet (bbClear b.pawns f) t
        else bbClear b.pawns f,
      bishops := if pp = Piece.Bishop then bbSet b.bishops t else b.bishops,
      knights := if pp = Piece.Knight then bbSet b.knights t else b.knights,
      rooks := if pp = Piece.Rook then bbSet b.rooks t else b.rooks,
      queens := if pp = Piece.Queen then bbSet b.queens t else b.queens,
      kings := if pp = Piece.King then bbSet b.kings t else b.kings,
      zHash := b.zHash ^^^ K.pieceKeys side Piece.Pawn f.ordinal ^^^
        K.pieceKeys side pp t.ordinal,
      pstEval := b.pstEval - pstSigned side Piece.Pawn f +
        pstSigned side pp t } := by
  obtain ⟨f1, f2, f3, f4, f5, f6, f7, f8, f9, f10, f11, f12, f13, f14, f15,
    f16, f17, f18, f19, f20⟩ := b
  cases side <;> cases pp <;>
    simp only [Board.applyPromotion, Board.removePiece, Board.addPiece,
      reduceCtorEq, eq_self_iff_true, if_true, if_false]

/-- Helper: `undo_promotion` as one record update. -/
theorem undoPromotion_spec (K : ZKeys) (b : Board) (side : Side)
    (f t : Square) (pp : Piece) :
    b.undoPromotion K side f t pp = { b with
      whitePieces := if side = Side.White then
        bbSet (bbClear b.whitePieces t) f else b.whitePieces,
      blackPieces := if side = Side.Black then
        bbSet (bbClear b.blackPieces t) f else b.blackPieces,
      pawns := bbSet (if pp = Piece.Pawn then bbClear b.pawns t
        else b.pawns) f,
      bishops := if pp = Piece.Bishop then bbClear b.bishops t
        else b.bishops,
      knights := if pp = Piece.Knight then bbClear b.knights t
        else b.knights,
      rooks := if pp = Piece.Rook then bbClear b.rooks t else b.rooks,
      queens := if pp = Piece.Queen then bbClear b.queens t else b.queens,
      kings := if pp = Piece.King then bbClear b.kings t else b.kings,
      zHash := b.zHash ^^^ K.pieceKeys side pp t.ordinal ^^^
        K.pieceKeys side Piece.Pawn f.ordinal,
      pstEval := b.pstEval - pstSigned side pp t +
        pstSigned side Piece.Pawn f } := by
  obtain ⟨f1, f2, f3, f4, f5, f6, f7, f8, f9, f10, f11, f12, f13, f14, f15,
    f16, f17, f18, f19, f20⟩ := b
  cases side <;> cases pp <;>
    simp only [Board.undoPromotion, Board.removePiece, Board.addPiece,
      reduceCtorEq, eq_self_iff_true, if_true, if_false]

/-- Helper: clearing two distinct occupied squares is undone by re-setting
them. -/
theorem bbRestore_cc (X : Nat) (hX : X < 2 ^ 64) (f t : Square)
    (hfo : f.ordinal < 64) (hto : t.ordinal < 64)
    (hf : X.testBit f.ordinal = true) (ht : X.testBit t.ordinal = true)
    (hft : f.ordinal ≠ t.ordinal) :
    bbSet (bbSet (bbClear (bbClear X t) f) f) t = X := by
  have h1 : bbSet (bbClear (bbClear X t) f) f = bbClear X t := by
    refine bbRestore_cs _ (bbClear_lt _ _ hX) f hfo ?_
    rw [bbClear_testBit_ne _ t f.ordinal hto hfo (fun h => hft h.symm)]
    exact hf
  rw [h1]
  exact bbRestore_cs X hX t hto ht

/-- Helper: clear-set twice over on an occupied square is the identity. -/
theorem bbRestore_cscs (X : Nat) (hX : X < 2 ^ 64) (t : Square)
    (hto : t.ordinal < 64) (ht : X.testBit t.ordinal = true) :
    bbSet (bbClear (bbSet (bbClear X t) t) t) t = X := by
  rw [bbRestore_cs X hX t hto ht]
  exact bbRestore_cs X hX t hto ht

theorem restores_promotion (K : ZKeys) (b : Board) (pm : PromotionMove)
    (hsafe : pushPopSafe b (.Promotion pm)) :
    restores K b (.Promotion pm) := by
  obtain ⟨hside0, hfmn, hbb, hhist, hcomp⟩ := hsafe
  obtain ⟨hbw, hbk2, hbp, hbbi, hbn, hbr, hbq, hbki⟩ := hbb
  obtain ⟨hh1, hh2⟩ := hhist
  dsimp only [restores]
  rw [push_eq_pushTail K b (.Promotion pm)]
  rcases hstm : b.sideToMove with _ | _ <;>
    rw [hstm] at hside0 hcomp <;>
    simp only [reduceIte, reduceCtorEq, eq_self_iff_true, if_true,
      if_false, Board.getPieces] at hside0 hcomp
  case White =>
    rcases hcap : pm.capturedPiece with _ | cp <;>
      simp only [hcap] at hcomp
    · obtain ⟨ho1, ho2, hc1, hc2, hc3, hN1, hN2⟩ := hcomp
      rcases hep : b.epSquare with _ | e <;>
        (dsimp only
         simp only [hcap, Board.applyPromotionMove]
         simp only [applyPromotion_spec, hstm, hside0, reduceCtorEq,
           eq_self_iff_true, if_true, if_false]
         rw [pop_pushTail]
         dsimp only
         simp only [pushTail_spec, Move.isPawnInvolved, reduceIte,
           reduceCtorEq, eq_self_iff_true, if_true, if_false]
         simp only [Board.undoPromotionMove, hcap]
         simp only [undoPromotion_spec, hstm, hside0, reduceCtorEq,
           eq_self_iff_true, if_true, if_false]
         simp only [popCont_spec, reduceIte, reduceCtorEq, eq_self_iff_true,
           if_true, if_false, epKeyOf]
         refine ⟨trivial, trivial, ?_, trivial, ?_, ?_, ?_, ?_, ?_, ?_,
           trivial, trivial, trivial, trivial, trivial, ?_, ?_, trivial,
           trivial, ?_⟩
         · exact bbRestore_move b.whitePieces hbw pm.fromSq pm.toSq ho1 ho2
             hc1 hc3
         · by_cases hppk : pm.promotionPiece = Piece.Pawn <;>
               simp only [hppk, reduceCtorEq, eq_self_iff_true, if_true,
                 if_false]
           · exact bbRestore_move b.pawns hbp pm.fromSq pm.toSq ho1 ho2
               hc2 hN2
           · exact bbRestore_cs b.pawns hbp pm.fromSq ho1 hc2
         · by_cases hppk : pm.promotionPiece = Piece.Bishop <;>
               simp only [hppk, reduceCtorEq, eq_self_iff_true, if_true,
                 if_false]
           · rw [hppk] at hN1
             simp only [kindBB] at hN1
             exact bbRestore_sc b.bishops hbbi pm.toSq ho2 hN1
         · by_cases hppk : pm.promotionPiece = Piece.Knight <;>
               simp only [hppk, reduceCtorEq, eq_self_iff_true, if_true,
                 if_false]
           · rw [hppk] at hN1
             simp only [kindBB] at hN1
             exact bbRestore_sc b.knights hbn pm.toSq ho2 hN1
         · by_cases hppk : pm.promotionPiece = Piece.Rook <;>
               simp only [hppk, reduceCtorEq, eq_self_iff_true, if_true,
                 if_false]
           · rw [hppk] at hN1
             simp only [kindBB] at hN1
             exact bbRestore_sc b.rooks hbr pm.toSq ho2 hN1
         · by_cases hppk : pm.promotionPiece = Piece.Queen <;>
               simp only [hppk, reduceCtorEq, eq_self_iff_true, if_true,
                 if_false]
           · rw [hppk] at hN1
             simp only [kindBB] at hN1
             exact bbRestore_sc b.queens hbq pm.toSq ho2 hN1
         · by_cases hppk : pm.promotionPiece = Piece.King <;>
               simp only [hppk, reduceCtorEq, eq_self_iff_true, if_true,
                 if_false]
           · rw [hppk] at hN1
             simp only [kindBB] at hN1
             exact bbRestore_sc b.kings hbki pm.toSq ho2 hN1
         · simp only [Nat.xor_self, castleKeys_zero]
           simp only [Nat.xor_assoc, Nat.xor_comm, natXor_left_comm,
             Nat.xor_cancel_left, Nat.xor_self, Nat.xor_zero, Nat.zero_xor]
         · ring
         · intro q
           dsimp only [History.push, History.pop]
           exact histCounts_insert_decr _ _ hh1 hh2 q
)
    · obtain ⟨ho1, ho2, hc1, hc2, hc3, hS1, hS2, hS3, hS4⟩ := hcomp
      rw [hside0] at hS1
      simp only [Board.getPieces] at hS1
      have hft : pm.fromSq.ordinal ≠ pm.toSq.ordinal := fun h => by
        rw [← h] at hc3
        rw [hc1] at hc3
        cases hc3
      rcases hep : b.epSquare with _ | e <;>
        (dsimp only
         simp only [hcap, Board.applyPromotionMove]
         simp only [applyCapture_spec, applyPromotion_spec, hstm, hside0,
           reduceCtorEq, eq_self_iff_true, if_true, if_false]
         rw [pop_pushTail]
         dsimp only
         simp only [pushTail_spec, Move.isPawnInvolved, reduceIte,
           reduceCtorEq, eq_self_iff_true, if_true, if_false]
         simp only [Board.undoPromotionMove, Board.undoCapture, hcap]
         simp only [undoPromotion_spec, addPiece_ite_spec, hstm, hside0,
           reduceCtorEq, eq_self_iff_true, if_true, if_false]
         simp only [popCont_spec, reduceIte, reduceCtorEq, eq_self_iff_true,
           if_true, if_false, epKeyOf]
         refine ⟨trivial, trivial, ?_, ?_, ?_, ?_, ?_, ?_, ?_, ?_,
           trivial, trivial, trivial, trivial, trivial, ?_, ?_, trivial,
           trivial, ?_⟩
         · exact bbRestore_move b.whitePieces hbw pm.fromSq pm.toSq ho1 ho2
             hc1 hc3
         · exact bbRestore_cs b.blackPieces hbk2 pm.toSq ho2 hS1
         · by_cases hcpk : cp = Piece.Pawn <;>
             by_cases hppk : pm.promotionPiece = Piece.Pawn <;>
               simp only [hcpk, hppk, reduceCtorEq, eq_self_iff_true,
                 if_true, if_false]
           · rw [hcpk] at hS2
             simp only [kindBB] at hS2
             exact bbRestore_capSame b.pawns hbp pm.fromSq pm.toSq ho1 ho2
               hc2 hS2 hft
           · rw [hcpk] at hS2
             simp only [kindBB] at hS2
             exact bbRestore_cc b.pawns hbp pm.fromSq pm.toSq ho1 ho2 hc2
               hS2 hft
           · have hfree := hS4 hcpk
             exact bbRestore_move b.pawns hbp pm.fromSq pm.toSq ho1 ho2
               hc2 hfree
           · exact bbRestore_cs b.pawns hbp pm.fromSq ho1 hc2
         · by_cases hcpk : cp = Piece.Bishop <;>
             by_cases hppk : pm.promotionPiece = Piece.Bishop <;>
               simp only [hcpk, hppk, reduceCtorEq, eq_self_iff_true,
                 if_true, if_false]
           · rw [hcpk] at hS2
             simp only [kindBB] at hS2
             exact bbRestore_cscs b.bishops hbbi pm.toSq ho2 hS2
           · rw [hcpk] at hS2
             simp only [kindBB] at hS2
             exact bbRestore_cs b.bishops hbbi pm.toSq ho2 hS2
           · have hne : cp ≠ pm.promotionPiece := fun h => hcpk (h.trans hppk)
             have hfree := hS3 hne
             rw [hppk] at hfree
             simp only [kindBB] at hfree
             exact bbRestore_sc b.bishops hbbi pm.toSq ho2 hfree
         · by_cases hcpk : cp = Piece.Knight <;>
             by_cases hppk : pm.promotionPiece = Piece.Knight <;>
               simp only [hcpk, hppk, reduceCtorEq, eq_self_iff_true,
                 if_true, if_false]
           · rw [hcpk] at hS2
             simp only [kindBB] at hS2
             exact bbRestore_cscs b.knights hbn pm.toSq ho2 hS2
           · rw [hcpk] at hS2
             simp only [kindBB] at hS2
             exact bbRestore_cs b.knights hbn pm.toSq ho2 hS2
           · have hne : cp ≠ pm.promotionPiece := fun h => hcpk (h.trans hppk)
             have hfree := hS3 hne
             rw [hppk] at hfree
             simp only [kindBB] at hfree
             exact bbRestore_sc b.knights hbn pm.toSq ho2 hfree
         · by_cases hcpk : cp = Piece.Rook <;>
             by_cases hppk : pm.promotionPiece = Piece.Rook <;>
               simp only [hcpk, hppk, reduceCtorEq, eq_self_iff_true,
                 if_true, if_false]
           · rw [hcpk] at hS2
             simp only [kindBB] at hS2
             exact bbRestore_cscs b.rooks hbr pm.toSq ho2 hS2
           · rw [hcpk] at hS2
             simp only [kindBB] at hS2
             exact bbRestore_cs b.rooks hbr pm.toSq ho2 hS2
           · have hne : cp ≠ pm.promotionPiece := fun h => hcpk (h.trans hppk)
             have hfree := hS3 hne
             rw [hppk] at hfree
             simp only [kindBB] at hfree
             exact bbRestore_sc b.rooks hbr pm.toSq ho2 hfree
         · by_cases hcpk : cp = Piece.Queen <;>
             by_cases hppk : pm.promotionPiece = Piece.Queen <;>
               simp only [hcpk, hppk, reduceCtorEq, eq_self_iff_true,
                 if_true, if_false]
           · rw [hcpk] at hS2
             simp only [kindBB] at hS2
             exact bbRestore_cscs b.queens hbq pm.toSq ho2 hS2
           · rw [hcpk] at hS2
             simp only [kindBB] at hS2
             exact bbRestore_cs b.queens hbq pm.toSq ho2 hS2
           · have hne : cp ≠ pm.promotionPiece := fun h => hcpk (h.trans hppk)
             have hfree := hS3 hne
             rw [hppk] at hfree
             simp only [kindBB] at hfree
             exact bbRestore_sc b.queens hbq pm.toSq ho2 hfree
         · by_cases hcpk : cp = Piece.King <;>
             by_cases hppk : pm.promotionPiece = Piece.King <;>
               simp only [hcpk, hppk, reduceCtorEq, eq_self_iff_true,
                 if_true, if_false]
           · rw [hcpk] at hS2
             simp only [kindBB] at hS2
             exact bbRestore_cscs b.kings hbki pm.toSq ho2 hS2
           · rw [hcpk] at hS2
             simp only [kindBB] at hS2
             exact bbRestore_cs b.kings hbki pm.toSq ho2 hS2
           · have hne : cp ≠ pm.promotionPiece := fun h => hcpk (h.trans hppk)
             have hfree := hS3 hne
             rw [hppk] at hfree
             simp only [kindBB] at hfree
             exact bbRestore_sc b.kings hbki pm.toSq ho2 hfree
         · by_cases hcpR : cp = Piece.Rook <;>
             by_cases hr : Square.rank pm.toSq = 7 <;>
               by_cases hf0 : Square.file pm.toSq = 0 <;>
                 by_cases hf7 : Square.file pm.toSq = 7 <;>
                   simp only [capRights, capKeys, backRank,
                     longCastlingFlag, shortCastlingFlag, hcpR, hr, hf0,
                     hf7, reduceCtorEq, eq_self_iff_true, if_true,
                     if_false] <;>
                   simp only [castleKeys_singleEq8, castleKeys_singleEq2, Nat.xor_self,
                     castleKeys_zero] <;>
                   simp only [Nat.xor_assoc, Nat.xor_comm,
                     natXor_left_comm, Nat.xor_cancel_left, Nat.xor_self,
                     Nat.xor_zero, Nat.zero_xor]
         · ring
         · intro q
           dsimp only [History.push, History.pop]
           exact histCounts_insert_decr _ _ hh1 hh2 q
)

  case Black =>
    rcases hcap : pm.capturedPiece with _ | cp <;>
      simp only [hcap] at hcomp
    · obtain ⟨ho1, ho2, hc1, hc2, hc3, hN1, hN2⟩ := hcomp
      rcases hep : b.epSquare with _ | e <;>
        (dsimp only
         simp only [hcap, Board.applyPromotionMove]
         simp only [applyPromotion_spec, hstm, hside0, reduceCtorEq,
           eq_self_iff_true, if_true, if_false]
         rw [pop_pushTail]
         dsimp only
         simp only [pushTail_spec, Move.isPawnInvolved, reduceIte,
           reduceCtorEq, eq_self_iff_true, if_true, if_false]
         simp only [Board.undoPromotionMove, hcap]
         simp only [undoPromotion_spec, hstm, hside0, reduceCtorEq,
           eq_self_iff_true, if_true, if_false]
         simp only [popCont_spec, reduceIte, reduceCtorEq, eq_self_iff_true,
           if_true, if_false, epKeyOf]
         refine ⟨trivial, trivial, trivial, ?_, ?_, ?_, ?_, ?_, ?_, ?_,
           trivial, trivial, trivial, ?_, trivial, ?_, ?_, trivial,
           trivial, ?_⟩
         · exact bbRestore_move b.blackPieces hbk2 pm.fromSq pm.toSq ho1 ho2
             hc1 hc3
         · by_cases hppk : pm.promotionPiece = Piece.Pawn <;>
               simp only [hppk, reduceCtorEq, eq_self_iff_true, if_true,
                 if_false]
           · exact bbRestore_move b.pawns hbp pm.fromSq pm.toSq ho1 ho2
               hc2 hN2
           · exact bbRestore_cs b.pawns hbp pm.fromSq ho1 hc2
         · by_cases hppk : pm.promotionPiece = Piece.Bishop <;>
               simp only [hppk, reduceCtorEq, eq_self_iff_true, if_true,
                 if_false]
           · rw [hppk] at hN1
             simp only [kindBB] at hN1
             exact bbRestore_sc b.bishops hbbi pm.toSq ho2 hN1
         · by_cases hppk : pm.promotionPiece = Piece.Knight <;>
               simp only [hppk, reduceCtorEq, eq_self_iff_true, if_true,
                 if_false]
           · rw [hppk] at hN1
             simp only [kindBB] at hN1
             exact bbRestore_sc b.knights hbn pm.toSq ho2 hN1
         · by_cases hppk : pm.promotionPiece = Piece.Rook <;>
               simp only [hppk, reduceCtorEq, eq_self_iff_true, if_true,
                 if_false]
           · rw [hppk] at hN1
             simp only [kindBB] at hN1
             exact bbRestore_sc b.rooks hbr pm.toSq ho2 hN1
         · by_cases hppk : pm.promotionPiece = Piece.Queen <;>
               simp only [hppk, reduceCtorEq, eq_self_iff_true, if_true,
                 if_false]
           · rw [hppk] at hN1
             simp only [kindBB] at hN1
             exact bbRestore_sc b.queens hbq pm.toSq ho2 hN1
         · by_cases hppk : pm.promotionPiece = Piece.King <;>
               simp only [hppk, reduceCtorEq, eq_self_iff_true, if_true,
                 if_false]
           · rw [hppk] at hN1
             simp only [kindBB] at hN1
             exact bbRestore_sc b.kings hbki pm.toSq ho2 hN1
         · omega
         · simp only [Nat.xor_self, castleKeys_zero]
           simp only [Nat.xor_assoc, Nat.xor_comm, natXor_left_comm,
             Nat.xor_cancel_left, Nat.xor_self, Nat.xor_zero, Nat.zero_xor]
         · ring
         · intro q
           dsimp only [History.push, History.pop]
           exact histCounts_insert_decr _ _ hh1 hh2 q
)
    · obtain ⟨ho1, ho2, hc1, hc2, hc3, hS1, hS2, hS3, hS4⟩ := hcomp
      rw [hside0] at hS1
      simp only [Board.getPieces] at hS1
      have hft : pm.fromSq.ordinal ≠ pm.toSq.ordinal := fun h => by
        rw [← h] at hc3
        rw [hc1] at hc3
        cases hc3
      rcases hep : b.epSquare with _ | e <;>
        (dsimp only
         simp only [hcap, Board.applyPromotionMove]
         simp only [applyCapture_spec, applyPromotion_spec, hstm, hside0,
           reduceCtorEq, eq_self_iff_true, if_true, if_false]
         rw [pop_pushTail]
         dsimp only
         simp only [pushTail_spec, Move.isPawnInvolved, reduceIte,
           reduceCtorEq, eq_self_iff_true, if_true, if_false]
         simp only [Board.undoPromotionMove, Board.undoCapture, hcap]
         simp only [undoPromotion_spec, addPiece_ite_spec, hstm, hside0,
           reduceCtorEq, eq_self_iff_true, if_true, if_false]
         simp only [popCont_spec, reduceIte, reduceCtorEq, eq_self_iff_true,
           if_true, if_false, epKeyOf]
         refine ⟨trivial, trivial, ?_, ?_, ?_, ?_, ?_, ?_, ?_, ?_,
           trivial, trivial, trivial, ?_, trivial, ?_, ?_, trivial,
           trivial, ?_⟩
         · exact bbRestore_cs b.whitePieces hbw pm.toSq ho2 hS1
         · exact bbRestore_move b.blackPieces hbk2 pm.fromSq pm.toSq ho1 ho2
             hc1 hc3
         · by_cases hcpk : cp = Piece.Pawn <;>
             by_cases hppk : pm.promotionPiece = Piece.Pawn <;>
               simp only [hcpk, hppk, reduceCtorEq, eq_self_iff_true,
                 if_true, if_false]
           · rw [hcpk] at hS2
             simp only [kindBB] at hS2
             exact bbRestore_capSame b.pawns hbp pm.fromSq pm.toSq ho1 ho2
               hc2 hS2 hft
           · rw [hcpk] at hS2
             simp only [kindBB] at hS2
             exact bbRestore_cc b.pawns hbp pm.fromSq pm.toSq ho1 ho2 hc2
               hS2 hft
           · have hfree := hS4 hcpk
             exact bbRestore_move b.pawns hbp pm.fromSq pm.toSq ho1 ho2
               hc2 hfree
           · exact bbRestore_cs b.pawns hbp pm.fromSq ho1 hc2
         · by_cases hcpk : cp = Piece.Bishop <;>
             by_cases hppk : pm.promotionPiece = Piece.Bishop <;>
               simp only [hcpk, hppk, reduceCtorEq, eq_self_iff_true,
                 if_true, if_false]
           · rw [hcpk] at hS2
             simp only [kindBB] at hS2
             exact bbRestore_cscs b.bishops hbbi pm.toSq ho2 hS2
           · rw [hcpk] at hS2
             simp only [kindBB] at hS2
             exact bbRestore_cs b.bishops hbbi pm.toSq ho2 hS2
           · have hne : cp ≠ pm.promotionPiece := fun h => hcpk (h.trans hppk)
             have hfree := hS3 hne
             rw [hppk] at hfree
             simp only [kindBB] at hfree
             exact bbRestore_sc b.bishops hbbi pm.toSq ho2 hfree
         · by_cases hcpk : cp = Piece.Knight <;>
             by_cases hppk : pm.promotionPiece = Piece.Knight <;>
               simp only [hcpk, hppk, reduceCtorEq, eq_self_iff_true,
                 if_true, if_false]
           · rw [hcpk] at hS2
             simp only [kindBB] at hS2
             exact bbRestore_cscs b.knights hbn pm.toSq ho2 hS2
           · rw [hcpk] at hS2
             simp only [kindBB] at hS2
             exact bbRestore_cs b.knights hbn pm.toSq ho2 hS2
           · have hne : cp ≠ pm.promotionPiece := fun h => hcpk (h.trans hppk)
             have hfree := hS3 hne
             rw [hppk] at hfree
             simp only [kindBB] at hfree
             exact bbRestore_sc b.knights hbn pm.toSq ho2 hfree
         · by_cases hcpk : cp = Piece.Rook <;>
             by_cases hppk : pm.promotionPiece = Piece.Rook <;>
               simp only [hcpk, hppk, reduceCtorEq, eq_self_iff_true,
                 if_true, if_false]
           · rw [hcpk] at hS2
             simp only [kindBB] at hS2
             exact bbRestore_cscs b.rooks hbr pm.toSq ho2 hS2
           · rw [hcpk] at hS2
             simp only [kindBB] at hS2
             exact bbRestore_cs b.rooks hbr pm.toSq ho2 hS2
           · have hne : cp ≠ pm.promotionPiece := fun h => hcpk (h.trans hppk)
             have hfree := hS3 hne
             rw [hppk] at hfree
             simp only [kindBB] at hfree
             exact bbRestore_sc b.rooks hbr pm.toSq ho2 hfree
         · by_cases hcpk : cp = Piece.Queen <;>
             by_cases hppk : pm.promotionPiece = Piece.Queen <;>
               simp only [hcpk, hppk, reduceCtorEq, eq_self_iff_true,
                 if_true, if_false]
           · rw [hcpk] at hS2
             simp only [kindBB] at hS2
             exact bbRestore_cscs b.queens hbq pm.toSq ho2 hS2
           · rw [hcpk] at hS2
             simp only [kindBB] at hS2
             exact bbRestore_cs b.queens hbq pm.toSq ho2 hS2
           · have hne : cp ≠ pm.promotionPiece := fun h => hcpk (h.trans hppk)
             have hfree := hS3 hne
             rw [hppk] at hfree
             simp only [kindBB] at hfree
             exact bbRestore_sc b.queens hbq pm.toSq ho2 hfree
         · by_cases hcpk : cp = Piece.King <;>
             by_cases hppk : pm.promotionPiece = Piece.King <;>
               simp only [hcpk, hppk, reduceCtorEq, eq_self_iff_true,
                 if_true, if_false]
           · rw [hcpk] at hS2
             simp only [kindBB] at hS2
             exact bbRestore_cscs b.kings hbki pm.toSq ho2 hS2
           · rw [hcpk] at hS2
             simp only [kindBB] at hS2
             exact bbRestore_cs b.kings hbki pm.toSq ho2 hS2
           · have hne : cp ≠ pm.promotionPiece := fun h => hcpk (h.trans hppk)
             have hfree := hS3 hne
             rw [hppk] at hfree
             simp only [kindBB] at hfree
             exact bbRestore_sc b.kings hbki pm.toSq ho2 hfree
         · omega
         · by_cases hcpR : cp = Piece.Rook <;>
             by_cases hr : Square.rank pm.toSq = 0 <;>
               by_cases hf0 : Square.file pm.toSq = 0 <;>
                 by_cases hf7 : Square.file pm.toSq = 7 <;>
                   simp only [capRights, capKeys, backRank,
                     longCastlingFlag, shortCastlingFlag, hcpR, hr, hf0,
                     hf7, reduceCtorEq, eq_self_iff_true, if_true,
                     if_false] <;>
                   simp only [castleKeys_singleEq4, castleKeys_singleEq1, Nat.xor_self,
                     castleKeys_zero] <;>
                   simp only [Nat.xor_assoc, Nat.xor_comm,
                     natXor_left_comm, Nat.xor_cancel_left, Nat.xor_self,
                     Nat.xor_zero, Nat.zero_xor]
         · ring
         · intro q
           dsimp only [History.push, History.pop]
           exact histCounts_insert_decr _ _ hh1 hh2 q
)

/-- Helper: the castling keys of a capture's rights diff are the keys the
capture flips (White piece captured). -/
theorem castleKeys_capW (K : ZKeys) (c : Nat) (cp : Piece) (sq : Square) :
    castleKeys K (capRights 4 1 0 cp sq c ^^^ c) =
      capKeys (K.longCastlingKeys Side.White) (K.shortCastlingKeys Side.White)
        4 1 0 cp sq c := by
  by_cases hcp : cp = Piece.Rook <;>
    by_cases hr : Square.rank sq = 0 <;>
      by_cases hf0 : Square.file sq = 0 <;>
        by_cases hf7 : Square.file sq = 7 <;>
          simp only [capRights, capKeys, hcp, hr, hf0, hf7, reduceCtorEq,
            eq_self_iff_true, if_true, if_false] <;>
          simp only [castleKeys_singleEq4, castleKeys_singleEq1,
            Nat.xor_self, castleKeys_zero]

/-- Helper: the castling keys of a capture's rights diff are the keys the
capture flips (Black piece captured). -/
theorem castleKeys_capB (K : ZKeys) (c : Nat) (cp : Piece) (sq : Square) :
    castleKeys K (capRights 8 2 7 cp sq c ^^^ c) =
      capKeys (K.longCastlingKeys Side.Black) (K.shortCastlingKeys Side.Black)
        8 2 7 cp sq c := by
  by_cases hcp : cp = Piece.Rook <;>
    by_cases hr : Square.rank sq = 7 <;>
      by_cases hf0 : Square.file sq = 0 <;>
        by_cases hf7 : Square.file sq = 7 <;>
          simp only [capRights, capKeys, hcp, hr, hf0, hf7, reduceCtorEq,
            eq_self_iff_true, if_true, if_false] <;>
          simp only [castleKeys_singleEq8, castleKeys_singleEq2,
            Nat.xor_self, castleKeys_zero]

/-- Helper: a White-side capture's rights diff never touches White's own
castling flags. -/
theorem capRightsW_diff_and (c : Nat) (cp : Piece) (sq : Square) (g : Nat)
    (h4 : (255 ^^^ 4) &&& g = g) (h1 : (255 ^^^ 1) &&& g = g) :
    (capRights 4 1 0 cp sq c ^^^ c) &&& g = 0 := by
  by_cases hcp : cp = Piece.Rook <;>
    by_cases hr : Square.rank sq = 0 <;>
      by_cases hf0 : Square.file sq = 0 <;>
        by_cases hf7 : Square.file sq = 7 <;>
          simp only [capRights, hcp, hr, hf0, hf7, reduceCtorEq,
            eq_self_iff_true, if_true, if_false] <;>
          first
            | exact flagClearEq_xor_and c 4 g h4
            | exact flagClearEq_xor_and c 1 g h1
            | rw [Nat.xor_self, Nat.zero_and]

/-- Helper: a Black-side capture's rights diff never touches Black's own
castling flags. -/
theorem capRightsB_diff_and (c : Nat) (cp : Piece) (sq : Square) (g : Nat)
    (h8 : (255 ^^^ 8) &&& g = g) (h2 : (255 ^^^ 2) &&& g = g) :
    (capRights 8 2 7 cp sq c ^^^ c) &&& g = 0 := by
  by_cases hcp : cp = Piece.Rook <;>
    by_cases hr : Square.rank sq = 7 <;>
      by_cases hf0 : Square.file sq = 0 <;>
        by_cases hf7 : Square.file sq = 7 <;>
          simp only [capRights, hcp, hr, hf0, hf7, reduceCtorEq,
            eq_self_iff_true, if_true, if_false] <;>
          first
            | exact flagClearEq_xor_and c 8 g h8
            | exact flagClearEq_xor_and c 2 g h2
            | rw [Nat.xor_self, Nat.zero_and]

/-- Helper: the castling keys of a White king move's rights diff, over an
intermediate rights value whose own diff keeps White's flags clear. -/
theorem castleKeys_kingMoveW (K : ZKeys) (X c : Nat)
    (hd1 : (X ^^^ c) &&& 1 = 0) (hd4 : (X ^^^ c) &&& 4 = 0) :
    castleKeys K (flagClear (flagClear X 4) 1 ^^^ c) =
      (flagKey (K.shortCastlingKeys Side.White) X 1 ^^^
        flagKey (K.longCastlingKeys Side.White) X 4) ^^^
      castleKeys K (X ^^^ c) := by
  rw [← xor_mid (flagClear (flagClear X 4) 1) X c,
    castleKeys_split K _ _
      (Or.inr hd1)
      (Or.inl (kingDiffW_and X 2 (by decide) (by decide)))
      (Or.inr hd4)
      (Or.inl (kingDiffW_and X 8 (by decide) (by decide))),
    castleKeys_flagClear_shortW]

/-- Helper: the castling keys of a Black king move's rights diff, over an
intermediate rights value whose own diff keeps Black's flags clear. -/
theorem castleKeys_kingMoveB (K : ZKeys) (X c : Nat)
    (hd2 : (X ^^^ c) &&& 2 = 0) (hd8 : (X ^^^ c) &&& 8 = 0) :
    castleKeys K (flagClear (flagClear X 8) 2 ^^^ c) =
      (flagKey (K.shortCastlingKeys Side.Black) X 2 ^^^
        flagKey (K.longCastlingKeys Side.Black) X 8) ^^^
      castleKeys K (X ^^^ c) := by
  rw [← xor_mid (flagClear (flagClear X 8) 2) X c,
    castleKeys_split K _ _
      (Or.inl (kingDiffB_and X 1 (by decide) (by decide)))
      (Or.inr hd2)
      (Or.inl (kingDiffB_and X 4 (by decide) (by decide)))
      (Or.inr hd8),
    castleKeys_flagClear_shortB]

/-- Helper: the castling keys of a White rook move's rights diff, over an
intermediate rights value whose own diff keeps White's flags clear. -/
theorem castleKeys_rookMoveW (K : ZKeys) (X c : Nat) (f : Square)
    (hd1 : (X ^^^ c) &&& 1 = 0) (hd4 : (X ^^^ c) &&& 4 = 0) :
    castleKeys K (rookClear 4 1 0 f X ^^^ c) =
      rookKeys (K.longCastlingKeys Side.White)
        (K.shortCastlingKeys Side.White) 4 1 0 f X ^^^
      castleKeys K (X ^^^ c) := by
  by_cases hr : Square.rank f = 0 <;>
    by_cases hf0 : Square.file f = 0 <;>
      by_cases hf7 : Square.file f = 7 <;>
        simp only [rookClear, rookKeys, hr, hf0, hf7, reduceCtorEq,
          eq_self_iff_true, if_true, if_false, Nat.zero_xor]
  all_goals
    first
      | (rw [← xor_mid (flagClear X 4) X c,
          castleKeys_split K _ _
            (Or.inr hd1)
            (Or.inl (flagClear_xor_and X 4 2 (by decide)))
            (Or.inr hd4)
            (Or.inl (flagClear_xor_and X 4 8 (by decide))),
          castleKeys_single4])
      | (rw [← xor_mid (flagClear X 1) X c,
          castleKeys_split K _ _
            (Or.inr hd1)
            (Or.inl (flagClear_xor_and X 1 2 (by decide)))
            (Or.inr hd4)
            (Or.inl (flagClear_xor_and X 1 8 (by decide))),
          castleKeys_single1])

/-- Helper: the castling keys of a Black rook move's rights diff, over an
intermediate rights value whose own diff keeps Black's flags clear. -/
theorem castleKeys_rookMoveB (K : ZKeys) (X c : Nat) (f : Square)
    (hd2 : (X ^^^ c) &&& 2 = 0) (hd8 : (X ^^^ c) &&& 8 = 0) :
    castleKeys K (rookClear 8 2 7 f X ^^^ c) =
      rookKeys (K.longCastlingKeys Side.Black)
        (K.shortCastlingKeys Side.Black) 8 2 7 f X ^^^
      castleKeys K (X ^^^ c) := by
  by_cases hr : Square.rank f = 7 <;>
    by_cases hf0 : Square.file f = 0 <;>
      by_cases hf7 : Square.file f = 7 <;>
        simp only [rookClear, rookKeys, hr, hf0, hf7, reduceCtorEq,
          eq_self_iff_true, if_true, if_false, Nat.zero_xor]
  all_goals
    first
      | (rw [← xor_mid (flagClear X 8) X c,
          castleKeys_split K _ _
            (Or.inl (flagClear_xor_and X 8 1 (by decide)))
            (Or.inr hd2)
            (Or.inl (flagClear_xor_and X 8 4 (by decide)))
            (Or.inr hd8),
          castleKeys_single8])
      | (rw [← xor_mid (flagClear X 2) X c,
          castleKeys_split K _ _
            (Or.inl (flagClear_xor_and X 2 1 (by decide)))
            (Or.inr hd2)
            (Or.inl (flagClear_xor_and X 2 4 (by decide)))
            (Or.inr hd8),
          castleKeys_single2])

/-- Helper: the self-diff of any rights value keeps every flag clear. -/
theorem self_diff_and (c g : Nat) : (c ^^^ c) &&& g = 0 := by
  rw [Nat.xor_self, Nat.zero_and]

/-- Helper: the en-passant key of the square behind a White double push is
the pushed pawn's file key. -/
theorem epKeyOf_delta_W (K : ZKeys) (s : Square) (h : s.rank = 1) :
    epKeyOf K (s.delta 1 0) = K.enPassantFileKeys s.file := by
  have hf : s.file < 8 := Nat.mod_lt _ (by omega)
  simp only [Square.delta, h]
  rw [if_neg (by simp; omega)]
  simp only [epKeyOf, Square.fromCoords, Square.file]
  congr 1
  simp only [Square.file] at hf ⊢
  omega

/-- Helper: the en-passant key of the square behind a Black double push is
the pushed pawn's file key. -/
theorem epKeyOf_delta_B (K : ZKeys) (s : Square) (h : s.rank = 6) :
    epKeyOf K (s.delta (-1) 0) = K.enPassantFileKeys s.file := by
  have hf : s.file < 8 := Nat.mod_lt _ (by omega)
  simp only [Square.delta, h]
  rw [if_neg (by simp; omega)]
  simp only [epKeyOf, Square.fromCoords, Square.file]
  congr 1
  simp only [Square.file] at hf ⊢
  omega

/-- Helper: the square one rank up from a second-rank square. -/
theorem delta_rank1_up (s : Square) (h : s.rank = 1) :
    s.delta 1 0 = some (Square.fromCoords 2 s.file) := by
  have hf : s.file < 8 := Nat.mod_lt _ (by omega)
  simp only [Square.delta, h]
  rw [if_neg (by simp; omega)]
  simp

/-- Helper: the square one rank down from a seventh-rank square. -/
theorem delta_rank6_down (s : Square) (h : s.rank = 6) :
    s.delta (-1) 0 = some (Square.fromCoords 5 s.file) := by
  have hf : s.file < 8 := Nat.mod_lt _ (by omega)
  simp only [Square.delta, h]
  rw [if_neg (by simp; omega)]
  simp

/-- Helper: the file of a square built from coordinates. -/
theorem fromCoords_file (r f : Nat) (hf : f < 8) :
    (Square.fromCoords r f).file = f := by
  simp only [Square.fromCoords, Square.file]
  omega

set_option maxHeartbeats 2000000 in
theorem restores_regular (K : ZKeys) (b : Board) (rm : RegularMove)
    (hsafe : pushPopSafe b (.Regular rm)) :
    restores K b (.Regular rm) := by
  obtain ⟨hside0, hfmn, hbb, hhist, hcomp⟩ := hsafe
  obtain ⟨hbw, hbk2, hbp, hbbi, hbn, hbr, hbq, hbki⟩ := hbb
  obtain ⟨hh1, hh2⟩ := hhist
  dsimp only [restores]
  rw [push_eq_pushTail K b (.Regular rm)]
  rcases hstm : b.sideToMove with _ | _ <;>
    rw [hstm] at hside0 hcomp <;>
    simp only [reduceIte, reduceCtorEq, eq_self_iff_true, if_true,
      if_false, Board.getPieces] at hside0 hcomp
  case White =>
    rcases hcap : rm.capturedPiece with _ | cp <;>
      simp only [hcap] at hcomp
    · obtain ⟨ho1, ho2, hc1, hc2, hc3, hN1, hN2⟩ := hcomp
      have hft : rm.fromSq.ordinal ≠ rm.toSq.ordinal := fun h => by
        rw [← h] at hc3
        rw [hc1] at hc3
        cases hc3
      by_cases hPc : rm.piece = Piece.Pawn
      · rw [hPc] at hc2 hN1
        simp only [kindBB] at hc2 hN1
        have hfile := hN2 hPc
        by_cases hdbl : rm.fromSq.rank = 1 ∧ rm.toSq.rank = 3
        · rcases hep : b.epSquare with _ | e <;>
            by_cases hclk : (rm.piece = Piece.Pawn || rm.isCapture) = true <;>
              (dsimp only
               simp only [hclk, if_true, if_false]
               simp only [Board.applyRegularMove, hcap]
               simp only [hPc, hstm, hside0, hdbl, reduceCtorEq,
                 eq_self_iff_true, if_true, if_false, and_self]
               simp only [applyMove_plain_spec, reduceCtorEq,
                 eq_self_iff_true, if_true, if_false, ne_eq,
                 not_false_eq_true]
               rw [pop_pushTail]
               dsimp only
               simp only [pushTail_spec, Move.isPawnInvolved, reduceIte,
                 reduceCtorEq, eq_self_iff_true, if_true, if_false]
               simp only [Board.undoRegularMove, Board.undoCapture, hcap, hPc]
               simp only [undoMove_ite_spec, addPiece_ite_spec, reduceCtorEq,
                 eq_self_iff_true, if_true, if_false]
               simp only [popCont_spec, reduceIte, reduceCtorEq,
                 eq_self_iff_true, if_true, if_false, epKeyOf]
               refine ⟨trivial, trivial, ?_, trivial, ?_, trivial,
                   trivial, trivial, trivial, trivial, trivial,
                   trivial, trivial, trivial, trivial, ?_, ?_,
                   trivial, trivial, ?_⟩
               · exact bbRestore_move b.whitePieces hbw rm.fromSq rm.toSq
                   ho1 ho2 hc1 hc3
               · exact bbRestore_move b.pawns hbp rm.fromSq rm.toSq
                   ho1 ho2 hc2 hN1
               · rw [delta_rank1_up rm.fromSq hdbl.1]
                 dsimp only
                 rw [fromCoords_file 2 rm.fromSq.file
                   (Nat.mod_lt _ (by omega)), hfile]
                 simp only [Nat.xor_self, castleKeys_zero]
                 simp only [Nat.xor_assoc, Nat.xor_comm, natXor_left_comm,
                   Nat.xor_cancel_left, Nat.xor_self, Nat.xor_zero,
                   Nat.zero_xor]
               · ring
               · intro q
                 dsimp only [History.push, History.pop]
                 exact histCounts_insert_decr _ _ hh1 hh2 q)
        · rcases hep : b.epSquare with _ | e <;>
            by_cases hclk : (rm.piece = Piece.Pawn || rm.isCapture) = true <;>
              (dsimp only
               simp only [hclk, if_true, if_false]
               simp only [Board.applyRegularMove, hcap]
               simp only [hPc, hstm, hside0, hdbl, reduceCtorEq,
                 eq_self_iff_true, if_true, if_false, and_self]
               simp only [applyMove_plain_spec, reduceCtorEq,
                 eq_self_iff_true, if_true, if_false, ne_eq,
                 not_false_eq_true]
               rw [pop_pushTail]
               dsimp only
               simp only [pushTail_spec, Move.isPawnInvolved, reduceIte,
                 reduceCtorEq, eq_self_iff_true, if_true, if_false]
               simp only [Board.undoRegularMove, Board.undoCapture, hcap, hPc]
               simp only [undoMove_ite_spec, addPiece_ite_spec, reduceCtorEq,
                 eq_self_iff_true, if_true, if_false]
               simp only [popCont_spec, reduceIte, reduceCtorEq,
                 eq_self_iff_true, if_true, if_false, epKeyOf]
               refine ⟨trivial, trivial, ?_, trivial, ?_, trivial,
                   trivial, trivial, trivial, trivial, trivial,
                   trivial, trivial, trivial, trivial, ?_, ?_,
                   trivial, trivial, ?_⟩
               · exact bbRestore_move b.whitePieces hbw rm.fromSq rm.toSq
                   ho1 ho2 hc1 hc3
               · exact bbRestore_move b.pawns hbp rm.fromSq rm.toSq
                   ho1 ho2 hc2 hN1
               · simp only [Nat.xor_self, castleKeys_zero]
                 simp only [Nat.xor_assoc, Nat.xor_comm, natXor_left_comm,
                   Nat.xor_cancel_left, Nat.xor_self, Nat.xor_zero,
                   Nat.zero_xor]
               · ring
               · intro q
                 dsimp only [History.push, History.pop]
                 exact histCounts_insert_decr _ _ hh1 hh2 q)
      · by_cases hKc : rm.piece = Piece.King
        · rw [hKc] at hc2 hN1
          simp only [kindBB] at hc2 hN1
          rcases hep : b.epSquare with _ | e <;>
            by_cases hclk : (rm.piece = Piece.Pawn || rm.isCapture) = true <;>
              (dsimp only
               simp only [hclk, if_true, if_false]
               simp only [Board.applyRegularMove, hcap]
               simp only [hPc, hKc, hstm, hside0, reduceCtorEq,
                 eq_self_iff_true, if_true, if_false]
               simp only [applyMove_king_W_spec]
               rw [pop_pushTail]
               dsimp only
               simp only [pushTail_spec, Move.isPawnInvolved, reduceIte,
                 reduceCtorEq, eq_self_iff_true, if_true, if_false]
               simp only [Board.undoRegularMove, Board.undoCapture, hcap, hKc]
               simp only [undoMove_ite_spec, addPiece_ite_spec, reduceCtorEq,
                 eq_self_iff_true, if_true, if_false]
               simp only [popCont_spec, reduceIte, reduceCtorEq,
                 eq_self_iff_true, if_true, if_false, epKeyOf]
               refine ⟨trivial, trivial, ?_, trivial, trivial, trivial,
                   trivial, trivial, trivial, ?_, trivial, trivial,
                   trivial, trivial, trivial, ?_, ?_, trivial,
                   trivial, ?_⟩
               · exact bbRestore_move b.whitePieces hbw rm.fromSq rm.toSq
                   ho1 ho2 hc1 hc3
               · exact bbRestore_move b.kings hbki rm.fromSq rm.toSq
                   ho1 ho2 hc2 hN1
               · rw [castleKeys_kingMoveW K b.castlingRights b.castlingRights
                   (self_diff_and _ _) (self_diff_and _ _)]
                 simp only [Nat.xor_self, castleKeys_zero]
                 simp only [Nat.xor_assoc, Nat.xor_comm, natXor_left_comm,
                   Nat.xor_cancel_left, Nat.xor_self, Nat.xor_zero,
                   Nat.zero_xor]
               · ring
               · intro q
                 dsimp only [History.push, History.pop]
                 exact histCounts_insert_decr _ _ hh1 hh2 q)
        · by_cases hRc : rm.piece = Piece.Rook
          · rw [hRc] at hc2 hN1
            simp only [kindBB] at hc2 hN1
            rcases hep : b.epSquare with _ | e <;>
              by_cases hclk : (rm.piece = Piece.Pawn || rm.isCapture) = true <;>
                (dsimp only
                 simp only [hclk, if_true, if_false]
                 simp only [Board.applyRegularMove, hcap]
                 simp only [hPc, hRc, hstm, hside0, reduceCtorEq,
                   eq_self_iff_true, if_true, if_false]
                 simp only [applyMove_rook_W_spec]
                 rw [pop_pushTail]
                 dsimp only
                 simp only [pushTail_spec, Move.isPawnInvolved, reduceIte,
                   reduceCtorEq, eq_self_iff_true, if_true, if_false]
                 simp only [Board.undoRegularMove, Board.undoCapture, hcap, hRc]
                 simp only [undoMove_ite_spec, addPiece_ite_spec, reduceCtorEq,
                   eq_self_iff_true, if_true, if_false]
                 simp only [popCont_spec, reduceIte, reduceCtorEq,
                   eq_self_iff_true, if_true, if_false, epKeyOf]
                 refine ⟨trivial, trivial, ?_, trivial, trivial, trivial,
                     trivial, ?_, trivial, trivial, trivial, trivial,
                     trivial, trivial, trivial, ?_, ?_, trivial,
                     trivial, ?_⟩
                 · exact bbRestore_move b.whitePieces hbw rm.fromSq rm.toSq
                     ho1 ho2 hc1 hc3
                 · exact bbRestore_move b.rooks hbr rm.fromSq rm.toSq
                     ho1 ho2 hc2 hN1
                 · rw [castleKeys_rookMoveW K b.castlingRights b.castlingRights
                     rm.fromSq (self_diff_and _ _) (self_diff_and _ _)]
                   simp only [Nat.xor_self, castleKeys_zero]
                   simp only [Nat.xor_assoc, Nat.xor_comm, natXor_left_comm,
                     Nat.xor_cancel_left, Nat.xor_self, Nat.xor_zero,
                     Nat.zero_xor]
                 · ring
                 · intro q
                   dsimp only [History.push, History.pop]
                   exact histCounts_insert_decr _ _ hh1 hh2 q)
          · rcases hep : b.epSquare with _ | e <;>
              by_cases hclk : (rm.piece = Piece.Pawn || rm.isCapture) = true <;>
                (dsimp only
                 simp only [hclk, if_true, if_false]
                 simp only [Board.applyRegularMove, hcap]
                 simp only [hPc, hKc, hRc, hstm, hside0, reduceCtorEq,
                   eq_self_iff_true, if_true, if_false]
                 simp only [applyMove_plain_spec, hPc, hKc, hRc,
                   reduceCtorEq, eq_self_iff_true, if_true, if_false,
                   ne_eq, not_false_eq_true]
                 rw [pop_pushTail]
                 dsimp only
                 simp only [pushTail_spec, Move.isPawnInvolved, reduceIte,
                   reduceCtorEq, eq_self_iff_true, if_true, if_false]
                 simp only [Board.undoRegularMove, Board.undoCapture, hcap, hPc, hKc, hRc]
                 simp only [undoMove_ite_spec, addPiece_ite_spec, hPc, hKc, hRc,
                   reduceCtorEq, eq_self_iff_true, if_true, if_false]
                 simp only [popCont_spec, reduceIte, reduceCtorEq,
                   eq_self_iff_true, if_true, if_false, epKeyOf]
                 refine ⟨trivial, trivial, ?_, trivial, trivial, ?_, ?_,
                     trivial, ?_, trivial, trivial, trivial, trivial,
                     trivial, trivial, ?_, ?_, trivial, trivial, ?_⟩
                 · exact bbRestore_move b.whitePieces hbw rm.fromSq rm.toSq
                     ho1 ho2 hc1 hc3
                 · by_cases hpk : rm.piece = Piece.Bishop <;>
                       simp only [hpk, reduceCtorEq, eq_self_iff_true,
                         if_true, if_false]
                   rw [hpk] at hc2 hN1
                   simp only [kindBB] at hc2 hN1
                   exact bbRestore_move b.bishops hbbi rm.fromSq rm.toSq
                     ho1 ho2 hc2 hN1
                 · by_cases hpk : rm.piece = Piece.Knight <;>
                       simp only [hpk, reduceCtorEq, eq_self_iff_true,
                         if_true, if_false]
                   rw [hpk] at hc2 hN1
                   simp only [kindBB] at hc2 hN1
                   exact bbRestore_move b.knights hbn rm.fromSq rm.toSq
                     ho1 ho2 hc2 hN1
                 · by_cases hpk : rm.piece = Piece.Queen <;>
                       simp only [hpk, reduceCtorEq, eq_self_iff_true,
                         if_true, if_false]
                   rw [hpk] at hc2 hN1
                   simp only [kindBB] at hc2 hN1
                   exact bbRestore_move b.queens hbq rm.fromSq rm.toSq
                     ho1 ho2 hc2 hN1
                 · simp only [Nat.xor_self, castleKeys_zero]
                   simp only [Nat.xor_assoc, Nat.xor_comm, natXor_left_comm,
                     Nat.xor_cancel_left, Nat.xor_self, Nat.xor_zero,
                     Nat.zero_xor]
                 · ring
                 · intro q
                   dsimp only [History.push, History.pop]
                   exact histCounts_insert_decr _ _ hh1 hh2 q)
    · obtain ⟨ho1, ho2, hc1, hc2, hc3, hS1, hS2, hS3⟩ := hcomp
      rw [hside0] at hS1
      simp only [Board.getPieces] at hS1
      have hft : rm.fromSq.ordinal ≠ rm.toSq.ordinal := fun h => by
        rw [← h] at hc3
        rw [hc1] at hc3
        cases hc3
      by_cases hPc : rm.piece = Piece.Pawn
      · rw [hPc] at hc2 hS3
        simp only [kindBB] at hc2 hS3
        rcases hep : b.epSquare with _ | e <;>
          by_cases hclk : (rm.piece = Piece.Pawn || rm.isCapture) = true <;>
            (dsimp only
             simp only [hclk, if_true, if_false]
             simp only [Board.applyRegularMove, hcap]
             simp only [applyCapture_spec, longCastlingFlag,
               shortCastlingFlag, backRank, hstm, hside0, reduceCtorEq,
               eq_self_iff_true, if_true, if_false]
             simp only [hPc]
             simp only [applyMove_plain_spec, reduceCtorEq,
               eq_self_iff_true, if_true, if_false, ne_eq,
               not_false_eq_true]
             rw [pop_pushTail]
             dsimp only
             simp only [pushTail_spec, Move.isPawnInvolved, reduceIte,
               reduceCtorEq, eq_self_iff_true, if_true, if_false]
             simp only [Board.undoRegularMove, Board.undoCapture, hcap, hPc]
             simp only [undoMove_ite_spec, addPiece_ite_spec, reduceCtorEq,
               eq_self_iff_true, if_true, if_false]
             simp only [popCont_spec, reduceIte, reduceCtorEq,
               eq_self_iff_true, if_true, if_false, epKeyOf]
             refine ⟨trivial, trivial, ?_, ?_, ?_, ?_, ?_, ?_, ?_, ?_,
                 trivial, trivial, trivial, trivial, trivial, ?_,
                 ?_, trivial, trivial, ?_⟩
             · exact bbRestore_move b.whitePieces hbw rm.fromSq rm.toSq
                 ho1 ho2 hc1 hc3
             · exact bbRestore_cs b.blackPieces hbk2 rm.toSq ho2 hS1
             · by_cases hcpk : cp = Piece.Pawn <;>
                   simp only [hcpk, reduceCtorEq, eq_self_iff_true,
                     if_true, if_false]
               · rw [hcpk] at hS2
                 simp only [kindBB] at hS2
                 exact bbRestore_capSame b.pawns hbp rm.fromSq rm.toSq
                   ho1 ho2 hc2 hS2 hft
               · have hfree := hS3 (fun h => hcpk h)
                 exact bbRestore_move b.pawns hbp rm.fromSq rm.toSq
                   ho1 ho2 hc2 hfree
             · by_cases hcpk : cp = Piece.Bishop <;>
                   simp only [hcpk, reduceCtorEq, eq_self_iff_true,
                     if_true, if_false]
               rw [hcpk] at hS2
               simp only [kindBB] at hS2
               exact bbRestore_cs b.bishops hbbi rm.toSq ho2 hS2
             · by_cases hcpk : cp = Piece.Knight <;>
                   simp only [hcpk, reduceCtorEq, eq_self_iff_true,
                     if_true, if_false]
               rw [hcpk] at hS2
               simp only [kindBB] at hS2
               exact bbRestore_cs b.knights hbn rm.toSq ho2 hS2
             · by_cases hcpk : cp = Piece.Rook <;>
                   simp only [hcpk, reduceCtorEq, eq_self_iff_true,
                     if_true, if_false]
               rw [hcpk] at hS2
               simp only [kindBB] at hS2
               exact bbRestore_cs b.rooks hbr rm.toSq ho2 hS2
             · by_cases hcpk : cp = Piece.Queen <;>
                   simp only [hcpk, reduceCtorEq, eq_self_iff_true,
                     if_true, if_false]
               rw [hcpk] at hS2
               simp only [kindBB] at hS2
               exact bbRestore_cs b.queens hbq rm.toSq ho2 hS2
             · by_cases hcpk : cp = Piece.King <;>
                   simp only [hcpk, reduceCtorEq, eq_self_iff_true,
                     if_true, if_false]
               rw [hcpk] at hS2
               simp only [kindBB] at hS2
               exact bbRestore_cs b.kings hbki rm.toSq ho2 hS2
             · rw [castleKeys_capB]
               simp only [Nat.xor_assoc, Nat.xor_comm, natXor_left_comm,
                 Nat.xor_cancel_left, Nat.xor_self, Nat.xor_zero,
                 Nat.zero_xor]
             · ring
             · intro q
               dsimp only [History.push, History.pop]
               exact histCounts_insert_decr _ _ hh1 hh2 q)
      · by_cases hKc : rm.piece = Piece.King
        · rw [hKc] at hc2 hS3
          simp only [kindBB] at hc2 hS3
          rcases hep : b.epSquare with _ | e <;>
            by_cases hclk : (rm.piece = Piece.Pawn || rm.isCapture) = true <;>
              (dsimp only
               simp only [hclk, if_true, if_false]
               simp only [Board.applyRegularMove, hcap]
               simp only [applyCapture_spec, longCastlingFlag,
                 shortCastlingFlag, backRank, hstm, hside0, reduceCtorEq,
                 eq_self_iff_true, if_true, if_false]
               simp only [hKc]
               simp only [applyMove_king_W_spec]
               rw [pop_pushTail]
               dsimp only
               simp only [pushTail_spec, Move.isPawnInvolved, reduceIte,
                 reduceCtorEq, eq_self_iff_true, if_true, if_false]
               simp only [Board.undoRegularMove, Board.undoCapture, hcap, hKc]
               simp only [undoMove_ite_spec, addPiece_ite_spec, reduceCtorEq,
                 eq_self_iff_true, if_true, if_false]
               simp only [popCont_spec, reduceIte, reduceCtorEq,
                 eq_self_iff_true, if_true, if_false, epKeyOf]
               refine ⟨trivial, trivial, ?_, ?_, ?_, ?_, ?_, ?_, ?_, ?_,
                   trivial, trivial, trivial, trivial, trivial, ?_,
                   ?_, trivial, trivial, ?_⟩
               · exact bbRestore_move b.whitePieces hbw rm.fromSq rm.toSq
                   ho1 ho2 hc1 hc3
               · exact bbRestore_cs b.blackPieces hbk2 rm.toSq ho2 hS1
               · by_cases hcpk : cp = Piece.Pawn <;>
                     simp only [hcpk, reduceCtorEq, eq_self_iff_true,
                       if_true, if_false]
                 rw [hcpk] at hS2
                 simp only [kindBB] at hS2
                 exact bbRestore_cs b.pawns hbp rm.toSq ho2 hS2
               · by_cases hcpk : cp = Piece.Bishop <;>
                     simp only [hcpk, reduceCtorEq, eq_self_iff_true,
                       if_true, if_false]
                 rw [hcpk] at hS2
                 simp only [kindBB] at hS2
                 exact bbRestore_cs b.bishops hbbi rm.toSq ho2 hS2
               · by_cases hcpk : cp = Piece.Knight <;>
                     simp only [hcpk, reduceCtorEq, eq_self_iff_true,
                       if_true, if_false]
                 rw [hcpk] at hS2
                 simp only [kindBB] at hS2
                 exact bbRestore_cs b.knights hbn rm.toSq ho2 hS2
               · by_cases hcpk : cp = Piece.Rook <;>
                     simp only [hcpk, reduceCtorEq, eq_self_iff_true,
                       if_true, if_false]
                 rw [hcpk] at hS2
                 simp only [kindBB] at hS2
                 exact bbRestore_cs b.rooks hbr rm.toSq ho2 hS2
               · by_cases hcpk : cp = Piece.Queen <;>
                     simp only [hcpk, reduceCtorEq, eq_self_iff_true,
                       if_true, if_false]
                 rw [hcpk] at hS2
                 simp only [kindBB] at hS2
                 exact bbRestore_cs b.queens hbq rm.toSq ho2 hS2
               · by_cases hcpk : cp = Piece.King <;>
                     simp only [hcpk, reduceCtorEq, eq_self_iff_true,
                       if_true, if_false]
                 · rw [hcpk] at hS2
                   simp only [kindBB] at hS2
                   exact bbRestore_capSame b.kings hbki rm.fromSq rm.toSq
                     ho1 ho2 hc2 hS2 hft
                 · have hfree := hS3 (fun h => hcpk h)
                   exact bbRestore_move b.kings hbki rm.fromSq rm.toSq
                     ho1 ho2 hc2 hfree
               · rw [castleKeys_kingMoveW K
                     (capRights 8 2 7 cp rm.toSq b.castlingRights)
                     b.castlingRights
                     (capRightsB_diff_and b.castlingRights cp rm.toSq _
                       (by decide) (by decide))
                     (capRightsB_diff_and b.castlingRights cp rm.toSq _
                       (by decide) (by decide)),
                   castleKeys_capB]
                 simp only [Nat.xor_assoc, Nat.xor_comm, natXor_left_comm,
                   Nat.xor_cancel_left, Nat.xor_self, Nat.xor_zero,
                   Nat.zero_xor]
               · ring
               · intro q
                 dsimp only [History.push, History.pop]
                 exact histCounts_insert_decr _ _ hh1 hh2 q)
        · by_cases hRc : rm.piece = Piece.Rook
          · rw [hRc] at hc2 hS3
            simp only [kindBB] at hc2 hS3
            rcases hep : b.epSquare with _ | e <;>
              by_cases hclk : (rm.piece = Piece.Pawn || rm.isCapture) = true <;>
                (dsimp only
                 simp only [hclk, if_true, if_false]
                 simp only [Board.applyRegularMove, hcap]
                 simp only [applyCapture_spec, longCastlingFlag,
                   shortCastlingFlag, backRank, hstm, hside0, reduceCtorEq,
                   eq_self_iff_true, if_true, if_false]
                 simp only [hRc]
                 simp only [applyMove_rook_W_spec]
                 rw [pop_pushTail]
                 dsimp only
                 simp only [pushTail_spec, Move.isPawnInvolved, reduceIte,
                   reduceCtorEq, eq_self_iff_true, if_true, if_false]
                 simp only [Board.undoRegularMove, Board.undoCapture, hcap, hRc]
                 simp only [undoMove_ite_spec, addPiece_ite_spec, reduceCtorEq,
                   eq_self_iff_true, if_true, if_false]
                 simp only [popCont_spec, reduceIte, reduceCtorEq,
                   eq_self_iff_true, if_true, if_false, epKeyOf]
                 refine ⟨trivial, trivial, ?_, ?_, ?_, ?_, ?_, ?_, ?_, ?_,
                     trivial, trivial, trivial, trivial, trivial, ?_,
                     ?_, trivial, trivial, ?_⟩
                 · exact bbRestore_move b.whitePieces hbw rm.fromSq rm.toSq
                     ho1 ho2 hc1 hc3
                 · exact bbRestore_cs b.blackPieces hbk2 rm.toSq ho2 hS1
                 · by_cases hcpk : cp = Piece.Pawn <;>
                       simp only [hcpk, reduceCtorEq, eq_self_iff_true,
                         if_true, if_false]
                   rw [hcpk] at hS2
                   simp only [kindBB] at hS2
                   exact bbRestore_cs b.pawns hbp rm.toSq ho2 hS2
                 · by_cases hcpk : cp = Piece.Bishop <;>
                       simp only [hcpk, reduceCtorEq, eq_self_iff_true,
                         if_true, if_false]
                   rw [hcpk] at hS2
                   simp only [kindBB] at hS2
                   exact bbRestore_cs b.bishops hbbi rm.toSq ho2 hS2
                 · by_cases hcpk : cp = Piece.Knight <;>
                       simp only [hcpk, reduceCtorEq, eq_self_iff_true,
                         if_true, if_false]
                   rw [hcpk] at hS2
                   simp only [kindBB] at hS2
                   exact bbRestore_cs b.knights hbn rm.toSq ho2 hS2
                 · by_cases hcpk : cp = Piece.Rook <;>
                       simp only [hcpk, reduceCtorEq, eq_self_iff_true,
                         if_true, if_false]
                   · rw [hcpk] at hS2
                     simp only [kindBB] at hS2
                     exact bbRestore_capSame b.rooks hbr rm.fromSq rm.toSq
                       ho1 ho2 hc2 hS2 hft
                   · have hfree := hS3 (fun h => hcpk h)
                     exact bbRestore_move b.rooks hbr rm.fromSq rm.toSq
                       ho1 ho2 hc2 hfree
                 · by_cases hcpk : cp = Piece.Queen <;>
                       simp only [hcpk, reduceCtorEq, eq_self_iff_true,
                         if_true, if_false]
                   rw [hcpk] at hS2
                   simp only [kindBB] at hS2
                   exact bbRestore_cs b.queens hbq rm.toSq ho2 hS2
                 · by_cases hcpk : cp = Piece.King <;>
                       simp only [hcpk, reduceCtorEq, eq_self_iff_true,
                         if_true, if_false]
                   rw [hcpk] at hS2
                   simp only [kindBB] at hS2
                   exact bbRestore_cs b.kings hbki rm.toSq ho2 hS2
                 · rw [castleKeys_rookMoveW K
                       (capRights 8 2 7 cp rm.toSq b.castlingRights)
                       b.castlingRights rm.fromSq
                       (capRightsB_diff_and b.castlingRights cp rm.toSq _
                         (by decide) (by decide))
                       (capRightsB_diff_and b.castlingRights cp rm.toSq _
                         (by decide) (by decide)),
                     castleKeys_capB]
                   simp only [Nat.xor_assoc, Nat.xor_comm, natXor_left_comm,
                     Nat.xor_cancel_left, Nat.xor_self, Nat.xor_zero,
                     Nat.zero_xor]
                 · ring
                 · intro q
                   dsimp only [History.push, History.pop]
                   exact histCounts_insert_decr _ _ hh1 hh2 q)
          · rcases hep : b.epSquare with _ | e <;>
              by_cases hclk : (rm.piece = Piece.Pawn || rm.isCapture) = true <;>
                (dsimp only
                 simp only [hclk, if_true, if_false]
                 simp only [Board.applyRegularMove, hcap]
                 simp only [applyCapture_spec, longCastlingFlag,
                   shortCastlingFlag, backRank, hstm, hside0, reduceCtorEq,
                   eq_self_iff_true, if_true, if_false]
                 simp only [applyMove_plain_spec, hPc, hKc, hRc,
                   reduceCtorEq, eq_self_iff_true, if_true, if_false,
                   ne_eq, not_false_eq_true]
                 rw [pop_pushTail]
                 dsimp only
                 simp only [pushTail_spec, Move.isPawnInvolved, reduceIte,
                   reduceCtorEq, eq_self_iff_true, if_true, if_false]
                 simp only [Board.undoRegularMove, Board.undoCapture, hcap, hPc, hKc, hRc]
                 simp only [undoMove_ite_spec, addPiece_ite_spec, hPc, hKc, hRc,
                   reduceCtorEq, eq_self_iff_true, if_true, if_false]
                 simp only [popCont_spec, reduceIte, reduceCtorEq,
                   eq_self_iff_true, if_true, if_false, epKeyOf]
                 refine ⟨trivial, trivial, ?_, ?_, ?_, ?_, ?_, ?_, ?_, ?_,
                     trivial, trivial, trivial, trivial, trivial, ?_,
                     ?_, trivial, trivial, ?_⟩
                 · exact bbRestore_move b.whitePieces hbw rm.fromSq rm.toSq
                     ho1 ho2 hc1 hc3
                 · exact bbRestore_cs b.blackPieces hbk2 rm.toSq ho2 hS1
                 · by_cases hcpk : cp = Piece.Pawn <;>
                       simp only [hcpk, reduceCtorEq, eq_self_iff_true,
                         if_true, if_false]
                   rw [hcpk] at hS2
                   simp only [kindBB] at hS2
                   exact bbRestore_cs b.pawns hbp rm.toSq ho2 hS2
                 · by_cases hcpk : cp = Piece.Bishop <;>
                       by_cases hpk : rm.piece = Piece.Bishop <;>
                         simp only [hcpk, hpk, reduceCtorEq, eq_self_iff_true,
                           if_true, if_false]
                   · rw [hcpk] at hS2
                     rw [hpk] at hc2
                     simp only [kindBB] at hS2 hc2
                     exact bbRestore_capSame b.bishops hbbi rm.fromSq rm.toSq
                       ho1 ho2 hc2 hS2 hft
                   · rw [hcpk] at hS2
                     simp only [kindBB] at hS2
                     exact bbRestore_cs b.bishops hbbi rm.toSq ho2 hS2
                   · have hfree := hS3 (fun h => hcpk (h.trans hpk))
                     rw [hpk] at hfree hc2
                     simp only [kindBB] at hfree hc2
                     exact bbRestore_move b.bishops hbbi rm.fromSq rm.toSq
                       ho1 ho2 hc2 hfree
                 · by_cases hcpk : cp = Piece.Knight <;>
                       by_cases hpk : rm.piece = Piece.Knight <;>
                         simp only [hcpk, hpk, reduceCtorEq, eq_self_iff_true,
                           if_true, if_false]
                   · rw [hcpk] at hS2
                     rw [hpk] at hc2
                     simp only [kindBB] at hS2 hc2
                     exact bbRestore_capSame b.knights hbn rm.fromSq rm.toSq
                       ho1 ho2 hc2 hS2 hft
                   · rw [hcpk] at hS2
                     simp only [kindBB] at hS2
                     exact bbRestore_cs b.knights hbn rm.toSq ho2 hS2
                   · have hfree := hS3 (fun h => hcpk (h.trans hpk))
                     rw [hpk] at hfree hc2
                     simp only [kindBB] at hfree hc2
                     exact bbRestore_move b.knights hbn rm.fromSq rm.toSq
                       ho1 ho2 hc2 hfree
                 · by_cases hcpk : cp = Piece.Rook <;>
                       simp only [hcpk, reduceCtorEq, eq_self_iff_true,
                         if_true, if_false]
                   rw [hcpk] at hS2
                   simp only [kindBB] at hS2
                   exact bbRestore_cs b.rooks hbr rm.toSq ho2 hS2
                 · by_cases hcpk : cp = Piece.Queen <;>
                       by_cases hpk : rm.piece = Piece.Queen <;>
                         simp only [hcpk, hpk, reduceCtorEq, eq_self_iff_true,
                           if_true, if_false]
                   · rw [hcpk] at hS2
                     rw [hpk] at hc2
                     simp only [kindBB] at hS2 hc2
                     exact bbRestore_capSame b.queens hbq rm.fromSq rm.toSq
                       ho1 ho2 hc2 hS2 hft
                   · rw [hcpk] at hS2
                     simp only [kindBB] at hS2
                     exact bbRestore_cs b.queens hbq rm.toSq ho2 hS2
                   · have hfree := hS3 (fun h => hcpk (h.trans hpk))
                     rw [hpk] at hfree hc2
                     simp only [kindBB] at hfree hc2
                     exact bbRestore_move b.queens hbq rm.fromSq rm.toSq
                       ho1 ho2 hc2 hfree
                 · by_cases hcpk : cp = Piece.King <;>
                       simp only [hcpk, reduceCtorEq, eq_self_iff_true,
                         if_true, if_false]
                   rw [hcpk] at hS2
                   simp only [kindBB] at hS2
                   exact bbRestore_cs b.kings hbki rm.toSq ho2 hS2
                 · rw [castleKeys_capB]
                   simp only [Nat.xor_assoc, Nat.xor_comm, natXor_left_comm,
                     Nat.xor_cancel_left, Nat.xor_self, Nat.xor_zero,
                     Nat.zero_xor]
                 · ring
                 · intro q
                   dsimp only [History.push, History.pop]
                   exact histCounts_insert_decr _ _ hh1 hh2 q)
  case Black =>
    rcases hcap : rm.capturedPiece with _ | cp <;>
      simp only [hcap] at hcomp
    · obtain ⟨ho1, ho2, hc1, hc2, hc3, hN1, hN2⟩ := hcomp
      have hft : rm.fromSq.ordinal ≠ rm.toSq.ordinal := fun h => by
        rw [← h] at hc3
        rw [hc1] at hc3
        cases hc3
      by_cases hPc : rm.piece = Piece.Pawn
      · rw [hPc] at hc2 hN1
        simp only [kindBB] at hc2 hN1
        have hfile := hN2 hPc
        by_cases hdbl : rm.fromSq.rank = 6 ∧ rm.toSq.rank = 4
        · rcases hep : b.epSquare with _ | e <;>
            by_cases hclk : (rm.piece = Piece.Pawn || rm.isCapture) = true <;>
              (dsimp only
               simp only [hclk, if_true, if_false]
               simp only [Board.applyRegularMove, hcap]
               simp only [hPc, hstm, hside0, hdbl, reduceCtorEq,
                 eq_self_iff_true, if_true, if_false, and_self]
               simp only [applyMove_plain_spec, reduceCtorEq,
                 eq_self_iff_true, if_true, if_false, ne_eq,
                 not_false_eq_true]
               rw [pop_pushTail]
               dsimp only
               simp only [pushTail_spec, Move.isPawnInvolved, reduceIte,
                 reduceCtorEq, eq_self_iff_true, if_true, if_false]
               simp only [Board.undoRegularMove, Board.undoCapture, hcap, hPc]
               simp only [undoMove_ite_spec, addPiece_ite_spec, reduceCtorEq,
                 eq_self_iff_true, if_true, if_false]
               simp only [popCont_spec, reduceIte, reduceCtorEq,
                 eq_self_iff_true, if_true, if_false, epKeyOf]
               refine ⟨trivial, trivial, trivial, ?_, ?_, trivial,
                   trivial, trivial, trivial, trivial, trivial,
                   trivial, trivial, ?_, trivial, ?_, ?_, trivial,
                   trivial, ?_⟩
               · exact bbRestore_move b.blackPieces hbk2 rm.fromSq rm.toSq
                   ho1 ho2 hc1 hc3
               · exact bbRestore_move b.pawns hbp rm.fromSq rm.toSq
                   ho1 ho2 hc2 hN1
               · omega
               · rw [delta_rank6_down rm.fromSq hdbl.1]
                 dsimp only
                 rw [fromCoords_file 5 rm.fromSq.file
                   (Nat.mod_lt _ (by omega)), hfile]
                 simp only [Nat.xor_self, castleKeys_zero]
                 simp only [Nat.xor_assoc, Nat.xor_comm, natXor_left_comm,
                   Nat.xor_cancel_left, Nat.xor_self, Nat.xor_zero,
                   Nat.zero_xor]
               · ring
               · intro q
                 dsimp only [History.push, History.pop]
                 exact histCounts_insert_decr _ _ hh1 hh2 q)
        · rcases hep : b.epSquare with _ | e <;>
            by_cases hclk : (rm.piece = Piece.Pawn || rm.isCapture) = true <;>
              (dsimp only
               simp only [hclk, if_true, if_false]
               simp only [Board.applyRegularMove, hcap]
               simp only [hPc, hstm, hside0, hdbl, reduceCtorEq,
                 eq_self_iff_true, if_true, if_false, and_self]
               simp only [applyMove_plain_spec, reduceCtorEq,
                 eq_self_iff_true, if_true, if_false, ne_eq,
                 not_false_eq_true]
               rw [pop_pushTail]
               dsimp only
               simp only [pushTail_spec, Move.isPawnInvolved, reduceIte,
                 reduceCtorEq, eq_self_iff_true, if_true, if_false]
               simp only [Board.undoRegularMove, Board.undoCapture, hcap, hPc]
               simp only [undoMove_ite_spec, addPiece_ite_spec, reduceCtorEq,
                 eq_self_iff_true, if_true, if_false]
               simp only [popCont_spec, reduceIte, reduceCtorEq,
                 eq_self_iff_true, if_true, if_false, epKeyOf]
               refine ⟨trivial, trivial, trivial, ?_, ?_, trivial,
                   trivial, trivial, trivial, trivial, trivial,
                   trivial, trivial, ?_, trivial, ?_, ?_, trivial,
                   trivial, ?_⟩
               · exact bbRestore_move b.blackPieces hbk2 rm.fromSq rm.toSq
                   ho1 ho2 hc1 hc3
               · exact bbRestore_move b.pawns hbp rm.fromSq rm.toSq
                   ho1 ho2 hc2 hN1
               · omega
               · simp only [Nat.xor_self, castleKeys_zero]
                 simp only [Nat.xor_assoc, Nat.xor_comm, natXor_left_comm,
                   Nat.xor_cancel_left, Nat.xor_self, Nat.xor_zero,
                   Nat.zero_xor]
               · ring
               · intro q
                 dsimp only [History.push, History.pop]
                 exact histCounts_insert_decr _ _ hh1 hh2 q)
      · by_cases hKc : rm.piece = Piece.King
        · rw [hKc] at hc2 hN1
          simp only [kindBB] at hc2 hN1
          rcases hep : b.epSquare with _ | e <;>
            by_cases hclk : (rm.piece = Piece.Pawn || rm.isCapture) = true <;>
              (dsimp only
               simp only [hclk, if_true, if_false]
               simp only [Board.applyRegularMove, hcap]
               simp only [hPc, hKc, hstm, hside0, reduceCtorEq,
                 eq_self_iff_true, if_true, if_false]
               simp only [applyMove_king_B_spec]
               rw [pop_pushTail]
               dsimp only
               simp only [pushTail_spec, Move.isPawnInvolved, reduceIte,
                 reduceCtorEq, eq_self_iff_true, if_true, if_false]
               simp only [Board.undoRegularMove, Board.undoCapture, hcap, hKc]
               simp only [undoMove_ite_spec, addPiece_ite_spec, reduceCtorEq,
                 eq_self_iff_true, if_true, if_false]
               simp only [popCont_spec, reduceIte, reduceCtorEq,
                 eq_self_iff_true, if_true, if_false, epKeyOf]
               refine ⟨trivial, trivial, trivial, ?_, trivial, trivial,
                   trivial, trivial, trivial, ?_, trivial, trivial,
                   trivial, ?_, trivial, ?_, ?_, trivial, trivial,
                   ?_⟩
               · exact bbRestore_move b.blackPieces hbk2 rm.fromSq rm.toSq
                   ho1 ho2 hc1 hc3
               · exact bbRestore_move b.kings hbki rm.fromSq rm.toSq
                   ho1 ho2 hc2 hN1
               · omega
               · rw [castleKeys_kingMoveB K b.castlingRights b.castlingRights
                   (self_diff_and _ _) (self_diff_and _ _)]
                 simp only [Nat.xor_self, castleKeys_zero]
                 simp only [Nat.xor_assoc, Nat.xor_comm, natXor_left_comm,
                   Nat.xor_cancel_left, Nat.xor_self, Nat.xor_zero,
                   Nat.zero_xor]
               · ring
               · intro q
                 dsimp only [History.push, History.pop]
                 exact histCounts_insert_decr _ _ hh1 hh2 q)
        · by_cases hRc : rm.piece = Piece.Rook
          · rw [hRc] at hc2 hN1
            simp only [kindBB] at hc2 hN1
            rcases hep : b.epSquare with _ | e <;>
              by_cases hclk : (rm.piece = Piece.Pawn || rm.isCapture) = true <;>
                (dsimp only
                 simp only [hclk, if_true, if_false]
                 simp only [Board.applyRegularMove, hcap]
                 simp only [hPc, hRc, hstm, hside0, reduceCtorEq,
                   eq_self_iff_true, if_true, if_false]
                 simp only [applyMove_rook_B_spec]
                 rw [pop_pushTail]
                 dsimp only
                 simp only [pushTail_spec, Move.isPawnInvolved, reduceIte,
                   reduceCtorEq, eq_self_iff_true, if_true, if_false]
                 simp only [Board.undoRegularMove, Board.undoCapture, hcap, hRc]
                 simp only [undoMove_ite_spec, addPiece_ite_spec, reduceCtorEq,
                   eq_self_iff_true, if_true, if_false]
                 simp only [popCont_spec, reduceIte, reduceCtorEq,
                   eq_self_iff_true, if_true, if_false, epKeyOf]
                 refine ⟨trivial, trivial, trivial, ?_, trivial, trivial,
                     trivial, ?_, trivial, trivial, trivial, trivial,
                     trivial, ?_, trivial, ?_, ?_, trivial, trivial,
                     ?_⟩
                 · exact bbRestore_move b.blackPieces hbk2 rm.fromSq rm.toSq
                     ho1 ho2 hc1 hc3
                 · exact bbRestore_move b.rooks hbr rm.fromSq rm.toSq
                     ho1 ho2 hc2 hN1
                 · omega
                 · rw [castleKeys_rookMoveB K b.castlingRights b.castlingRights
                     rm.fromSq (self_diff_and _ _) (self_diff_and _ _)]
                   simp only [Nat.xor_self, castleKeys_zero]
                   simp only [Nat.xor_assoc, Nat.xor_comm, natXor_left_comm,
                     Nat.xor_cancel_left, Nat.xor_self, Nat.xor_zero,
                     Nat.zero_xor]
                 · ring
                 · intro q
                   dsimp only [History.push, History.pop]
                   exact histCounts_insert_decr _ _ hh1 hh2 q)
          · rcases hep : b.epSquare with _ | e <;>
              by_cases hclk : (rm.piece = Piece.Pawn || rm.isCapture) = true <;>
                (dsimp only
                 simp only [hclk, if_true, if_false]
                 simp only [Board.applyRegularMove, hcap]
                 simp only [hPc, hKc, hRc, hstm, hside0, reduceCtorEq,
                   eq_self_iff_true, if_true, if_false]
                 simp only [applyMove_plain_spec, hPc, hKc, hRc,
                   reduceCtorEq, eq_self_iff_true, if_true, if_false,
                   ne_eq, not_false_eq_true]
                 rw [pop_pushTail]
                 dsimp only
                 simp only [pushTail_spec, Move.isPawnInvolved, reduceIte,
                   reduceCtorEq, eq_self_iff_true, if_true, if_false]
                 simp only [Board.undoRegularMove, Board.undoCapture, hcap, hPc, hKc, hRc]
                 simp only [undoMove_ite_spec, addPiece_ite_spec, hPc, hKc, hRc,
                   reduceCtorEq, eq_self_iff_true, if_true, if_false]
                 simp only [popCont_spec, reduceIte, reduceCtorEq,
                   eq_self_iff_true, if_true, if_false, epKeyOf]
                 refine ⟨trivial, trivial, trivial, ?_, trivial, ?_, ?_,
                     trivial, ?_, trivial, trivial, trivial, trivial,
                     ?_, trivial, ?_, ?_, trivial, trivial, ?_⟩
                 · exact bbRestore_move b.blackPieces hbk2 rm.fromSq rm.toSq
                     ho1 ho2 hc1 hc3
                 · by_cases hpk : rm.piece = Piece.Bishop <;>
                       simp only [hpk, reduceCtorEq, eq_self_iff_true,
                         if_true, if_false]
                   rw [hpk] at hc2 hN1
                   simp only [kindBB] at hc2 hN1
                   exact bbRestore_move b.bishops hbbi rm.fromSq rm.toSq
                     ho1 ho2 hc2 hN1
                 · by_cases hpk : rm.piece = Piece.Knight <;>
                       simp only [hpk, reduceCtorEq, eq_self_iff_true,
                         if_true, if_false]
                   rw [hpk] at hc2 hN1
                   simp only [kindBB] at hc2 hN1
                   exact bbRestore_move b.knights hbn rm.fromSq rm.toSq
                     ho1 ho2 hc2 hN1
                 · by_cases hpk : rm.piece = Piece.Queen <;>
                       simp only [hpk, reduceCtorEq, eq_self_iff_true,
                         if_true, if_false]
                   rw [hpk] at hc2 hN1
                   simp only [kindBB] at hc2 hN1
                   exact bbRestore_move b.queens hbq rm.fromSq rm.toSq
                     ho1 ho2 hc2 hN1
                 · omega
                 · simp only [Nat.xor_self, castleKeys_zero]
                   simp only [Nat.xor_assoc, Nat.xor_comm, natXor_left_comm,
                     Nat.xor_cancel_left, Nat.xor_self, Nat.xor_zero,
                     Nat.zero_xor]
                 · ring
                 · intro q
                   dsimp only [History.push, History.pop]
                   exact histCounts_insert_decr _ _ hh1 hh2 q)
    · obtain ⟨ho1, ho2, hc1, hc2, hc3, hS1, hS2, hS3⟩ := hcomp
      rw [hside0] at hS1
      simp only [Board.getPieces] at hS1
      have hft : rm.fromSq.ordinal ≠ rm.toSq.ordinal := fun h => by
        rw [← h] at hc3
        rw [hc1] at hc3
        cases hc3
      by_cases hPc : rm.piece = Piece.Pawn
      · rw [hPc] at hc2 hS3
        simp only [kindBB] at hc2 hS3
        rcases hep : b.epSquare with _ | e <;>
          by_cases hclk : (rm.piece = Piece.Pawn || rm.isCapture) = true <;>
            (dsimp only
             simp only [hclk, if_true, if_false]
             simp only [Board.applyRegularMove, hcap]
             simp only [applyCapture_spec, longCastlingFlag,
               shortCastlingFlag, backRank, hstm, hside0, reduceCtorEq,
               eq_self_iff_true, if_true, if_false]
             simp only [hPc]
             simp only [applyMove_plain_spec, reduceCtorEq,
               eq_self_iff_true, if_true, if_false, ne_eq,
               not_false_eq_true]
             rw [pop_pushTail]
             dsimp only
             simp only [pushTail_spec, Move.isPawnInvolved, reduceIte,
               reduceCtorEq, eq_self_iff_true, if_true, if_false]
             simp only [Board.undoRegularMove, Board.undoCapture, hcap, hPc]
             simp only [undoMove_ite_spec, addPiece_ite_spec, reduceCtorEq,
               eq_self_iff_true, if_true, if_false]
             simp only [popCont_spec, reduceIte, reduceCtorEq,
               eq_self_iff_true, if_true, if_false, epKeyOf]
             refine ⟨trivial, trivial, ?_, ?_, ?_, ?_, ?_, ?_, ?_, ?_,
                 trivial, trivial, trivial, ?_, trivial, ?_, ?_,
                 trivial, trivial, ?_⟩
             · exact bbRestore_cs b.whitePieces hbw rm.toSq ho2 hS1
             · exact bbRestore_move b.blackPieces hbk2 rm.fromSq rm.toSq
                 ho1 ho2 hc1 hc3
             · by_cases hcpk : cp = Piece.Pawn <;>
                   simp only [hcpk, reduceCtorEq, eq_self_iff_true,
                     if_true, if_false]
               · rw [hcpk] at hS2
                 simp only [kindBB] at hS2
                 exact bbRestore_capSame b.pawns hbp rm.fromSq rm.toSq
                   ho1 ho2 hc2 hS2 hft
               · have hfree := hS3 (fun h => hcpk h)
                 exact bbRestore_move b.pawns hbp rm.fromSq rm.toSq
                   ho1 ho2 hc2 hfree
             · by_cases hcpk : cp = Piece.Bishop <;>
                   simp only [hcpk, reduceCtorEq, eq_self_iff_true,
                     if_true, if_false]
               rw [hcpk] at hS2
               simp only [kindBB] at hS2
               exact bbRestore_cs b.bishops hbbi rm.toSq ho2 hS2
             · by_cases hcpk : cp = Piece.Knight <;>
                   simp only [hcpk, reduceCtorEq, eq_self_iff_true,
                     if_true, if_false]
               rw [hcpk] at hS2
               simp only [kindBB] at hS2
               exact bbRestore_cs b.knights hbn rm.toSq ho2 hS2
             · by_cases hcpk : cp = Piece.Rook <;>
                   simp only [hcpk, reduceCtorEq, eq_self_iff_true,
                     if_true, if_false]
               rw [hcpk] at hS2
               simp only [kindBB] at hS2
               exact bbRestore_cs b.rooks hbr rm.toSq ho2 hS2
             · by_cases hcpk : cp = Piece.Queen <;>
                   simp only [hcpk, reduceCtorEq, eq_self_iff_true,
                     if_true, if_false]
               rw [hcpk] at hS2
               simp only [kindBB] at hS2
               exact bbRestore_cs b.queens hbq rm.toSq ho2 hS2
             · by_cases hcpk : cp = Piece.King <;>
                   simp only [hcpk, reduceCtorEq, eq_self_iff_true,
                     if_true, if_false]
               rw [hcpk] at hS2
               simp only [kindBB] at hS2
               exact bbRestore_cs b.kings hbki rm.toSq ho2 hS2
             · omega
             · rw [castleKeys_capW]
               simp only [Nat.xor_assoc, Nat.xor_comm, natXor_left_comm,
                 Nat.xor_cancel_left, Nat.xor_self, Nat.xor_zero,
                 Nat.zero_xor]
             · ring
             · intro q
               dsimp only [History.push, History.pop]
               exact histCounts_insert_decr _ _ hh1 hh2 q)
      · by_cases hKc : rm.piece = Piece.King
        · rw [hKc] at hc2 hS3
          simp only [kindBB] at hc2 hS3
          rcases hep : b.epSquare with _ | e <;>
            by_cases hclk : (rm.piece = Piece.Pawn || rm.isCapture) = true <;>
              (dsimp only
               simp only [hclk, if_true, if_false]
               simp only [Board.applyRegularMove, hcap]
               simp only [applyCapture_spec, longCastlingFlag,
                 shortCastlingFlag, backRank, hstm, hside0, reduceCtorEq,
                 eq_self_iff_true, if_true, if_false]
               simp only [hKc]
               simp only [applyMove_king_B_spec]
               rw [pop_pushTail]
               dsimp only
               simp only [pushTail_spec, Move.isPawnInvolved, reduceIte,
                 reduceCtorEq, eq_self_iff_true, if_true, if_false]
               simp only [Board.undoRegularMove, Board.undoCapture, hcap, hKc]
               simp only [undoMove_ite_spec, addPiece_ite_spec, reduceCtorEq,
                 eq_self_iff_true, if_true, if_false]
               simp only [popCont_spec, reduceIte, reduceCtorEq,
                 eq_self_iff_true, if_true, if_false, epKeyOf]
               refine ⟨trivial, trivial, ?_, ?_, ?_, ?_, ?_, ?_, ?_, ?_,
                   trivial, trivial, trivial, ?_, trivial, ?_, ?_,
                   trivial, trivial, ?_⟩
               · exact bbRestore_cs b.whitePieces hbw rm.toSq ho2 hS1
               · exact bbRestore_move b.blackPieces hbk2 rm.fromSq rm.toSq
                   ho1 ho2 hc1 hc3
               · by_cases hcpk : cp = Piece.Pawn <;>
                     simp only [hcpk, reduceCtorEq, eq_self_iff_true,
                       if_true, if_false]
                 rw [hcpk] at hS2
                 simp only [kindBB] at hS2
                 exact bbRestore_cs b.pawns hbp rm.toSq ho2 hS2
               · by_cases hcpk : cp = Piece.Bishop <;>
                     simp only [hcpk, reduceCtorEq, eq_self_iff_true,
                       if_true, if_false]
                 rw [hcpk] at hS2
                 simp only [kindBB] at hS2
                 exact bbRestore_cs b.bishops hbbi rm.toSq ho2 hS2
               · by_cases hcpk : cp = Piece.Knight <;>
                     simp only [hcpk, reduceCtorEq, eq_self_iff_true,
                       if_true, if_false]
                 rw [hcpk] at hS2
                 simp only [kindBB] at hS2
                 exact bbRestore_cs b.knights hbn rm.toSq ho2 hS2
               · by_cases hcpk : cp = Piece.Rook <;>
                     simp only [hcpk, reduceCtorEq, eq_self_iff_true,
                       if_true, if_false]
                 rw [hcpk] at hS2
                 simp only [kindBB] at hS2
                 exact bbRestore_cs b.rooks hbr rm.toSq ho2 hS2
               · by_cases hcpk : cp = Piece.Queen <;>
                     simp only [hcpk, reduceCtorEq, eq_self_iff_true,
                       if_true, if_false]
                 rw [hcpk] at hS2
                 simp only [kindBB] at hS2
                 exact bbRestore_cs b.queens hbq rm.toSq ho2 hS2
               · by_cases hcpk : cp = Piece.King <;>
                     simp only [hcpk, reduceCtorEq, eq_self_iff_true,
                       if_true, if_false]
                 · rw [hcpk] at hS2
                   simp only [kindBB] at hS2
                   exact bbRestore_capSame b.kings hbki rm.fromSq rm.toSq
                     ho1 ho2 hc2 hS2 hft
                 · have hfree := hS3 (fun h => hcpk h)
                   exact bbRestore_move b.kings hbki rm.fromSq rm.toSq
                     ho1 ho2 hc2 hfree
               · omega
               · rw [castleKeys_kingMoveB K
                     (capRights 4 1 0 cp rm.toSq b.castlingRights)
                     b.castlingRights
                     (capRightsW_diff_and b.castlingRights cp rm.toSq _
                       (by decide) (by decide))
                     (capRightsW_diff_and b.castlingRights cp rm.toSq _
                       (by decide) (by decide)),
                   castleKeys_capW]
                 simp only [Nat.xor_assoc, Nat.xor_comm, natXor_left_comm,
                   Nat.xor_cancel_left, Nat.xor_self, Nat.xor_zero,
                   Nat.zero_xor]
               · ring
               · intro q
                 dsimp only [History.push, History.pop]
                 exact histCounts_insert_decr _ _ hh1 hh2 q)
        · by_cases hRc : rm.piece = Piece.Rook
          · rw [hRc] at hc2 hS3
            simp only [kindBB] at hc2 hS3
            rcases hep : b.epSquare with _ | e <;>
              by_cases hclk : (rm.piece = Piece.Pawn || rm.isCapture) = true <;>
                (dsimp only
                 simp only [hclk, if_true, if_false]
                 simp only [Board.applyRegularMove, hcap]
                 simp only [applyCapture_spec, longCastlingFlag,
                   shortCastlingFlag, backRank, hstm, hside0, reduceCtorEq,
                   eq_self_iff_true, if_true, if_false]
                 simp only [hRc]
                 simp only [applyMove_rook_B_spec]
                 rw [pop_pushTail]
                 dsimp only
                 simp only [pushTail_spec, Move.isPawnInvolved, reduceIte,
                   reduceCtorEq, eq_self_iff_true, if_true, if_false]
                 simp only [Board.undoRegularMove, Board.undoCapture, hcap, hRc]
                 simp only [undoMove_ite_spec, addPiece_ite_spec, reduceCtorEq,
                   eq_self_iff_true, if_true, if_false]
                 simp only [popCont_spec, reduceIte, reduceCtorEq,
                   eq_self_iff_true, if_true, if_false, epKeyOf]
                 refine ⟨trivial, trivial, ?_, ?_, ?_, ?_, ?_, ?_, ?_, ?_,
                     trivial, trivial, trivial, ?_, trivial, ?_, ?_,
                     trivial, trivial, ?_⟩
                 · exact bbRestore_cs b.whitePieces hbw rm.toSq ho2 hS1
                 · exact bbRestore_move b.blackPieces hbk2 rm.fromSq rm.toSq
                     ho1 ho2 hc1 hc3
                 · by_cases hcpk : cp = Piece.Pawn <;>
                       simp only [hcpk, reduceCtorEq, eq_self_iff_true,
                         if_true, if_false]
                   rw [hcpk] at hS2
                   simp only [kindBB] at hS2
                   exact bbRestore_cs b.pawns hbp rm.toSq ho2 hS2
                 · by_cases hcpk : cp = Piece.Bishop <;>
                       simp only [hcpk, reduceCtorEq, eq_self_iff_true,
                         if_true, if_false]
                   rw [hcpk] at hS2
                   simp only [kindBB] at hS2
                   exact bbRestore_cs b.bishops hbbi rm.toSq ho2 hS2
                 · by_cases hcpk : cp = Piece.Knight <;>
                       simp only [hcpk, reduceCtorEq, eq_self_iff_true,
                         if_true, if_false]
                   rw [hcpk] at hS2
                   simp only [kindBB] at hS2
                   exact bbRestore_cs b.knights hbn rm.toSq ho2 hS2
                 · by_cases hcpk : cp = Piece.Rook <;>
                       simp only [hcpk, reduceCtorEq, eq_self_iff_true,
                         if_true, if_false]
                   · rw [hcpk] at hS2
                     simp only [kindBB] at hS2
                     exact bbRestore_capSame b.rooks hbr rm.fromSq rm.toSq
                       ho1 ho2 hc2 hS2 hft
                   · have hfree := hS3 (fun h => hcpk h)
                     exact bbRestore_move b.rooks hbr rm.fromSq rm.toSq
                       ho1 ho2 hc2 hfree
                 · by_cases hcpk : cp = Piece.Queen <;>
                       simp only [hcpk, reduceCtorEq, eq_self_iff_true,
                         if_true, if_false]
                   rw [hcpk] at hS2
                   simp only [kindBB] at hS2
                   exact bbRestore_cs b.queens hbq rm.toSq ho2 hS2
                 · by_cases hcpk : cp = Piece.King <;>
                       simp only [hcpk, reduceCtorEq, eq_self_iff_true,
                         if_true, if_false]
                   rw [hcpk] at hS2
                   simp only [kindBB] at hS2
                   exact bbRestore_cs b.kings hbki rm.toSq ho2 hS2
                 · omega
                 · rw [castleKeys_rookMoveB K
                       (capRights 4 1 0 cp rm.toSq b.castlingRights)
                       b.castlingRights rm.fromSq
                       (capRightsW_diff_and b.castlingRights cp rm.toSq _
                         (by decide) (by decide))
                       (capRightsW_diff_and b.castlingRights cp rm.toSq _
                         (by decide) (by decide)),
                     castleKeys_capW]
                   simp only [Nat.xor_assoc, Nat.xor_comm, natXor_left_comm,
                     Nat.xor_cancel_left, Nat.xor_self, Nat.xor_zero,
                     Nat.zero_xor]
                 · ring
                 · intro q
                   dsimp only [History.push, History.pop]
                   exact histCounts_insert_decr _ _ hh1 hh2 q)
          · rcases hep : b.epSquare with _ | e <;>
              by_cases hclk : (rm.piece = Piece.Pawn || rm.isCapture) = true <;>
                (dsimp only
                 simp only [hclk, if_true, if_false]
                 simp only [Board.applyRegularMove, hcap]
                 simp only [applyCapture_spec, longCastlingFlag,
                   shortCastlingFlag, backRank, hstm, hside0, reduceCtorEq,
                   eq_self_iff_true, if_true, if_false]
                 simp only [applyMove_plain_spec, hPc, hKc, hRc,
                   reduceCtorEq, eq_self_iff_true, if_true, if_false,
                   ne_eq, not_false_eq_true]
                 rw [pop_pushTail]
                 dsimp only
                 simp only [pushTail_spec, Move.isPawnInvolved, reduceIte,
                   reduceCtorEq, eq_self_iff_true, if_true, if_false]
                 simp only [Board.undoRegularMove, Board.undoCapture, hcap, hPc, hKc, hRc]
                 simp only [undoMove_ite_spec, addPiece_ite_spec, hPc, hKc, hRc,
                   reduceCtorEq, eq_self_iff_true, if_true, if_false]
                 simp only [popCont_spec, reduceIte, reduceCtorEq,
                   eq_self_iff_true, if_true, if_false, epKeyOf]
                 refine ⟨trivial, trivial, ?_, ?_, ?_, ?_, ?_, ?_, ?_, ?_,
                     trivial, trivial, trivial, ?_, trivial, ?_, ?_,
                     trivial, trivial, ?_⟩
                 · exact bbRestore_cs b.whitePieces hbw rm.toSq ho2 hS1
                 · exact bbRestore_move b.blackPieces hbk2 rm.fromSq rm.toSq
                     ho1 ho2 hc1 hc3
                 · by_cases hcpk : cp = Piece.Pawn <;>
                       simp only [hcpk, reduceCtorEq, eq_self_iff_true,
                         if_true, if_false]
                   rw [hcpk] at hS2
                   simp only [kindBB] at hS2
                   exact bbRestore_cs b.pawns hbp rm.toSq ho2 hS2
                 · by_cases hcpk : cp = Piece.Bishop <;>
                       by_cases hpk : rm.piece = Piece.Bishop <;>
                         simp only [hcpk, hpk, reduceCtorEq, eq_self_iff_true,
                           if_true, if_false]
                   · rw [hcpk] at hS2
                     rw [hpk] at hc2
                     simp only [kindBB] at hS2 hc2
                     exact bbRestore_capSame b.bishops hbbi rm.fromSq rm.toSq
                       ho1 ho2 hc2 hS2 hft
                   · rw [hcpk] at hS2
                     simp only [kindBB] at hS2
                     exact bbRestore_cs b.bishops hbbi rm.toSq ho2 hS2
                   · have hfree := hS3 (fun h => hcpk (h.trans hpk))
                     rw [hpk] at hfree hc2
                     simp only [kindBB] at hfree hc2
                     exact bbRestore_move b.bishops hbbi rm.fromSq rm.toSq
                       ho1 ho2 hc2 hfree
                 · by_cases hcpk : cp = Piece.Knight <;>
                       by_cases hpk : rm.piece = Piece.Knight <;>
                         simp only [hcpk, hpk, reduceCtorEq, eq_self_iff_true,
                           if_true, if_false]
                   · rw [hcpk] at hS2
                     rw [hpk] at hc2
                     simp only [kindBB] at hS2 hc2
                     exact bbRestore_capSame b.knights hbn rm.fromSq rm.toSq
                       ho1 ho2 hc2 hS2 hft
                   · rw [hcpk] at hS2
                     simp only [kindBB] at hS2
                     exact bbRestore_cs b.knights hbn rm.toSq ho2 hS2
                   · have hfree := hS3 (fun h => hcpk (h.trans hpk))
                     rw [hpk] at hfree hc2
                     simp only [kindBB] at hfree hc2
                     exact bbRestore_move b.knights hbn rm.fromSq rm.toSq
                       ho1 ho2 hc2 hfree
                 · by_cases hcpk : cp = Piece.Rook <;>
                       simp only [hcpk, reduceCtorEq, eq_self_iff_true,
                         if_true, if_false]
                   rw [hcpk] at hS2
                   simp only [kindBB] at hS2
                   exact bbRestore_cs b.rooks hbr rm.toSq ho2 hS2
                 · by_cases hcpk : cp = Piece.Queen <;>
                       by_cases hpk : rm.piece = Piece.Queen <;>
                         simp only [hcpk, hpk, reduceCtorEq, eq_self_iff_true,
                           if_true, if_false]
                   · rw [hcpk] at hS2
                     rw [hpk] at hc2
                     simp only [kindBB] at hS2 hc2
                     exact bbRestore_capSame b.queens hbq rm.fromSq rm.toSq
                       ho1 ho2 hc2 hS2 hft
                   · rw [hcpk] at hS2
                     simp only [kindBB] at hS2
                     exact bbRestore_cs b.queens hbq rm.toSq ho2 hS2
                   · have hfree := hS3 (fun h => hcpk (h.trans hpk))
                     rw [hpk] at hfree hc2
                     simp only [kindBB] at hfree hc2
                     exact bbRestore_move b.queens hbq rm.fromSq rm.toSq
                       ho1 ho2 hc2 hfree
                 · by_cases hcpk : cp = Piece.King <;>
                       simp only [hcpk, reduceCtorEq, eq_self_iff_true,
                         if_true, if_false]
                   rw [hcpk] at hS2
                   simp only [kindBB] at hS2
                   exact bbRestore_cs b.kings hbki rm.toSq ho2 hS2
                 · omega
                 · rw [castleKeys_capW]
                   simp only [Nat.xor_assoc, Nat.xor_comm, natXor_left_comm,
                     Nat.xor_cancel_left, Nat.xor_self, Nat.xor_zero,
                     Nat.zero_xor]
                 · ring
                 · intro q
                   dsimp only [History.push, History.pop]
                   exact histCounts_insert_decr _ _ hh1 hh2 q)

/-- Helper: under the structural invariants and move-compatibility conditions
of `pushPopSafe`, `push` followed by `pop` restores every field other than
the hash-history map, whose per-hash counts are all preserved. -/
theorem restoresOfSafe (K : ZKeys) (b : Board) (m : Move)
    (h : pushPopSafe b m) : restores K b m := by
  cases m with
  | Regular rm => exact restores_regular K b rm h
  | ShortCastling s => exact restores_short K b s h
  | LongCastling s => exact restores_long K b s h
  | EnPassantCapture em => exact restores_ep K b em h
  | Promotion pm => exact restores_promotion K b pm h

/-- C1 counterexample: the `hash_history` map itself is NOT restored by a
matched `push`/`pop` pair.  Pushing the legal opening move e2e4 from the
starting position and popping it leaves a zero-count entry for the new
position's hash in the history map (`History::pop` only decrements the
`Counter`, it never removes a key), so the map differs from its value
before the push even though every per-hash count is back to its old value. -/
theorem push_pop_hash_history_cex :
    Move.Regular (RegularMove.new Piece.Pawn ⟨12⟩ ⟨28⟩ none) ∈
      (Board.startingPosition sampleKeys).legalMoves ∧
    (((Board.startingPosition sampleKeys).push sampleKeys
        (Move.Regular (RegularMove.new Piece.Pawn ⟨12⟩ ⟨28⟩ none))).pop
          sampleKeys).hashHistory ≠
      (Board.startingPosition sampleKeys).hashHistory := by
  constructor
  · decide
  · decide

/-- C1 (amended): for every board satisfying the structural invariants every
reachable board enjoys (consistent side fields, in-range counters, 64-bit
bitboards, well-formed history) and every move whose piece/capture data is
consistent with the board (as every generated legal move is), `push(M)`
followed by `pop()` restores the side to move, all ten bitboards, the
castling rights, en-passant square, clocks, move counter, Zobrist hash,
PST evaluation, move stack and repetition flag to their values before the
push, and restores the count of every hash in the history map — but not
the history map itself, which can retain a zero-count key. -/
theorem push_pop_restores (K : ZKeys) (b : Board) (m : Move)
    (h : pushPopSafe b m) : restores K b m :=
  restoresOfSafe K b m h

/-- Witness for `push_pop_restores`: the starting position and the legal
knight move g1f3. -/
theorem push_pop_restores_witness :
    pushPopSafe (Board.startingPosition sampleKeys)
        (Move.Regular (RegularMove.new Piece.Knight ⟨6⟩ ⟨21⟩ none)) ∧
      restores sampleKeys (Board.startingPosition sampleKeys)
        (Move.Regular (RegularMove.new Piece.Knight ⟨6⟩ ⟨21⟩ none)) :=
  ⟨by
     simp only [pushPopSafe, boardsBounded, histOk,
       show (RegularMove.new Piece.Knight ⟨6⟩ ⟨21⟩ none).capturedPiece =
         none from rfl,
       show (RegularMove.new Piece.Knight ⟨6⟩ ⟨21⟩ none).piece =
         Piece.Knight from rfl]
     decide,
   push_pop_restores sampleKeys _ _ (by
     simp only [pushPopSafe, boardsBounded, histOk,
       show (RegularMove.new Piece.Knight ⟨6⟩ ⟨21⟩ none).capturedPiece =
         none from rfl,
       show (RegularMove.new Piece.Knight ⟨6⟩ ⟨21⟩ none).piece =
         Piece.Knight from rfl]
     decide)⟩

/-- C2 counterexample: `parse_fen` accepts the placement
`8/8/8/8/8/8/p7/7pp` even though its first rank is nine files wide; the
overflowing file wraps (`from_coords(0, 8)` is ordinal 8 = a2), so the black
pawn of row `7pp` and the black pawn of row `p7` are added to the same
square.  The second `add_piece` flips the same piece key again and cancels
it out of `z_hash`, while the bitboards (ORs) keep the piece, so the stored
hash differs from the from-scratch reconstruction already at construction. -/
theorem zobrist_scratch_cex :
    (parseFen sampleKeys "8/8/8/8/8/8/p7/7pp w - - 0 1").map
        (fun b => b.hash ==
          ({ b with zHash := 0 }.initZobristHash sampleKeys).zHash) =
      some false := by
  decide

/-- Helper: the recomputed Zobrist hash only reads the twelve hash-relevant
fields. -/
theorem initZobristHash_zHash_congr (K : ZKeys) (A B : Board)
    (hstm : A.sideToMove = B.sideToMove)
    (hwp : A.whitePieces = B.whitePieces) (hbp : A.blackPieces = B.blackPieces)
    (hpw : A.pawns = B.pawns) (hbi : A.bishops = B.bishops)
    (hkn : A.knights = B.knights) (hrk : A.rooks = B.rooks)
    (hqu : A.queens = B.queens) (hkg : A.kings = B.kings)
    (hcr : A.castlingRights = B.castlingRights)
    (hep : A.epSquare = B.epSquare) (hz : A.zHash = B.zHash) :
    (A.initZobristHash K).zHash = (B.initZobristHash K).zHash := by
  dsimp only [Board.initZobristHash, Board.canCastleShort, Board.canCastleLong]
  rw [hstm, hwp, hbp, hpw, hbi, hkn, hrk, hqu, hkg, hcr, hep, hz]

/-- With seed 0 the evaluator never consumes a jitter draw: the score is
independent of the draw counter and the counter is returned unchanged. -/
theorem searchEval_zero (pert : Nat → Int) (b : Board) (d : Nat) :
    searchEval pert 0 b d = ((searchEval pert 0 b 0).1, d) := by
  unfold searchEval
  split
  · rfl
  · split
    · rfl
    · split
      · rfl
      · simp

/-- Once the `_qsearch` move loop is in PV mode it can no longer fall
through to an `UpperBound` result. -/
theorem qloop_true_not_upper (K : ZKeys)
    (f : Board → Int → Int → Nat → Option (Score × Nat)) (b : Board) :
    ∀ (ms : List Move) (alpha beta : Int) (draws : Nat) (r : Score) (d : Nat),
    qloop K f b ms alpha beta true draws = some (r, d) →
    ∀ x, r ≠ Score.UpperBound x := by
  intro ms
  induction ms with
  | nil =>
    intro alpha beta draws r d h x
    simp only [qloop, reduceIte, Option.some.injEq, Prod.mk.injEq] at h
    rw [← h.1]
    intro hc
    cases hc
  | cons m rest ih =>
    intro alpha beta draws r d h x
    rw [qloop] at h
    rcases hc : f (b.push K m) (-beta) (-alpha) draws with _ | ⟨cs, d1⟩ <;>
      rw [hc] at h <;> dsimp only at h
    · cases h
    · rcases hn : cs.neg with s | s | s <;> rw [hn] at h <;> dsimp only at h
      · simp only [Option.some.injEq, Prod.mk.injEq] at h
        rw [← h.1]
        intro hcc
        cases hcc
      · by_cases hb : alpha ≥ beta
        · rw [if_pos hb] at h
          simp only [Option.some.injEq, Prod.mk.injEq] at h
          rw [← h.1]
          intro hcc
          cases hcc
        · rw [if_neg hb] at h
          exact ih alpha beta d1 r d h x
      · by_cases hb : (if s > alpha then s else alpha) ≥ beta
        · rw [if_pos hb] at h
          simp only [Option.some.injEq, Prod.mk.injEq] at h
          rw [← h.1]
          intro hcc
          cases hcc
        · rw [if_neg hb] at h
          by_cases hs : s > alpha
          · simp only [hs, if_true] at h
            exact ih _ beta d1 r d h x
          · simp only [hs, if_false] at h
            exact ih alpha beta d1 r d h x

/-- The `_qsearch` move loop only ever raises `alpha`: an `Exact` result is
at least the `alpha` the loop started from. -/
theorem qloop_exact_ge (K : ZKeys)
    (f : Board → Int → Int → Nat → Option (Score × Nat)) (b : Board) :
    ∀ (ms : List Move) (alpha beta : Int) (isPv : Bool) (draws : Nat)
      (v : Int) (d : Nat),
    qloop K f b ms alpha beta isPv draws = some (.Exact v, d) →
    alpha ≤ v := by
  intro ms
  induction ms with
  | nil =>
    intro alpha beta isPv draws v d h
    rcases hp : isPv <;> rw [hp] at h <;>
      simp only [qloop, reduceIte, Bool.false_eq_true, if_true, if_false,
        eq_self_iff_true, Option.some.injEq, Prod.mk.injEq] at h
    · exact Score.noConfusion h.1
    · exact le_of_eq (Score.Exact.inj h.1)
  | cons m rest ih =>
    intro alpha beta isPv draws v d h
    rw [qloop] at h
    rcases hc : f (b.push K m) (-beta) (-alpha) draws with _ | ⟨cs, d1⟩ <;>
      rw [hc] at h <;> dsimp only at h
    · cases h
    · rcases hn : cs.neg with s | s | s <;> rw [hn] at h <;> dsimp only at h
      · simp only [Option.some.injEq, Prod.mk.injEq] at h
        exact absurd h.1 (fun hcc => by cases hcc)
      · by_cases hb : alpha ≥ beta
        · rw [if_pos hb] at h
          simp only [Option.some.injEq, Prod.mk.injEq] at h
          exact absurd h.1 (fun hcc => by cases hcc)
        · rw [if_neg hb] at h
          exact ih alpha beta isPv d1 v d h
      · by_cases hb : (if s > alpha then s else alpha) ≥ beta
        · rw [if_pos hb] at h
          simp only [Option.some.injEq, Prod.mk.injEq] at h
          exact absurd h.1 (fun hcc => by cases hcc)
        · rw [if_neg hb] at h
          by_cases hs : s > alpha
          · simp only [hs, if_true] at h
            exact le_of_lt (lt_of_lt_of_le hs (ih _ beta _ d1 v d h))
          · simp only [hs, if_false] at h
            exact ih alpha beta isPv d1 v d h

/-- The ordered move list of `_search` is a permutation of the generated
list. -/
theorem orderMoves_perm (hm pv : Option Move) (ms : List Move) :
    (orderMoves hm pv ms).Perm ms := by
  unfold orderMoves
  rcases h1 : orderSwapStage hm ms 0 with ⟨ms1, s1⟩
  dsimp only
  rcases h2 : orderSwapStage pv ms1 s1 with ⟨ms2, s2⟩
  dsimp only
  have p1 : ms1.Perm ms := by
    have hp := orderSwapStage_perm hm ms 0
    rw [h1] at hp
    exact hp
  have p2 : ms2.Perm ms1 := by
    have hp := orderSwapStage_perm pv ms1 s1
    rw [h2] at hp
    exact hp
  refine List.Perm.trans (List.Perm.trans ?_
    (List.Perm.of_eq (List.take_append_drop s2 ms2))) (p2.trans p1)
  exact List.Perm.append_left _ (List.perm_insertionSort _ _)

/-- Membership is preserved by the `_search` move ordering. -/
theorem orderMoves_mem (hm pv : Option Move) (ms : List Move) (m : Move) :
    m ∈ orderMoves hm pv ms ↔ m ∈ ms :=
  (orderMoves_perm hm pv ms).mem_iff

/-- `_qsearch` on a position that is not in check and whose stand-pat score
beats the window floor never yields an `UpperBound`, and yields `Exact`
values only at or above the stand-pat score. -/
theorem qsearch_kind (K : ZKeys) (pert : Nat → Int) (fuel : Nat) (b : Board)
    (bt : Int) (d : Nat) (r : Score) (d2 : Nat)
    (hA : b.isInCheck = false)
    (hB : -32767 < (searchEval pert 0 b 0).1)
    (h : qsearch K pert 0 fuel b (-32767) bt d = some (r, d2)) :
    (∀ x, r ≠ Score.UpperBound x) ∧
      (∀ v, r = Score.Exact v → -32767 < v) := by
  match fuel with
  | 0 => cases h
  | fuel + 1 =>
    rw [qsearch] at h
    rw [searchEval_zero pert b d, hA] at h
    have hB2 : decide ((searchEval pert 0 b 0).1 > -32767) = true := by
      simpa using hB
    simp only [Bool.not_false, Bool.true_and, hB2, reduceIte, if_true,
      eq_self_iff_true, true_and, Bool.false_eq_true, if_false] at h
    by_cases hcut : (searchEval pert 0 b 0).1 ≥ bt
    · rw [if_pos hcut] at h
      simp only [Option.some.injEq, Prod.mk.injEq] at h
      constructor
      · intro x
        rw [← h.1]
        intro hc
        cases hc
      · intro v hv
        rw [← h.1] at hv
        cases hv
    · rw [if_neg hcut] at h
      by_cases hemp : b.legalMoves.isEmpty = true
      · rw [if_pos hemp] at h
        simp only [Option.some.injEq, Prod.mk.injEq] at h
        constructor
        · intro x
          rw [← h.1]
          intro hc
          cases hc
        · intro v hv
          rw [← h.1] at hv
          cases hv
          omega
      · rw [if_neg hemp] at h
        constructor
        · exact qloop_true_not_upper K _ b _ _ _ _ r d2 h
        · intro v hv
          rw [hv] at h
          exact lt_of_lt_of_le hB (qloop_exact_ge K _ b _ _ _ _ _ v d2 h)

/-- When every child call of the `_search` move loop preserves the
table/PV state, never returns an `UpperBound` and returns `Exact` values
only above the window floor, a completed full-window loop falls through
(no beta cutoff), preserves the state, and ends with its initial PV move
or one of the listed moves. -/
theorem searchLoop_fall (K : ZKeys)
    (child : Board → TranspositionTable → List (List Move) → Nat →
      Int → Int →
      Option (Score × TranspositionTable × List (List Move) × Nat))
    (b : Board) (depth : Nat) :
    ∀ (ms : List Move) (alpha : Int) (pvMove : Option Move)
      (tt : TranspositionTable) (pvTable : List (List Move)) (draws : Nat)
      (r : LoopOut),
    -32767 ≤ alpha → alpha < 32767 →
    (∀ m ∈ ms, ∀ t pvT dr bt cr tt2 pvT2 dr2,
      child (b.push K m) t pvT dr (-32767) bt = some (cr, tt2, pvT2, dr2) →
      tt2 = t ∧ pvT2 = pvT ∧ (∀ x, cr ≠ Score.UpperBound x) ∧
        (∀ v, cr = Score.Exact v → -32767 < v)) →
    searchLoop K child b depth ms alpha 32767 pvMove tt pvTable draws =
      some r →
    ∃ alphaF pvF dF,
      r = .fall alphaF pvF tt pvTable dF ∧
      (pvF = pvMove ∨ ∃ m ∈ ms, pvF = some m) := by
  intro ms
  induction ms with
  | nil =>
    intro alpha pvMove tt pvTable draws r hlo hhi hok h
    rw [searchLoop] at h
    simp only [Option.some.injEq] at h
    exact ⟨alpha, pvMove, draws, h.symm, Or.inl rfl⟩
  | cons m rest ih =>
    intro alpha pvMove tt pvTable draws r hlo hhi hok h
    rw [searchLoop] at h
    rcases hc : child (b.push K m) tt pvTable draws (-32767) (-alpha) with
        _ | ⟨cs, tt1, pvT1, dr1⟩ <;> rw [hc] at h <;> dsimp only at h
    · cases h
    · obtain ⟨htt, hpvT, hnu, hex⟩ :=
        hok m (List.mem_cons_self m rest) tt pvTable draws
          (-alpha) cs tt1 pvT1 dr1 hc
      rw [htt, hpvT] at h
      have hok2 : ∀ m2 ∈ rest, ∀ t pvT dr bt cr tt2 pvT2 dr2,
          child (b.push K m2) t pvT dr (-32767) bt = some (cr, tt2, pvT2, dr2) →
          tt2 = t ∧ pvT2 = pvT ∧ (∀ x, cr ≠ Score.UpperBound x) ∧
            (∀ v, cr = Score.Exact v → -32767 < v) :=
        fun m2 hm2 => hok m2 (List.mem_cons_of_mem m hm2)
      rcases hcs : cs with v | v | v
      · rw [hcs] at h
        dsimp only [Score.neg] at h
        rw [if_neg (by omega)] at h
        obtain ⟨aF, pF, dF, hr, hpv⟩ :=
          ih alpha pvMove tt pvTable dr1 r hlo hhi hok2 h
        refine ⟨aF, pF, dF, hr, ?_⟩
        rcases hpv with hpv | ⟨m2, hm2, hpv⟩
        · exact Or.inl hpv
        · exact Or.inr ⟨m2, List.mem_cons_of_mem m hm2, hpv⟩
      · exact absurd hcs (hnu v)
      · rw [hcs] at h
        dsimp only [Score.neg] at h
        have hv : -32767 < v := hex v hcs
        have hs : -v < 32767 := by omega
        have hns : ¬ (if -v > alpha then -v else alpha) ≥ 32767 := by
          by_cases hgt : -v > alpha
          · rw [if_pos hgt]
            omega
          · rw [if_neg hgt]
            omega
        rw [if_neg hns] at h
        have hlo2 : -32767 ≤ (if -v > alpha then -v else alpha) := by
          by_cases hgt : -v > alpha
          · rw [if_pos hgt]
            omega
          · rw [if_neg hgt]
            omega
        have hhi2 : (if -v > alpha then -v else alpha) < 32767 := by
          by_cases hgt : -v > alpha
          · rw [if_pos hgt]
            omega
          · rw [if_neg hgt]
            omega
        obtain ⟨aF, pF, dF, hr, hpv⟩ :=
          ih _ _ tt pvTable dr1 r hlo2 hhi2 hok2 h
        refine ⟨aF, pF, dF, hr, ?_⟩
        rcases hpv with hpv | ⟨m2, hm2, hpv⟩
        · rw [hpv]
          by_cases hcond : -v > alpha ∧ -v < 32767
          · rw [if_pos hcond]
            exact Or.inr ⟨m, List.mem_cons_self m rest, rfl⟩
          · rw [if_neg hcond]
            exact Or.inl rfl
        · exact Or.inr ⟨m2, List.mem_cons_of_mem m hm2, hpv⟩

/-- `_search` at depth 1, with its move loop expressed through
`depth0Child`. -/
theorem searchMain_depth1 (K : ZKeys) (pert : Nat → Int) (rs fuel : Nat)
    (b : Board) (tt : TranspositionTable) (pvT : List (List Move))
    (lastPv : List Move) (dr : Nat) (alpha beta : Int) :
    searchMain K pert rs (fuel + 1) b tt pvT lastPv dr 1 0 alpha beta =
      match tt.get b 1 alpha beta with
      | some ttScore =>
        some (ttScore, tt, pvT.set 0 (match tt.getPvMove b with
          | some m => [m]
          | none => []), dr)
      | none =>
        if b.legalMoves.isEmpty then
          some (.Exact (if b.isInCheck then -30000 else 0), tt,
            pvT.set 0 [], dr)
        else
          match searchLoop K (depth0Child K pert rs fuel lastPv) b 1
              (orderMoves (tt.getMove b) lastPv[0]? b.legalMoves)
              alpha beta none tt pvT dr with
          | none => none
          | some (.cut s tt1 pvT1 dr1) => some (s, tt1, pvT1, dr1)
          | some (.fall alpha1 pvMove tt1 pvT1 dr1) =>
            match pvMove with
            | some m =>
              some (.Exact alpha1, tt1.put b 1 (.Pv alpha1 m),
                pvT1.set 0 (m :: (if 1 < pvT1.length then
                  pvT1.getD 1 [] else [])), dr1)
            | none =>
              some (.UpperBound alpha1, tt1.put b 1 (.Alpha alpha1),
                pvT1, dr1) := rfl

/-- The depth-0 child is exactly a quiescence search threading the
table/PV state through. -/
theorem depth0Child_eval (K : ZKeys) (pert : Nat → Int) (rs fuel : Nat)
    (lastPv : List Move) (bd : Board) (t : TranspositionTable)
    (pvT : List (List Move)) (d : Nat) (a bt : Int) :
    depth0Child K pert rs (fuel + 1) lastPv bd t pvT d a bt =
      (qsearch K pert rs (fuel + 1) bd a bt d).map
        (fun r => (r.1, t, pvT, r.2)) := rfl

/-- The depth-0 child with no fuel yields nothing. -/
theorem depth0Child_zero (K : ZKeys) (pert : Nat → Int) (rs : Nat)
    (lastPv : List Move) (bd : Board) (t : TranspositionTable)
    (pvT : List (List Move)) (d : Nat) (a bt : Int) :
    depth0Child K pert rs 0 lastPv bd t pvT d a bt = none := rfl

/-- `Search::search` with `max_depth = 1` is a single full-window root call
whose PV head is returned. -/
theorem searchRun_one (K : ZKeys) (pert : Nat → Int) (rs fuel : Nat)
    (b : Board) (tt : TranspositionTable) :
    searchRun K pert rs fuel 1 b tt =
      match searchMain K pert rs fuel b tt [[]] [] 0 1 0 (-32767) 32767 with
      | none => none
      | some r => some (r.2.2.1.headD []).head? := by
  unfold searchRun
  rcases hsm : searchMain K pert rs fuel b tt [[]] [] 0 1 0 (-32767) 32767
    with _ | ⟨sc, tt1, pvT1, d1⟩
  · dsimp only [List.range, List.range.loop, List.foldlM]
    simp only [List.replicate, Nat.reduceAdd]
    rw [hsm]
    rfl
  · dsimp only [List.range, List.range.loop, List.foldlM]
    simp only [List.replicate, Nat.reduceAdd]
    rw [hsm]
    rfl

/-- C8 counterexample: `Search::search` can return `None` on a position with
legal moves.  At the root `_search` probes the transposition table before
generating any move; a stored entry for the root hash with `depth = 255` and
an `Alpha` score of `-32768` satisfies the probe (`s <= alpha` holds at the
root window), so `_search` returns immediately, `pv_table[0]` is rewritten
from `get_pv_move` (which finds no PV entry), and `search` returns
`last_pv.first() = None` even though the starting position has twenty legal
moves. -/
theorem search_none_cex :
    ((Board.startingPosition sampleKeys).legalMoves ≠ [] ∧
      searchRun sampleKeys (fun _ => 0) 0 1 1
        (Board.startingPosition sampleKeys)
        { size := 45,
          entries := (TranspositionTable.new 1).entries.set
            ((Board.startingPosition sampleKeys).hash % 45)
            ⟨(Board.startingPosition sampleKeys).hash, 255,
              .Alpha (-32768)⟩ } = some none) := by
  constructor
  · decide
  · decide

/-- A left fold of XORs pulls out of the accumulator. -/
theorem foldl_xor_eq_xorAll (f : Nat → Nat) (l : List Nat) (h : Nat) :
    l.foldl (fun a i => a ^^^ f i) h = h ^^^ xorAll f l := by
  induction l generalizing h with
  | nil => simp [xorAll]
  | cons i l ih => simp [xorAll, ih, Nat.xor_assoc]

/-- Congruence for `xorAll`. -/
theorem xorAll_congr (f g : Nat → Nat) (l : List Nat)
    (h : ∀ i ∈ l, f i = g i) : xorAll f l = xorAll g l := by
  induction l with
  | nil => rfl
  | cons i l ih =>
    unfold xorAll
    rw [h i (List.mem_cons_self i l), ih (fun j hj => h j (List.mem_cons_of_mem i hj))]

/-- Changing a function at one index of a duplicate-free list XORs its
delta into the total. -/
theorem xorAll_flip_one (f g : Nat → Nat) (d : Nat) (j : Nat) (l : List Nat)
    (hnd : l.Nodup) (hj : j ∈ l)
    (hag : ∀ i ∈ l, i ≠ j → g i = f i)
    (hfl : g j = f j ^^^ d) :
    xorAll g l = xorAll f l ^^^ d := by
  induction l with
  | nil => cases hj
  | cons i l ih =>
    rcases List.mem_cons.mp hj with rfl | hj2
    · have hnotin : j ∉ l := (List.nodup_cons.mp hnd).1
      have htl : xorAll g l = xorAll f l :=
        xorAll_congr g f l (fun i hi =>
          hag i (List.mem_cons_of_mem j hi) (fun he => hnotin (he ▸ hi)))
      unfold xorAll
      rw [hfl, htl, Nat.xor_assoc, Nat.xor_assoc, Nat.xor_comm d (xorAll f l)]
    · have hij : i ≠ j := by
        intro he
        exact (List.nodup_cons.mp hnd).1 (he ▸ hj2)
      unfold xorAll
      rw [hag i (List.mem_cons_self i l) hij,
        ih (List.nodup_cons.mp hnd).2 hj2
          (fun k hk hkj => hag k (List.mem_cons_of_mem i hk) hkj),
        Nat.xor_assoc]

/-- Helper: the `bbToList` fold of `zFlipAll` as a fold over bit indices. -/
theorem foldl_key_filterMap (key : Nat → Nat) (bb : Nat) (l : List Nat)
    (h : Nat) :
    ((l.filterMap (fun i => if bb.testBit i then some (⟨i⟩ : Square)
        else none)).foldl (fun acc sq => acc ^^^ key sq.ordinal) h) =
      l.foldl (fun a i => a ^^^ (if bb.testBit i then key i else 0)) h := by
  induction l generalizing h with
  | nil => rfl
  | cons i l ih =>
    by_cases hb : bb.testBit i = true
    · simp only [List.filterMap_cons, hb, if_true, List.foldl_cons]
      exact ih (h ^^^ key i)
    · simp only [List.filterMap_cons, hb, Bool.false_eq_true, if_false,
        Nat.xor_zero, List.foldl_cons]
      exact ih h

/-- `zFlipAll` in closed form. -/
theorem zFlipAll_eq (K : ZKeys) (s : Side) (p : Piece) (bb : Nat) (h : Nat) :
    zFlipAll K s p bb h = h ^^^ zSum K s p bb := by
  unfold zFlipAll bbToList zSum
  rw [foldl_key_filterMap (fun i => K.pieceKeys s p i) bb (List.range 64) h]
  exact foldl_xor_eq_xorAll _ _ h

/-- `zSum` only reads the 64 low bits. -/
theorem zSum_congr (K : ZKeys) (s : Side) (p : Piece) (bb cc : Nat)
    (h : ∀ i, i < 64 → cc.testBit i = bb.testBit i) :
    zSum K s p cc = zSum K s p bb := by
  unfold zSum
  exact xorAll_congr _ _ _ (fun i hi => by rw [h i (List.mem_range.mp hi)])

/-- Flipping one low bit of the bitboard XORs that square's key into
`zSum`. -/
theorem zSum_flip (K : ZKeys) (s : Side) (p : Piece) (bb cc : Nat) (j : Nat)
    (hj : j < 64)
    (hag : ∀ i, i < 64 → i ≠ j → cc.testBit i = bb.testBit i)
    (hne : cc.testBit j = !bb.testBit j) :
    zSum K s p cc = zSum K s p bb ^^^ K.pieceKeys s p j := by
  unfold zSum
  apply xorAll_flip_one _ _ _ j _ (List.nodup_range 64) (List.mem_range.mpr hj)
  · intro i hi hij
    rw [hag i (List.mem_range.mp hi) hij]
  · rcases hb : bb.testBit j with _ | _ <;> rw [hb] at hne <;>
      simp [hne, hb, Nat.xor_self]

/-- Flipping two distinct low bits XORs both squares' keys into `zSum`. -/
theorem zSum_flip2 (K : ZKeys) (s : Side) (p : Piece) (bb cc : Nat)
    (j k : Nat) (hj : j < 64) (hk : k < 64) (hjk : j ≠ k)
    (hag : ∀ i, i < 64 → i ≠ j → i ≠ k → cc.testBit i = bb.testBit i)
    (hfj : cc.testBit j = !bb.testBit j)
    (hfk : cc.testBit k = !bb.testBit k) :
    zSum K s p cc = zSum K s p bb ^^^ K.pieceKeys s p j ^^^
      K.pieceKeys s p k := by
  unfold zSum
  have hmid : xorAll (fun i => if i = k then
        (if cc.testBit i then K.pieceKeys s p i else 0)
        else (if bb.testBit i then K.pieceKeys s p i else 0))
      (List.range 64) =
      xorAll (fun i => if bb.testBit i then K.pieceKeys s p i else 0)
        (List.range 64) ^^^ K.pieceKeys s p k := by
    apply xorAll_flip_one _ _ _ k _ (List.nodup_range 64) (List.mem_range.mpr hk)
    · intro i hi hik
      rw [if_neg hik]
    · rw [if_pos rfl]
      rcases hb : bb.testBit k with _ | _ <;> rw [hb] at hfk <;>
        simp [hfk, hb, Nat.xor_self]
  have hout : xorAll (fun i => if cc.testBit i then K.pieceKeys s p i else 0)
      (List.range 64) =
      xorAll (fun i => if i = k then
          (if cc.testBit i then K.pieceKeys s p i else 0)
          else (if bb.testBit i then K.pieceKeys s p i else 0))
        (List.range 64) ^^^ K.pieceKeys s p j := by
    apply xorAll_flip_one _ _ _ j _ (List.nodup_range 64) (List.mem_range.mpr hj)
    · intro i hi hij
      by_cases hik : i = k
      · rw [if_pos hik]
      · rw [if_neg hik, hag i (List.mem_range.mp hi) hij hik]
    · rw [if_neg hjk]
      rcases hb : bb.testBit j with _ | _ <;> rw [hb] at hfj <;>
        simp [hfj, hb, Nat.xor_self]
  rw [hout, hmid, Nat.xor_assoc, Nat.xor_assoc,
    Nat.xor_comm (K.pieceKeys s p k) (K.pieceKeys s p j)]

/-- Helper: testing a single-bit mask for equality with the mask or for a
nonzero intersection is the same. -/
theorem and_pow2_beq_ne (c k : Nat) :
    ((c &&& 2 ^ k) == 2 ^ k) = ((c &&& 2 ^ k) != 0) := by
  rw [Nat.and_two_pow]
  cases h : c.testBit k <;> simp [(Nat.two_pow_pos k).ne]

/-- Helper: a nonzero single-bit intersection is the bit test. -/
theorem and_pow2_ne (c k : Nat) : ((c &&& 2 ^ k) != 0) = c.testBit k := by
  rw [Nat.and_two_pow]
  cases h : c.testBit k <;> simp

/-- `can_castle_short` as the nonzero test `castleKeys` uses. -/
theorem canCastleShort_ne (b : Board) (s : Side) :
    b.canCastleShort s =
      (b.castlingRights &&& shortCastlingFlag s != 0) := by
  cases s
  · show (b.castlingRights &&& 1 == 1) = (b.castlingRights &&& 1 != 0)
    have h := and_pow2_beq_ne b.castlingRights 0
    simpa using h
  · show (b.castlingRights &&& 2 == 2) = (b.castlingRights &&& 2 != 0)
    have h := and_pow2_beq_ne b.castlingRights 1
    simpa using h

/-- `can_castle_long` as the nonzero test `castleKeys` uses. -/
theorem canCastleLong_ne (b : Board) (s : Side) :
    b.canCastleLong s =
      (b.castlingRights &&& longCastlingFlag s != 0) := by
  cases s
  · show (b.castlingRights &&& 4 == 4) = (b.castlingRights &&& 4 != 0)
    have h := and_pow2_beq_ne b.castlingRights 2
    simpa using h
  · show (b.castlingRights &&& 8 == 8) = (b.castlingRights &&& 8 != 0)
    have h := and_pow2_beq_ne b.castlingRights 3
    simpa using h

/-- Helper: fold a conditional XOR into the accumulator. -/
theorem ite_xor_push (c : Prop) [Decidable c] (h k : Nat) :
    (if c then h ^^^ k else h) = h ^^^ (if c then k else 0) := by
  by_cases hc : c <;> simp [hc]

/-- Helper: fold a Bool-conditional XOR into the accumulator. -/
theorem bite_xor_push (c : Bool) (h k : Nat) :
    (if c then h ^^^ k else h) = h ^^^ (if c then k else 0) := by
  cases c <;> simp

/-- `init_zobrist_hash` in closed form. -/
theorem initZobristHash_closed (K : ZKeys) (b : Board) :
    (b.initZobristHash K).zHash = b.zHash ^^^ zScratch K b := by
  show (Board.initZobristHash K b).zHash = _
  unfold Board.initZobristHash
  dsimp only
  rw [zFlipAll_eq, zFlipAll_eq, zFlipAll_eq, zFlipAll_eq, zFlipAll_eq,
    zFlipAll_eq, zFlipAll_eq, zFlipAll_eq, zFlipAll_eq, zFlipAll_eq,
    zFlipAll_eq, zFlipAll_eq]
  rw [bite_xor_push, bite_xor_push, bite_xor_push, bite_xor_push]
  rw [canCastleShort_ne, canCastleLong_ne, canCastleShort_ne, canCastleLong_ne]
  rcases hepq : b.epSquare with _ | ep <;>
    rcases hstm : b.sideToMove with _ | _ <;>
      simp only [hepq, hstm, zScratch, zPieces, castleKeys, epKeyOf,
        stmKeyOf, reduceCtorEq, eq_self_iff_true, if_true, if_false,
        Bool.false_eq_true, Nat.xor_zero, Nat.xor_assoc]

/-- The spec's invariant in closed form. -/
theorem zobristInvariant_iff (K : ZKeys) (b : Board) :
    zobristInvariant K b ↔ b.zHash = zScratch K b := by
  unfold zobristInvariant Board.hash
  rw [initZobristHash_closed]
  show b.zHash = 0 ^^^ zScratch K { b with zHash := 0 } ↔ _
  rw [Nat.zero_xor]
  exact Iff.rfl

/-- The invariant as a vanishing defect. -/
theorem zobristInvariant_iff_defect (K : ZKeys) (b : Board) :
    zobristInvariant K b ↔ zDefect K b = 0 := by
  rw [zobristInvariant_iff]
  unfold zDefect
  constructor
  · intro h
    rw [h, Nat.xor_self]
  · intro h
    have := Nat.xor_eq_zero.mp h
    exact this

/-- XOR left commutativity, for AC normalisation. -/
theorem xor_left_comm (a b c : Nat) : a ^^^ (b ^^^ c) = b ^^^ (a ^^^ c) := by
  rw [← Nat.xor_assoc, Nat.xor_comm a b, Nat.xor_assoc]

/-- XOR cancellation inside a chain. -/
theorem xor_cancel_mid (a b : Nat) : a ^^^ (a ^^^ b) = b := by
  rw [← Nat.xor_assoc, Nat.xor_self, Nat.zero_xor]

/-- Setting a square makes its bit true. -/
theorem bbSet_testBit_self (X : Nat) (sq : Square) (h : sq.ordinal < 64) :
    (bbSet X sq).testBit sq.ordinal = true := by
  rw [bbSet_testBit X sq h]
  simp

/-- Clearing a square makes its bit false. -/
theorem bbClear_testBit_self (X : Nat) (sq : Square) (h : sq.ordinal < 64) :
    (bbClear X sq).testBit sq.ordinal = false := by
  rw [bbClear_testBit X sq h]
  simp [h]

/-- Adding a piece to an empty square flips its key into the masked sum. -/
theorem zSum_masked_set (K : ZKeys) (s : Side) (p : Piece) (X C : Nat)
    (sq : Square) (h64 : sq.ordinal < 64)
    (hX : X.testBit sq.ordinal = false) :
    zSum K s p (bbSet X sq &&& bbSet C sq) =
      zSum K s p (X &&& C) ^^^ K.pieceKeys s p sq.ordinal := by
  apply zSum_flip K s p _ _ sq.ordinal h64
  · intro i hi hij
    rw [Nat.testBit_and, Nat.testBit_and,
      bbSet_testBit_ne X sq i h64 (fun he => hij he.symm),
      bbSet_testBit_ne C sq i h64 (fun he => hij he.symm)]
  · rw [Nat.testBit_and, Nat.testBit_and, bbSet_testBit_self X sq h64,
      bbSet_testBit_self C sq h64, hX]
    rfl

/-- A masked sum ignores a set on a square its left board misses. -/
theorem zSum_set_left_congr (K : ZKeys) (s : Side) (p : Piece) (X C : Nat)
    (sq : Square) (h64 : sq.ordinal < 64)
    (hX : X.testBit sq.ordinal = false) :
    zSum K s p (X &&& bbSet C sq) = zSum K s p (X &&& C) := by
  apply zSum_congr
  intro i hi
  by_cases hij : i = sq.ordinal
  · subst hij
    rw [Nat.testBit_and, Nat.testBit_and, hX]
    rfl
  · rw [Nat.testBit_and, Nat.testBit_and,
      bbSet_testBit_ne C sq i h64 (fun he => hij he.symm)]

/-- A masked sum ignores a set on a square its right board misses. -/
theorem zSum_set_right_congr (K : ZKeys) (s : Side) (p : Piece) (X C : Nat)
    (sq : Square) (h64 : sq.ordinal < 64)
    (hC : C.testBit sq.ordinal = false) :
    zSum K s p (bbSet X sq &&& C) = zSum K s p (X &&& C) := by
  apply zSum_congr
  intro i hi
  by_cases hij : i = sq.ordinal
  · subst hij
    rw [Nat.testBit_and, Nat.testBit_and, hC, Bool.and_false, Bool.and_false]
  · rw [Nat.testBit_and, Nat.testBit_and,
      bbSet_testBit_ne X sq i h64 (fun he => hij he.symm)]

/-- Removing the piece of an occupied square flips its key out of the
masked sum. -/
theorem zSum_masked_clear (K : ZKeys) (s : Side) (p : Piece) (X C : Nat)
    (sq : Square) (h64 : sq.ordinal < 64)
    (hX : X.testBit sq.ordinal = true) (hC : C.testBit sq.ordinal = true) :
    zSum K s p (bbClear X sq &&& bbClear C sq) =
      zSum K s p (X &&& C) ^^^ K.pieceKeys s p sq.ordinal := by
  apply zSum_flip K s p _ _ sq.ordinal h64
  · intro i hi hij
    rw [Nat.testBit_and, Nat.testBit_and,
      bbClear_testBit_ne X sq i h64 hi (fun he => hij he.symm),
      bbClear_testBit_ne C sq i h64 hi (fun he => hij he.symm)]
  · rw [Nat.testBit_and, Nat.testBit_and, bbClear_testBit_self X sq h64,
      bbClear_testBit_self C sq h64, hX, hC]
    rfl

/-- A masked sum ignores a clear on a square its left board misses. -/
theorem zSum_clear_left_congr (K : ZKeys) (s : Side) (p : Piece) (X C : Nat)
    (sq : Square) (h64 : sq.ordinal < 64)
    (hX : X.testBit sq.ordinal = false) :
    zSum K s p (X &&& bbClear C sq) = zSum K s p (X &&& C) := by
  apply zSum_congr
  intro i hi
  by_cases hij : i = sq.ordinal
  · subst hij
    rw [Nat.testBit_and, Nat.testBit_and, hX]
    rfl
  · rw [Nat.testBit_and, Nat.testBit_and,
      bbClear_testBit_ne C sq i h64 hi (fun he => hij he.symm)]

/-- A masked sum ignores a clear on a square its right board misses. -/
theorem zSum_clear_right_congr (K : ZKeys) (s : Side) (p : Piece) (X C : Nat)
    (sq : Square) (h64 : sq.ordinal < 64)
    (hC : C.testBit sq.ordinal = false) :
    zSum K s p (bbClear X sq &&& C) = zSum K s p (X &&& C) := by
  apply zSum_congr
  intro i hi
  by_cases hij : i = sq.ordinal
  · subst hij
    rw [Nat.testBit_and, Nat.testBit_and, hC, Bool.and_false, Bool.and_false]
  · rw [Nat.testBit_and, Nat.testBit_and,
      bbClear_testBit_ne X sq i h64 hi (fun he => hij he.symm)]

/-- Moving the piece of a masked pair from an occupied square to an empty
one flips both squares' keys. -/
theorem zSum_masked_move (K : ZKeys) (s : Side) (p : Piece) (X C : Nat)
    (f t : Square) (hf : f.ordinal < 64) (ht : t.ordinal < 64)
    (hft : f.ordinal ≠ t.ordinal)
    (hXf : X.testBit f.ordinal = true) (hCf : C.testBit f.ordinal = true)
    (hmt : (X &&& C).testBit t.ordinal = false) :
    zSum K s p (bbSet (bbClear X f) t &&& bbSet (bbClear C f) t) =
      zSum K s p (X &&& C) ^^^ K.pieceKeys s p f.ordinal ^^^
        K.pieceKeys s p t.ordinal := by
  apply zSum_flip2 K s p _ _ f.ordinal t.ordinal hf ht hft
  · intro i hi hif hit
    rw [Nat.testBit_and, Nat.testBit_and,
      bbSet_testBit_ne _ t i ht (fun he => hit he.symm),
      bbSet_testBit_ne _ t i ht (fun he => hit he.symm),
      bbClear_testBit_ne X f i hf hi (fun he => hif he.symm),
      bbClear_testBit_ne C f i hf hi (fun he => hif he.symm)]
  · rw [Nat.testBit_and, Nat.testBit_and,
      bbSet_testBit_ne _ t f.ordinal ht (fun he => hft he.symm),
      bbSet_testBit_ne _ t f.ordinal ht (fun he => hft he.symm),
      bbClear_testBit_self X f hf, bbClear_testBit_self C f hf, hXf, hCf]
    rfl
  · rw [Nat.testBit_and, bbSet_testBit_self _ t ht,
      bbSet_testBit_self _ t ht, hmt]
    rfl

/-- A masked sum ignores a move whose squares its left board misses. -/
theorem zSum_move_left_congr (K : ZKeys) (s : Side) (p : Piece) (X C : Nat)
    (f t : Square) (hf : f.ordinal < 64) (ht : t.ordinal < 64)
    (hXf : X.testBit f.ordinal = false) (hXt : X.testBit t.ordinal = false) :
    zSum K s p (X &&& bbSet (bbClear C f) t) = zSum K s p (X &&& C) := by
  apply zSum_congr
  intro i hi
  by_cases hit : i = t.ordinal
  · subst hit
    rw [Nat.testBit_and, Nat.testBit_and, hXt]
    rfl
  · by_cases hif : i = f.ordinal
    · subst hif
      rw [Nat.testBit_and, Nat.testBit_and, hXf]
      rfl
    · rw [Nat.testBit_and, Nat.testBit_and,
        bbSet_testBit_ne _ t i ht (fun he => hit he.symm),
        bbClear_testBit_ne C f i hf hi (fun he => hif he.symm)]

/-- A masked sum ignores a move whose squares its right board misses. -/
theorem zSum_move_right_congr (K : ZKeys) (s : Side) (p : Piece) (X C : Nat)
    (f t : Square) (hf : f.ordinal < 64) (ht : t.ordinal < 64)
    (hCf : C.testBit f.ordinal = false) (hCt : C.testBit t.ordinal = false) :
    zSum K s p (bbSet (bbClear X f) t &&& C) = zSum K s p (X &&& C) := by
  apply zSum_congr
  intro i hi
  by_cases hit : i = t.ordinal
  · subst hit
    rw [Nat.testBit_and, Nat.testBit_and, hCt, Bool.and_false, Bool.and_false]
  · by_cases hif : i = f.ordinal
    · subst hif
      rw [Nat.testBit_and, Nat.testBit_and, hCf, Bool.and_false,
        Bool.and_false]
    · rw [Nat.testBit_and, Nat.testBit_and,
        bbSet_testBit_ne _ t i ht (fun he => hit he.symm),
        bbClear_testBit_ne X f i hf hi (fun he => hif he.symm)]

/-- Positional XOR cancellation, slot 1 of twelve. -/
theorem zcancel1 (z k a1 a2 a3 a4 a5 a6 a7 a8 a9 a10 a11 a12 c e s : Nat) :
    (z ^^^ k) ^^^ ((a1 ^^^ k) ^^^ a2 ^^^ a3 ^^^ a4 ^^^ a5 ^^^ a6 ^^^ a7 ^^^ a8 ^^^ a9 ^^^ a10 ^^^ a11 ^^^ a12 ^^^ c ^^^ e ^^^ s) =
      z ^^^ (a1 ^^^ a2 ^^^ a3 ^^^ a4 ^^^ a5 ^^^ a6 ^^^ a7 ^^^ a8 ^^^ a9 ^^^ a10 ^^^ a11 ^^^ a12 ^^^ c ^^^ e ^^^ s) := by
  simp only [Nat.xor_assoc, Nat.xor_comm, xor_left_comm, xor_cancel_mid,
    Nat.xor_self, Nat.xor_zero, Nat.zero_xor]

/-- Positional XOR cancellation, slot 2 of twelve. -/
theorem zcancel2 (z k a1 a2 a3 a4 a5 a6 a7 a8 a9 a10 a11 a12 c e s : Nat) :
    (z ^^^ k) ^^^ (a1 ^^^ (a2 ^^^ k) ^^^ a3 ^^^ a4 ^^^ a5 ^^^ a6 ^^^ a7 ^^^ a8 ^^^ a9 ^^^ a10 ^^^ a11 ^^^ a12 ^^^ c ^^^ e ^^^ s) =
      z ^^^ (a1 ^^^ a2 ^^^ a3 ^^^ a4 ^^^ a5 ^^^ a6 ^^^ a7 ^^^ a8 ^^^ a9 ^^^ a10 ^^^ a11 ^^^ a12 ^^^ c ^^^ e ^^^ s) := by
  simp only [Nat.xor_assoc, Nat.xor_comm, xor_left_comm, xor_cancel_mid,
    Nat.xor_self, Nat.xor_zero, Nat.zero_xor]

/-- Positional XOR cancellation, slot 3 of twelve. -/
theorem zcancel3 (z k a1 a2 a3 a4 a5 a6 a7 a8 a9 a10 a11 a12 c e s : Nat) :
    (z ^^^ k) ^^^ (a1 ^^^ a2 ^^^ (a3 ^^^ k) ^^^ a4 ^^^ a5 ^^^ a6 ^^^ a7 ^^^ a8 ^^^ a9 ^^^ a10 ^^^ a11 ^^^ a12 ^^^ c ^^^ e ^^^ s) =
      z ^^^ (a1 ^^^ a2 ^^^ a3 ^^^ a4 ^^^ a5 ^^^ a6 ^^^ a7 ^^^ a8 ^^^ a9 ^^^ a10 ^^^ a11 ^^^ a12 ^^^ c ^^^ e ^^^ s) := by
  simp only [Nat.xor_assoc, Nat.xor_comm, xor_left_comm, xor_cancel_mid,
    Nat.xor_self, Nat.xor_zero, Nat.zero_xor]

/-- Positional XOR cancellation, slot 4 of twelve. -/
theorem zcancel4 (z k a1 a2 a3 a4 a5 a6 a7 a8 a9 a10 a11 a12 c e s : Nat) :
    (z ^^^ k) ^^^ (a1 ^^^ a2 ^^^ a3 ^^^ (a4 ^^^ k) ^^^ a5 ^^^ a6 ^^^ a7 ^^^ a8 ^^^ a9 ^^^ a10 ^^^ a11 ^^^ a12 ^^^ c ^^^ e ^^^ s) =
      z ^^^ (a1 ^^^ a2 ^^^ a3 ^^^ a4 ^^^ a5 ^^^ a6 ^^^ a7 ^^^ a8 ^^^ a9 ^^^ a10 ^^^ a11 ^^^ a12 ^^^ c ^^^ e ^^^ s) := by
  simp only [Nat.xor_assoc, Nat.xor_comm, xor_left_comm, xor_cancel_mid,
    Nat.xor_self, Nat.xor_zero, Nat.zero_xor]

/-- Positional XOR cancellation, slot 5 of twelve. -/
theorem zcancel5 (z k a1 a2 a3 a4 a5 a6 a7 a8 a9 a10 a11 a12 c e s : Nat) :
    (z ^^^ k) ^^^ (a1 ^^^ a2 ^^^ a3 ^^^ a4 ^^^ (a5 ^^^ k) ^^^ a6 ^^^ a7 ^^^ a8 ^^^ a9 ^^^ a10 ^^^ a11 ^^^ a12 ^^^ c ^^^ e ^^^ s) =
      z ^^^ (a1 ^^^ a2 ^^^ a3 ^^^ a4 ^^^ a5 ^^^ a6 ^^^ a7 ^^^ a8 ^^^ a9 ^^^ a10 ^^^ a11 ^^^ a12 ^^^ c ^^^ e ^^^ s) := by
  simp only [Nat.xor_assoc, Nat.xor_comm, xor_left_comm, xor_cancel_mid,
    Nat.xor_self, Nat.xor_zero, Nat.zero_xor]

/-- Positional XOR cancellation, slot 6 of twelve. -/
theorem zcancel6 (z k a1 a2 a3 a4 a5 a6 a7 a8 a9 a10 a11 a12 c e s : Nat) :
    (z ^^^ k) ^^^ (a1 ^^^ a2 ^^^ a3 ^^^ a4 ^^^ a5 ^^^ (a6 ^^^ k) ^^^ a7 ^^^ a8 ^^^ a9 ^^^ a10 ^^^ a11 ^^^ a12 ^^^ c ^^^ e ^^^ s) =
      z ^^^ (a1 ^^^ a2 ^^^ a3 ^^^ a4 ^^^ a5 ^^^ a6 ^^^ a7 ^^^ a8 ^^^ a9 ^^^ a10 ^^^ a11 ^^^ a12 ^^^ c ^^^ e ^^^ s) := by
  simp only [Nat.xor_assoc, Nat.xor_comm, xor_left_comm, xor_cancel_mid,
    Nat.xor_self, Nat.xor_zero, Nat.zero_xor]

/-- Positional XOR cancellation, slot 7 of twelve. -/
theorem zcancel7 (z k a1 a2 a3 a4 a5 a6 a7 a8 a9 a10 a11 a12 c e s : Nat) :
    (z ^^^ k) ^^^ (a1 ^^^ a2 ^^^ a3 ^^^ a4 ^^^ a5 ^^^ a6 ^^^ (a7 ^^^ k) ^^^ a8 ^^^ a9 ^^^ a10 ^^^ a11 ^^^ a12 ^^^ c ^^^ e ^^^ s) =
      z ^^^ (a1 ^^^ a2 ^^^ a3 ^^^ a4 ^^^ a5 ^^^ a6 ^^^ a7 ^^^ a8 ^^^ a9 ^^^ a10 ^^^ a11 ^^^ a12 ^^^ c ^^^ e ^^^ s) := by
  simp only [Nat.xor_assoc, Nat.xor_comm, xor_left_comm, xor_cancel_mid,
    Nat.xor_self, Nat.xor_zero, Nat.zero_xor]

/-- Positional XOR cancellation, slot 8 of twelve. -/
theorem zcancel8 (z k a1 a2 a3 a4 a5 a6 a7 a8 a9 a10 a11 a12 c e s : Nat) :
    (z ^^^ k) ^^^ (a1 ^^^ a2 ^^^ a3 ^^^ a4 ^^^ a5 ^^^ a6 ^^^ a7 ^^^ (a8 ^^^ k) ^^^ a9 ^^^ a10 ^^^ a11 ^^^ a12 ^^^ c ^^^ e ^^^ s) =
      z ^^^ (a1 ^^^ a2 ^^^ a3 ^^^ a4 ^^^ a5 ^^^ a6 ^^^ a7 ^^^ a8 ^^^ a9 ^^^ a10 ^^^ a11 ^^^ a12 ^^^ c ^^^ e ^^^ s) := by
  simp only [Nat.xor_assoc, Nat.xor_comm, xor_left_comm, xor_cancel_mid,
    Nat.xor_self, Nat.xor_zero, Nat.zero_xor]

/-- Positional XOR cancellation, slot 9 of twelve. -/
theorem zcancel9 (z k a1 a2 a3 a4 a5 a6 a7 a8 a9 a10 a11 a12 c e s : Nat) :
    (z ^^^ k) ^^^ (a1 ^^^ a2 ^^^ a3 ^^^ a4 ^^^ a5 ^^^ a6 ^^^ a7 ^^^ a8 ^^^ (a9 ^^^ k) ^^^ a10 ^^^ a11 ^^^ a12 ^^^ c ^^^ e ^^^ s) =
      z ^^^ (a1 ^^^ a2 ^^^ a3 ^^^ a4 ^^^ a5 ^^^ a6 ^^^ a7 ^^^ a8 ^^^ a9 ^^^ a10 ^^^ a11 ^^^ a12 ^^^ c ^^^ e ^^^ s) := by
  simp only [Nat.xor_assoc, Nat.xor_comm, xor_left_comm, xor_cancel_mid,
    Nat.xor_self, Nat.xor_zero, Nat.zero_xor]

/-- Positional XOR cancellation, slot 10 of twelve. -/
theorem zcancel10 (z k a1 a2 a3 a4 a5 a6 a7 a8 a9 a10 a11 a12 c e s : Nat) :
    (z ^^^ k) ^^^ (a1 ^^^ a2 ^^^ a3 ^^^ a4 ^^^ a5 ^^^ a6 ^^^ a7 ^^^ a8 ^^^ a9 ^^^ (a10 ^^^ k) ^^^ a11 ^^^ a12 ^^^ c ^^^ e ^^^ s) =
      z ^^^ (a1 ^^^ a2 ^^^ a3 ^^^ a4 ^^^ a5 ^^^ a6 ^^^ a7 ^^^ a8 ^^^ a9 ^^^ a10 ^^^ a11 ^^^ a12 ^^^ c ^^^ e ^^^ s) := by
  simp only [Nat.xor_assoc, Nat.xor_comm, xor_left_comm, xor_cancel_mid,
    Nat.xor_self, Nat.xor_zero, Nat.zero_xor]

/-- Positional XOR cancellation, slot 11 of twelve. -/
theorem zcancel11 (z k a1 a2 a3 a4 a5 a6 a7 a8 a9 a10 a11 a12 c e s : Nat) :
    (z ^^^ k) ^^^ (a1 ^^^ a2 ^^^ a3 ^^^ a4 ^^^ a5 ^^^ a6 ^^^ a7 ^^^ a8 ^^^ a9 ^^^ a10 ^^^ (a11 ^^^ k) ^^^ a12 ^^^ c ^^^ e ^^^ s) =
      z ^^^ (a1 ^^^ a2 ^^^ a3 ^^^ a4 ^^^ a5 ^^^ a6 ^^^ a7 ^^^ a8 ^^^ a9 ^^^ a10 ^^^ a11 ^^^ a12 ^^^ c ^^^ e ^^^ s) := by
  simp only [Nat.xor_assoc, Nat.xor_comm, xor_left_comm, xor_cancel_mid,
    Nat.xor_self, Nat.xor_zero, Nat.zero_xor]

/-- Positional XOR cancellation, slot 12 of twelve. -/
theorem zcancel12 (z k a1 a2 a3 a4 a5 a6 a7 a8 a9 a10 a11 a12 c e s : Nat) :
    (z ^^^ k) ^^^ (a1 ^^^ a2 ^^^ a3 ^^^ a4 ^^^ a5 ^^^ a6 ^^^ a7 ^^^ a8 ^^^ a9 ^^^ a10 ^^^ a11 ^^^ (a12 ^^^ k) ^^^ c ^^^ e ^^^ s) =
      z ^^^ (a1 ^^^ a2 ^^^ a3 ^^^ a4 ^^^ a5 ^^^ a6 ^^^ a7 ^^^ a8 ^^^ a9 ^^^ a10 ^^^ a11 ^^^ a12 ^^^ c ^^^ e ^^^ s) := by
  simp only [Nat.xor_assoc, Nat.xor_comm, xor_left_comm, xor_cancel_mid,
    Nat.xor_self, Nat.xor_zero, Nat.zero_xor]

/-- `add_piece` on a fully empty square preserves the hash defect. -/
theorem zDefect_addPiece (K : ZKeys) (b : Board) (side : Side) (p : Piece)
    (sq : Square) (h64 : sq.ordinal < 64) (hemp : sqEmptyAll b sq) :
    zDefect K (b.addPiece K side p sq) = zDefect K b := by
  obtain ⟨hwp, hbp, hk1, hk2, hk3, hk4, hk5, hk6⟩ := hemp
  rw [addPiece_ite_spec]
  unfold zDefect zScratch zPieces
  dsimp only
  cases side <;> cases p <;>
    simp only [reduceCtorEq, eq_self_iff_true, if_true, if_false]
  · rw [zSum_masked_set K .White .Pawn b.pawns b.whitePieces sq h64 hk1,
      zSum_set_left_congr K .White .Bishop b.bishops b.whitePieces sq h64 hk2,
      zSum_set_left_congr K .White .Knight b.knights b.whitePieces sq h64 hk3,
      zSum_set_left_congr K .White .Rook b.rooks b.whitePieces sq h64 hk4,
      zSum_set_left_congr K .White .Queen b.queens b.whitePieces sq h64 hk5,
      zSum_set_left_congr K .White .King b.kings b.whitePieces sq h64 hk6,
      zSum_set_right_congr K .Black .Pawn b.pawns b.blackPieces sq h64 hbp]
    exact zcancel1 _ _ _ _ _ _ _ _ _ _ _ _ _ _ _ _ _
  · rw [zSum_masked_set K .White .Knight b.knights b.whitePieces sq h64 hk3,
      zSum_set_left_congr K .White .Pawn b.pawns b.whitePieces sq h64 hk1,
      zSum_set_left_congr K .White .Bishop b.bishops b.whitePieces sq h64 hk2,
      zSum_set_left_congr K .White .Rook b.rooks b.whitePieces sq h64 hk4,
      zSum_set_left_congr K .White .Queen b.queens b.whitePieces sq h64 hk5,
      zSum_set_left_congr K .White .King b.kings b.whitePieces sq h64 hk6,
      zSum_set_right_congr K .Black .Knight b.knights b.blackPieces sq h64 hbp]
    exact zcancel3 _ _ _ _ _ _ _ _ _ _ _ _ _ _ _ _ _
  · rw [zSum_masked_set K .White .Bishop b.bishops b.whitePieces sq h64 hk2,
      zSum_set_left_congr K .White .Pawn b.pawns b.whitePieces sq h64 hk1,
      zSum_set_left_congr K .White .Knight b.knights b.whitePieces sq h64 hk3,
      zSum_set_left_congr K .White .Rook b.rooks b.whitePieces sq h64 hk4,
      zSum_set_left_congr K .White .Queen b.queens b.whitePieces sq h64 hk5,
      zSum_set_left_congr K .White .King b.kings b.whitePieces sq h64 hk6,
      zSum_set_right_congr K .Black .Bishop b.bishops b.blackPieces sq h64 hbp]
    exact zcancel2 _ _ _ _ _ _ _ _ _ _ _ _ _ _ _ _ _
  · rw [zSum_masked_set K .White .Rook b.rooks b.whitePieces sq h64 hk4,
      zSum_set_left_congr K .White .Pawn b.pawns b.whitePieces sq h64 hk1,
      zSum_set_left_congr K .White .Bishop b.bishops b.whitePieces sq h64 hk2,
      zSum_set_left_congr K .White .Knight b.knights b.whitePieces sq h64 hk3,
      zSum_set_left_congr K .White .Queen b.queens b.whitePieces sq h64 hk5,
      zSum_set_left_congr K .White .King b.kings b.whitePieces sq h64 hk6,
      zSum_set_right_congr K .Black .Rook b.rooks b.blackPieces sq h64 hbp]
    exact zcancel4 _ _ _ _ _ _ _ _ _ _ _ _ _ _ _ _ _
  · rw [zSum_masked_set K .White .Queen b.queens b.whitePieces sq h64 hk5,
      zSum_set_left_congr K .White .Pawn b.pawns b.whitePieces sq h64 hk1,
      zSum_set_left_congr K .White .Bishop b.bishops b.whitePieces sq h64 hk2,
      zSum_set_left_congr K .White .Knight b.knights b.whitePieces sq h64 hk3,
      zSum_set_left_congr K .White .Rook b.rooks b.whitePieces sq h64 hk4,
      zSum_set_left_congr K .White .King b.kings b.whitePieces sq h64 hk6,
      zSum_set_right_congr K .Black .Queen b.queens b.blackPieces sq h64 hbp]
    exact zcancel5 _ _ _ _ _ _ _ _ _ _ _ _ _ _ _ _ _
  · rw [zSum_masked_set K .White .King b.kings b.whitePieces sq h64 hk6,
      zSum_set_left_congr K .White .Pawn b.pawns b.whitePieces sq h64 hk1,
      zSum_set_left_congr K .White .Bishop b.bishops b.whitePieces sq h64 hk2,
      zSum_set_left_congr K .White .Knight b.knights b.whitePieces sq h64 hk3,
      zSum_set_left_congr K .White .Rook b.rooks b.whitePieces sq h64 hk4,
      zSum_set_left_congr K .White .Queen b.queens b.whitePieces sq h64 hk5,
      zSum_set_right_congr K .Black .King b.kings b.blackPieces sq h64 hbp]
    exact zcancel6 _ _ _ _ _ _ _ _ _ _ _ _ _ _ _ _ _
  · rw [zSum_masked_set K .Black .Pawn b.pawns b.blackPieces sq h64 hk1,
      zSum_set_left_congr K .Black .Bishop b.bishops b.blackPieces sq h64 hk2,
      zSum_set_left_congr K .Black .Knight b.knights b.blackPieces sq h64 hk3,
      zSum_set_left_congr K .Black .Rook b.rooks b.blackPieces sq h64 hk4,
      zSum_set_left_congr K .Black .Queen b.queens b.blackPieces sq h64 hk5,
      zSum_set_left_congr K .Black .King b.kings b.blackPieces sq h64 hk6,
      zSum_set_right_congr K .White .Pawn b.pawns b.whitePieces sq h64 hwp]
    exact zcancel7 _ _ _ _ _ _ _ _ _ _ _ _ _ _ _ _ _
  · rw [zSum_masked_set K .Black .Knight b.knights b.blackPieces sq h64 hk3,
      zSum_set_left_congr K .Black .Pawn b.pawns b.blackPieces sq h64 hk1,
      zSum_set_left_congr K .Black .Bishop b.bishops b.blackPieces sq h64 hk2,
      zSum_set_left_congr K .Black .Rook b.rooks b.blackPieces sq h64 hk4,
      zSum_set_left_congr K .Black .Queen b.queens b.blackPieces sq h64 hk5,
      zSum_set_left_congr K .Black .King b.kings b.blackPieces sq h64 hk6,
      zSum_set_right_congr K .White .Knight b.knights b.whitePieces sq h64 hwp]
    exact zcancel9 _ _ _ _ _ _ _ _ _ _ _ _ _ _ _ _ _
  · rw [zSum_masked_set K .Black .Bishop b.bishops b.blackPieces sq h64 hk2,
      zSum_set_left_congr K .Black .Pawn b.pawns b.blackPieces sq h64 hk1,
      zSum_set_left_congr K .Black .Knight b.knights b.blackPieces sq h64 hk3,
      zSum_set_left_congr K .Black .Rook b.rooks b.blackPieces sq h64 hk4,
      zSum_set_left_congr K .Black .Queen b.queens b.blackPieces sq h64 hk5,
      zSum_set_left_congr K .Black .King b.kings b.blackPieces sq h64 hk6,
      zSum_set_right_congr K .White .Bishop b.bishops b.whitePieces sq h64 hwp]
    exact zcancel8 _ _ _ _ _ _ _ _ _ _ _ _ _ _ _ _ _
  · rw [zSum_masked_set K .Black .Rook b.rooks b.blackPieces sq h64 hk4,
      zSum_set_left_congr K .Black .Pawn b.pawns b.blackPieces sq h64 hk1,
      zSum_set_left_congr K .Black .Bishop b.bishops b.blackPieces sq h64 hk2,
      zSum_set_left_congr K .Black .Knight b.knights b.blackPieces sq h64 hk3,
      zSum_set_left_congr K .Black .Queen b.queens b.blackPieces sq h64 hk5,
      zSum_set_left_congr K .Black .King b.kings b.blackPieces sq h64 hk6,
      zSum_set_right_congr K .White .Rook b.rooks b.whitePieces sq h64 hwp]
    exact zcancel10 _ _ _ _ _ _ _ _ _ _ _ _ _ _ _ _ _
  · rw [zSum_masked_set K .Black .Queen b.queens b.blackPieces sq h64 hk5,
      zSum_set_left_congr K .Black .Pawn b.pawns b.blackPieces sq h64 hk1,
      zSum_set_left_congr K .Black .Bishop b.bishops b.blackPieces sq h64 hk2,
      zSum_set_left_congr K .Black .Knight b.knights b.blackPieces sq h64 hk3,
      zSum_set_left_congr K .Black .Rook b.rooks b.blackPieces sq h64 hk4,
      zSum_set_left_congr K .Black .King b.kings b.blackPieces sq h64 hk6,
      zSum_set_right_congr K .White .Queen b.queens b.whitePieces sq h64 hwp]
    exact zcancel11 _ _ _ _ _ _ _ _ _ _ _ _ _ _ _ _ _
  · rw [zSum_masked_set K .Black .King b.kings b.blackPieces sq h64 hk6,
      zSum_set_left_congr K .Black .Pawn b.pawns b.blackPieces sq h64 hk1,
      zSum_set_left_congr K .Black .Bishop b.bishops b.blackPieces sq h64 hk2,
      zSum_set_left_congr K .Black .Knight b.knights b.blackPieces sq h64 hk3,
      zSum_set_left_congr K .Black .Rook b.rooks b.blackPieces sq h64 hk4,
      zSum_set_left_congr K .Black .Queen b.queens b.blackPieces sq h64 hk5,
      zSum_set_right_congr K .White .King b.kings b.whitePieces sq h64 hwp]
    exact zcancel12 _ _ _ _ _ _ _ _ _ _ _ _ _ _ _ _ _

/-- `remove_piece` of a square's exact occupant preserves the hash
defect. -/
theorem zDefect_removePiece (K : ZKeys) (b : Board) (side : Side) (p : Piece)
    (sq : Square) (h64 : sq.ordinal < 64)
    (hex : sqHoldsExactly b side p sq) :
    zDefect K (b.removePiece K side p sq) = zDefect K b := by
  obtain ⟨hown, hoth, hkind, hk1, hk2, hk3, hk4, hk5, hk6⟩ := hex
  rw [removePiece_ite_spec]
  unfold zDefect zScratch zPieces
  dsimp only
  cases side <;> cases p <;>
    (dsimp only [Board.getPieces, otherSide, kindBB] at hown hoth hkind;
     simp only [reduceCtorEq, eq_self_iff_true, if_true, if_false])
  · rw [zSum_masked_clear K .White .Pawn b.pawns b.whitePieces sq h64 hkind hown,
      zSum_clear_left_congr K .White .Bishop b.bishops b.whitePieces sq h64 (hk2 (by decide)),
      zSum_clear_left_congr K .White .Knight b.knights b.whitePieces sq h64 (hk3 (by decide)),
      zSum_clear_left_congr K .White .Rook b.rooks b.whitePieces sq h64 (hk4 (by decide)),
      zSum_clear_left_congr K .White .Queen b.queens b.whitePieces sq h64 (hk5 (by decide)),
      zSum_clear_left_congr K .White .King b.kings b.whitePieces sq h64 (hk6 (by decide)),
      zSum_clear_right_congr K .Black .Pawn b.pawns b.blackPieces sq h64 hoth]
    exact zcancel1 _ _ _ _ _ _ _ _ _ _ _ _ _ _ _ _ _
  · rw [zSum_masked_clear K .White .Knight b.knights b.whitePieces sq h64 hkind hown,
      zSum_clear_left_congr K .White .Pawn b.pawns b.whitePieces sq h64 (hk1 (by decide)),
      zSum_clear_left_congr K .White .Bishop b.bishops b.whitePieces sq h64 (hk2 (by decide)),
      zSum_clear_left_congr K .White .Rook b.rooks b.whitePieces sq h64 (hk4 (by decide)),
      zSum_clear_left_congr K .White .Queen b.queens b.whitePieces sq h64 (hk5 (by decide)),
      zSum_clear_left_congr K .White .King b.kings b.whitePieces sq h64 (hk6 (by decide)),
      zSum_clear_right_congr K .Black .Knight b.knights b.blackPieces sq h64 hoth]
    exact zcancel3 _ _ _ _ _ _ _ _ _ _ _ _ _ _ _ _ _
  · rw [zSum_masked_clear K .White .Bishop b.bishops b.whitePieces sq h64 hkind hown,
      zSum_clear_left_congr K .White .Pawn b.pawns b.whitePieces sq h64 (hk1 (by decide)),
      zSum_clear_left_congr K .White .Knight b.knights b.whitePieces sq h64 (hk3 (by decide)),
      zSum_clear_left_congr K .White .Rook b.rooks b.whitePieces sq h64 (hk4 (by decide)),
      zSum_clear_left_congr K .White .Queen b.queens b.whitePieces sq h64 (hk5 (by decide)),
      zSum_clear_left_congr K .White .King b.kings b.whitePieces sq h64 (hk6 (by decide)),
      zSum_clear_right_congr K .Black .Bishop b.bishops b.blackPieces sq h64 hoth]
    exact zcancel2 _ _ _ _ _ _ _ _ _ _ _ _ _ _ _ _ _
  · rw [zSum_masked_clear K .White .Rook b.rooks b.whitePieces sq h64 hkind hown,
      zSum_clear_left_congr K .White .Pawn b.pawns b.whitePieces sq h64 (hk1 (by decide)),
      zSum_clear_left_congr K .White .Bishop b.bishops b.whitePieces sq h64 (hk2 (by decide)),
      zSum_clear_left_congr K .White .Knight b.knights b.whitePieces sq h64 (hk3 (by decide)),
      zSum_clear_left_congr K .White .Queen b.queens b.whitePieces sq h64 (hk5 (by decide)),
      zSum_clear_left_congr K .White .King b.kings b.whitePieces sq h64 (hk6 (by decide)),
      zSum_clear_right_congr K .Black .Rook b.rooks b.blackPieces sq h64 hoth]
    exact zcancel4 _ _ _ _ _ _ _ _ _ _ _ _ _ _ _ _ _
  · rw [zSum_masked_clear K .White .Queen b.queens b.whitePieces sq h64 hkind hown,
      zSum_clear_left_congr K .White .Pawn b.pawns b.whitePieces sq h64 (hk1 (by decide)),
      zSum_clear_left_congr K .White .Bishop b.bishops b.whitePieces sq h64 (hk2 (by decide)),
      zSum_clear_left_congr K .White .Knight b.knights b.whitePieces sq h64 (hk3 (by decide)),
      zSum_clear_left_congr K .White .Rook b.rooks b.whitePieces sq h64 (hk4 (by decide)),
      zSum_clear_left_congr K .White .King b.kings b.whitePieces sq h64 (hk6 (by decide)),
      zSum_clear_right_congr K .Black .Queen b.queens b.blackPieces sq h64 hoth]
    exact zcancel5 _ _ _ _ _ _ _ _ _ _ _ _ _ _ _ _ _
  · rw [zSum_masked_clear K .White .King b.kings b.whitePieces sq h64 hkind hown,
      zSum_clear_left_congr K .White .Pawn b.pawns b.whitePieces sq h64 (hk1 (by decide)),
      zSum_clear_left_congr K .White .Bishop b.bishops b.whitePieces sq h64 (hk2 (by decide)),
      zSum_clear_left_congr K .White .Knight b.knights b.whitePieces sq h64 (hk3 (by decide)),
      zSum_clear_left_congr K .White .Rook b.rooks b.whitePieces sq h64 (hk4 (by decide)),
      zSum_clear_left_congr K .White .Queen b.queens b.whitePieces sq h64 (hk5 (by decide)),
      zSum_clear_right_congr K .Black .King b.kings b.blackPieces sq h64 hoth]
    exact zcancel6 _ _ _ _ _ _ _ _ _ _ _ _ _ _ _ _ _
  · rw [zSum_masked_clear K .Black .Pawn b.pawns b.blackPieces sq h64 hkind hown,
      zSum_clear_left_congr K .Black .Bishop b.bishops b.blackPieces sq h64 (hk2 (by decide)),
      zSum_clear_left_congr K .Black .Knight b.knights b.blackPieces sq h64 (hk3 (by decide)),
      zSum_clear_left_congr K .Black .Rook b.rooks b.blackPieces sq h64 (hk4 (by decide)),
      zSum_clear_left_congr K .Black .Queen b.queens b.blackPieces sq h64 (hk5 (by decide)),
      zSum_clear_left_congr K .Black .King b.kings b.blackPieces sq h64 (hk6 (by decide)),
      zSum_clear_right_congr K .White .Pawn b.pawns b.whitePieces sq h64 hoth]
    exact zcancel7 _ _ _ _ _ _ _ _ _ _ _ _ _ _ _ _ _
  · rw [zSum_masked_clear K .Black .Knight b.knights b.blackPieces sq h64 hkind hown,
      zSum_clear_left_congr K .Black .Pawn b.pawns b.blackPieces sq h64 (hk1 (by decide)),
      zSum_clear_left_congr K .Black .Bishop b.bishops b.blackPieces sq h64 (hk2 (by decide)),
      zSum_clear_left_congr K .Black .Rook b.rooks b.blackPieces sq h64 (hk4 (by decide)),
      zSum_clear_left_congr K .Black .Queen b.queens b.blackPieces sq h64 (hk5 (by decide)),
      zSum_clear_left_congr K .Black .King b.kings b.blackPieces sq h64 (hk6 (by decide)),
      zSum_clear_right_congr K .White .Knight b.knights b.whitePieces sq h64 hoth]
    exact zcancel9 _ _ _ _ _ _ _ _ _ _ _ _ _ _ _ _ _
  · rw [zSum_masked_clear K .Black .Bishop b.bishops b.blackPieces sq h64 hkind hown,
      zSum_clear_left_congr K .Black .Pawn b.pawns b.blackPieces sq h64 (hk1 (by decide)),
      zSum_clear_left_congr K .Black .Knight b.knights b.blackPieces sq h64 (hk3 (by decide)),
      zSum_clear_left_congr K .Black .Rook b.rooks b.blackPieces sq h64 (hk4 (by decide)),
      zSum_clear_left_congr K .Black .Queen b.queens b.blackPieces sq h64 (hk5 (by decide)),
      zSum_clear_left_congr K .Black .King b.kings b.blackPieces sq h64 (hk6 (by decide)),
      zSum_clear_right_congr K .White .Bishop b.bishops b.whitePieces sq h64 hoth]
    exact zcancel8 _ _ _ _ _ _ _ _ _ _ _ _ _ _ _ _ _
  · rw [zSum_masked_clear K .Black .Rook b.rooks b.blackPieces sq h64 hkind hown,
      zSum_clear_left_congr K .Black .Pawn b.pawns b.blackPieces sq h64 (hk1 (by decide)),
      zSum_clear_left_congr K .Black .Bishop b.bishops b.blackPieces sq h64 (hk2 (by decide)),
      zSum_clear_left_congr K .Black .Knight b.knights b.blackPieces sq h64 (hk3 (by decide)),
      zSum_clear_left_congr K .Black .Queen b.queens b.blackPieces sq h64 (hk5 (by decide)),
      zSum_clear_left_congr K .Black .King b.kings b.blackPieces sq h64 (hk6 (by decide)),
      zSum_clear_right_congr K .White .Rook b.rooks b.whitePieces sq h64 hoth]
    exact zcancel10 _ _ _ _ _ _ _ _ _ _ _ _ _ _ _ _ _
  · rw [zSum_masked_clear K .Black .Queen b.queens b.blackPieces sq h64 hkind hown,
      zSum_clear_left_congr K .Black .Pawn b.pawns b.blackPieces sq h64 (hk1 (by decide)),
      zSum_clear_left_congr K .Black .Bishop b.bishops b.blackPieces sq h64 (hk2 (by decide)),
      zSum_clear_left_congr K .Black .Knight b.knights b.blackPieces sq h64 (hk3 (by decide)),
      zSum_clear_left_congr K .Black .Rook b.rooks b.blackPieces sq h64 (hk4 (by decide)),
      zSum_clear_left_congr K .Black .King b.kings b.blackPieces sq h64 (hk6 (by decide)),
      zSum_clear_right_congr K .White .Queen b.queens b.whitePieces sq h64 hoth]
    exact zcancel11 _ _ _ _ _ _ _ _ _ _ _ _ _ _ _ _ _
  · rw [zSum_masked_clear K .Black .King b.kings b.blackPieces sq h64 hkind hown,
      zSum_clear_left_congr K .Black .Pawn b.pawns b.blackPieces sq h64 (hk1 (by decide)),
      zSum_clear_left_congr K .Black .Bishop b.bishops b.blackPieces sq h64 (hk2 (by decide)),
      zSum_clear_left_congr K .Black .Knight b.knights b.blackPieces sq h64 (hk3 (by decide)),
      zSum_clear_left_congr K .Black .Rook b.rooks b.blackPieces sq h64 (hk4 (by decide)),
      zSum_clear_left_congr K .Black .Queen b.queens b.blackPieces sq h64 (hk5 (by decide)),
      zSum_clear_right_congr K .White .King b.kings b.whitePieces sq h64 hoth]
    exact zcancel12 _ _ _ _ _ _ _ _ _ _ _ _ _ _ _ _ _

/-- A key guarded by a Bool-XOR condition splits into two guarded keys. -/
theorem ite_key_bxor (a b : Bool) (key : Nat) :
    (if (a.xor b) = true then key else 0) =
      (if a = true then key else 0) ^^^ (if b = true then key else 0) := by
  cases a <;> cases b <;> simp

/-- `castleKeys` distributes over XOR of rights masks. -/
theorem castleKeys_xor (K : ZKeys) (x y : Nat) :
    castleKeys K (x ^^^ y) = castleKeys K x ^^^ castleKeys K y := by
  unfold castleKeys
  have c1 : ∀ m : Nat, (m &&& shortCastlingFlag Side.White != 0) =
      m.testBit 0 := fun m => and_pow2_ne m 0
  have c2 : ∀ m : Nat, (m &&& longCastlingFlag Side.White != 0) =
      m.testBit 2 := fun m => and_pow2_ne m 2
  have c3 : ∀ m : Nat, (m &&& shortCastlingFlag Side.Black != 0) =
      m.testBit 1 := fun m => and_pow2_ne m 1
  have c4 : ∀ m : Nat, (m &&& longCastlingFlag Side.Black != 0) =
      m.testBit 3 := fun m => and_pow2_ne m 3
  rw [c1 (x ^^^ y), c2 (x ^^^ y), c3 (x ^^^ y), c4 (x ^^^ y), c1 x, c2 x,
    c3 x, c4 x, c1 y, c2 y, c3 y, c4 y, Nat.testBit_xor, Nat.testBit_xor,
    Nat.testBit_xor, Nat.testBit_xor, ite_key_bxor, ite_key_bxor,
    ite_key_bxor, ite_key_bxor]
  simp only [Nat.xor_assoc, Nat.xor_comm, xor_left_comm]

/-- Rebase a rights update through `castleKeys`. -/
theorem castleKeys_update (K : ZKeys) (c c' delta : Nat)
    (h : castleKeys K (c' ^^^ c) = delta) :
    castleKeys K c' = castleKeys K c ^^^ delta := by
  have hx : c' = c' ^^^ c ^^^ c := (Nat.xor_cancel_right c c').symm
  rw [hx, castleKeys_xor, h, Nat.xor_comm]

/-- The king's double flag clear through `castleKeys`, White. -/
theorem castleKeys_kingClear_W (K : ZKeys) (c : Nat) :
    castleKeys K (flagClear (flagClear c 4) 1) =
      castleKeys K c ^^^
        (flagKey (K.shortCastlingKeys Side.White) c 1 ^^^
          flagKey (K.longCastlingKeys Side.White) c 4) := by
  apply castleKeys_update
  have h := castleKeys_kingMoveW K c c (by rw [Nat.xor_self, Nat.zero_and])
    (by rw [Nat.xor_self, Nat.zero_and])
  rw [h, Nat.xor_self, castleKeys_zero, Nat.xor_zero]

/-- The king's double flag clear through `castleKeys`, Black. -/
theorem castleKeys_kingClear_B (K : ZKeys) (c : Nat) :
    castleKeys K (flagClear (flagClear c 8) 2) =
      castleKeys K c ^^^
        (flagKey (K.shortCastlingKeys Side.Black) c 2 ^^^
          flagKey (K.longCastlingKeys Side.Black) c 8) := by
  apply castleKeys_update
  have h := castleKeys_kingMoveB K c c (by rw [Nat.xor_self, Nat.zero_and])
    (by rw [Nat.xor_self, Nat.zero_and])
  rw [h, Nat.xor_self, castleKeys_zero, Nat.xor_zero]

/-- The rook-move conditional flag clear through `castleKeys`, White. -/
theorem castleKeys_rookClear_W (K : ZKeys) (c : Nat) (f : Square) :
    castleKeys K (rookClear 4 1 0 f c) =
      castleKeys K c ^^^
        rookKeys (K.longCastlingKeys Side.White)
          (K.shortCastlingKeys Side.White) 4 1 0 f c := by
  apply castleKeys_update
  have h := castleKeys_rookMoveW K c c f (by rw [Nat.xor_self, Nat.zero_and])
    (by rw [Nat.xor_self, Nat.zero_and])
  rw [h, Nat.xor_self, castleKeys_zero, Nat.xor_zero]

/-- The rook-move conditional flag clear through `castleKeys`, Black. -/
theorem castleKeys_rookClear_B (K : ZKeys) (c : Nat) (f : Square) :
    castleKeys K (rookClear 8 2 7 f c) =
      castleKeys K c ^^^
        rookKeys (K.longCastlingKeys Side.Black)
          (K.shortCastlingKeys Side.Black) 8 2 7 f c := by
  apply castleKeys_update
  have h := castleKeys_rookMoveB K c c f (by rw [Nat.xor_self, Nat.zero_and])
    (by rw [Nat.xor_self, Nat.zero_and])
  rw [h, Nat.xor_self, castleKeys_zero, Nat.xor_zero]

/-- The capture-side conditional flag clear through `castleKeys`, White. -/
theorem castleKeys_capClear_W (K : ZKeys) (c : Nat) (cp : Piece)
    (sq : Square) :
    castleKeys K (capRights 4 1 0 cp sq c) =
      castleKeys K c ^^^
        capKeys (K.longCastlingKeys Side.White)
          (K.shortCastlingKeys Side.White) 4 1 0 cp sq c :=
  castleKeys_update K c _ _ (castleKeys_capW K c cp sq)

/-- The capture-side conditional flag clear through `castleKeys`, Black. -/
theorem castleKeys_capClear_B (K : ZKeys) (c : Nat) (cp : Piece)
    (sq : Square) :
    castleKeys K (capRights 8 2 7 cp sq c) =
      castleKeys K c ^^^
        capKeys (K.longCastlingKeys Side.Black)
          (K.shortCastlingKeys Side.Black) 8 2 7 cp sq c :=
  castleKeys_update K c _ _ (castleKeys_capB K c cp sq)

/-- Positional XOR cancellation for a quiet piece move, slot 1. -/
theorem zcancelm1 (z kf kt a1 a2 a3 a4 a5 a6 a7 a8 a9 a10 a11 a12 c e s : Nat) :
    (z ^^^ kf ^^^ kt) ^^^ ((a1 ^^^ kf ^^^ kt) ^^^ a2 ^^^ a3 ^^^ a4 ^^^ a5 ^^^ a6 ^^^ a7 ^^^ a8 ^^^ a9 ^^^ a10 ^^^ a11 ^^^ a12 ^^^ c ^^^ e ^^^ s) =
      z ^^^ (a1 ^^^ a2 ^^^ a3 ^^^ a4 ^^^ a5 ^^^ a6 ^^^ a7 ^^^ a8 ^^^ a9 ^^^ a10 ^^^ a11 ^^^ a12 ^^^ c ^^^ e ^^^ s) := by
  simp only [Nat.xor_assoc, Nat.xor_comm, xor_left_comm, xor_cancel_mid,
    Nat.xor_self, Nat.xor_zero, Nat.zero_xor]

/-- Positional XOR cancellation for a quiet piece move, slot 3. -/
theorem zcancelm3 (z kf kt a1 a2 a3 a4 a5 a6 a7 a8 a9 a10 a11 a12 c e s : Nat) :
    (z ^^^ kf ^^^ kt) ^^^ (a1 ^^^ a2 ^^^ (a3 ^^^ kf ^^^ kt) ^^^ a4 ^^^ a5 ^^^ a6 ^^^ a7 ^^^ a8 ^^^ a9 ^^^ a10 ^^^ a11 ^^^ a12 ^^^ c ^^^ e ^^^ s) =
      z ^^^ (a1 ^^^ a2 ^^^ a3 ^^^ a4 ^^^ a5 ^^^ a6 ^^^ a7 ^^^ a8 ^^^ a9 ^^^ a10 ^^^ a11 ^^^ a12 ^^^ c ^^^ e ^^^ s) := by
  simp only [Nat.xor_assoc, Nat.xor_comm, xor_left_comm, xor_cancel_mid,
    Nat.xor_self, Nat.xor_zero, Nat.zero_xor]

/-- Positional XOR cancellation for a quiet piece move, slot 2. -/
theorem zcancelm2 (z kf kt a1 a2 a3 a4 a5 a6 a7 a8 a9 a10 a11 a12 c e s : Nat) :
    (z ^^^ kf ^^^ kt) ^^^ (a1 ^^^ (a2 ^^^ kf ^^^ kt) ^^^ a3 ^^^ a4 ^^^ a5 ^^^ a6 ^^^ a7 ^^^ a8 ^^^ a9 ^^^ a10 ^^^ a11 ^^^ a12 ^^^ c ^^^ e ^^^ s) =
      z ^^^ (a1 ^^^ a2 ^^^ a3 ^^^ a4 ^^^ a5 ^^^ a6 ^^^ a7 ^^^ a8 ^^^ a9 ^^^ a10 ^^^ a11 ^^^ a12 ^^^ c ^^^ e ^^^ s) := by
  simp only [Nat.xor_assoc, Nat.xor_comm, xor_left_comm, xor_cancel_mid,
    Nat.xor_self, Nat.xor_zero, Nat.zero_xor]

/-- Positional XOR cancellation for a quiet piece move, slot 5. -/
theorem zcancelm5 (z kf kt a1 a2 a3 a4 a5 a6 a7 a8 a9 a10 a11 a12 c e s : Nat) :
    (z ^^^ kf ^^^ kt) ^^^ (a1 ^^^ a2 ^^^ a3 ^^^ a4 ^^^ (a5 ^^^ kf ^^^ kt) ^^^ a6 ^^^ a7 ^^^ a8 ^^^ a9 ^^^ a10 ^^^ a11 ^^^ a12 ^^^ c ^^^ e ^^^ s) =
      z ^^^ (a1 ^^^ a2 ^^^ a3 ^^^ a4 ^^^ a5 ^^^ a6 ^^^ a7 ^^^ a8 ^^^ a9 ^^^ a10 ^^^ a11 ^^^ a12 ^^^ c ^^^ e ^^^ s) := by
  simp only [Nat.xor_assoc, Nat.xor_comm, xor_left_comm, xor_cancel_mid,
    Nat.xor_self, Nat.xor_zero, Nat.zero_xor]

/-- Positional XOR cancellation for a quiet piece move, slot 7. -/
theorem zcancelm7 (z kf kt a1 a2 a3 a4 a5 a6 a7 a8 a9 a10 a11 a12 c e s : Nat) :
    (z ^^^ kf ^^^ kt) ^^^ (a1 ^^^ a2 ^^^ a3 ^^^ a4 ^^^ a5 ^^^ a6 ^^^ (a7 ^^^ kf ^^^ kt) ^^^ a8 ^^^ a9 ^^^ a10 ^^^ a11 ^^^ a12 ^^^ c ^^^ e ^^^ s) =
      z ^^^ (a1 ^^^ a2 ^^^ a3 ^^^ a4 ^^^ a5 ^^^ a6 ^^^ a7 ^^^ a8 ^^^ a9 ^^^ a10 ^^^ a11 ^^^ a12 ^^^ c ^^^ e ^^^ s) := by
  simp only [Nat.xor_assoc, Nat.xor_comm, xor_left_comm, xor_cancel_mid,
    Nat.xor_self, Nat.xor_zero, Nat.zero_xor]

/-- Positional XOR cancellation for a quiet piece move, slot 9. -/
theorem zcancelm9 (z kf kt a1 a2 a3 a4 a5 a6 a7 a8 a9 a10 a11 a12 c e s : Nat) :
    (z ^^^ kf ^^^ kt) ^^^ (a1 ^^^ a2 ^^^ a3 ^^^ a4 ^^^ a5 ^^^ a6 ^^^ a7 ^^^ a8 ^^^ (a9 ^^^ kf ^^^ kt) ^^^ a10 ^^^ a11 ^^^ a12 ^^^ c ^^^ e ^^^ s) =
      z ^^^ (a1 ^^^ a2 ^^^ a3 ^^^ a4 ^^^ a5 ^^^ a6 ^^^ a7 ^^^ a8 ^^^ a9 ^^^ a10 ^^^ a11 ^^^ a12 ^^^ c ^^^ e ^^^ s) := by
  simp only [Nat.xor_assoc, Nat.xor_comm, xor_left_comm, xor_cancel_mid,
    Nat.xor_self, Nat.xor_zero, Nat.zero_xor]

/-- Positional XOR cancellation for a quiet piece move, slot 8. -/
theorem zcancelm8 (z kf kt a1 a2 a3 a4 a5 a6 a7 a8 a9 a10 a11 a12 c e s : Nat) :
    (z ^^^ kf ^^^ kt) ^^^ (a1 ^^^ a2 ^^^ a3 ^^^ a4 ^^^ a5 ^^^ a6 ^^^ a7 ^^^ (a8 ^^^ kf ^^^ kt) ^^^ a9 ^^^ a10 ^^^ a11 ^^^ a12 ^^^ c ^^^ e ^^^ s) =
      z ^^^ (a1 ^^^ a2 ^^^ a3 ^^^ a4 ^^^ a5 ^^^ a6 ^^^ a7 ^^^ a8 ^^^ a9 ^^^ a10 ^^^ a11 ^^^ a12 ^^^ c ^^^ e ^^^ s) := by
  simp only [Nat.xor_assoc, Nat.xor_comm, xor_left_comm, xor_cancel_mid,
    Nat.xor_self, Nat.xor_zero, Nat.zero_xor]

/-- Positional XOR cancellation for a quiet piece move, slot 11. -/
theorem zcancelm11 (z kf kt a1 a2 a3 a4 a5 a6 a7 a8 a9 a10 a11 a12 c e s : Nat) :
    (z ^^^ kf ^^^ kt) ^^^ (a1 ^^^ a2 ^^^ a3 ^^^ a4 ^^^ a5 ^^^ a6 ^^^ a7 ^^^ a8 ^^^ a9 ^^^ a10 ^^^ (a11 ^^^ kf ^^^ kt) ^^^ a12 ^^^ c ^^^ e ^^^ s) =
      z ^^^ (a1 ^^^ a2 ^^^ a3 ^^^ a4 ^^^ a5 ^^^ a6 ^^^ a7 ^^^ a8 ^^^ a9 ^^^ a10 ^^^ a11 ^^^ a12 ^^^ c ^^^ e ^^^ s) := by
  simp only [Nat.xor_assoc, Nat.xor_comm, xor_left_comm, xor_cancel_mid,
    Nat.xor_self, Nat.xor_zero, Nat.zero_xor]

/-- Positional XOR cancellation for a rook move, slot 4. -/
theorem zcancelr4 (z kf kt k2 a1 a2 a3 a4 a5 a6 a7 a8 a9 a10 a11 a12 c e s : Nat) :
    (z ^^^ kf ^^^ kt ^^^ k2) ^^^ (a1 ^^^ a2 ^^^ a3 ^^^ (a4 ^^^ kf ^^^ kt) ^^^ a5 ^^^ a6 ^^^ a7 ^^^ a8 ^^^ a9 ^^^ a10 ^^^ a11 ^^^ a12 ^^^ (c ^^^ k2) ^^^ e ^^^ s) =
      z ^^^ (a1 ^^^ a2 ^^^ a3 ^^^ a4 ^^^ a5 ^^^ a6 ^^^ a7 ^^^ a8 ^^^ a9 ^^^ a10 ^^^ a11 ^^^ a12 ^^^ c ^^^ e ^^^ s) := by
  simp only [Nat.xor_assoc, Nat.xor_comm, xor_left_comm, xor_cancel_mid,
    Nat.xor_self, Nat.xor_zero, Nat.zero_xor]

/-- Positional XOR cancellation for a rook move, slot 10. -/
theorem zcancelr10 (z kf kt k2 a1 a2 a3 a4 a5 a6 a7 a8 a9 a10 a11 a12 c e s : Nat) :
    (z ^^^ kf ^^^ kt ^^^ k2) ^^^ (a1 ^^^ a2 ^^^ a3 ^^^ a4 ^^^ a5 ^^^ a6 ^^^ a7 ^^^ a8 ^^^ a9 ^^^ (a10 ^^^ kf ^^^ kt) ^^^ a11 ^^^ a12 ^^^ (c ^^^ k2) ^^^ e ^^^ s) =
      z ^^^ (a1 ^^^ a2 ^^^ a3 ^^^ a4 ^^^ a5 ^^^ a6 ^^^ a7 ^^^ a8 ^^^ a9 ^^^ a10 ^^^ a11 ^^^ a12 ^^^ c ^^^ e ^^^ s) := by
  simp only [Nat.xor_assoc, Nat.xor_comm, xor_left_comm, xor_cancel_mid,
    Nat.xor_self, Nat.xor_zero, Nat.zero_xor]

/-- Positional XOR cancellation for a king move, slot 6. -/
theorem zcancelk6 (z kf kt f4 f1 a1 a2 a3 a4 a5 a6 a7 a8 a9 a10 a11 a12 c e s : Nat) :
    (z ^^^ kf ^^^ kt ^^^ f4 ^^^ f1) ^^^
        (a1 ^^^ a2 ^^^ a3 ^^^ a4 ^^^ a5 ^^^ (a6 ^^^ kf ^^^ kt) ^^^ a7 ^^^ a8 ^^^ a9 ^^^ a10 ^^^ a11 ^^^ a12 ^^^ (c ^^^ (f1 ^^^ f4)) ^^^ e ^^^ s) =
      z ^^^ (a1 ^^^ a2 ^^^ a3 ^^^ a4 ^^^ a5 ^^^ a6 ^^^ a7 ^^^ a8 ^^^ a9 ^^^ a10 ^^^ a11 ^^^ a12 ^^^ c ^^^ e ^^^ s) := by
  simp only [Nat.xor_assoc, Nat.xor_comm, xor_left_comm, xor_cancel_mid,
    Nat.xor_self, Nat.xor_zero, Nat.zero_xor]

/-- Positional XOR cancellation for a king move, slot 12. -/
theorem zcancelk12 (z kf kt f4 f1 a1 a2 a3 a4 a5 a6 a7 a8 a9 a10 a11 a12 c e s : Nat) :
    (z ^^^ kf ^^^ kt ^^^ f4 ^^^ f1) ^^^
        (a1 ^^^ a2 ^^^ a3 ^^^ a4 ^^^ a5 ^^^ a6 ^^^ a7 ^^^ a8 ^^^ a9 ^^^ a10 ^^^ a11 ^^^ (a12 ^^^ kf ^^^ kt) ^^^ (c ^^^ (f1 ^^^ f4)) ^^^ e ^^^ s) =
      z ^^^ (a1 ^^^ a2 ^^^ a3 ^^^ a4 ^^^ a5 ^^^ a6 ^^^ a7 ^^^ a8 ^^^ a9 ^^^ a10 ^^^ a11 ^^^ a12 ^^^ c ^^^ e ^^^ s) := by
  simp only [Nat.xor_assoc, Nat.xor_comm, xor_left_comm, xor_cancel_mid,
    Nat.xor_self, Nat.xor_zero, Nat.zero_xor]

/-- `apply_move` of a piece standing alone on its origin to a fully empty
destination preserves the hash defect. -/
theorem zDefect_applyMove (K : ZKeys) (b : Board) (side : Side) (p : Piece)
    (f t : Square) (hf64 : f.ordinal < 64) (ht64 : t.ordinal < 64)
    (hex : sqHoldsExactly b side p f) (hemp : sqEmptyAll b t) :
    zDefect K (b.applyMove K side p f t) = zDefect K b := by
  obtain ⟨hown, hoth, hkind, hx1, hx2, hx3, hx4, hx5, hx6⟩ := hex
  obtain ⟨hwp, hbp, he1, he2, he3, he4, he5, he6⟩ := hemp
  cases side <;> cases p <;>
    dsimp only [Board.getPieces, otherSide, kindBB] at hown hoth hkind
  · have hneq : f.ordinal ≠ t.ordinal := by
      intro hee
      rw [hee] at hown
      rw [hown] at hwp
      cases hwp
    rw [applyMove_plain_spec K b _ _ f t (by decide) (by decide)]
    unfold zDefect zScratch zPieces
    dsimp only
    simp only [reduceCtorEq, eq_self_iff_true, if_true, if_false]
    rw [zSum_masked_move K .White .Pawn b.pawns b.whitePieces f t hf64 ht64 hneq hkind hown (by rw [Nat.testBit_and, he1, Bool.false_and]),
      zSum_move_left_congr K .White .Bishop b.bishops b.whitePieces f t hf64 ht64 (hx2 (by decide)) he2,
      zSum_move_left_congr K .White .Knight b.knights b.whitePieces f t hf64 ht64 (hx3 (by decide)) he3,
      zSum_move_left_congr K .White .Rook b.rooks b.whitePieces f t hf64 ht64 (hx4 (by decide)) he4,
      zSum_move_left_congr K .White .Queen b.queens b.whitePieces f t hf64 ht64 (hx5 (by decide)) he5,
      zSum_move_left_congr K .White .King b.kings b.whitePieces f t hf64 ht64 (hx6 (by decide)) he6,
      zSum_move_right_congr K .Black .Pawn b.pawns b.blackPieces f t hf64 ht64 hoth hbp]
    apply zcancelm1
  · have hneq : f.ordinal ≠ t.ordinal := by
      intro hee
      rw [hee] at hown
      rw [hown] at hwp
      cases hwp
    rw [applyMove_plain_spec K b _ _ f t (by decide) (by decide)]
    unfold zDefect zScratch zPieces
    dsimp only
    simp only [reduceCtorEq, eq_self_iff_true, if_true, if_false]
    rw [zSum_masked_move K .White .Knight b.knights b.whitePieces f t hf64 ht64 hneq hkind hown (by rw [Nat.testBit_and, he3, Bool.false_and]),
      zSum_move_left_congr K .White .Pawn b.pawns b.whitePieces f t hf64 ht64 (hx1 (by decide)) he1,
      zSum_move_left_congr K .White .Bishop b.bishops b.whitePieces f t hf64 ht64 (hx2 (by decide)) he2,
      zSum_move_left_congr K .White .Rook b.rooks b.whitePieces f t hf64 ht64 (hx4 (by decide)) he4,
      zSum_move_left_congr K .White .Queen b.queens b.whitePieces f t hf64 ht64 (hx5 (by decide)) he5,
      zSum_move_left_congr K .White .King b.kings b.whitePieces f t hf64 ht64 (hx6 (by decide)) he6,
      zSum_move_right_congr K .Black .Knight b.knights b.blackPieces f t hf64 ht64 hoth hbp]
    apply zcancelm3
  · have hneq : f.ordinal ≠ t.ordinal := by
      intro hee
      rw [hee] at hown
      rw [hown] at hwp
      cases hwp
    rw [applyMove_plain_spec K b _ _ f t (by decide) (by decide)]
    unfold zDefect zScratch zPieces
    dsimp only
    simp only [reduceCtorEq, eq_self_iff_true, if_true, if_false]
    rw [zSum_masked_move K .White .Bishop b.bishops b.whitePieces f t hf64 ht64 hneq hkind hown (by rw [Nat.testBit_and, he2, Bool.false_and]),
      zSum_move_left_congr K .White .Pawn b.pawns b.whitePieces f t hf64 ht64 (hx1 (by decide)) he1,
      zSum_move_left_congr K .White .Knight b.knights b.whitePieces f t hf64 ht64 (hx3 (by decide)) he3,
      zSum_move_left_congr K .White .Rook b.rooks b.whitePieces f t hf64 ht64 (hx4 (by decide)) he4,
      zSum_move_left_congr K .White .Queen b.queens b.whitePieces f t hf64 ht64 (hx5 (by decide)) he5,
      zSum_move_left_congr K .White .King b.kings b.whitePieces f t hf64 ht64 (hx6 (by decide)) he6,
      zSum_move_right_congr K .Black .Bishop b.bishops b.blackPieces f t hf64 ht64 hoth hbp]
    apply zcancelm2
  · have hneq : f.ordinal ≠ t.ordinal := by
      intro hee
      rw [hee] at hown
      rw [hown] at hwp
      cases hwp
    rw [applyMove_rook_W_spec]
    unfold zDefect zScratch zPieces
    dsimp only
    rw [zSum_masked_move K .White .Rook b.rooks b.whitePieces f t hf64 ht64 hneq hkind hown (by rw [Nat.testBit_and, he4, Bool.false_and]),
      zSum_move_left_congr K .White .Pawn b.pawns b.whitePieces f t hf64 ht64 (hx1 (by decide)) he1,
      zSum_move_left_congr K .White .Bishop b.bishops b.whitePieces f t hf64 ht64 (hx2 (by decide)) he2,
      zSum_move_left_congr K .White .Knight b.knights b.whitePieces f t hf64 ht64 (hx3 (by decide)) he3,
      zSum_move_left_congr K .White .Queen b.queens b.whitePieces f t hf64 ht64 (hx5 (by decide)) he5,
      zSum_move_left_congr K .White .King b.kings b.whitePieces f t hf64 ht64 (hx6 (by decide)) he6,
      zSum_move_right_congr K .Black .Rook b.rooks b.blackPieces f t hf64 ht64 hoth hbp,
      castleKeys_rookClear_W]
    apply zcancelr4
  · have hneq : f.ordinal ≠ t.ordinal := by
      intro hee
      rw [hee] at hown
      rw [hown] at hwp
      cases hwp
    rw [applyMove_plain_spec K b _ _ f t (by decide) (by decide)]
    unfold zDefect zScratch zPieces
    dsimp only
    simp only [reduceCtorEq, eq_self_iff_true, if_true, if_false]
    rw [zSum_masked_move K .White .Queen b.queens b.whitePieces f t hf64 ht64 hneq hkind hown (by rw [Nat.testBit_and, he5, Bool.false_and]),
      zSum_move_left_congr K .White .Pawn b.pawns b.whitePieces f t hf64 ht64 (hx1 (by decide)) he1,
      zSum_move_left_congr K .White .Bishop b.bishops b.whitePieces f t hf64 ht64 (hx2 (by decide)) he2,
      zSum_move_left_congr K .White .Knight b.knights b.whitePieces f t hf64 ht64 (hx3 (by decide)) he3,
      zSum_move_left_congr K .White .Rook b.rooks b.whitePieces f t hf64 ht64 (hx4 (by decide)) he4,
      zSum_move_left_congr K .White .King b.kings b.whitePieces f t hf64 ht64 (hx6 (by decide)) he6,
      zSum_move_right_congr K .Black .Queen b.queens b.blackPieces f t hf64 ht64 hoth hbp]
    apply zcancelm5
  · have hneq : f.ordinal ≠ t.ordinal := by
      intro hee
      rw [hee] at hown
      rw [hown] at hwp
      cases hwp
    rw [applyMove_king_W_spec]
    unfold zDefect zScratch zPieces
    dsimp only
    rw [zSum_masked_move K .White .King b.kings b.whitePieces f t hf64 ht64 hneq hkind hown (by rw [Nat.testBit_and, he6, Bool.false_and]),
      zSum_move_left_congr K .White .Pawn b.pawns b.whitePieces f t hf64 ht64 (hx1 (by decide)) he1,
      zSum_move_left_congr K .White .Bishop b.bishops b.whitePieces f t hf64 ht64 (hx2 (by decide)) he2,
      zSum_move_left_congr K .White .Knight b.knights b.whitePieces f t hf64 ht64 (hx3 (by decide)) he3,
      zSum_move_left_congr K .White .Rook b.rooks b.whitePieces f t hf64 ht64 (hx4 (by decide)) he4,
      zSum_move_left_congr K .White .Queen b.queens b.whitePieces f t hf64 ht64 (hx5 (by decide)) he5,
      zSum_move_right_congr K .Black .King b.kings b.blackPieces f t hf64 ht64 hoth hbp,
      castleKeys_kingClear_W]
    apply zcancelk6
  · have hneq : f.ordinal ≠ t.ordinal := by
      intro hee
      rw [hee] at hown
      rw [hown] at hbp
      cases hbp
    rw [applyMove_plain_spec K b _ _ f t (by decide) (by decide)]
    unfold zDefect zScratch zPieces
    dsimp only
    simp only [reduceCtorEq, eq_self_iff_true, if_true, if_false]
    rw [zSum_masked_move K .Black .Pawn b.pawns b.blackPieces f t hf64 ht64 hneq hkind hown (by rw [Nat.testBit_and, he1, Bool.false_and]),
      zSum_move_left_congr K .Black .Bishop b.bishops b.blackPieces f t hf64 ht64 (hx2 (by decide)) he2,
      zSum_move_left_congr K .Black .Knight b.knights b.blackPieces f t hf64 ht64 (hx3 (by decide)) he3,
      zSum_move_left_congr K .Black .Rook b.rooks b.blackPieces f t hf64 ht64 (hx4 (by decide)) he4,
      zSum_move_left_congr K .Black .Queen b.queens b.blackPieces f t hf64 ht64 (hx5 (by decide)) he5,
      zSum_move_left_congr K .Black .King b.kings b.blackPieces f t hf64 ht64 (hx6 (by decide)) he6,
      zSum_move_right_congr K .White .Pawn b.pawns b.whitePieces f t hf64 ht64 hoth hwp]
    apply zcancelm7
  · have hneq : f.ordinal ≠ t.ordinal := by
      intro hee
      rw [hee] at hown
      rw [hown] at hbp
      cases hbp
    rw [applyMove_plain_spec K b _ _ f t (by decide) (by decide)]
    unfold zDefect zScratch zPieces
    dsimp only
    simp only [reduceCtorEq, eq_self_iff_true, if_true, if_false]
    rw [zSum_masked_move K .Black .Knight b.knights b.blackPieces f t hf64 ht64 hneq hkind hown (by rw [Nat.testBit_and, he3, Bool.false_and]),
      zSum_move_left_congr K .Black .Pawn b.pawns b.blackPieces f t hf64 ht64 (hx1 (by decide)) he1,
      zSum_move_left_congr K .Black .Bishop b.bishops b.blackPieces f t hf64 ht64 (hx2 (by decide)) he2,
      zSum_move_left_congr K .Black .Rook b.rooks b.blackPieces f t hf64 ht64 (hx4 (by decide)) he4,
      zSum_move_left_congr K .Black .Queen b.queens b.blackPieces f t hf64 ht64 (hx5 (by decide)) he5,
      zSum_move_left_congr K .Black .King b.kings b.blackPieces f t hf64 ht64 (hx6 (by decide)) he6,
      zSum_move_right_congr K .White .Knight b.knights b.whitePieces f t hf64 ht64 hoth hwp]
    apply zcancelm9
  · have hneq : f.ordinal ≠ t.ordinal := by
      intro hee
      rw [hee] at hown
      rw [hown] at hbp
      cases hbp
    rw [applyMove_plain_spec K b _ _ f t (by decide) (by decide)]
    unfold zDefect zScratch zPieces
    dsimp only
    simp only [reduceCtorEq, eq_self_iff_true, if_true, if_false]
    rw [zSum_masked_move K .Black .Bishop b.bishops b.blackPieces f t hf64 ht64 hneq hkind hown (by rw [Nat.testBit_and, he2, Bool.false_and]),
      zSum_move_left_congr K .Black .Pawn b.pawns b.blackPieces f t hf64 ht64 (hx1 (by decide)) he1,
      zSum_move_left_congr K .Black .Knight b.knights b.blackPieces f t hf64 ht64 (hx3 (by decide)) he3,
      zSum_move_left_congr K .Black .Rook b.rooks b.blackPieces f t hf64 ht64 (hx4 (by decide)) he4,
      zSum_move_left_congr K .Black .Queen b.queens b.blackPieces f t hf64 ht64 (hx5 (by decide)) he5,
      zSum_move_left_congr K .Black .King b.kings b.blackPieces f t hf64 ht64 (hx6 (by decide)) he6,
      zSum_move_right_congr K .White .Bishop b.bishops b.whitePieces f t hf64 ht64 hoth hwp]
    apply zcancelm8
  · have hneq : f.ordinal ≠ t.ordinal := by
      intro hee
      rw [hee] at hown
      rw [hown] at hbp
      cases hbp
    rw [applyMove_rook_B_spec]
    unfold zDefect zScratch zPieces
    dsimp only
    rw [zSum_masked_move K .Black .Rook b.rooks b.blackPieces f t hf64 ht64 hneq hkind hown (by rw [Nat.testBit_and, he4, Bool.false_and]),
      zSum_move_left_congr K .Black .Pawn b.pawns b.blackPieces f t hf64 ht64 (hx1 (by decide)) he1,
      zSum_move_left_congr K .Black .Bishop b.bishops b.blackPieces f t hf64 ht64 (hx2 (by decide)) he2,
      zSum_move_left_congr K .Black .Knight b.knights b.blackPieces f t hf64 ht64 (hx3 (by decide)) he3,
      zSum_move_left_congr K .Black .Queen b.queens b.blackPieces f t hf64 ht64 (hx5 (by decide)) he5,
      zSum_move_left_congr K .Black .King b.kings b.blackPieces f t hf64 ht64 (hx6 (by decide)) he6,
      zSum_move_right_congr K .White .Rook b.rooks b.whitePieces f t hf64 ht64 hoth hwp,
      castleKeys_rookClear_B]
    apply zcancelr10
  · have hneq : f.ordinal ≠ t.ordinal := by
      intro hee
      rw [hee] at hown
      rw [hown] at hbp
      cases hbp
    rw [applyMove_plain_spec K b _ _ f t (by decide) (by decide)]
    unfold zDefect zScratch zPieces
    dsimp only
    simp only [reduceCtorEq, eq_self_iff_true, if_true, if_false]
    rw [zSum_masked_move K .Black .Queen b.queens b.blackPieces f t hf64 ht64 hneq hkind hown (by rw [Nat.testBit_and, he5, Bool.false_and]),
      zSum_move_left_congr K .Black .Pawn b.pawns b.blackPieces f t hf64 ht64 (hx1 (by decide)) he1,
      zSum_move_left_congr K .Black .Bishop b.bishops b.blackPieces f t hf64 ht64 (hx2 (by decide)) he2,
      zSum_move_left_congr K .Black .Knight b.knights b.blackPieces f t hf64 ht64 (hx3 (by decide)) he3,
      zSum_move_left_congr K .Black .Rook b.rooks b.blackPieces f t hf64 ht64 (hx4 (by decide)) he4,
      zSum_move_left_congr K .Black .King b.kings b.blackPieces f t hf64 ht64 (hx6 (by decide)) he6,
      zSum_move_right_congr K .White .Queen b.queens b.whitePieces f t hf64 ht64 hoth hwp]
    apply zcancelm11
  · have hneq : f.ordinal ≠ t.ordinal := by
      intro hee
      rw [hee] at hown
      rw [hown] at hbp
      cases hbp
    rw [applyMove_king_B_spec]
    unfold zDefect zScratch zPieces
    dsimp only
    rw [zSum_masked_move K .Black .King b.kings b.blackPieces f t hf64 ht64 hneq hkind hown (by rw [Nat.testBit_and, he6, Bool.false_and]),
      zSum_move_left_congr K .Black .Pawn b.pawns b.blackPieces f t hf64 ht64 (hx1 (by decide)) he1,
      zSum_move_left_congr K .Black .Bishop b.bishops b.blackPieces f t hf64 ht64 (hx2 (by decide)) he2,
      zSum_move_left_congr K .Black .Knight b.knights b.blackPieces f t hf64 ht64 (hx3 (by decide)) he3,
      zSum_move_left_congr K .Black .Rook b.rooks b.blackPieces f t hf64 ht64 (hx4 (by decide)) he4,
      zSum_move_left_congr K .Black .Queen b.queens b.blackPieces f t hf64 ht64 (hx5 (by decide)) he5,
      zSum_move_right_congr K .White .King b.kings b.whitePieces f t hf64 ht64 hoth hwp,
      castleKeys_kingClear_B]
    apply zcancelk12

/-- Positional XOR cancellation for a capture, slot 1. -/
theorem zcancelc1 (z k k2 a1 a2 a3 a4 a5 a6 a7 a8 a9 a10 a11 a12 c e s : Nat) :
    (z ^^^ k ^^^ k2) ^^^ ((a1 ^^^ k) ^^^ a2 ^^^ a3 ^^^ a4 ^^^ a5 ^^^ a6 ^^^ a7 ^^^ a8 ^^^ a9 ^^^ a10 ^^^ a11 ^^^ a12 ^^^ (c ^^^ k2) ^^^ e ^^^ s) =
      z ^^^ (a1 ^^^ a2 ^^^ a3 ^^^ a4 ^^^ a5 ^^^ a6 ^^^ a7 ^^^ a8 ^^^ a9 ^^^ a10 ^^^ a11 ^^^ a12 ^^^ c ^^^ e ^^^ s) := by
  simp only [Nat.xor_assoc, Nat.xor_comm, xor_left_comm, xor_cancel_mid,
    Nat.xor_self, Nat.xor_zero, Nat.zero_xor]

/-- Positional XOR cancellation for a capture, slot 2. -/
theorem zcancelc2 (z k k2 a1 a2 a3 a4 a5 a6 a7 a8 a9 a10 a11 a12 c e s : Nat) :
    (z ^^^ k ^^^ k2) ^^^ (a1 ^^^ (a2 ^^^ k) ^^^ a3 ^^^ a4 ^^^ a5 ^^^ a6 ^^^ a7 ^^^ a8 ^^^ a9 ^^^ a10 ^^^ a11 ^^^ a12 ^^^ (c ^^^ k2) ^^^ e ^^^ s) =
      z ^^^ (a1 ^^^ a2 ^^^ a3 ^^^ a4 ^^^ a5 ^^^ a6 ^^^ a7 ^^^ a8 ^^^ a9 ^^^ a10 ^^^ a11 ^^^ a12 ^^^ c ^^^ e ^^^ s) := by
  simp only [Nat.xor_assoc, Nat.xor_comm, xor_left_comm, xor_cancel_mid,
    Nat.xor_self, Nat.xor_zero, Nat.zero_xor]

/-- Positional XOR cancellation for a capture, slot 3. -/
theorem zcancelc3 (z k k2 a1 a2 a3 a4 a5 a6 a7 a8 a9 a10 a11 a12 c e s : Nat) :
    (z ^^^ k ^^^ k2) ^^^ (a1 ^^^ a2 ^^^ (a3 ^^^ k) ^^^ a4 ^^^ a5 ^^^ a6 ^^^ a7 ^^^ a8 ^^^ a9 ^^^ a10 ^^^ a11 ^^^ a12 ^^^ (c ^^^ k2) ^^^ e ^^^ s) =
      z ^^^ (a1 ^^^ a2 ^^^ a3 ^^^ a4 ^^^ a5 ^^^ a6 ^^^ a7 ^^^ a8 ^^^ a9 ^^^ a10 ^^^ a11 ^^^ a12 ^^^ c ^^^ e ^^^ s) := by
  simp only [Nat.xor_assoc, Nat.xor_comm, xor_left_comm, xor_cancel_mid,
    Nat.xor_self, Nat.xor_zero, Nat.zero_xor]

/-- Positional XOR cancellation for a capture, slot 4. -/
theorem zcancelc4 (z k k2 a1 a2 a3 a4 a5 a6 a7 a8 a9 a10 a11 a12 c e s : Nat) :
    (z ^^^ k ^^^ k2) ^^^ (a1 ^^^ a2 ^^^ a3 ^^^ (a4 ^^^ k) ^^^ a5 ^^^ a6 ^^^ a7 ^^^ a8 ^^^ a9 ^^^ a10 ^^^ a11 ^^^ a12 ^^^ (c ^^^ k2) ^^^ e ^^^ s) =
      z ^^^ (a1 ^^^ a2 ^^^ a3 ^^^ a4 ^^^ a5 ^^^ a6 ^^^ a7 ^^^ a8 ^^^ a9 ^^^ a10 ^^^ a11 ^^^ a12 ^^^ c ^^^ e ^^^ s) := by
  simp only [Nat.xor_assoc, Nat.xor_comm, xor_left_comm, xor_cancel_mid,
    Nat.xor_self, Nat.xor_zero, Nat.zero_xor]

/-- Positional XOR cancellation for a capture, slot 5. -/
theorem zcancelc5 (z k k2 a1 a2 a3 a4 a5 a6 a7 a8 a9 a10 a11 a12 c e s : Nat) :
    (z ^^^ k ^^^ k2) ^^^ (a1 ^^^ a2 ^^^ a3 ^^^ a4 ^^^ (a5 ^^^ k) ^^^ a6 ^^^ a7 ^^^ a8 ^^^ a9 ^^^ a10 ^^^ a11 ^^^ a12 ^^^ (c ^^^ k2) ^^^ e ^^^ s) =
      z ^^^ (a1 ^^^ a2 ^^^ a3 ^^^ a4 ^^^ a5 ^^^ a6 ^^^ a7 ^^^ a8 ^^^ a9 ^^^ a10 ^^^ a11 ^^^ a12 ^^^ c ^^^ e ^^^ s) := by
  simp only [Nat.xor_assoc, Nat.xor_comm, xor_left_comm, xor_cancel_mid,
    Nat.xor_self, Nat.xor_zero, Nat.zero_xor]

/-- Positional XOR cancellation for a capture, slot 6. -/
theorem zcancelc6 (z k k2 a1 a2 a3 a4 a5 a6 a7 a8 a9 a10 a11 a12 c e s : Nat) :
    (z ^^^ k ^^^ k2) ^^^ (a1 ^^^ a2 ^^^ a3 ^^^ a4 ^^^ a5 ^^^ (a6 ^^^ k) ^^^ a7 ^^^ a8 ^^^ a9 ^^^ a10 ^^^ a11 ^^^ a12 ^^^ (c ^^^ k2) ^^^ e ^^^ s) =
      z ^^^ (a1 ^^^ a2 ^^^ a3 ^^^ a4 ^^^ a5 ^^^ a6 ^^^ a7 ^^^ a8 ^^^ a9 ^^^ a10 ^^^ a11 ^^^ a12 ^^^ c ^^^ e ^^^ s) := by
  simp only [Nat.xor_assoc, Nat.xor_comm, xor_left_comm, xor_cancel_mid,
    Nat.xor_self, Nat.xor_zero, Nat.zero_xor]

/-- Positional XOR cancellation for a capture, slot 7. -/
theorem zcancelc7 (z k k2 a1 a2 a3 a4 a5 a6 a7 a8 a9 a10 a11 a12 c e s : Nat) :
    (z ^^^ k ^^^ k2) ^^^ (a1 ^^^ a2 ^^^ a3 ^^^ a4 ^^^ a5 ^^^ a6 ^^^ (a7 ^^^ k) ^^^ a8 ^^^ a9 ^^^ a10 ^^^ a11 ^^^ a12 ^^^ (c ^^^ k2) ^^^ e ^^^ s) =
      z ^^^ (a1 ^^^ a2 ^^^ a3 ^^^ a4 ^^^ a5 ^^^ a6 ^^^ a7 ^^^ a8 ^^^ a9 ^^^ a10 ^^^ a11 ^^^ a12 ^^^ c ^^^ e ^^^ s) := by
  simp only [Nat.xor_assoc, Nat.xor_comm, xor_left_comm, xor_cancel_mid,
    Nat.xor_self, Nat.xor_zero, Nat.zero_xor]

/-- Positional XOR cancellation for a capture, slot 8. -/
theorem zcancelc8 (z k k2 a1 a2 a3 a4 a5 a6 a7 a8 a9 a10 a11 a12 c e s : Nat) :
    (z ^^^ k ^^^ k2) ^^^ (a1 ^^^ a2 ^^^ a3 ^^^ a4 ^^^ a5 ^^^ a6 ^^^ a7 ^^^ (a8 ^^^ k) ^^^ a9 ^^^ a10 ^^^ a11 ^^^ a12 ^^^ (c ^^^ k2) ^^^ e ^^^ s) =
      z ^^^ (a1 ^^^ a2 ^^^ a3 ^^^ a4 ^^^ a5 ^^^ a6 ^^^ a7 ^^^ a8 ^^^ a9 ^^^ a10 ^^^ a11 ^^^ a12 ^^^ c ^^^ e ^^^ s) := by
  simp only [Nat.xor_assoc, Nat.xor_comm, xor_left_comm, xor_cancel_mid,
    Nat.xor_self, Nat.xor_zero, Nat.zero_xor]

/-- Positional XOR cancellation for a capture, slot 9. -/
theorem zcancelc9 (z k k2 a1 a2 a3 a4 a5 a6 a7 a8 a9 a10 a11 a12 c e s : Nat) :
    (z ^^^ k ^^^ k2) ^^^ (a1 ^^^ a2 ^^^ a3 ^^^ a4 ^^^ a5 ^^^ a6 ^^^ a7 ^^^ a8 ^^^ (a9 ^^^ k) ^^^ a10 ^^^ a11 ^^^ a12 ^^^ (c ^^^ k2) ^^^ e ^^^ s) =
      z ^^^ (a1 ^^^ a2 ^^^ a3 ^^^ a4 ^^^ a5 ^^^ a6 ^^^ a7 ^^^ a8 ^^^ a9 ^^^ a10 ^^^ a11 ^^^ a12 ^^^ c ^^^ e ^^^ s) := by
  simp only [Nat.xor_assoc, Nat.xor_comm, xor_left_comm, xor_cancel_mid,
    Nat.xor_self, Nat.xor_zero, Nat.zero_xor]

/-- Positional XOR cancellation for a capture, slot 10. -/
theorem zcancelc10 (z k k2 a1 a2 a3 a4 a5 a6 a7 a8 a9 a10 a11 a12 c e s : Nat) :
    (z ^^^ k ^^^ k2) ^^^ (a1 ^^^ a2 ^^^ a3 ^^^ a4 ^^^ a5 ^^^ a6 ^^^ a7 ^^^ a8 ^^^ a9 ^^^ (a10 ^^^ k) ^^^ a11 ^^^ a12 ^^^ (c ^^^ k2) ^^^ e ^^^ s) =
      z ^^^ (a1 ^^^ a2 ^^^ a3 ^^^ a4 ^^^ a5 ^^^ a6 ^^^ a7 ^^^ a8 ^^^ a9 ^^^ a10 ^^^ a11 ^^^ a12 ^^^ c ^^^ e ^^^ s) := by
  simp only [Nat.xor_assoc, Nat.xor_comm, xor_left_comm, xor_cancel_mid,
    Nat.xor_self, Nat.xor_zero, Nat.zero_xor]

/-- Positional XOR cancellation for a capture, slot 11. -/
theorem zcancelc11 (z k k2 a1 a2 a3 a4 a5 a6 a7 a8 a9 a10 a11 a12 c e s : Nat) :
    (z ^^^ k ^^^ k2) ^^^ (a1 ^^^ a2 ^^^ a3 ^^^ a4 ^^^ a5 ^^^ a6 ^^^ a7 ^^^ a8 ^^^ a9 ^^^ a10 ^^^ (a11 ^^^ k) ^^^ a12 ^^^ (c ^^^ k2) ^^^ e ^^^ s) =
      z ^^^ (a1 ^^^ a2 ^^^ a3 ^^^ a4 ^^^ a5 ^^^ a6 ^^^ a7 ^^^ a8 ^^^ a9 ^^^ a10 ^^^ a11 ^^^ a12 ^^^ c ^^^ e ^^^ s) := by
  simp only [Nat.xor_assoc, Nat.xor_comm, xor_left_comm, xor_cancel_mid,
    Nat.xor_self, Nat.xor_zero, Nat.zero_xor]

/-- Positional XOR cancellation for a capture, slot 12. -/
theorem zcancelc12 (z k k2 a1 a2 a3 a4 a5 a6 a7 a8 a9 a10 a11 a12 c e s : Nat) :
    (z ^^^ k ^^^ k2) ^^^ (a1 ^^^ a2 ^^^ a3 ^^^ a4 ^^^ a5 ^^^ a6 ^^^ a7 ^^^ a8 ^^^ a9 ^^^ a10 ^^^ a11 ^^^ (a12 ^^^ k) ^^^ (c ^^^ k2) ^^^ e ^^^ s) =
      z ^^^ (a1 ^^^ a2 ^^^ a3 ^^^ a4 ^^^ a5 ^^^ a6 ^^^ a7 ^^^ a8 ^^^ a9 ^^^ a10 ^^^ a11 ^^^ a12 ^^^ c ^^^ e ^^^ s) := by
  simp only [Nat.xor_assoc, Nat.xor_comm, xor_left_comm, xor_cancel_mid,
    Nat.xor_self, Nat.xor_zero, Nat.zero_xor]

/-- `apply_capture` of a square's exact occupant preserves the hash
defect. -/
theorem zDefect_applyCapture (K : ZKeys) (b : Board) (side : Side)
    (cp : Piece) (sq : Square) (h64 : sq.ordinal < 64)
    (hex : sqHoldsExactly b side cp sq) :
    zDefect K (b.applyCapture K side cp sq) = zDefect K b := by
  obtain ⟨hown, hoth, hkind, hx1, hx2, hx3, hx4, hx5, hx6⟩ := hex
  rw [applyCapture_spec]
  unfold zDefect zScratch zPieces
  dsimp only
  cases side <;> cases cp <;>
    (dsimp only [Board.getPieces, otherSide, kindBB] at hown hoth hkind;
     simp only [reduceCtorEq, eq_self_iff_true, if_true, if_false,
       longCastlingFlag, shortCastlingFlag, backRank])
  · rw [zSum_masked_clear K .White .Pawn b.pawns b.whitePieces sq h64 hkind hown,
      zSum_clear_left_congr K .White .Bishop b.bishops b.whitePieces sq h64 (hx2 (by decide)),
      zSum_clear_left_congr K .White .Knight b.knights b.whitePieces sq h64 (hx3 (by decide)),
      zSum_clear_left_congr K .White .Rook b.rooks b.whitePieces sq h64 (hx4 (by decide)),
      zSum_clear_left_congr K .White .Queen b.queens b.whitePieces sq h64 (hx5 (by decide)),
      zSum_clear_left_congr K .White .King b.kings b.whitePieces sq h64 (hx6 (by decide)),
      zSum_clear_right_congr K .Black .Pawn b.pawns b.blackPieces sq h64 hoth,
      castleKeys_capClear_W]
    apply zcancelc1
  · rw [zSum_masked_clear K .White .Knight b.knights b.whitePieces sq h64 hkind hown,
      zSum_clear_left_congr K .White .Pawn b.pawns b.whitePieces sq h64 (hx1 (by decide)),
      zSum_clear_left_congr K .White .Bishop b.bishops b.whitePieces sq h64 (hx2 (by decide)),
      zSum_clear_left_congr K .White .Rook b.rooks b.whitePieces sq h64 (hx4 (by decide)),
      zSum_clear_left_congr K .White .Queen b.queens b.whitePieces sq h64 (hx5 (by decide)),
      zSum_clear_left_congr K .White .King b.kings b.whitePieces sq h64 (hx6 (by decide)),
      zSum_clear_right_congr K .Black .Knight b.knights b.blackPieces sq h64 hoth,
      castleKeys_capClear_W]
    apply zcancelc3
  · rw [zSum_masked_clear K .White .Bishop b.bishops b.whitePieces sq h64 hkind hown,
      zSum_clear_left_congr K .White .Pawn b.pawns b.whitePieces sq h64 (hx1 (by decide)),
      zSum_clear_left_congr K .White .Knight b.knights b.whitePieces sq h64 (hx3 (by decide)),
      zSum_clear_left_congr K .White .Rook b.rooks b.whitePieces sq h64 (hx4 (by decide)),
      zSum_clear_left_congr K .White .Queen b.queens b.whitePieces sq h64 (hx5 (by decide)),
      zSum_clear_left_congr K .White .King b.kings b.whitePieces sq h64 (hx6 (by decide)),
      zSum_clear_right_congr K .Black .Bishop b.bishops b.blackPieces sq h64 hoth,
      castleKeys_capClear_W]
    apply zcancelc2
  · rw [zSum_masked_clear K .White .Rook b.rooks b.whitePieces sq h64 hkind hown,
      zSum_clear_left_congr K .White .Pawn b.pawns b.whitePieces sq h64 (hx1 (by decide)),
      zSum_clear_left_congr K .White .Bishop b.bishops b.whitePieces sq h64 (hx2 (by decide)),
      zSum_clear_left_congr K .White .Knight b.knights b.whitePieces sq h64 (hx3 (by decide)),
      zSum_clear_left_congr K .White .Queen b.queens b.whitePieces sq h64 (hx5 (by decide)),
      zSum_clear_left_congr K .White .King b.kings b.whitePieces sq h64 (hx6 (by decide)),
      zSum_clear_right_congr K .Black .Rook b.rooks b.blackPieces sq h64 hoth,
      castleKeys_capClear_W]
    apply zcancelc4
  · rw [zSum_masked_clear K .White .Queen b.queens b.whitePieces sq h64 hkind hown,
      zSum_clear_left_congr K .White .Pawn b.pawns b.whitePieces sq h64 (hx1 (by decide)),
      zSum_clear_left_congr K .White .Bishop b.bishops b.whitePieces sq h64 (hx2 (by decide)),
      zSum_clear_left_congr K .White .Knight b.knights b.whitePieces sq h64 (hx3 (by decide)),
      zSum_clear_left_congr K .White .Rook b.rooks b.whitePieces sq h64 (hx4 (by decide)),
      zSum_clear_left_congr K .White .King b.kings b.whitePieces sq h64 (hx6 (by decide)),
      zSum_clear_right_congr K .Black .Queen b.queens b.blackPieces sq h64 hoth,
      castleKeys_capClear_W]
    apply zcancelc5
  · rw [zSum_masked_clear K .White .King b.kings b.whitePieces sq h64 hkind hown,
      zSum_clear_left_congr K .White .Pawn b.pawns b.whitePieces sq h64 (hx1 (by decide)),
      zSum_clear_left_congr K .White .Bishop b.bishops b.whitePieces sq h64 (hx2 (by decide)),
      zSum_clear_left_congr K .White .Knight b.knights b.whitePieces sq h64 (hx3 (by decide)),
      zSum_clear_left_congr K .White .Rook b.rooks b.whitePieces sq h64 (hx4 (by decide)),
      zSum_clear_left_congr K .White .Queen b.queens b.whitePieces sq h64 (hx5 (by decide)),
      zSum_clear_right_congr K .Black .King b.kings b.blackPieces sq h64 hoth,
      castleKeys_capClear_W]
    apply zcancelc6
  · rw [zSum_masked_clear K .Black .Pawn b.pawns b.blackPieces sq h64 hkind hown,
      zSum_clear_left_congr K .Black .Bishop b.bishops b.blackPieces sq h64 (hx2 (by decide)),
      zSum_clear_left_congr K .Black .Knight b.knights b.blackPieces sq h64 (hx3 (by decide)),
      zSum_clear_left_congr K .Black .Rook b.rooks b.blackPieces sq h64 (hx4 (by decide)),
      zSum_clear_left_congr K .Black .Queen b.queens b.blackPieces sq h64 (hx5 (by decide)),
      zSum_clear_left_congr K .Black .King b.kings b.blackPieces sq h64 (hx6 (by decide)),
      zSum_clear_right_congr K .White .Pawn b.pawns b.whitePieces sq h64 hoth,
      castleKeys_capClear_B]
    apply zcancelc7
  · rw [zSum_masked_clear K .Black .Knight b.knights b.blackPieces sq h64 hkind hown,
      zSum_clear_left_congr K .Black .Pawn b.pawns b.blackPieces sq h64 (hx1 (by decide)),
      zSum_clear_left_congr K .Black .Bishop b.bishops b.blackPieces sq h64 (hx2 (by decide)),
      zSum_clear_left_congr K .Black .Rook b.rooks b.blackPieces sq h64 (hx4 (by decide)),
      zSum_clear_left_congr K .Black .Queen b.queens b.blackPieces sq h64 (hx5 (by decide)),
      zSum_clear_left_congr K .Black .King b.kings b.blackPieces sq h64 (hx6 (by decide)),
      zSum_clear_right_congr K .White .Knight b.knights b.whitePieces sq h64 hoth,
      castleKeys_capClear_B]
    apply zcancelc9
  · rw [zSum_masked_clear K .Black .Bishop b.bishops b.blackPieces sq h64 hkind hown,
      zSum_clear_left_congr K .Black .Pawn b.pawns b.blackPieces sq h64 (hx1 (by decide)),
      zSum_clear_left_congr K .Black .Knight b.knights b.blackPieces sq h64 (hx3 (by decide)),
      zSum_clear_left_congr K .Black .Rook b.rooks b.blackPieces sq h64 (hx4 (by decide)),
      zSum_clear_left_congr K .Black .Queen b.queens b.blackPieces sq h64 (hx5 (by decide)),
      zSum_clear_left_congr K .Black .King b.kings b.blackPieces sq h64 (hx6 (by decide)),
      zSum_clear_right_congr K .White .Bishop b.bishops b.whitePieces sq h64 hoth,
      castleKeys_capClear_B]
    apply zcancelc8
  · rw [zSum_masked_clear K .Black .Rook b.rooks b.blackPieces sq h64 hkind hown,
      zSum_clear_left_congr K .Black .Pawn b.pawns b.blackPieces sq h64 (hx1 (by decide)),
      zSum_clear_left_congr K .Black .Bishop b.bishops b.blackPieces sq h64 (hx2 (by decide)),
      zSum_clear_left_congr K .Black .Knight b.knights b.blackPieces sq h64 (hx3 (by decide)),
      zSum_clear_left_congr K .Black .Queen b.queens b.blackPieces sq h64 (hx5 (by decide)),
      zSum_clear_left_congr K .Black .King b.kings b.blackPieces sq h64 (hx6 (by decide)),
      zSum_clear_right_congr K .White .Rook b.rooks b.whitePieces sq h64 hoth,
      castleKeys_capClear_B]
    apply zcancelc10
  · rw [zSum_masked_clear K .Black .Queen b.queens b.blackPieces sq h64 hkind hown,
      zSum_clear_left_congr K .Black .Pawn b.pawns b.blackPieces sq h64 (hx1 (by decide)),
      zSum_clear_left_congr K .Black .Bishop b.bishops b.blackPieces sq h64 (hx2 (by decide)),
      zSum_clear_left_congr K .Black .Knight b.knights b.blackPieces sq h64 (hx3 (by decide)),
      zSum_clear_left_congr K .Black .Rook b.rooks b.blackPieces sq h64 (hx4 (by decide)),
      zSum_clear_left_congr K .Black .King b.kings b.blackPieces sq h64 (hx6 (by decide)),
      zSum_clear_right_congr K .White .Queen b.queens b.whitePieces sq h64 hoth,
      castleKeys_capClear_B]
    apply zcancelc11
  · rw [zSum_masked_clear K .Black .King b.kings b.blackPieces sq h64 hkind hown,
      zSum_clear_left_congr K .Black .Pawn b.pawns b.blackPieces sq h64 (hx1 (by decide)),
      zSum_clear_left_congr K .Black .Bishop b.bishops b.blackPieces sq h64 (hx2 (by decide)),
      zSum_clear_left_congr K .Black .Knight b.knights b.blackPieces sq h64 (hx3 (by decide)),
      zSum_clear_left_congr K .Black .Rook b.rooks b.blackPieces sq h64 (hx4 (by decide)),
      zSum_clear_left_congr K .Black .Queen b.queens b.blackPieces sq h64 (hx5 (by decide)),
      zSum_clear_right_congr K .White .King b.kings b.whitePieces sq h64 hoth,
      castleKeys_capClear_B]
    apply zcancelc12

/-- A move of a bit leaves other bits unchanged. -/
theorem move_testBit_ne (X : Nat) (f t : Square) (k : Nat)
    (hf : f.ordinal < 64) (ht : t.ordinal < 64) (hk : k < 64)
    (hkf : k ≠ f.ordinal) (hkt : k ≠ t.ordinal) :
    (bbSet (bbClear X f) t).testBit k = X.testBit k := by
  rw [bbSet_testBit_ne _ t k ht (fun he => hkt he.symm),
    bbClear_testBit_ne X f k hf hk (fun he => hkf he.symm)]

/-- A conditional move of a bit leaves other bits unchanged. -/
theorem ite_move_testBit_ne (C : Prop) [Decidable C] (X : Nat)
    (f t : Square) (k : Nat) (hf : f.ordinal < 64) (ht : t.ordinal < 64)
    (hk : k < 64) (hkf : k ≠ f.ordinal) (hkt : k ≠ t.ordinal) :
    (if C then bbSet (bbClear X f) t else X).testBit k = X.testBit k := by
  by_cases h : C
  · rw [if_pos h, move_testBit_ne X f t k hf ht hk hkf hkt]
  · rw [if_neg h]

/-- A conditional clear of a bit leaves other bits unchanged. -/
theorem ite_clear_testBit_ne (C : Prop) [Decidable C] (X : Nat)
    (sq : Square) (k : Nat) (h64 : sq.ordinal < 64) (hk : k < 64)
    (hks : k ≠ sq.ordinal) :
    (if C then bbClear X sq else X).testBit k = X.testBit k := by
  by_cases h : C
  · rw [if_pos h, bbClear_testBit_ne X sq k h64 hk (fun he => hks he.symm)]
  · rw [if_neg h]

/-- A conditional set of a bit leaves other bits unchanged. -/
theorem ite_set_testBit_ne (C : Prop) [Decidable C] (X : Nat)
    (sq : Square) (k : Nat) (h64 : sq.ordinal < 64)
    (hks : k ≠ sq.ordinal) :
    (if C then bbSet X sq else X).testBit k = X.testBit k := by
  by_cases h : C
  · rw [if_pos h, bbSet_testBit_ne X sq k h64 (fun he => hks he.symm)]
  · rw [if_neg h]

/-- `remove_piece` leaves other squares' bits unchanged. -/
theorem removePiece_bitsEq_ne (K : ZKeys) (b : Board) (side : Side)
    (p : Piece) (sq : Square) (k : Nat) (h64 : sq.ordinal < 64)
    (hk : k < 64) (hks : k ≠ sq.ordinal) :
    boardBitsEq (b.removePiece K side p sq) b k := by
  rw [removePiece_ite_spec]
  exact ⟨ite_clear_testBit_ne _ _ sq k h64 hk hks,
    ite_clear_testBit_ne _ _ sq k h64 hk hks,
    ite_clear_testBit_ne _ _ sq k h64 hk hks,
    ite_clear_testBit_ne _ _ sq k h64 hk hks,
    ite_clear_testBit_ne _ _ sq k h64 hk hks,
    ite_clear_testBit_ne _ _ sq k h64 hk hks,
    ite_clear_testBit_ne _ _ sq k h64 hk hks,
    ite_clear_testBit_ne _ _ sq k h64 hk hks⟩

/-- `add_piece` leaves other squares' bits unchanged. -/
theorem addPiece_bitsEq_ne (K : ZKeys) (b : Board) (side : Side)
    (p : Piece) (sq : Square) (k : Nat) (h64 : sq.ordinal < 64)
    (hk : k < 64) (hks : k ≠ sq.ordinal) :
    boardBitsEq (b.addPiece K side p sq) b k := by
  rw [addPiece_ite_spec]
  exact ⟨ite_set_testBit_ne _ _ sq k h64 hks,
    ite_set_testBit_ne _ _ sq k h64 hks,
    ite_set_testBit_ne _ _ sq k h64 hks,
    ite_set_testBit_ne _ _ sq k h64 hks,
    ite_set_testBit_ne _ _ sq k h64 hks,
    ite_set_testBit_ne _ _ sq k h64 hks,
    ite_set_testBit_ne _ _ sq k h64 hks,
    ite_set_testBit_ne _ _ sq k h64 hks⟩

/-- `apply_capture` leaves other squares' bits unchanged. -/
theorem applyCapture_bitsEq_ne (K : ZKeys) (b : Board) (side : Side)
    (cp : Piece) (sq : Square) (k : Nat) (h64 : sq.ordinal < 64)
    (hk : k < 64) (hks : k ≠ sq.ordinal) :
    boardBitsEq (b.applyCapture K side cp sq) b k := by
  rw [applyCapture_spec]
  exact ⟨ite_clear_testBit_ne _ _ sq k h64 hk hks,
    ite_clear_testBit_ne _ _ sq k h64 hk hks,
    ite_clear_testBit_ne _ _ sq k h64 hk hks,
    ite_clear_testBit_ne _ _ sq k h64 hk hks,
    ite_clear_testBit_ne _ _ sq k h64 hk hks,
    ite_clear_testBit_ne _ _ sq k h64 hk hks,
    ite_clear_testBit_ne _ _ sq k h64 hk hks,
    ite_clear_testBit_ne _ _ sq k h64 hk hks⟩

/-- Exact occupancy transfers across bit-preserving board changes. -/
theorem sqHoldsExactly_of_bitsEq (A B : Board) (side2 : Side) (p2 : Piece)
    (g : Square) (hb : boardBitsEq A B g.ordinal)
    (h : sqHoldsExactly B side2 p2 g) : sqHoldsExactly A side2 p2 g := by
  obtain ⟨e1, e2, e3, e4, e5, e6, e7, e8⟩ := hb
  obtain ⟨hown, hoth, hkind, hh1, hh2, hh3, hh4, hh5, hh6⟩ := h
  refine ⟨?_, ?_, ?_, ?_, ?_, ?_, ?_, ?_, ?_⟩
  · cases side2 <;> dsimp only [Board.getPieces] at hown ⊢
    · rw [e1]
      exact hown
    · rw [e2]
      exact hown
  · cases side2 <;> dsimp only [Board.getPieces, otherSide] at hoth ⊢
    · rw [e2]
      exact hoth
    · rw [e1]
      exact hoth
  · cases p2 <;> dsimp only [kindBB] at hkind ⊢
    · rw [e3]
      exact hkind
    · rw [e5]
      exact hkind
    · rw [e4]
      exact hkind
    · rw [e6]
      exact hkind
    · rw [e7]
      exact hkind
    · rw [e8]
      exact hkind
  · intro hne
    rw [e3]
    exact hh1 hne
  · intro hne
    rw [e4]
    exact hh2 hne
  · intro hne
    rw [e5]
    exact hh3 hne
  · intro hne
    rw [e6]
    exact hh4 hne
  · intro hne
    rw [e7]
    exact hh5 hne
  · intro hne
    rw [e8]
    exact hh6 hne

/-- Full emptiness transfers across bit-preserving board changes. -/
theorem sqEmptyAll_of_bitsEq (A B : Board) (g : Square)
    (hb : boardBitsEq A B g.ordinal) (h : sqEmptyAll B g) :
    sqEmptyAll A g := by
  obtain ⟨e1, e2, e3, e4, e5, e6, e7, e8⟩ := hb
  obtain ⟨f1, f2, f3, f4, f5, f6, f7, f8⟩ := h
  exact ⟨e1 ▸ f1, e2 ▸ f2, e3 ▸ f3, e4 ▸ f4, e5 ▸ f5, e6 ▸ f6, e7 ▸ f7,
    e8 ▸ f8⟩

/-- `apply_move` leaves bits off its two squares unchanged. -/
theorem applyMove_bitsEq_ne (K : ZKeys) (b : Board) (side : Side) (p : Piece)
    (f t : Square) (k : Nat) (hf64 : f.ordinal < 64) (ht64 : t.ordinal < 64)
    (hk : k < 64) (hkf : k ≠ f.ordinal) (hkt : k ≠ t.ordinal) :
    boardBitsEq (b.applyMove K side p f t) b k := by
  cases p
  case Pawn =>
    rw [applyMove_plain_spec K b side Piece.Pawn f t (by decide) (by decide)]
    unfold boardBitsEq
    dsimp only
    simp only [reduceCtorEq, eq_self_iff_true, if_true, if_false]
    exact ⟨ite_move_testBit_ne _ _ f t k hf64 ht64 hk hkf hkt,
      ite_move_testBit_ne _ _ f t k hf64 ht64 hk hkf hkt,
      move_testBit_ne _ f t k hf64 ht64 hk hkf hkt,
      True.intro,
      True.intro,
      True.intro,
      True.intro,
      True.intro⟩
  case Knight =>
    rw [applyMove_plain_spec K b side Piece.Knight f t (by decide) (by decide)]
    unfold boardBitsEq
    dsimp only
    simp only [reduceCtorEq, eq_self_iff_true, if_true, if_false]
    exact ⟨ite_move_testBit_ne _ _ f t k hf64 ht64 hk hkf hkt,
      ite_move_testBit_ne _ _ f t k hf64 ht64 hk hkf hkt,
      True.intro,
      True.intro,
      move_testBit_ne _ f t k hf64 ht64 hk hkf hkt,
      True.intro,
      True.intro,
      True.intro⟩
  case Bishop =>
    rw [applyMove_plain_spec K b side Piece.Bishop f t (by decide) (by decide)]
    unfold boardBitsEq
    dsimp only
    simp only [reduceCtorEq, eq_self_iff_true, if_true, if_false]
    exact ⟨ite_move_testBit_ne _ _ f t k hf64 ht64 hk hkf hkt,
      ite_move_testBit_ne _ _ f t k hf64 ht64 hk hkf hkt,
      True.intro,
      move_testBit_ne _ f t k hf64 ht64 hk hkf hkt,
      True.intro,
      True.intro,
      True.intro,
      True.intro⟩
  case Queen =>
    rw [applyMove_plain_spec K b side Piece.Queen f t (by decide) (by decide)]
    unfold boardBitsEq
    dsimp only
    simp only [reduceCtorEq, eq_self_iff_true, if_true, if_false]
    exact ⟨ite_move_testBit_ne _ _ f t k hf64 ht64 hk hkf hkt,
      ite_move_testBit_ne _ _ f t k hf64 ht64 hk hkf hkt,
      True.intro,
      True.intro,
      True.intro,
      True.intro,
      move_testBit_ne _ f t k hf64 ht64 hk hkf hkt,
      True.intro⟩
  case Rook =>
    cases side
    case White =>
      rw [applyMove_rook_W_spec]
      unfold boardBitsEq
      dsimp only
      exact ⟨move_testBit_ne _ f t k hf64 ht64 hk hkf hkt,
        rfl,
        rfl,
        rfl,
        rfl,
        move_testBit_ne _ f t k hf64 ht64 hk hkf hkt,
        rfl,
        rfl⟩
    case Black =>
      rw [applyMove_rook_B_spec]
      unfold boardBitsEq
      dsimp only
      exact ⟨rfl,
        move_testBit_ne _ f t k hf64 ht64 hk hkf hkt,
        rfl,
        rfl,
        rfl,
        move_testBit_ne _ f t k hf64 ht64 hk hkf hkt,
        rfl,
        rfl⟩
  case King =>
    cases side
    case White =>
      rw [applyMove_king_W_spec]
      unfold boardBitsEq
      dsimp only
      exact ⟨move_testBit_ne _ f t k hf64 ht64 hk hkf hkt,
        rfl,
        rfl,
        rfl,
        rfl,
        rfl,
        rfl,
        move_testBit_ne _ f t k hf64 ht64 hk hkf hkt⟩
    case Black =>
      rw [applyMove_king_B_spec]
      unfold boardBitsEq
      dsimp only
      exact ⟨rfl,
        move_testBit_ne _ f t k hf64 ht64 hk hkf hkt,
        rfl,
        rfl,
        rfl,
        rfl,
        rfl,
        move_testBit_ne _ f t k hf64 ht64 hk hkf hkt⟩

/-- The captured square is fully empty after `apply_capture`. -/
theorem sqEmptyAll_applyCapture (K : ZKeys) (b : Board) (side : Side)
    (cp : Piece) (sq : Square) (h64 : sq.ordinal < 64)
    (hex : sqHoldsExactly b side cp sq) :
    sqEmptyAll (b.applyCapture K side cp sq) sq := by
  obtain ⟨hown, hoth, hkind, hx1, hx2, hx3, hx4, hx5, hx6⟩ := hex
  rw [applyCapture_spec]
  unfold sqEmptyAll
  dsimp only
  cases side <;> dsimp only [Board.getPieces, otherSide] at hown hoth <;>
    refine ⟨?_, ?_, ?_, ?_, ?_, ?_, ?_, ?_⟩ <;>
    first
      | (rw [if_pos rfl]
         exact bbClear_testBit_self _ sq h64)
      | (rw [if_neg (by decide)]
         assumption)
      | (by_cases hq : cp = Piece.Pawn
         · rw [if_pos hq]
           exact bbClear_testBit_self _ sq h64
         · rw [if_neg hq]
           exact hx1 (fun he => hq he.symm))
      | (by_cases hq : cp = Piece.Bishop
         · rw [if_pos hq]
           exact bbClear_testBit_self _ sq h64
         · rw [if_neg hq]
           exact hx2 (fun he => hq he.symm))
      | (by_cases hq : cp = Piece.Knight
         · rw [if_pos hq]
           exact bbClear_testBit_self _ sq h64
         · rw [if_neg hq]
           exact hx3 (fun he => hq he.symm))
      | (by_cases hq : cp = Piece.Rook
         · rw [if_pos hq]
           exact bbClear_testBit_self _ sq h64
         · rw [if_neg hq]
           exact hx4 (fun he => hq he.symm))
      | (by_cases hq : cp = Piece.Queen
         · rw [if_pos hq]
           exact bbClear_testBit_self _ sq h64
         · rw [if_neg hq]
           exact hx5 (fun he => hq he.symm))
      | (by_cases hq : cp = Piece.King
         · rw [if_pos hq]
           exact bbClear_testBit_self _ sq h64
         · rw [if_neg hq]
           exact hx6 (fun he => hq he.symm))

/-- Side-to-move slot cancellation, White to Black. -/
theorem zcancelSa (z bk P c e : Nat) :
    (z ^^^ bk) ^^^ (P ^^^ c ^^^ e ^^^ bk) = z ^^^ (P ^^^ c ^^^ e ^^^ 0) := by
  simp only [Nat.xor_assoc, Nat.xor_comm, xor_left_comm, xor_cancel_mid,
    Nat.xor_self, Nat.xor_zero, Nat.zero_xor]

/-- Side-to-move slot cancellation, Black to White. -/
theorem zcancelSb (z bk P c e : Nat) :
    (z ^^^ bk) ^^^ (P ^^^ c ^^^ e ^^^ 0) = z ^^^ (P ^^^ c ^^^ e ^^^ bk) := by
  simp only [Nat.xor_assoc, Nat.xor_comm, xor_left_comm, xor_cancel_mid,
    Nat.xor_self, Nat.xor_zero, Nat.zero_xor]

/-- En-passant slot cancellation, setting the square. -/
theorem zcancelEset (z ke P c s : Nat) :
    (z ^^^ ke) ^^^ (P ^^^ c ^^^ ke ^^^ s) = z ^^^ (P ^^^ c ^^^ 0 ^^^ s) := by
  simp only [Nat.xor_assoc, Nat.xor_comm, xor_left_comm, xor_cancel_mid,
    Nat.xor_self, Nat.xor_zero, Nat.zero_xor]

/-- En-passant slot cancellation, clearing the square. -/
theorem zcancelEclear (z ke P c s : Nat) :
    (z ^^^ ke) ^^^ (P ^^^ c ^^^ 0 ^^^ s) = z ^^^ (P ^^^ c ^^^ ke ^^^ s) := by
  simp only [Nat.xor_assoc, Nat.xor_comm, xor_left_comm, xor_cancel_mid,
    Nat.xor_self, Nat.xor_zero, Nat.zero_xor]

/-- A half-move-clock update does not touch the hash defect. -/
theorem zDefect_clock (K : ZKeys) (x : Board) (n : Nat) :
    zDefect K { x with halfMoveClock := n } = zDefect K x := rfl

/-- A move-stack/history/flag update does not touch the hash defect. -/
theorem zDefect_passedPawns (K : ZKeys) (x : Board) (n : Nat) :
    zDefect K { x with passedPawns := n } = zDefect K x := rfl

/-- `pushTail` preserves the hash defect: the side swap and the
black-to-move key flip cancel against the recomputed side key. -/
theorem zDefect_pushTail (K : ZKeys) (m : Move) (u : MoveUndoInfo)
    (A : Board)
    (hside : A.sideToNotMove =
      (if A.sideToMove = Side.White then Side.Black else Side.White)) :
    zDefect K (pushTail K m u A) = zDefect K A := by
  rw [pushTail_spec]
  unfold zDefect zScratch zPieces
  dsimp only
  rcases hs : A.sideToMove with _ | _ <;> rw [hs] at hside <;>
    simp only [reduceCtorEq, eq_self_iff_true, if_true, if_false] at hside <;>
    rw [hside] <;> dsimp only [stmKeyOf]
  · exact zcancelSa _ _ _ _ _
  · exact zcancelSb _ _ _ _ _

/-- Setting the en-passant square with the matching key flip preserves the
hash defect (the square was clear). -/
theorem zDefect_epSet (K : ZKeys) (b : Board) (eo : Option Square) (kk : Nat)
    (hnone : b.epSquare = none) (hkey : epKeyOf K eo = kk) :
    zDefect K { b with epSquare := eo, zHash := b.zHash ^^^ kk } =
      zDefect K b := by
  unfold zDefect zScratch
  dsimp only
  rw [hkey, hnone]
  dsimp only [epKeyOf]
  exact zcancelEset _ _ _ _ _

/-- Clearing a set en-passant square with the matching key flip preserves
the hash defect. -/
theorem zDefect_epClearSome (K : ZKeys) (b : Board) (ep : Square)
    (hsome : b.epSquare = some ep) :
    zDefect K { b with
        zHash := b.zHash ^^^ K.enPassantFileKeys ep.file,
        epSquare := none } =
      zDefect K b := by
  unfold zDefect zScratch
  dsimp only
  rw [hsome]
  dsimp only [epKeyOf]
  exact zcancelEclear _ _ _ _ _

/-- `apply_move` never touches the side fields. -/
theorem applyMove_sides (K : ZKeys) (b : Board) (side : Side) (p : Piece)
    (f t : Square) :
    (b.applyMove K side p f t).sideToMove = b.sideToMove ∧
    (b.applyMove K side p f t).sideToNotMove = b.sideToNotMove ∧
    (b.applyMove K side p f t).epSquare = b.epSquare := by
  cases p
  case King =>
    cases side
    · rw [applyMove_king_W_spec]
      exact ⟨rfl, rfl, rfl⟩
    · rw [applyMove_king_B_spec]
      exact ⟨rfl, rfl, rfl⟩
  case Rook =>
    cases side
    · rw [applyMove_rook_W_spec]
      exact ⟨rfl, rfl, rfl⟩
    · rw [applyMove_rook_B_spec]
      exact ⟨rfl, rfl, rfl⟩
  case Pawn =>
    rw [applyMove_plain_spec K b side Piece.Pawn f t (by decide) (by decide)]
    exact ⟨rfl, rfl, rfl⟩
  case Knight =>
    rw [applyMove_plain_spec K b side Piece.Knight f t (by decide) (by decide)]
    exact ⟨rfl, rfl, rfl⟩
  case Bishop =>
    rw [applyMove_plain_spec K b side Piece.Bishop f t (by decide) (by decide)]
    exact ⟨rfl, rfl, rfl⟩
  case Queen =>
    rw [applyMove_plain_spec K b side Piece.Queen f t (by decide) (by decide)]
    exact ⟨rfl, rfl, rfl⟩

/-- `apply_capture` never touches the side fields. -/
theorem applyCapture_sides (K : ZKeys) (b : Board) (side : Side) (cp : Piece)
    (sq : Square) :
    (b.applyCapture K side cp sq).sideToMove = b.sideToMove ∧
    (b.applyCapture K side cp sq).sideToNotMove = b.sideToNotMove ∧
    (b.applyCapture K side cp sq).epSquare = b.epSquare := by
  rw [applyCapture_spec]
  exact ⟨rfl, rfl, rfl⟩

/-- Flipping the side twice is the identity. -/
theorem otherSide_otherSide (s : Side) : otherSide (otherSide s) = s := by
  cases s <;> rfl

/-- `apply_regular_move` preserves the hash defect when the moving piece
and any captured piece stand where the move says. -/
theorem zDefect_applyRegularMove (K : ZKeys) (b : Board) (rm : RegularMove)
    (hf64 : rm.fromSq.ordinal < 64) (ht64 : rm.toSq.ordinal < 64)
    (hep : b.epSquare = none)
    (hside : b.sideToNotMove = otherSide b.sideToMove)
    (hex : sqHoldsExactly b b.sideToMove rm.piece rm.fromSq)
    (hcap : match rm.capturedPiece with
      | none => sqEmptyAll b rm.toSq ∧
          (rm.piece = Piece.Pawn → rm.fromSq.file = rm.toSq.file)
      | some cp => sqHoldsExactly b b.sideToNotMove cp rm.toSq) :
    zDefect K (b.applyRegularMove K rm) = zDefect K b := by
  unfold Board.applyRegularMove
  dsimp only
  rcases hc : rm.capturedPiece with _ | cp
  · rw [hc] at hcap
    obtain ⟨hempT, hfile⟩ := hcap
    dsimp only
    by_cases hP : rm.piece = Piece.Pawn
    · rw [if_pos hP]
      by_cases hsm : b.sideToMove = Side.White
      · rw [if_pos hsm]
        by_cases hR : rm.fromSq.rank = 1 ∧ rm.toSq.rank = 3
        · rw [if_pos hR]
          dsimp only
          refine Eq.trans (zDefect_applyMove K _ b.sideToMove rm.piece
            rm.fromSq rm.toSq hf64 ht64 ?_ ?_)
            (zDefect_epSet K b _ _ hep
              (by rw [epKeyOf_delta_W K rm.fromSq hR.1, hfile hP]))
          · exact hex
          · exact hempT
        · rw [if_neg hR]
          exact zDefect_applyMove K b b.sideToMove rm.piece rm.fromSq rm.toSq
            hf64 ht64 hex hempT
      · rw [if_neg hsm]
        by_cases hR : rm.fromSq.rank = 6 ∧ rm.toSq.rank = 4
        · rw [if_pos hR]
          dsimp only
          refine Eq.trans (zDefect_applyMove K _ b.sideToMove rm.piece
            rm.fromSq rm.toSq hf64 ht64 ?_ ?_)
            (zDefect_epSet K b _ _ hep
              (by rw [epKeyOf_delta_B K rm.fromSq hR.1, hfile hP]))
          · exact hex
          · exact hempT
        · rw [if_neg hR]
          exact zDefect_applyMove K b b.sideToMove rm.piece rm.fromSq rm.toSq
            hf64 ht64 hex hempT
    · rw [if_neg hP]
      exact zDefect_applyMove K b b.sideToMove rm.piece rm.fromSq rm.toSq
        hf64 ht64 hex hempT
  · rw [hc] at hcap
    dsimp only
    have hstmT : (b.getPieces b.sideToMove).testBit rm.toSq.ordinal = false := by
      have := hcap.2.1
      rw [hside, otherSide_otherSide] at this
      exact this
    have hneq : rm.fromSq.ordinal ≠ rm.toSq.ordinal := by
      intro hee
      have h1 := hex.1
      rw [hee, hstmT] at h1
      cases h1
    have hsmc := applyCapture_sides K b b.sideToNotMove cp rm.toSq
    rw [hsmc.1]
    rw [zDefect_applyMove K _ b.sideToMove rm.piece rm.fromSq rm.toSq
      hf64 ht64
      (sqHoldsExactly_of_bitsEq _ b b.sideToMove rm.piece rm.fromSq
        (applyCapture_bitsEq_ne K b b.sideToNotMove cp rm.toSq
          rm.fromSq.ordinal ht64 hf64 hneq)
        hex)
      (sqEmptyAll_applyCapture K b b.sideToNotMove cp rm.toSq ht64 hcap)]
    exact zDefect_applyCapture K b b.sideToNotMove cp rm.toSq ht64 hcap

/-- `apply_short_castling_move` preserves the hash defect when the king and
rook stand on their castling squares and the target squares are empty. -/
theorem zDefect_applyShortCastlingMove (K : ZKeys) (b : Board)
    (hexK : sqHoldsExactly b b.sideToMove Piece.King
      (shortCastlingSquares b.sideToMove).1)
    (hempKT : sqEmptyAll b (shortCastlingSquares b.sideToMove).2.1)
    (hexR : sqHoldsExactly b b.sideToMove Piece.Rook
      (shortCastlingSquares b.sideToMove).2.2.1)
    (hempRT : sqEmptyAll b (shortCastlingSquares b.sideToMove).2.2.2) :
    zDefect K (b.applyShortCastlingMove K) = zDefect K b := by
  unfold Board.applyShortCastlingMove
  dsimp only
  rcases hsm : b.sideToMove with _ | _ <;>
    rw [hsm] at hexK hempKT hexR hempRT <;>
    dsimp only [shortCastlingSquares] at hexK hempKT hexR hempRT ⊢
  · rw [(applyMove_sides K b Side.White Piece.King ⟨4⟩ ⟨6⟩).1, hsm]
    refine Eq.trans (zDefect_applyMove K _ Side.White Piece.Rook ⟨7⟩ ⟨5⟩
        (by decide) (by decide) ?_ ?_)
      (zDefect_applyMove K b Side.White Piece.King ⟨4⟩ ⟨6⟩
        (by decide) (by decide) hexK hempKT)
    · exact sqHoldsExactly_of_bitsEq _ b Side.White Piece.Rook ⟨7⟩
        (applyMove_bitsEq_ne K b Side.White Piece.King ⟨4⟩ ⟨6⟩ 7
          (by decide) (by decide) (by decide) (by decide) (by decide)) hexR
    · exact sqEmptyAll_of_bitsEq _ b ⟨5⟩
        (applyMove_bitsEq_ne K b Side.White Piece.King ⟨4⟩ ⟨6⟩ 5
          (by decide) (by decide) (by decide) (by decide) (by decide)) hempRT
  · rw [(applyMove_sides K b Side.Black Piece.King ⟨60⟩ ⟨62⟩).1, hsm]
    refine Eq.trans (zDefect_applyMove K _ Side.Black Piece.Rook ⟨63⟩ ⟨61⟩
        (by decide) (by decide) ?_ ?_)
      (zDefect_applyMove K b Side.Black Piece.King ⟨60⟩ ⟨62⟩
        (by decide) (by decide) hexK hempKT)
    · exact sqHoldsExactly_of_bitsEq _ b Side.Black Piece.Rook ⟨63⟩
        (applyMove_bitsEq_ne K b Side.Black Piece.King ⟨60⟩ ⟨62⟩ 63
          (by decide) (by decide) (by decide) (by decide) (by decide)) hexR
    · exact sqEmptyAll_of_bitsEq _ b ⟨61⟩
        (applyMove_bitsEq_ne K b Side.Black Piece.King ⟨60⟩ ⟨62⟩ 61
          (by decide) (by decide) (by decide) (by decide) (by decide)) hempRT

/-- `apply_long_castling_move` preserves the hash defect when the king and
rook stand on their castling squares and the target squares are empty. -/
theorem zDefect_applyLongCastlingMove (K : ZKeys) (b : Board)
    (hexK : sqHoldsExactly b b.sideToMove Piece.King
      (longCastlingSquares b.sideToMove).1)
    (hempKT : sqEmptyAll b (longCastlingSquares b.sideToMove).2.1)
    (hexR : sqHoldsExactly b b.sideToMove Piece.Rook
      (longCastlingSquares b.sideToMove).2.2.1)
    (hempRT : sqEmptyAll b (longCastlingSquares b.sideToMove).2.2.2) :
    zDefect K (b.applyLongCastlingMove K) = zDefect K b := by
  unfold Board.applyLongCastlingMove
  dsimp only
  rcases hsm : b.sideToMove with _ | _ <;>
    rw [hsm] at hexK hempKT hexR hempRT <;>
    dsimp only [longCastlingSquares] at hexK hempKT hexR hempRT ⊢
  · rw [(applyMove_sides K b Side.White Piece.King ⟨4⟩ ⟨2⟩).1, hsm]
    refine Eq.trans (zDefect_applyMove K _ Side.White Piece.Rook ⟨0⟩ ⟨3⟩
        (by decide) (by decide) ?_ ?_)
      (zDefect_applyMove K b Side.White Piece.King ⟨4⟩ ⟨2⟩
        (by decide) (by decide) hexK hempKT)
    · exact sqHoldsExactly_of_bitsEq _ b Side.White Piece.Rook ⟨0⟩
        (applyMove_bitsEq_ne K b Side.White Piece.King ⟨4⟩ ⟨2⟩ 0
          (by decide) (by decide) (by decide) (by decide) (by decide)) hexR
    · exact sqEmptyAll_of_bitsEq _ b ⟨3⟩
        (applyMove_bitsEq_ne K b Side.White Piece.King ⟨4⟩ ⟨2⟩ 3
          (by decide) (by decide) (by decide) (by decide) (by decide)) hempRT
  · rw [(applyMove_sides K b Side.Black Piece.King ⟨60⟩ ⟨58⟩).1, hsm]
    refine Eq.trans (zDefect_applyMove K _ Side.Black Piece.Rook ⟨56⟩ ⟨59⟩
        (by decide) (by decide) ?_ ?_)
      (zDefect_applyMove K b Side.Black Piece.King ⟨60⟩ ⟨58⟩
        (by decide) (by decide) hexK hempKT)
    · exact sqHoldsExactly_of_bitsEq _ b Side.Black Piece.Rook ⟨56⟩
        (applyMove_bitsEq_ne K b Side.Black Piece.King ⟨60⟩ ⟨58⟩ 56
          (by decide) (by decide) (by decide) (by decide) (by decide)) hexR
    · exact sqEmptyAll_of_bitsEq _ b ⟨59⟩
        (applyMove_bitsEq_ne K b Side.Black Piece.King ⟨60⟩ ⟨58⟩ 59
          (by decide) (by decide) (by decide) (by decide) (by decide)) hempRT

/-- `apply_ep_capture_move` preserves the hash defect when the moving and
captured pawns stand where the move says and the target square is empty. -/
theorem zDefect_applyEpCaptureMove (K : ZKeys) (b : Board)
    (em : EnPassantCaptureMove)
    (hf64 : em.fromSq.ordinal < 64) (ht64 : em.toSq.ordinal < 64)
    (hc64 : em.capturedPawn.ordinal < 64)
    (hcf : em.capturedPawn.ordinal ≠ em.fromSq.ordinal)
    (hct : em.capturedPawn.ordinal ≠ em.toSq.ordinal)
    (hex : sqHoldsExactly b b.sideToMove Piece.Pawn em.fromSq)
    (hempT : sqEmptyAll b em.toSq)
    (hexC : sqHoldsExactly b b.sideToNotMove Piece.Pawn em.capturedPawn) :
    zDefect K (b.applyEpCaptureMove K em) = zDefect K b := by
  unfold Board.applyEpCaptureMove
  dsimp only
  rw [(applyCapture_sides K b b.sideToNotMove Piece.Pawn em.capturedPawn).1]
  refine Eq.trans (zDefect_applyMove K _ b.sideToMove Piece.Pawn
      em.fromSq em.toSq hf64 ht64 ?_ ?_)
    (zDefect_applyCapture K b b.sideToNotMove Piece.Pawn em.capturedPawn
      hc64 hexC)
  · exact sqHoldsExactly_of_bitsEq _ b b.sideToMove Piece.Pawn em.fromSq
      (applyCapture_bitsEq_ne K b b.sideToNotMove Piece.Pawn em.capturedPawn
        em.fromSq.ordinal hc64 hf64 (fun hh => hcf hh.symm)) hex
  · exact sqEmptyAll_of_bitsEq _ b em.toSq
      (applyCapture_bitsEq_ne K b b.sideToNotMove Piece.Pawn em.capturedPawn
        em.toSq.ordinal hc64 ht64 (fun hh => hct hh.symm)) hempT

/-- Promotion pawn slot: the pawn leaves `f` while the colour board moves
`f` to `t`; only the from-square key flips. -/
theorem zSum_promo_pawnSlot (K : ZKeys) (s : Side) (p : Piece) (X C : Nat)
    (f t : Square) (hf64 : f.ordinal < 64) (ht64 : t.ordinal < 64)
    (hft : f.ordinal ≠ t.ordinal)
    (hXf : X.testBit f.ordinal = true) (hCf : C.testBit f.ordinal = true)
    (hXt : X.testBit t.ordinal = false) :
    zSum K s p (bbClear X f &&& bbSet (bbClear C f) t) =
      zSum K s p (X &&& C) ^^^ K.pieceKeys s p f.ordinal := by
  apply zSum_flip K s p _ _ f.ordinal hf64
  · intro i hi hif
    by_cases hit : i = t.ordinal
    · subst hit
      rw [Nat.testBit_and, Nat.testBit_and,
        bbClear_testBit_ne X f t.ordinal hf64 hi (fun he => hif he.symm),
        hXt, Bool.false_and, Bool.false_and]
    · rw [Nat.testBit_and, Nat.testBit_and,
        bbClear_testBit_ne X f i hf64 hi (fun he => hif he.symm),
        bbSet_testBit_ne _ t i ht64 (fun he => hit he.symm),
        bbClear_testBit_ne C f i hf64 hi (fun he => hif he.symm)]
  · rw [Nat.testBit_and, Nat.testBit_and, bbClear_testBit_self X f hf64,
      hXf, hCf, Bool.false_and]
    rfl

/-- Promotion piece slot: the promoted piece appears on `t` while the
colour board moves `f` to `t`; only the to-square key flips. -/
theorem zSum_promo_ppSlot (K : ZKeys) (s : Side) (p : Piece) (X C : Nat)
    (f t : Square) (hf64 : f.ordinal < 64) (ht64 : t.ordinal < 64)
    (hft : f.ordinal ≠ t.ordinal)
    (hXf : X.testBit f.ordinal = false) (hXt : X.testBit t.ordinal = false) :
    zSum K s p (bbSet X t &&& bbSet (bbClear C f) t) =
      zSum K s p (X &&& C) ^^^ K.pieceKeys s p t.ordinal := by
  apply zSum_flip K s p _ _ t.ordinal ht64
  · intro i hi hit
    by_cases hif : i = f.ordinal
    · subst hif
      rw [Nat.testBit_and, Nat.testBit_and,
        bbSet_testBit_ne X t f.ordinal ht64 (fun he => hit he.symm),
        bbSet_testBit_ne _ t f.ordinal ht64 (fun he => hit he.symm),
        bbClear_testBit_self C f hf64, hXf,
        Bool.false_and, Bool.false_and]
    · rw [Nat.testBit_and, Nat.testBit_and,
        bbSet_testBit_ne X t i ht64 (fun he => hit he.symm),
        bbSet_testBit_ne _ t i ht64 (fun he => hit he.symm),
        bbClear_testBit_ne C f i hf64 hi (fun he => hif he.symm)]
  · rw [Nat.testBit_and, Nat.testBit_and, bbSet_testBit_self X t ht64,
      bbSet_testBit_self _ t ht64, hXt]
    rfl

/-- A masked sum ignores a clear-then-set of its right board on squares the
left board misses. -/
theorem zSum_clearSet_left_congr (K : ZKeys) (s : Side) (p : Piece)
    (X C : Nat) (f t : Square) (hf64 : f.ordinal < 64)
    (ht64 : t.ordinal < 64)
    (hXf : X.testBit f.ordinal = false) (hXt : X.testBit t.ordinal = false) :
    zSum K s p (X &&& bbSet (bbClear C f) t) = zSum K s p (X &&& C) := by
  apply zSum_congr
  intro i hi
  by_cases hif : i = f.ordinal
  · subst hif
    rw [Nat.testBit_and, Nat.testBit_and, hXf, Bool.false_and,
      Bool.false_and]
  · by_cases hit : i = t.ordinal
    · subst hit
      rw [Nat.testBit_and, Nat.testBit_and, hXt, Bool.false_and,
        Bool.false_and]
    · rw [Nat.testBit_and, Nat.testBit_and,
        bbSet_testBit_ne _ t i ht64 (fun he => hit he.symm),
        bbClear_testBit_ne C f i hf64 hi (fun he => hif he.symm)]

/-- Positional XOR cancellation for a promotion, slots 1 and 2. -/
theorem zcancelp1_2 (z kf kt a1 a2 a3 a4 a5 a6 a7 a8 a9 a10 a11 a12 c e s : Nat) :
    (z ^^^ kf ^^^ kt) ^^^ ((a1 ^^^ kf) ^^^ (a2 ^^^ kt) ^^^ a3 ^^^ a4 ^^^ a5 ^^^ a6 ^^^ a7 ^^^ a8 ^^^ a9 ^^^ a10 ^^^ a11 ^^^ a12 ^^^ c ^^^ e ^^^ s) =
      z ^^^ (a1 ^^^ a2 ^^^ a3 ^^^ a4 ^^^ a5 ^^^ a6 ^^^ a7 ^^^ a8 ^^^ a9 ^^^ a10 ^^^ a11 ^^^ a12 ^^^ c ^^^ e ^^^ s) := by
  simp only [Nat.xor_assoc, Nat.xor_comm, xor_left_comm, xor_cancel_mid,
    Nat.xor_self, Nat.xor_zero, Nat.zero_xor]

/-- Positional XOR cancellation for a promotion, slots 1 and 3. -/
theorem zcancelp1_3 (z kf kt a1 a2 a3 a4 a5 a6 a7 a8 a9 a10 a11 a12 c e s : Nat) :
    (z ^^^ kf ^^^ kt) ^^^ ((a1 ^^^ kf) ^^^ a2 ^^^ (a3 ^^^ kt) ^^^ a4 ^^^ a5 ^^^ a6 ^^^ a7 ^^^ a8 ^^^ a9 ^^^ a10 ^^^ a11 ^^^ a12 ^^^ c ^^^ e ^^^ s) =
      z ^^^ (a1 ^^^ a2 ^^^ a3 ^^^ a4 ^^^ a5 ^^^ a6 ^^^ a7 ^^^ a8 ^^^ a9 ^^^ a10 ^^^ a11 ^^^ a12 ^^^ c ^^^ e ^^^ s) := by
  simp only [Nat.xor_assoc, Nat.xor_comm, xor_left_comm, xor_cancel_mid,
    Nat.xor_self, Nat.xor_zero, Nat.zero_xor]

/-- Positional XOR cancellation for a promotion, slots 1 and 4. -/
theorem zcancelp1_4 (z kf kt a1 a2 a3 a4 a5 a6 a7 a8 a9 a10 a11 a12 c e s : Nat) :
    (z ^^^ kf ^^^ kt) ^^^ ((a1 ^^^ kf) ^^^ a2 ^^^ a3 ^^^ (a4 ^^^ kt) ^^^ a5 ^^^ a6 ^^^ a7 ^^^ a8 ^^^ a9 ^^^ a10 ^^^ a11 ^^^ a12 ^^^ c ^^^ e ^^^ s) =
      z ^^^ (a1 ^^^ a2 ^^^ a3 ^^^ a4 ^^^ a5 ^^^ a6 ^^^ a7 ^^^ a8 ^^^ a9 ^^^ a10 ^^^ a11 ^^^ a12 ^^^ c ^^^ e ^^^ s) := by
  simp only [Nat.xor_assoc, Nat.xor_comm, xor_left_comm, xor_cancel_mid,
    Nat.xor_self, Nat.xor_zero, Nat.zero_xor]

/-- Positional XOR cancellation for a promotion, slots 1 and 5. -/
theorem zcancelp1_5 (z kf kt a1 a2 a3 a4 a5 a6 a7 a8 a9 a10 a11 a12 c e s : Nat) :
    (z ^^^ kf ^^^ kt) ^^^ ((a1 ^^^ kf) ^^^ a2 ^^^ a3 ^^^ a4 ^^^ (a5 ^^^ kt) ^^^ a6 ^^^ a7 ^^^ a8 ^^^ a9 ^^^ a10 ^^^ a11 ^^^ a12 ^^^ c ^^^ e ^^^ s) =
      z ^^^ (a1 ^^^ a2 ^^^ a3 ^^^ a4 ^^^ a5 ^^^ a6 ^^^ a7 ^^^ a8 ^^^ a9 ^^^ a10 ^^^ a11 ^^^ a12 ^^^ c ^^^ e ^^^ s) := by
  simp only [Nat.xor_assoc, Nat.xor_comm, xor_left_comm, xor_cancel_mid,
    Nat.xor_self, Nat.xor_zero, Nat.zero_xor]

/-- Positional XOR cancellation for a promotion, slots 1 and 6. -/
theorem zcancelp1_6 (z kf kt a1 a2 a3 a4 a5 a6 a7 a8 a9 a10 a11 a12 c e s : Nat) :
    (z ^^^ kf ^^^ kt) ^^^ ((a1 ^^^ kf) ^^^ a2 ^^^ a3 ^^^ a4 ^^^ a5 ^^^ (a6 ^^^ kt) ^^^ a7 ^^^ a8 ^^^ a9 ^^^ a10 ^^^ a11 ^^^ a12 ^^^ c ^^^ e ^^^ s) =
      z ^^^ (a1 ^^^ a2 ^^^ a3 ^^^ a4 ^^^ a5 ^^^ a6 ^^^ a7 ^^^ a8 ^^^ a9 ^^^ a10 ^^^ a11 ^^^ a12 ^^^ c ^^^ e ^^^ s) := by
  simp only [Nat.xor_assoc, Nat.xor_comm, xor_left_comm, xor_cancel_mid,
    Nat.xor_self, Nat.xor_zero, Nat.zero_xor]

/-- Positional XOR cancellation for a promotion, slots 7 and 8. -/
theorem zcancelp7_8 (z kf kt a1 a2 a3 a4 a5 a6 a7 a8 a9 a10 a11 a12 c e s : Nat) :
    (z ^^^ kf ^^^ kt) ^^^ (a1 ^^^ a2 ^^^ a3 ^^^ a4 ^^^ a5 ^^^ a6 ^^^ (a7 ^^^ kf) ^^^ (a8 ^^^ kt) ^^^ a9 ^^^ a10 ^^^ a11 ^^^ a12 ^^^ c ^^^ e ^^^ s) =
      z ^^^ (a1 ^^^ a2 ^^^ a3 ^^^ a4 ^^^ a5 ^^^ a6 ^^^ a7 ^^^ a8 ^^^ a9 ^^^ a10 ^^^ a11 ^^^ a12 ^^^ c ^^^ e ^^^ s) := by
  simp only [Nat.xor_assoc, Nat.xor_comm, xor_left_comm, xor_cancel_mid,
    Nat.xor_self, Nat.xor_zero, Nat.zero_xor]

/-- Positional XOR cancellation for a promotion, slots 7 and 9. -/
theorem zcancelp7_9 (z kf kt a1 a2 a3 a4 a5 a6 a7 a8 a9 a10 a11 a12 c e s : Nat) :
    (z ^^^ kf ^^^ kt) ^^^ (a1 ^^^ a2 ^^^ a3 ^^^ a4 ^^^ a5 ^^^ a6 ^^^ (a7 ^^^ kf) ^^^ a8 ^^^ (a9 ^^^ kt) ^^^ a10 ^^^ a11 ^^^ a12 ^^^ c ^^^ e ^^^ s) =
      z ^^^ (a1 ^^^ a2 ^^^ a3 ^^^ a4 ^^^ a5 ^^^ a6 ^^^ a7 ^^^ a8 ^^^ a9 ^^^ a10 ^^^ a11 ^^^ a12 ^^^ c ^^^ e ^^^ s) := by
  simp only [Nat.xor_assoc, Nat.xor_comm, xor_left_comm, xor_cancel_mid,
    Nat.xor_self, Nat.xor_zero, Nat.zero_xor]

/-- Positional XOR cancellation for a promotion, slots 7 and 10. -/
theorem zcancelp7_10 (z kf kt a1 a2 a3 a4 a5 a6 a7 a8 a9 a10 a11 a12 c e s : Nat) :
    (z ^^^ kf ^^^ kt) ^^^ (a1 ^^^ a2 ^^^ a3 ^^^ a4 ^^^ a5 ^^^ a6 ^^^ (a7 ^^^ kf) ^^^ a8 ^^^ a9 ^^^ (a10 ^^^ kt) ^^^ a11 ^^^ a12 ^^^ c ^^^ e ^^^ s) =
      z ^^^ (a1 ^^^ a2 ^^^ a3 ^^^ a4 ^^^ a5 ^^^ a6 ^^^ a7 ^^^ a8 ^^^ a9 ^^^ a10 ^^^ a11 ^^^ a12 ^^^ c ^^^ e ^^^ s) := by
  simp only [Nat.xor_assoc, Nat.xor_comm, xor_left_comm, xor_cancel_mid,
    Nat.xor_self, Nat.xor_zero, Nat.zero_xor]

/-- Positional XOR cancellation for a promotion, slots 7 and 11. -/
theorem zcancelp7_11 (z kf kt a1 a2 a3 a4 a5 a6 a7 a8 a9 a10 a11 a12 c e s : Nat) :
    (z ^^^ kf ^^^ kt) ^^^ (a1 ^^^ a2 ^^^ a3 ^^^ a4 ^^^ a5 ^^^ a6 ^^^ (a7 ^^^ kf) ^^^ a8 ^^^ a9 ^^^ a10 ^^^ (a11 ^^^ kt) ^^^ a12 ^^^ c ^^^ e ^^^ s) =
      z ^^^ (a1 ^^^ a2 ^^^ a3 ^^^ a4 ^^^ a5 ^^^ a6 ^^^ a7 ^^^ a8 ^^^ a9 ^^^ a10 ^^^ a11 ^^^ a12 ^^^ c ^^^ e ^^^ s) := by
  simp only [Nat.xor_assoc, Nat.xor_comm, xor_left_comm, xor_cancel_mid,
    Nat.xor_self, Nat.xor_zero, Nat.zero_xor]

/-- Positional XOR cancellation for a promotion, slots 7 and 12. -/
theorem zcancelp7_12 (z kf kt a1 a2 a3 a4 a5 a6 a7 a8 a9 a10 a11 a12 c e s : Nat) :
    (z ^^^ kf ^^^ kt) ^^^ (a1 ^^^ a2 ^^^ a3 ^^^ a4 ^^^ a5 ^^^ a6 ^^^ (a7 ^^^ kf) ^^^ a8 ^^^ a9 ^^^ a10 ^^^ a11 ^^^ (a12 ^^^ kt) ^^^ c ^^^ e ^^^ s) =
      z ^^^ (a1 ^^^ a2 ^^^ a3 ^^^ a4 ^^^ a5 ^^^ a6 ^^^ a7 ^^^ a8 ^^^ a9 ^^^ a10 ^^^ a11 ^^^ a12 ^^^ c ^^^ e ^^^ s) := by
  simp only [Nat.xor_assoc, Nat.xor_comm, xor_left_comm, xor_cancel_mid,
    Nat.xor_self, Nat.xor_zero, Nat.zero_xor]

/-- `apply_promotion` preserves the hash defect when a lone pawn stands on
`f`, `t` is empty and the promotion piece is not a pawn. -/
theorem zDefect_applyPromotion (K : ZKeys) (b : Board) (side : Side)
    (f t : Square) (pp : Piece) (hf64 : f.ordinal < 64)
    (ht64 : t.ordinal < 64) (hpp : pp ≠ Piece.Pawn)
    (hex : sqHoldsExactly b side Piece.Pawn f) (hemp : sqEmptyAll b t) :
    zDefect K (b.applyPromotion K side f t pp) = zDefect K b := by
  obtain ⟨hown, hoth, hkind, hx1, hx2, hx3, hx4, hx5, hx6⟩ := hex
  obtain ⟨hwp, hbp, he1, he2, he3, he4, he5, he6⟩ := hemp
  rw [applyPromotion_spec]
  unfold zDefect zScratch zPieces
  dsimp only
  cases side <;> cases pp <;>
    (dsimp only [Board.getPieces, otherSide, kindBB] at hown hoth hkind;
     simp only [reduceCtorEq, eq_self_iff_true, if_true, if_false])
  · exact absurd rfl hpp
  · have hft : f.ordinal ≠ t.ordinal := by
      intro hee
      rw [hee] at hown
      rw [hown] at hwp
      cases hwp
    rw [zSum_promo_pawnSlot K .White .Pawn b.pawns b.whitePieces f t hf64 ht64 hft hkind hown he1,
      zSum_promo_ppSlot K .White .Knight b.knights b.whitePieces f t hf64 ht64 hft (hx3 (by decide)) he3,
      zSum_clearSet_left_congr K .White .Bishop b.bishops b.whitePieces f t hf64 ht64 (hx2 (by decide)) he2,
      zSum_clearSet_left_congr K .White .Rook b.rooks b.whitePieces f t hf64 ht64 (hx4 (by decide)) he4,
      zSum_clearSet_left_congr K .White .Queen b.queens b.whitePieces f t hf64 ht64 (hx5 (by decide)) he5,
      zSum_clearSet_left_congr K .White .King b.kings b.whitePieces f t hf64 ht64 (hx6 (by decide)) he6,
      zSum_clear_right_congr K .Black .Pawn b.pawns b.blackPieces f hf64 hoth,
      zSum_set_right_congr K .Black .Knight b.knights b.blackPieces t ht64 hbp]
    apply zcancelp1_3
  · have hft : f.ordinal ≠ t.ordinal := by
      intro hee
      rw [hee] at hown
      rw [hown] at hwp
      cases hwp
    rw [zSum_promo_pawnSlot K .White .Pawn b.pawns b.whitePieces f t hf64 ht64 hft hkind hown he1,
      zSum_promo_ppSlot K .White .Bishop b.bishops b.whitePieces f t hf64 ht64 hft (hx2 (by decide)) he2,
      zSum_clearSet_left_congr K .White .Knight b.knights b.whitePieces f t hf64 ht64 (hx3 (by decide)) he3,
      zSum_clearSet_left_congr K .White .Rook b.rooks b.whitePieces f t hf64 ht64 (hx4 (by decide)) he4,
      zSum_clearSet_left_congr K .White .Queen b.queens b.whitePieces f t hf64 ht64 (hx5 (by decide)) he5,
      zSum_clearSet_left_congr K .White .King b.kings b.whitePieces f t hf64 ht64 (hx6 (by decide)) he6,
      zSum_clear_right_congr K .Black .Pawn b.pawns b.blackPieces f hf64 hoth,
      zSum_set_right_congr K .Black .Bishop b.bishops b.blackPieces t ht64 hbp]
    apply zcancelp1_2
  · have hft : f.ordinal ≠ t.ordinal := by
      intro hee
      rw [hee] at hown
      rw [hown] at hwp
      cases hwp
    rw [zSum_promo_pawnSlot K .White .Pawn b.pawns b.whitePieces f t hf64 ht64 hft hkind hown he1,
      zSum_promo_ppSlot K .White .Rook b.rooks b.whitePieces f t hf64 ht64 hft (hx4 (by decide)) he4,
      zSum_clearSet_left_congr K .White .Bishop b.bishops b.whitePieces f t hf64 ht64 (hx2 (by decide)) he2,
      zSum_clearSet_left_congr K .White .Knight b.knights b.whitePieces f t hf64 ht64 (hx3 (by decide)) he3,
      zSum_clearSet_left_congr K .White .Queen b.queens b.whitePieces f t hf64 ht64 (hx5 (by decide)) he5,
      zSum_clearSet_left_congr K .White .King b.kings b.whitePieces f t hf64 ht64 (hx6 (by decide)) he6,
      zSum_clear_right_congr K .Black .Pawn b.pawns b.blackPieces f hf64 hoth,
      zSum_set_right_congr K .Black .Rook b.rooks b.blackPieces t ht64 hbp]
    apply zcancelp1_4
  · have hft : f.ordinal ≠ t.ordinal := by
      intro hee
      rw [hee] at hown
      rw [hown] at hwp
      cases hwp
    rw [zSum_promo_pawnSlot K .White .Pawn b.pawns b.whitePieces f t hf64 ht64 hft hkind hown he1,
      zSum_promo_ppSlot K .White .Queen b.queens b.whitePieces f t hf64 ht64 hft (hx5 (by decide)) he5,
      zSum_clearSet_left_congr K .White .Bishop b.bishops b.whitePieces f t hf64 ht64 (hx2 (by decide)) he2,
      zSum_clearSet_left_congr K .White .Knight b.knights b.whitePieces f t hf64 ht64 (hx3 (by decide)) he3,
      zSum_clearSet_left_congr K .White .Rook b.rooks b.whitePieces f t hf64 ht64 (hx4 (by decide)) he4,
      zSum_clearSet_left_congr K .White .King b.kings b.whitePieces f t hf64 ht64 (hx6 (by decide)) he6,
      zSum_clear_right_congr K .Black .Pawn b.pawns b.blackPieces f hf64 hoth,
      zSum_set_right_congr K .Black .Queen b.queens b.blackPieces t ht64 hbp]
    apply zcancelp1_5
  · have hft : f.ordinal ≠ t.ordinal := by
      intro hee
      rw [hee] at hown
      rw [hown] at hwp
      cases hwp
    rw [zSum_promo_pawnSlot K .White .Pawn b.pawns b.whitePieces f t hf64 ht64 hft hkind hown he1,
      zSum_promo_ppSlot K .White .King b.kings b.whitePieces f t hf64 ht64 hft (hx6 (by decide)) he6,
      zSum_clearSet_left_congr K .White .Bishop b.bishops b.whitePieces f t hf64 ht64 (hx2 (by decide)) he2,
      zSum_clearSet_left_congr K .White .Knight b.knights b.whitePieces f t hf64 ht64 (hx3 (by decide)) he3,
      zSum_clearSet_left_congr K .White .Rook b.rooks b.whitePieces f t hf64 ht64 (hx4 (by decide)) he4,
      zSum_clearSet_left_congr K .White .Queen b.queens b.whitePieces f t hf64 ht64 (hx5 (by decide)) he5,
      zSum_clear_right_congr K .Black .Pawn b.pawns b.blackPieces f hf64 hoth,
      zSum_set_right_congr K .Black .King b.kings b.blackPieces t ht64 hbp]
    apply zcancelp1_6
  · exact absurd rfl hpp
  · have hft : f.ordinal ≠ t.ordinal := by
      intro hee
      rw [hee] at hown
      rw [hown] at hbp
      cases hbp
    rw [zSum_promo_pawnSlot K .Black .Pawn b.pawns b.blackPieces f t hf64 ht64 hft hkind hown he1,
      zSum_promo_ppSlot K .Black .Knight b.knights b.blackPieces f t hf64 ht64 hft (hx3 (by decide)) he3,
      zSum_clearSet_left_congr K .Black .Bishop b.bishops b.blackPieces f t hf64 ht64 (hx2 (by decide)) he2,
      zSum_clearSet_left_congr K .Black .Rook b.rooks b.blackPieces f t hf64 ht64 (hx4 (by decide)) he4,
      zSum_clearSet_left_congr K .Black .Queen b.queens b.blackPieces f t hf64 ht64 (hx5 (by decide)) he5,
      zSum_clearSet_left_congr K .Black .King b.kings b.blackPieces f t hf64 ht64 (hx6 (by decide)) he6,
      zSum_clear_right_congr K .White .Pawn b.pawns b.whitePieces f hf64 hoth,
      zSum_set_right_congr K .White .Knight b.knights b.whitePieces t ht64 hwp]
    apply zcancelp7_9
  · have hft : f.ordinal ≠ t.ordinal := by
      intro hee
      rw [hee] at hown
      rw [hown] at hbp
      cases hbp
    rw [zSum_promo_pawnSlot K .Black .Pawn b.pawns b.blackPieces f t hf64 ht64 hft hkind hown he1,
      zSum_promo_ppSlot K .Black .Bishop b.bishops b.blackPieces f t hf64 ht64 hft (hx2 (by decide)) he2,
      zSum_clearSet_left_congr K .Black .Knight b.knights b.blackPieces f t hf64 ht64 (hx3 (by decide)) he3,
      zSum_clearSet_left_congr K .Black .Rook b.rooks b.blackPieces f t hf64 ht64 (hx4 (by decide)) he4,
      zSum_clearSet_left_congr K .Black .Queen b.queens b.blackPieces f t hf64 ht64 (hx5 (by decide)) he5,
      zSum_clearSet_left_congr K .Black .King b.kings b.blackPieces f t hf64 ht64 (hx6 (by decide)) he6,
      zSum_clear_right_congr K .White .Pawn b.pawns b.whitePieces f hf64 hoth,
      zSum_set_right_congr K .White .Bishop b.bishops b.whitePieces t ht64 hwp]
    apply zcancelp7_8
  · have hft : f.ordinal ≠ t.ordinal := by
      intro hee
      rw [hee] at hown
      rw [hown] at hbp
      cases hbp
    rw [zSum_promo_pawnSlot K .Black .Pawn b.pawns b.blackPieces f t hf64 ht64 hft hkind hown he1,
      zSum_promo_ppSlot K .Black .Rook b.rooks b.blackPieces f t hf64 ht64 hft (hx4 (by decide)) he4,
      zSum_clearSet_left_congr K .Black .Bishop b.bishops b.blackPieces f t hf64 ht64 (hx2 (by decide)) he2,
      zSum_clearSet_left_congr K .Black .Knight b.knights b.blackPieces f t hf64 ht64 (hx3 (by decide)) he3,
      zSum_clearSet_left_congr K .Black .Queen b.queens b.blackPieces f t hf64 ht64 (hx5 (by decide)) he5,
      zSum_clearSet_left_congr K .Black .King b.kings b.blackPieces f t hf64 ht64 (hx6 (by decide)) he6,
      zSum_clear_right_congr K .White .Pawn b.pawns b.whitePieces f hf64 hoth,
      zSum_set_right_congr K .White .Rook b.rooks b.whitePieces t ht64 hwp]
    apply zcancelp7_10
  · have hft : f.ordinal ≠ t.ordinal := by
      intro hee
      rw [hee] at hown
      rw [hown] at hbp
      cases hbp
    rw [zSum_promo_pawnSlot K .Black .Pawn b.pawns b.blackPieces f t hf64 ht64 hft hkind hown he1,
      zSum_promo_ppSlot K .Black .Queen b.queens b.blackPieces f t hf64 ht64 hft (hx5 (by decide)) he5,
      zSum_clearSet_left_congr K .Black .Bishop b.bishops b.blackPieces f t hf64 ht64 (hx2 (by decide)) he2,
      zSum_clearSet_left_congr K .Black .Knight b.knights b.blackPieces f t hf64 ht64 (hx3 (by decide)) he3,
      zSum_clearSet_left_congr K .Black .Rook b.rooks b.blackPieces f t hf64 ht64 (hx4 (by decide)) he4,
      zSum_clearSet_left_congr K .Black .King b.kings b.blackPieces f t hf64 ht64 (hx6 (by decide)) he6,
      zSum_clear_right_congr K .White .Pawn b.pawns b.whitePieces f hf64 hoth,
      zSum_set_right_congr K .White .Queen b.queens b.whitePieces t ht64 hwp]
    apply zcancelp7_11
  · have hft : f.ordinal ≠ t.ordinal := by
      intro hee
      rw [hee] at hown
      rw [hown] at hbp
      cases hbp
    rw [zSum_promo_pawnSlot K .Black .Pawn b.pawns b.blackPieces f t hf64 ht64 hft hkind hown he1,
      zSum_promo_ppSlot K .Black .King b.kings b.blackPieces f t hf64 ht64 hft (hx6 (by decide)) he6,
      zSum_clearSet_left_congr K .Black .Bishop b.bishops b.blackPieces f t hf64 ht64 (hx2 (by decide)) he2,
      zSum_clearSet_left_congr K .Black .Knight b.knights b.blackPieces f t hf64 ht64 (hx3 (by decide)) he3,
      zSum_clearSet_left_congr K .Black .Rook b.rooks b.blackPieces f t hf64 ht64 (hx4 (by decide)) he4,
      zSum_clearSet_left_congr K .Black .Queen b.queens b.blackPieces f t hf64 ht64 (hx5 (by decide)) he5,
      zSum_clear_right_congr K .White .Pawn b.pawns b.whitePieces f hf64 hoth,
      zSum_set_right_congr K .White .King b.kings b.whitePieces t ht64 hwp]
    apply zcancelp7_12

/-- The recompute form of side consistency. -/
theorem otherSide_of_if (s t : Side)
    (h : t = if s = Side.White then Side.Black else Side.White) :
    t = otherSide s := by
  cases s <;> simpa [otherSide] using h

/-- `apply_promotion` never touches the side fields. -/
theorem applyPromotion_sides (K : ZKeys) (b : Board) (side : Side)
    (f t : Square) (pp : Piece) :
    (b.applyPromotion K side f t pp).sideToMove = b.sideToMove ∧
    (b.applyPromotion K side f t pp).sideToNotMove = b.sideToNotMove := by
  rw [applyPromotion_spec]
  exact ⟨rfl, rfl⟩

/-- `apply_regular_move` never touches the side fields. -/
theorem applyRegularMove_sides (K : ZKeys) (b : Board) (rm : RegularMove) :
    (b.applyRegularMove K rm).sideToMove = b.sideToMove ∧
    (b.applyRegularMove K rm).sideToNotMove = b.sideToNotMove := by
  unfold Board.applyRegularMove
  dsimp only
  rcases hc : rm.capturedPiece with _ | cp
  · dsimp only
    by_cases hP : rm.piece = Piece.Pawn
    · rw [if_pos hP]
      by_cases hsm : b.sideToMove = Side.White
      · rw [if_pos hsm]
        by_cases hR : rm.fromSq.rank = 1 ∧ rm.toSq.rank = 3
        · rw [if_pos hR]
          dsimp only
          exact ⟨(applyMove_sides K _ _ _ _ _).1,
            (applyMove_sides K _ _ _ _ _).2.1⟩
        · rw [if_neg hR]
          exact ⟨(applyMove_sides K _ _ _ _ _).1,
            (applyMove_sides K _ _ _ _ _).2.1⟩
      · rw [if_neg hsm]
        by_cases hR : rm.fromSq.rank = 6 ∧ rm.toSq.rank = 4
        · rw [if_pos hR]
          dsimp only
          exact ⟨(applyMove_sides K _ _ _ _ _).1,
            (applyMove_sides K _ _ _ _ _).2.1⟩
        · rw [if_neg hR]
          exact ⟨(applyMove_sides K _ _ _ _ _).1,
            (applyMove_sides K _ _ _ _ _).2.1⟩
    · rw [if_neg hP]
      exact ⟨(applyMove_sides K _ _ _ _ _).1,
        (applyMove_sides K _ _ _ _ _).2.1⟩
  · dsimp only
    exact ⟨((applyMove_sides K _ _ _ _ _).1).trans
        (applyCapture_sides K b b.sideToNotMove cp rm.toSq).1,
      ((applyMove_sides K _ _ _ _ _).2.1).trans
        (applyCapture_sides K b b.sideToNotMove cp rm.toSq).2.1⟩

/-- `apply_short_castling_move` never touches the side fields. -/
theorem applyShortCastlingMove_sides (K : ZKeys) (b : Board) :
    (b.applyShortCastlingMove K).sideToMove = b.sideToMove ∧
    (b.applyShortCastlingMove K).sideToNotMove = b.sideToNotMove := by
  unfold Board.applyShortCastlingMove
  dsimp only
  rcases hsm : b.sideToMove with _ | _ <;> dsimp only [shortCastlingSquares] <;>
    exact ⟨((applyMove_sides K _ _ _ _ _).1).trans
        (((applyMove_sides K b _ _ _ _).1).trans hsm),
      ((applyMove_sides K _ _ _ _ _).2.1).trans
        (applyMove_sides K b _ _ _ _).2.1⟩

/-- `apply_long_castling_move` never touches the side fields. -/
theorem applyLongCastlingMove_sides (K : ZKeys) (b : Board) :
    (b.applyLongCastlingMove K).sideToMove = b.sideToMove ∧
    (b.applyLongCastlingMove K).sideToNotMove = b.sideToNotMove := by
  unfold Board.applyLongCastlingMove
  dsimp only
  rcases hsm : b.sideToMove with _ | _ <;> dsimp only [longCastlingSquares] <;>
    exact ⟨((applyMove_sides K _ _ _ _ _).1).trans
        (((applyMove_sides K b _ _ _ _).1).trans hsm),
      ((applyMove_sides K _ _ _ _ _).2.1).trans
        (applyMove_sides K b _ _ _ _).2.1⟩

/-- `apply_ep_capture_move` never touches the side fields. -/
theorem applyEpCaptureMove_sides (K : ZKeys) (b : Board)
    (em : EnPassantCaptureMove) :
    (b.applyEpCaptureMove K em).sideToMove = b.sideToMove ∧
    (b.applyEpCaptureMove K em).sideToNotMove = b.sideToNotMove := by
  unfold Board.applyEpCaptureMove
  dsimp only
  exact ⟨((applyMove_sides K _ _ _ _ _).1).trans
      (applyCapture_sides K b b.sideToNotMove Piece.Pawn em.capturedPawn).1,
    ((applyMove_sides K _ _ _ _ _).2.1).trans
      (applyCapture_sides K b b.sideToNotMove Piece.Pawn em.capturedPawn).2.1⟩

/-- `apply_promotion_move` never touches the side fields. -/
theorem applyPromotionMove_sides (K : ZKeys) (b : Board)
    (pm : PromotionMove) :
    (b.applyPromotionMove K pm).sideToMove = b.sideToMove ∧
    (b.applyPromotionMove K pm).sideToNotMove = b.sideToNotMove := by
  unfold Board.applyPromotionMove
  dsimp only
  rcases hc : pm.capturedPiece with _ | cp
  · dsimp only
    exact ⟨(applyPromotion_sides K b _ _ _ _).1,
      (applyPromotion_sides K b _ _ _ _).2⟩
  · dsimp only
    exact ⟨((applyPromotion_sides K _ _ _ _ _).1).trans
        (applyCapture_sides K b b.sideToNotMove cp pm.toSq).1,
      ((applyPromotion_sides K _ _ _ _ _).2).trans
        (applyCapture_sides K b b.sideToNotMove cp pm.toSq).2.1⟩

/-- `apply_promotion_move` preserves the hash defect when the pawn and any
captured piece stand where the move says. -/
theorem zDefect_applyPromotionMove (K : ZKeys) (b : Board)
    (pm : PromotionMove)
    (hf64 : pm.fromSq.ordinal < 64) (ht64 : pm.toSq.ordinal < 64)
    (hside : b.sideToNotMove = otherSide b.sideToMove)
    (hpp : pm.promotionPiece ≠ Piece.Pawn)
    (hex : sqHoldsExactly b b.sideToMove Piece.Pawn pm.fromSq)
    (hcap : match pm.capturedPiece with
      | none => sqEmptyAll b pm.toSq
      | some cp => sqHoldsExactly b b.sideToNotMove cp pm.toSq) :
    zDefect K (b.applyPromotionMove K pm) = zDefect K b := by
  unfold Board.applyPromotionMove
  dsimp only
  rcases hc : pm.capturedPiece with _ | cp
  · rw [hc] at hcap
    dsimp only
    exact zDefect_applyPromotion K b b.sideToMove pm.fromSq pm.toSq
      pm.promotionPiece hf64 ht64 hpp hex hcap
  · rw [hc] at hcap
    dsimp only
    have hstmT : (b.getPieces b.sideToMove).testBit pm.toSq.ordinal = false := by
      have := hcap.2.1
      rw [hside, otherSide_otherSide] at this
      exact this
    have hneq : pm.fromSq.ordinal ≠ pm.toSq.ordinal := by
      intro hee
      have h1 := hex.1
      rw [hee, hstmT] at h1
      cases h1
    have hsmc := applyCapture_sides K b b.sideToNotMove cp pm.toSq
    rw [hsmc.1]
    refine Eq.trans (zDefect_applyPromotion K _ b.sideToMove pm.fromSq
        pm.toSq pm.promotionPiece hf64 ht64 hpp ?_ ?_)
      (zDefect_applyCapture K b b.sideToNotMove cp pm.toSq ht64 hcap)
    · exact sqHoldsExactly_of_bitsEq _ b b.sideToMove Piece.Pawn pm.fromSq
        (applyCapture_bitsEq_ne K b b.sideToNotMove cp pm.toSq
          pm.fromSq.ordinal ht64 hf64 hneq) hex
    · exact sqEmptyAll_applyCapture K b b.sideToNotMove cp pm.toSq ht64 hcap

/-- The `push` tail over a half-move-clock update preserves the hash
defect. -/
theorem zDefect_pushAssembly (K : ZKeys) (m : Move) (u : MoveUndoInfo)
    (B0 : Board) (n : Nat)
    (hside : B0.sideToNotMove =
      (if B0.sideToMove = Side.White then Side.Black else Side.White)) :
    zDefect K (pushTail K m u { B0 with halfMoveClock := n }) =
      zDefect K B0 := by
  rw [zDefect_pushTail K m u _ (by dsimp only; exact hside)]
  exact zDefect_clock K B0 n

/-- `push` factors through the four stages. -/
theorem push_eq_stages (K : ZKeys) (b : Board) (m : Move) :
    b.push K m = pushTail K m (pushUndo b)
      (clockStage m (makeStage K m (epClearStage K b))) := by
  rw [push_eq_pushTail]
  rcases hepq : b.epSquare with _ | ep <;> cases m <;>
    simp only [pushUndo, epClearStage, makeStage, clockStage, hepq]

/-- Field behaviour of the en-passant clearing stage. -/
theorem epClearStage_spec (K : ZKeys) (b : Board) :
    (epClearStage K b).epSquare = none ∧
    (epClearStage K b).sideToMove = b.sideToMove ∧
    (epClearStage K b).sideToNotMove = b.sideToNotMove ∧
    (epClearStage K b).whitePieces = b.whitePieces ∧
    (epClearStage K b).blackPieces = b.blackPieces ∧
    (epClearStage K b).pawns = b.pawns ∧
    (epClearStage K b).bishops = b.bishops ∧
    (epClearStage K b).knights = b.knights ∧
    (epClearStage K b).rooks = b.rooks ∧
    (epClearStage K b).queens = b.queens ∧
    (epClearStage K b).kings = b.kings := by
  unfold epClearStage
  rcases hepq : b.epSquare with _ | ep <;>
    exact ⟨rfl, rfl, rfl, rfl, rfl, rfl, rfl, rfl, rfl, rfl, rfl⟩

/-- The en-passant clearing stage changes no occupancy bit. -/
theorem epClearStage_bitsEq (K : ZKeys) (b : Board) (k : Nat) :
    boardBitsEq (epClearStage K b) b k := by
  obtain ⟨_, _, _, h4, h5, h6, h7, h8, h9, h10, h11⟩ := epClearStage_spec K b
  exact ⟨by rw [h4], by rw [h5], by rw [h6], by rw [h7], by rw [h8],
    by rw [h9], by rw [h10], by rw [h11]⟩

/-- The en-passant clearing stage preserves the hash defect. -/
theorem zDefect_epClearStage (K : ZKeys) (b : Board) :
    zDefect K (epClearStage K b) = zDefect K b := by
  unfold epClearStage
  rcases hepq : b.epSquare with _ | ep
  · unfold zDefect zScratch zPieces
    dsimp only
    rw [hepq]
  · exact zDefect_epClearSome K b ep hepq

/-- The occupancy facts survive the en-passant clearing stage. -/
theorem zMakeSafe_epClearStage (K : ZKeys) (b : Board) (m : Move)
    (h : zMakeSafe b m) : zMakeSafe (epClearStage K b) m := by
  obtain ⟨_, hsm, hsn, _, _, _, _, _, _, _, _⟩ := epClearStage_spec K b
  rcases m with rm | sc | lc | em | pm <;> dsimp only [zMakeSafe] at h ⊢
  · obtain ⟨h1, h2, h3, h4⟩ := h
    refine ⟨h1, h2, ?_, ?_⟩
    · rw [hsm]
      exact sqHoldsExactly_of_bitsEq _ b _ _ _ (epClearStage_bitsEq K b _) h3
    · rcases hcp : rm.capturedPiece with _ | cp <;> rw [hcp] at h4 <;>
        dsimp only
      · exact ⟨sqEmptyAll_of_bitsEq _ b _ (epClearStage_bitsEq K b _) h4.1,
          h4.2⟩
      · rw [hsn]
        exact sqHoldsExactly_of_bitsEq _ b _ _ _ (epClearStage_bitsEq K b _)
          h4
  · obtain ⟨h1, h2, h3, h4⟩ := h
    rw [hsm]
    exact ⟨sqHoldsExactly_of_bitsEq _ b _ _ _ (epClearStage_bitsEq K b _) h1,
      sqEmptyAll_of_bitsEq _ b _ (epClearStage_bitsEq K b _) h2,
      sqHoldsExactly_of_bitsEq _ b _ _ _ (epClearStage_bitsEq K b _) h3,
      sqEmptyAll_of_bitsEq _ b _ (epClearStage_bitsEq K b _) h4⟩
  · obtain ⟨h1, h2, h3, h4⟩ := h
    rw [hsm]
    exact ⟨sqHoldsExactly_of_bitsEq _ b _ _ _ (epClearStage_bitsEq K b _) h1,
      sqEmptyAll_of_bitsEq _ b _ (epClearStage_bitsEq K b _) h2,
      sqHoldsExactly_of_bitsEq _ b _ _ _ (epClearStage_bitsEq K b _) h3,
      sqEmptyAll_of_bitsEq _ b _ (epClearStage_bitsEq K b _) h4⟩
  · obtain ⟨h1, h2, h3, h4, h5, h6, h7, h8⟩ := h
    rw [hsm, hsn]
    exact ⟨h1, h2, h3, h4, h5,
      sqHoldsExactly_of_bitsEq _ b _ _ _ (epClearStage_bitsEq K b _) h6,
      sqEmptyAll_of_bitsEq _ b _ (epClearStage_bitsEq K b _) h7,
      sqHoldsExactly_of_bitsEq _ b _ _ _ (epClearStage_bitsEq K b _) h8⟩
  · obtain ⟨h1, h2, h3, h4, h5⟩ := h
    refine ⟨h1, h2, h3, ?_, ?_⟩
    · rw [hsm]
      exact sqHoldsExactly_of_bitsEq _ b _ _ _ (epClearStage_bitsEq K b _) h4
    · rcases hcp : pm.capturedPiece with _ | cp <;> rw [hcp] at h5 <;>
        dsimp only
      · exact sqEmptyAll_of_bitsEq _ b _ (epClearStage_bitsEq K b _) h5
      · rw [hsn]
        exact sqHoldsExactly_of_bitsEq _ b _ _ _ (epClearStage_bitsEq K b _)
          h5

/-- The make stage never touches the side fields. -/
theorem makeStage_sides (K : ZKeys) (m : Move) (B : Board) :
    (makeStage K m B).sideToMove = B.sideToMove ∧
    (makeStage K m B).sideToNotMove = B.sideToNotMove := by
  rcases m with rm | sc | lc | em | pm
  · exact ⟨(applyRegularMove_sides K B rm).1, (applyRegularMove_sides K B rm).2⟩
  · exact ⟨(applyShortCastlingMove_sides K B).1,
      (applyShortCastlingMove_sides K B).2⟩
  · exact ⟨(applyLongCastlingMove_sides K B).1,
      (applyLongCastlingMove_sides K B).2⟩
  · exact ⟨(applyEpCaptureMove_sides K B em).1,
      (applyEpCaptureMove_sides K B em).2⟩
  · exact ⟨(applyPromotionMove_sides K B pm).1,
      (applyPromotionMove_sides K B pm).2⟩

/-- The make stage preserves the hash defect under the occupancy facts. -/
theorem zDefect_makeStage (K : ZKeys) (m : Move) (B : Board)
    (hep : B.epSquare = none)
    (hside : B.sideToNotMove = otherSide B.sideToMove)
    (h : zMakeSafe B m) :
    zDefect K (makeStage K m B) = zDefect K B := by
  rcases m with rm | sc | lc | em | pm
  · obtain ⟨h1, h2, h3, h4⟩ := h
    exact zDefect_applyRegularMove K B rm h1 h2 hep hside h3 h4
  · obtain ⟨h1, h2, h3, h4⟩ := h
    exact zDefect_applyShortCastlingMove K B h1 h2 h3 h4
  · obtain ⟨h1, h2, h3, h4⟩ := h
    exact zDefect_applyLongCastlingMove K B h1 h2 h3 h4
  · obtain ⟨h1, h2, h3, h4, h5, h6, h7, h8⟩ := h
    exact zDefect_applyEpCaptureMove K B em h1 h2 h3 h4 h5 h6 h7 h8
  · obtain ⟨h1, h2, h3, h4, h5⟩ := h
    exact zDefect_applyPromotionMove K B pm h1 h2 hside h3 h4 h5

/-- The clock stage never touches the side fields. -/
theorem clockStage_sides (m : Move) (B : Board) :
    (clockStage m B).sideToMove = B.sideToMove ∧
    (clockStage m B).sideToNotMove = B.sideToNotMove := by
  rcases m with rm | sc | lc | em | pm
  · unfold clockStage
    dsimp only
    by_cases hck : (rm.piece = Piece.Pawn || rm.isCapture) = true
    · rw [if_pos hck]
      exact ⟨rfl, rfl⟩
    · rw [if_neg hck]
      exact ⟨rfl, rfl⟩
  all_goals exact ⟨rfl, rfl⟩

/-- The clock stage preserves the hash defect. -/
theorem zDefect_clockStage (K : ZKeys) (m : Move) (B : Board) :
    zDefect K (clockStage m B) = zDefect K B := by
  rcases m with rm | sc | lc | em | pm
  · unfold clockStage
    dsimp only
    by_cases hck : (rm.piece = Piece.Pawn || rm.isCapture) = true
    · rw [if_pos hck]
      exact zDefect_clock K B 0
    · rw [if_neg hck]
      exact zDefect_clock K B _
  all_goals exact zDefect_clock K B _

/-- `push` preserves the hash defect: the incremental hash maintenance of a
move agrees with the from-scratch recomputation. -/
theorem zDefect_push (K : ZKeys) (b : Board) (m : Move)
    (hz : zobristSafe b m) :
    zDefect K (b.push K m) = zDefect K b := by
  obtain ⟨hpps, hmk⟩ := hz
  have hside : b.sideToNotMove =
      (if b.sideToMove = Side.White then Side.Black else Side.White) :=
    hpps.1
  obtain ⟨hE0, hE1, hE2, _, _, _, _, _, _, _, _⟩ := epClearStage_spec K b
  have hM := makeStage_sides K m (epClearStage K b)
  have hC := clockStage_sides m (makeStage K m (epClearStage K b))
  rw [push_eq_stages]
  rw [zDefect_pushTail K m (pushUndo b) _
    (by rw [hC.1, hC.2, hM.1, hM.2, hE1, hE2]; exact hside)]
  rw [zDefect_clockStage]
  rw [zDefect_makeStage K m (epClearStage K b) hE0
    (by rw [hE1, hE2]; exact otherSide_of_if _ _ hside)
    (zMakeSafe_epClearStage K b m hmk)]
  exact zDefect_epClearStage K b

/-- Positional XOR cancellation for the `pop` tail, White to move before. -/
theorem zcancelPopW (z d e1 e2 bk P c : Nat) :
    (z ^^^ d ^^^ e1 ^^^ e2 ^^^ bk) ^^^ (P ^^^ (c ^^^ d) ^^^ e2 ^^^ bk) =
      z ^^^ (P ^^^ c ^^^ e1 ^^^ 0) := by
  simp only [Nat.xor_assoc, Nat.xor_comm, xor_left_comm, xor_cancel_mid,
    Nat.xor_self, Nat.xor_zero, Nat.zero_xor]

/-- Positional XOR cancellation for the `pop` tail, Black to move before. -/
theorem zcancelPopB (z d e1 e2 bk P c : Nat) :
    (z ^^^ d ^^^ e1 ^^^ e2 ^^^ bk) ^^^ (P ^^^ (c ^^^ d) ^^^ e2 ^^^ 0) =
      z ^^^ (P ^^^ c ^^^ e1 ^^^ bk) := by
  simp only [Nat.xor_assoc, Nat.xor_comm, xor_left_comm, xor_cancel_mid,
    Nat.xor_self, Nat.xor_zero, Nat.zero_xor]

/-- The `pop` tail preserves the hash defect: the castling-diff keys, the
two en-passant fixups and the side flip all cancel against the recomputed
scratch components. -/
theorem zDefect_popCont (K : ZKeys) (u : MoveUndoInfo) (U : Board)
    (hside : U.sideToNotMove =
      (if U.sideToMove = Side.White then Side.Black else Side.White)) :
    zDefect K (popCont K u U) = zDefect K U := by
  have hcu : castleKeys K u.castlingRights = castleKeys K U.castlingRights ^^^
      castleKeys K (U.castlingRights ^^^ u.castlingRights) := by
    rw [← castleKeys_xor, xor_cancel_mid]
  rw [popCont_spec]
  unfold zDefect zScratch zPieces
  dsimp only
  rw [hcu]
  rcases hs : U.sideToMove with _ | _ <;> rw [hs] at hside <;>
    simp only [reduceCtorEq, eq_self_iff_true, if_true, if_false] at hside <;>
    rw [hside] <;> dsimp only [stmKeyOf]
  · exact zcancelPopW _ _ _ _ _ _ _
  · exact zcancelPopB _ _ _ _ _ _ _

/-- Removing the only piece of a square leaves the square fully empty. -/
theorem sqEmptyAll_removePiece (K : ZKeys) (b : Board) (side : Side)
    (p : Piece) (sq : Square) (h64 : sq.ordinal < 64)
    (hex : sqHoldsExactly b side p sq) :
    sqEmptyAll (b.removePiece K side p sq) sq := by
  obtain ⟨hown, hoth, hkind, hx1, hx2, hx3, hx4, hx5, hx6⟩ := hex
  rw [removePiece_ite_spec]
  unfold sqEmptyAll
  dsimp only
  cases side <;> dsimp only [Board.getPieces, otherSide] at hown hoth <;>
    refine ⟨?_, ?_, ?_, ?_, ?_, ?_, ?_, ?_⟩ <;>
    first
      | (rw [if_pos rfl]
         exact bbClear_testBit_self _ sq h64)
      | (rw [if_neg (by decide)]
         assumption)
      | (by_cases hq : p = Piece.Pawn
         · rw [if_pos hq]
           exact bbClear_testBit_self _ sq h64
         · rw [if_neg hq]
           exact hx1 (fun he => hq he.symm))
      | (by_cases hq : p = Piece.Bishop
         · rw [if_pos hq]
           exact bbClear_testBit_self _ sq h64
         · rw [if_neg hq]
           exact hx2 (fun he => hq he.symm))
      | (by_cases hq : p = Piece.Knight
         · rw [if_pos hq]
           exact bbClear_testBit_self _ sq h64
         · rw [if_neg hq]
           exact hx3 (fun he => hq he.symm))
      | (by_cases hq : p = Piece.Rook
         · rw [if_pos hq]
           exact bbClear_testBit_self _ sq h64
         · rw [if_neg hq]
           exact hx4 (fun he => hq he.symm))
      | (by_cases hq : p = Piece.Queen
         · rw [if_pos hq]
           exact bbClear_testBit_self _ sq h64
         · rw [if_neg hq]
           exact hx5 (fun he => hq he.symm))
      | (by_cases hq : p = Piece.King
         · rw [if_pos hq]
           exact bbClear_testBit_self _ sq h64
         · rw [if_neg hq]
           exact hx6 (fun he => hq he.symm))

/-- `remove_piece` never touches the side fields. -/
theorem removePiece_sides (K : ZKeys) (b : Board) (side : Side) (p : Piece)
    (sq : Square) :
    (b.removePiece K side p sq).sideToMove = b.sideToMove ∧
    (b.removePiece K side p sq).sideToNotMove = b.sideToNotMove := by
  rw [removePiece_ite_spec]
  exact ⟨rfl, rfl⟩

/-- `add_piece` never touches the side fields. -/
theorem addPiece_sides (K : ZKeys) (b : Board) (side : Side) (p : Piece)
    (sq : Square) :
    (b.addPiece K side p sq).sideToMove = b.sideToMove ∧
    (b.addPiece K side p sq).sideToNotMove = b.sideToNotMove := by
  rw [addPiece_ite_spec]
  exact ⟨rfl, rfl⟩

/-- `undo_move` never touches the side fields. -/
theorem undoMove_sides (K : ZKeys) (b : Board) (side : Side) (p : Piece)
    (f t : Square) :
    (b.undoMove K side p f t).sideToMove = b.sideToMove ∧
    (b.undoMove K side p f t).sideToNotMove = b.sideToNotMove := by
  unfold Board.undoMove
  dsimp only
  exact ⟨((addPiece_sides K _ _ _ _).1).trans (removePiece_sides K b side p t).1,
    ((addPiece_sides K _ _ _ _).2).trans (removePiece_sides K b side p t).2⟩

/-- `undo_move` preserves the hash defect when the moved piece stands on
its destination and the origin is empty. -/
theorem zDefect_undoMove (K : ZKeys) (b : Board) (side : Side) (p : Piece)
    (f t : Square) (hf64 : f.ordinal < 64) (ht64 : t.ordinal < 64)
    (hft : f.ordinal ≠ t.ordinal)
    (hexT : sqHoldsExactly b side p t) (hempF : sqEmptyAll b f) :
    zDefect K (b.undoMove K side p f t) = zDefect K b := by
  unfold Board.undoMove
  dsimp only
  refine Eq.trans (zDefect_addPiece K _ side p f hf64 ?_)
    (zDefect_removePiece K b side p t ht64 hexT)
  exact sqEmptyAll_of_bitsEq _ b f
    (removePiece_bitsEq_ne K b side p t f.ordinal ht64 hf64 hft) hempF

/-- After `undo_move`, the vacated destination square is fully empty. -/
theorem sqEmptyAll_undoMove (K : ZKeys) (b : Board) (side : Side) (p : Piece)
    (f t : Square) (hf64 : f.ordinal < 64) (ht64 : t.ordinal < 64)
    (hft : f.ordinal ≠ t.ordinal)
    (hexT : sqHoldsExactly b side p t) :
    sqEmptyAll (b.undoMove K side p f t) t := by
  unfold Board.undoMove
  dsimp only
  exact sqEmptyAll_of_bitsEq _ _ t
    (addPiece_bitsEq_ne K _ side p f t.ordinal hf64 ht64
      (fun hh => hft hh.symm))
    (sqEmptyAll_removePiece K b side p t ht64 hexT)

/-- `undo_move` leaves bits off its two squares unchanged. -/
theorem undoMove_bitsEq_ne (K : ZKeys) (b : Board) (side : Side) (p : Piece)
    (f t : Square) (k : Nat) (hf64 : f.ordinal < 64) (ht64 : t.ordinal < 64)
    (hk : k < 64) (hkf : k ≠ f.ordinal) (hkt : k ≠ t.ordinal) :
    boardBitsEq (b.undoMove K side p f t) b k := by
  unfold Board.undoMove
  dsimp only
  obtain ⟨a1, a2, a3, a4, a5, a6, a7, a8⟩ :=
    addPiece_bitsEq_ne K (b.removePiece K side p t) side p f k hf64 hk hkf
  obtain ⟨r1, r2, r3, r4, r5, r6, r7, r8⟩ :=
    removePiece_bitsEq_ne K b side p t k ht64 hk hkt
  exact ⟨a1.trans r1, a2.trans r2, a3.trans r3, a4.trans r4, a5.trans r5,
    a6.trans r6, a7.trans r7, a8.trans r8⟩

/-- `undo_capture` never touches the side fields. -/
theorem undoCapture_sides (K : ZKeys) (b : Board) (side : Side) (p : Piece)
    (sq : Square) :
    (b.undoCapture K side p sq).sideToMove = b.sideToMove ∧
    (b.undoCapture K side p sq).sideToNotMove = b.sideToNotMove := by
  unfold Board.undoCapture
  exact addPiece_sides K b side p sq

/-- `undo_promotion` never touches the side fields. -/
theorem undoPromotion_sides (K : ZKeys) (b : Board) (side : Side)
    (f t : Square) (pp : Piece) :
    (b.undoPromotion K side f t pp).sideToMove = b.sideToMove ∧
    (b.undoPromotion K side f t pp).sideToNotMove = b.sideToNotMove := by
  unfold Board.undoPromotion
  dsimp only
  exact ⟨((addPiece_sides K _ _ _ _).1).trans (removePiece_sides K b side pp t).1,
    ((addPiece_sides K _ _ _ _).2).trans (removePiece_sides K b side pp t).2⟩

/-- `undo_promotion` preserves the hash defect when the promoted piece
stands on its square and the pawn's origin is empty. -/
theorem zDefect_undoPromotion (K : ZKeys) (b : Board) (side : Side)
    (f t : Square) (pp : Piece) (hf64 : f.ordinal < 64)
    (ht64 : t.ordinal < 64) (hft : f.ordinal ≠ t.ordinal)
    (hexT : sqHoldsExactly b side pp t) (hempF : sqEmptyAll b f) :
    zDefect K (b.undoPromotion K side f t pp) = zDefect K b := by
  unfold Board.undoPromotion
  dsimp only
  refine Eq.trans (zDefect_addPiece K _ side Piece.Pawn f hf64 ?_)
    (zDefect_removePiece K b side pp t ht64 hexT)
  exact sqEmptyAll_of_bitsEq _ b f
    (removePiece_bitsEq_ne K b side pp t f.ordinal ht64 hf64 hft) hempF

/-- After `undo_promotion`, the vacated square is fully empty. -/
theorem sqEmptyAll_undoPromotion (K : ZKeys) (b : Board) (side : Side)
    (f t : Square) (pp : Piece) (hf64 : f.ordinal < 64)
    (ht64 : t.ordinal < 64) (hft : f.ordinal ≠ t.ordinal)
    (hexT : sqHoldsExactly b side pp t) :
    sqEmptyAll (b.undoPromotion K side f t pp) t := by
  unfold Board.undoPromotion
  dsimp only
  exact sqEmptyAll_of_bitsEq _ _ t
    (addPiece_bitsEq_ne K _ side Piece.Pawn f t.ordinal hf64 ht64
      (fun hh => hft hh.symm))
    (sqEmptyAll_removePiece K b side pp t ht64 hexT)

/-- `undo_regular_move` never touches the side fields. -/
theorem undoRegularMove_sides (K : ZKeys) (b : Board) (rm : RegularMove) :
    (b.undoRegularMove K rm).sideToMove = b.sideToMove ∧
    (b.undoRegularMove K rm).sideToNotMove = b.sideToNotMove := by
  unfold Board.undoRegularMove
  dsimp only
  rcases hc : rm.capturedPiece with _ | cp
  · dsimp only
    exact undoMove_sides K b b.sideToNotMove rm.piece rm.fromSq rm.toSq
  · dsimp only
    exact ⟨((undoCapture_sides K _ _ _ _).1).trans
        (undoMove_sides K b b.sideToNotMove rm.piece rm.fromSq rm.toSq).1,
      ((undoCapture_sides K _ _ _ _).2).trans
        (undoMove_sides K b b.sideToNotMove rm.piece rm.fromSq rm.toSq).2⟩

/-- `undo_regular_move` preserves the hash defect when the moved piece
stands on its destination and its origin is empty. -/
theorem zDefect_undoRegularMove (K : ZKeys) (b : Board) (rm : RegularMove)
    (hf64 : rm.fromSq.ordinal < 64) (ht64 : rm.toSq.ordinal < 64)
    (hft : rm.fromSq.ordinal ≠ rm.toSq.ordinal)
    (hexT : sqHoldsExactly b b.sideToNotMove rm.piece rm.toSq)
    (hempF : sqEmptyAll b rm.fromSq) :
    zDefect K (b.undoRegularMove K rm) = zDefect K b := by
  unfold Board.undoRegularMove
  dsimp only
  rcases hc : rm.capturedPiece with _ | cp
  · dsimp only
    exact zDefect_undoMove K b b.sideToNotMove rm.piece rm.fromSq rm.toSq
      hf64 ht64 hft hexT hempF
  · dsimp only
    unfold Board.undoCapture
    rw [(undoMove_sides K b b.sideToNotMove rm.piece rm.fromSq rm.toSq).1]
    refine Eq.trans (zDefect_addPiece K _ b.sideToMove cp rm.toSq ht64 ?_)
      (zDefect_undoMove K b b.sideToNotMove rm.piece rm.fromSq rm.toSq
        hf64 ht64 hft hexT hempF)
    exact sqEmptyAll_undoMove K b b.sideToNotMove rm.piece rm.fromSq rm.toSq
      hf64 ht64 hft hexT

/-- `undo_short_castling_move` never touches the side fields. -/
theorem undoShortCastlingMove_sides (K : ZKeys) (b : Board) :
    (b.undoShortCastlingMove K).sideToMove = b.sideToMove ∧
    (b.undoShortCastlingMove K).sideToNotMove = b.sideToNotMove := by
  unfold Board.undoShortCastlingMove
  dsimp only
  rcases hsn : b.sideToNotMove with _ | _ <;>
    dsimp only [shortCastlingSquares] <;>
    exact ⟨((undoMove_sides K _ _ _ _ _).1).trans
        (undoMove_sides K b _ _ _ _).1,
      ((undoMove_sides K _ _ _ _ _).2).trans
        (((undoMove_sides K b _ _ _ _).2).trans hsn)⟩

/-- `undo_long_castling_move` never touches the side fields. -/
theorem undoLongCastlingMove_sides (K : ZKeys) (b : Board) :
    (b.undoLongCastlingMove K).sideToMove = b.sideToMove ∧
    (b.undoLongCastlingMove K).sideToNotMove = b.sideToNotMove := by
  unfold Board.undoLongCastlingMove
  dsimp only
  rcases hsn : b.sideToNotMove with _ | _ <;>
    dsimp only [longCastlingSquares] <;>
    exact ⟨((undoMove_sides K _ _ _ _ _).1).trans
        (undoMove_sides K b _ _ _ _).1,
      ((undoMove_sides K _ _ _ _ _).2).trans
        (((undoMove_sides K b _ _ _ _).2).trans hsn)⟩

/-- `undo_short_castling_move` preserves the hash defect when the king and
rook stand on their castled squares and their origins are empty. -/
theorem zDefect_undoShortCastlingMove (K : ZKeys) (b : Board)
    (hexK : sqHoldsExactly b b.sideToNotMove Piece.King
      (shortCastlingSquares b.sideToNotMove).2.1)
    (hempKF : sqEmptyAll b (shortCastlingSquares b.sideToNotMove).1)
    (hexR : sqHoldsExactly b b.sideToNotMove Piece.Rook
      (shortCastlingSquares b.sideToNotMove).2.2.2)
    (hempRF : sqEmptyAll b (shortCastlingSquares b.sideToNotMove).2.2.1) :
    zDefect K (b.undoShortCastlingMove K) = zDefect K b := by
  unfold Board.undoShortCastlingMove
  dsimp only
  rcases hsn : b.sideToNotMove with _ | _ <;>
    rw [hsn] at hexK hempKF hexR hempRF <;>
    dsimp only [shortCastlingSquares] at hexK hempKF hexR hempRF ⊢
  · rw [(undoMove_sides K b Side.White Piece.King ⟨4⟩ ⟨6⟩).2, hsn]
    refine Eq.trans (zDefect_undoMove K _ Side.White Piece.Rook ⟨7⟩ ⟨5⟩
        (by decide) (by decide) (by decide) ?_ ?_)
      (zDefect_undoMove K b Side.White Piece.King ⟨4⟩ ⟨6⟩
        (by decide) (by decide) (by decide) hexK hempKF)
    · exact sqHoldsExactly_of_bitsEq _ b Side.White Piece.Rook ⟨5⟩
        (undoMove_bitsEq_ne K b Side.White Piece.King ⟨4⟩ ⟨6⟩ 5
          (by decide) (by decide) (by decide) (by decide) (by decide)) hexR
    · exact sqEmptyAll_of_bitsEq _ b ⟨7⟩
        (undoMove_bitsEq_ne K b Side.White Piece.King ⟨4⟩ ⟨6⟩ 7
          (by decide) (by decide) (by decide) (by decide) (by decide)) hempRF
  · rw [(undoMove_sides K b Side.Black Piece.King ⟨60⟩ ⟨62⟩).2, hsn]
    refine Eq.trans (zDefect_undoMove K _ Side.Black Piece.Rook ⟨63⟩ ⟨61⟩
        (by decide) (by decide) (by decide) ?_ ?_)
      (zDefect_undoMove K b Side.Black Piece.King ⟨60⟩ ⟨62⟩
        (by decide) (by decide) (by decide) hexK hempKF)
    · exact sqHoldsExactly_of_bitsEq _ b Side.Black Piece.Rook ⟨61⟩
        (undoMove_bitsEq_ne K b Side.Black Piece.King ⟨60⟩ ⟨62⟩ 61
          (by decide) (by decide) (by decide) (by decide) (by decide)) hexR
    · exact sqEmptyAll_of_bitsEq _ b ⟨63⟩
        (undoMove_bitsEq_ne K b Side.Black Piece.King ⟨60⟩ ⟨62⟩ 63
          (by decide) (by decide) (by decide) (by decide) (by decide)) hempRF

/-- `undo_long_castling_move` preserves the hash defect when the king and
rook stand on their castled squares and their origins are empty. -/
theorem zDefect_undoLongCastlingMove (K : ZKeys) (b : Board)
    (hexK : sqHoldsExactly b b.sideToNotMove Piece.King
      (longCastlingSquares b.sideToNotMove).2.1)
    (hempKF : sqEmptyAll b (longCastlingSquares b.sideToNotMove).1)
    (hexR : sqHoldsExactly b b.sideToNotMove Piece.Rook
      (longCastlingSquares b.sideToNotMove).2.2.2)
    (hempRF : sqEmptyAll b (longCastlingSquares b.sideToNotMove).2.2.1) :
    zDefect K (b.undoLongCastlingMove K) = zDefect K b := by
  unfold Board.undoLongCastlingMove
  dsimp only
  rcases hsn : b.sideToNotMove with _ | _ <;>
    rw [hsn] at hexK hempKF hexR hempRF <;>
    dsimp only [longCastlingSquares] at hexK hempKF hexR hempRF ⊢
  · rw [(undoMove_sides K b Side.White Piece.King ⟨4⟩ ⟨2⟩).2, hsn]
    refine Eq.trans (zDefect_undoMove K _ Side.White Piece.Rook ⟨0⟩ ⟨3⟩
        (by decide) (by decide) (by decide) ?_ ?_)
      (zDefect_undoMove K b Side.White Piece.King ⟨4⟩ ⟨2⟩
        (by decide) (by decide) (by decide) hexK hempKF)
    · exact sqHoldsExactly_of_bitsEq _ b Side.White Piece.Rook ⟨3⟩
        (undoMove_bitsEq_ne K b Side.White Piece.King ⟨4⟩ ⟨2⟩ 3
          (by decide) (by decide) (by decide) (by decide) (by decide)) hexR
    · exact sqEmptyAll_of_bitsEq _ b ⟨0⟩
        (undoMove_bitsEq_ne K b Side.White Piece.King ⟨4⟩ ⟨2⟩ 0
          (by decide) (by decide) (by decide) (by decide) (by decide)) hempRF
  · rw [(undoMove_sides K b Side.Black Piece.King ⟨60⟩ ⟨58⟩).2, hsn]
    refine Eq.trans (zDefect_undoMove K _ Side.Black Piece.Rook ⟨56⟩ ⟨59⟩
        (by decide) (by decide) (by decide) ?_ ?_)
      (zDefect_undoMove K b Side.Black Piece.King ⟨60⟩ ⟨58⟩
        (by decide) (by decide) (by decide) hexK hempKF)
    · exact sqHoldsExactly_of_bitsEq _ b Side.Black Piece.Rook ⟨59⟩
        (undoMove_bitsEq_ne K b Side.Black Piece.King ⟨60⟩ ⟨58⟩ 59
          (by decide) (by decide) (by decide) (by decide) (by decide)) hexR
    · exact sqEmptyAll_of_bitsEq _ b ⟨56⟩
        (undoMove_bitsEq_ne K b Side.Black Piece.King ⟨60⟩ ⟨58⟩ 56
          (by decide) (by decide) (by decide) (by decide) (by decide)) hempRF

/-- `undo_ep_capture_move` never touches the side fields. -/
theorem undoEpCaptureMove_sides (K : ZKeys) (b : Board)
    (em : EnPassantCaptureMove) :
    (b.undoEpCaptureMove K em).sideToMove = b.sideToMove ∧
    (b.undoEpCaptureMove K em).sideToNotMove = b.sideToNotMove := by
  unfold Board.undoEpCaptureMove
  dsimp only
  exact ⟨((undoCapture_sides K _ _ _ _).1).trans
      (undoMove_sides K b b.sideToNotMove Piece.Pawn em.fromSq em.toSq).1,
    ((undoCapture_sides K _ _ _ _).2).trans
      (undoMove_sides K b b.sideToNotMove Piece.Pawn em.fromSq em.toSq).2⟩

/-- `undo_ep_capture_move` preserves the hash defect when the capturing
pawn stands on its destination and the restored squares are empty. -/
theorem zDefect_undoEpCaptureMove (K : ZKeys) (b : Board)
    (em : EnPassantCaptureMove)
    (hf64 : em.fromSq.ordinal < 64) (ht64 : em.toSq.ordinal < 64)
    (hc64 : em.capturedPawn.ordinal < 64)
    (hft : em.fromSq.ordinal ≠ em.toSq.ordinal)
    (hcf : em.capturedPawn.ordinal ≠ em.fromSq.ordinal)
    (hct : em.capturedPawn.ordinal ≠ em.toSq.ordinal)
    (hexT : sqHoldsExactly b b.sideToNotMove Piece.Pawn em.toSq)
    (hempF : sqEmptyAll b em.fromSq)
    (hempC : sqEmptyAll b em.capturedPawn) :
    zDefect K (b.undoEpCaptureMove K em) = zDefect K b := by
  unfold Board.undoEpCaptureMove
  dsimp only
  unfold Board.undoCapture
  rw [(undoMove_sides K b b.sideToNotMove Piece.Pawn em.fromSq em.toSq).1]
  refine Eq.trans (zDefect_addPiece K _ b.sideToMove Piece.Pawn
      em.capturedPawn hc64 ?_)
    (zDefect_undoMove K b b.sideToNotMove Piece.Pawn em.fromSq em.toSq
      hf64 ht64 hft hexT hempF)
  exact sqEmptyAll_of_bitsEq _ b em.capturedPawn
    (undoMove_bitsEq_ne K b b.sideToNotMove Piece.Pawn em.fromSq em.toSq
      em.capturedPawn.ordinal hf64 ht64 hc64 hcf hct) hempC

/-- `undo_promotion_move` never touches the side fields. -/
theorem undoPromotionMove_sides (K : ZKeys) (b : Board)
    (pm : PromotionMove) :
    (b.undoPromotionMove K pm).sideToMove = b.sideToMove ∧
    (b.undoPromotionMove K pm).sideToNotMove = b.sideToNotMove := by
  unfold Board.undoPromotionMove
  dsimp only
  rcases hc : pm.capturedPiece with _ | cp
  · dsimp only
    exact undoPromotion_sides K b b.sideToNotMove pm.fromSq pm.toSq
      pm.promotionPiece
  · dsimp only
    exact ⟨((undoCapture_sides K _ _ _ _).1).trans
        (undoPromotion_sides K b b.sideToNotMove pm.fromSq pm.toSq
          pm.promotionPiece).1,
      ((undoCapture_sides K _ _ _ _).2).trans
        (undoPromotion_sides K b b.sideToNotMove pm.fromSq pm.toSq
          pm.promotionPiece).2⟩

/-- `undo_promotion_move` preserves the hash defect when the promoted piece
stands on its square and the pawn's origin is empty. -/
theorem zDefect_undoPromotionMove (K : ZKeys) (b : Board)
    (pm : PromotionMove)
    (hf64 : pm.fromSq.ordinal < 64) (ht64 : pm.toSq.ordinal < 64)
    (hft : pm.fromSq.ordinal ≠ pm.toSq.ordinal)
    (hexT : sqHoldsExactly b b.sideToNotMove pm.promotionPiece pm.toSq)
    (hempF : sqEmptyAll b pm.fromSq) :
    zDefect K (b.undoPromotionMove K pm) = zDefect K b := by
  unfold Board.undoPromotionMove
  dsimp only
  rcases hc : pm.capturedPiece with _ | cp
  · dsimp only
    exact zDefect_undoPromotion K b b.sideToNotMove pm.fromSq pm.toSq
      pm.promotionPiece hf64 ht64 hft hexT hempF
  · dsimp only
    unfold Board.undoCapture
    rw [(undoPromotion_sides K b b.sideToNotMove pm.fromSq pm.toSq
      pm.promotionPiece).1]
    refine Eq.trans (zDefect_addPiece K _ b.sideToMove cp pm.toSq ht64 ?_)
      (zDefect_undoPromotion K b b.sideToNotMove pm.fromSq pm.toSq
        pm.promotionPiece hf64 ht64 hft hexT hempF)
    exact sqEmptyAll_undoPromotion K b b.sideToNotMove pm.fromSq pm.toSq
      pm.promotionPiece hf64 ht64 hft hexT

/-- `pop` factors through the three stages. -/
theorem pop_eq_stages (K : ZKeys) (b : Board) (m : Move) (u : MoveUndoInfo)
    (rest : List (Move × MoveUndoInfo))
    (hstack : b.moveStack = (m, u) :: rest) :
    b.pop K = popCont K u (unmakeStage K m (popPre b rest)) := by
  rw [pop_eq_popCont K b m u rest hstack]
  cases m <;> rfl

/-- The unmake stage never touches the side fields. -/
theorem unmakeStage_sides (K : ZKeys) (m : Move) (B : Board) :
    (unmakeStage K m B).sideToMove = B.sideToMove ∧
    (unmakeStage K m B).sideToNotMove = B.sideToNotMove := by
  rcases m with rm | sc | lc | em | pm
  · exact undoRegularMove_sides K B rm
  · exact undoShortCastlingMove_sides K B
  · exact undoLongCastlingMove_sides K B
  · exact undoEpCaptureMove_sides K B em
  · exact undoPromotionMove_sides K B pm

/-- The unmake stage preserves the hash defect under the occupancy facts. -/
theorem zDefect_unmakeStage (K : ZKeys) (m : Move) (B : Board)
    (h : zUnmakeSafe B m) :
    zDefect K (unmakeStage K m B) = zDefect K B := by
  rcases m with rm | sc | lc | em | pm
  · obtain ⟨h1, h2, h3, h4, h5⟩ := h
    exact zDefect_undoRegularMove K B rm h1 h2 h3 h4 h5
  · obtain ⟨h1, h2, h3, h4⟩ := h
    exact zDefect_undoShortCastlingMove K B h1 h2 h3 h4
  · obtain ⟨h1, h2, h3, h4⟩ := h
    exact zDefect_undoLongCastlingMove K B h1 h2 h3 h4
  · obtain ⟨h1, h2, h3, h4, h5, h6, h7, h8, h9⟩ := h
    exact zDefect_undoEpCaptureMove K B em h1 h2 h3 h4 h5 h6 h7 h8 h9
  · obtain ⟨h1, h2, h3, h4, h5⟩ := h
    exact zDefect_undoPromotionMove K B pm h1 h2 h3 h4 h5

/-- `pop` preserves the hash defect: its incremental hash fixups agree with
the from-scratch recomputation (a no-op on an empty stack). -/
theorem zDefect_pop (K : ZKeys) (b : Board)
    (hside : b.sideToNotMove =
      (if b.sideToMove = Side.White then Side.Black else Side.White))
    (hz : match b.moveStack with
      | [] => True
      | (m, _) :: _ => zUnmakeSafe b m) :
    zDefect K (b.pop K) = zDefect K b := by
  rcases hstack : b.moveStack with _ | ⟨⟨m, u⟩, rest⟩
  · rw [pop_on_empty_stack_is_noop K b hstack]
  · rw [hstack] at hz
    dsimp only at hz
    rw [pop_eq_stages K b m u rest hstack]
    have hM := unmakeStage_sides K m (popPre b rest)
    refine Eq.trans (zDefect_popCont K u _ ?_)
      (Eq.trans (zDefect_unmakeStage K m (popPre b rest) ?_) ?_)
    · rw [hM.1, hM.2]
      exact hside
    · exact hz
    · rfl

/-- A failed row accumulator stays failed. -/
theorem foldl_parseRowStep_none (K : ZKeys) (r : Nat) :
    ∀ (cs : List Char), cs.foldl (parseRowStep K r) none = none := by
  intro cs
  induction cs with
  | nil => rfl
  | cons c cs ih =>
    rw [List.foldl_cons]
    exact ih

/-- One step of the row walk on a live accumulator. -/
theorem parseRowStep_some (K : ZKeys) (r : Nat) (b : Board) (file : Nat)
    (c : Char) :
    parseRowStep K r (some (b, file)) c =
      if '1' ≤ c ∧ c ≤ '8' then some (b, file + (c.toNat - 0x30))
      else match Piece.parseFenChar c with
        | some (piece, side) =>
          some (b.addPiece K side piece (Square.fromCoords r file), file + 1)
        | none => none := rfl

/-- Walking one row from a live accumulator: the file cursor advances by the
row's width, the hash defect stays zero and every square at or past the
cursor stays fully empty. -/
theorem rowFold (K : ZKeys) (r : Nat) (hr : r < 8) :
    ∀ (rest : List Char) (b : Board) (file : Nat),
    file + rowWidth rest ≤ 8 →
    zDefect K b = 0 →
    (∀ k, r * 8 + file ≤ k → k < 64 → sqEmptyAll b ⟨k⟩) →
    (match rest.foldl (parseRowStep K r) (some (b, file)) with
     | none => True
     | some bf =>
       bf.2 = file + rowWidth rest ∧
       zDefect K bf.1 = 0 ∧
       (∀ k, r * 8 + bf.2 ≤ k → k < 64 → sqEmptyAll bf.1 ⟨k⟩)) := by
  intro rest
  induction rest with
  | nil =>
    intro b file hw hd he
    dsimp only [List.foldl, rowWidth]
    exact ⟨by omega, hd, fun k hk hk64 => he k hk hk64⟩
  | cons c cs ih =>
    intro b file hw hd he
    rw [List.foldl_cons, parseRowStep_some]
    simp only [rowWidth] at hw ⊢
    by_cases hdg : ('1' ≤ c ∧ c ≤ '8')
    · rw [if_pos hdg] at hw
      rw [if_pos hdg]
      have ih2 := ih b (file + (c.toNat - 0x30)) (by omega) hd
        (fun k hk hk64 => he k (by omega) hk64)
      rcases hres : cs.foldl (parseRowStep K r) (some (b, file + (c.toNat - 0x30))) with _ | bf
      · exact True.intro
      · rw [hres] at ih2
        obtain ⟨e1, e2, e3⟩ := ih2
        refine ⟨?_, e2, fun k hk hk64 => e3 k hk hk64⟩
        rw [if_pos hdg]
        omega
    · rw [if_neg hdg] at hw
      rw [if_neg hdg]
      rcases hpc : Piece.parseFenChar c with _ | ps
      · dsimp only
        rw [foldl_parseRowStep_none]
        exact True.intro
      · obtain ⟨pc, sd⟩ := ps
        dsimp only
        have hsq64 : (Square.fromCoords r file).ordinal < 64 := by
          show r * 8 + file < 64
          omega
        have hd2 : zDefect K (b.addPiece K sd pc (Square.fromCoords r file)) = 0 := by
          rw [zDefect_addPiece K b sd pc (Square.fromCoords r file) hsq64
            (he (r * 8 + file) (by omega) (by omega))]
          exact hd
        have he2 : ∀ k, r * 8 + (file + 1) ≤ k → k < 64 →
            sqEmptyAll (b.addPiece K sd pc (Square.fromCoords r file)) ⟨k⟩ := by
          intro k hk hk64
          exact sqEmptyAll_of_bitsEq _ b ⟨k⟩
            (addPiece_bitsEq_ne K b sd pc (Square.fromCoords r file) k hsq64
              hk64 (by show k ≠ r * 8 + file; omega))
            (he k (by omega) hk64)
        have ih2 := ih (b.addPiece K sd pc (Square.fromCoords r file))
          (file + 1) (by omega) hd2 he2
        rcases hres : cs.foldl (parseRowStep K r)
            (some (b.addPiece K sd pc (Square.fromCoords r file), file + 1)) with _ | bf
        · exact True.intro
        · rw [hres] at ih2
          obtain ⟨e1, e2, e3⟩ := ih2
          refine ⟨?_, e2, fun k hk hk64 => e3 k hk hk64⟩
          rw [if_neg hdg]
          omega

/-- One placement row keeps the hash defect zero and the squares of higher
ranks fully empty, provided the row claims at most eight files. -/
theorem parseRowChars_inv (K : ZKeys) (r : Nat) (row : List Char) (b : Board)
    (hr : r < 8) (hwid : rowWidth row ≤ 8) (hd : zDefect K b = 0)
    (he : ∀ k, r * 8 ≤ k → k < 64 → sqEmptyAll b ⟨k⟩) :
    (match parseRowChars K r row b with
     | none => True
     | some b2 => zDefect K b2 = 0 ∧
        (∀ k, (r + 1) * 8 ≤ k → k < 64 → sqEmptyAll b2 ⟨k⟩)) := by
  unfold parseRowChars
  by_cases hlen : row.length > 8
  · rw [if_pos hlen]
    exact True.intro
  · rw [if_neg hlen]
    have h0 := rowFold K r hr row b 0 (by omega) hd
      (fun k hk hk64 => he k (by omega) hk64)
    rcases hres : row.foldl (parseRowStep K r) (some (b, 0)) with _ | bf
    · exact True.intro
    · rw [hres] at h0
      obtain ⟨e1, e2, e3⟩ := h0
      refine ⟨e2, fun k hk hk64 => e3 k ?_ hk64⟩
      omega

/-- A failed rows accumulator stays failed. -/
theorem foldl_rows_none (K : ZKeys) :
    ∀ (l : List (Nat × List Char)),
    l.foldl (fun acc rowi => do
      let b ← acc
      parseRowChars K rowi.1 rowi.2 b) none = none := by
  intro l
  induction l with
  | nil => rfl
  | cons x xs ih =>
    rw [List.foldl_cons]
    exact ih

/-- Folding the placement rows keeps the hash defect zero when every row
fits on the board. -/
theorem rowsFoldAux (K : ZKeys) :
    ∀ (rs : List (List Char)) (n : Nat) (b : Board),
    n + rs.length ≤ 8 →
    (∀ row ∈ rs, rowWidth row ≤ 8) →
    zDefect K b = 0 →
    (∀ k, n * 8 ≤ k → k < 64 → sqEmptyAll b ⟨k⟩) →
    (match (List.enumFrom n rs).foldl (fun acc rowi => do
        let b ← acc
        parseRowChars K rowi.1 rowi.2 b) (some b) with
     | none => True
     | some b2 => zDefect K b2 = 0) := by
  intro rs
  induction rs with
  | nil =>
    intro n b hlen hrows hd he
    exact hd
  | cons row rss ih =>
    intro n b hlen hrows hd he
    rw [show List.enumFrom n (row :: rss) =
      (n, row) :: List.enumFrom (n + 1) rss from rfl]
    rw [List.foldl_cons]
    dsimp only
    rw [show (do
      let bb ← some b
      parseRowChars K n row bb) = parseRowChars K n row b from rfl]
    have h1 := parseRowChars_inv K n row b
      (by simp only [List.length_cons] at hlen; omega)
      (hrows row (List.mem_cons_self row rss)) hd he
    rcases hrc : parseRowChars K n row b with _ | b1
    · rw [foldl_rows_none]
      exact True.intro
    · rw [hrc] at h1
      exact ih (n + 1) b1
        (by simp only [List.length_cons] at hlen; omega)
        (fun rr hrr => hrows rr (List.mem_cons_of_mem row hrr))
        h1.1 h1.2

/-- Recomputing the hash of a board whose stored hash is zero zeroes the
defect. -/
theorem zDefect_initZobristHash (K : ZKeys) (b : Board) (h0 : b.zHash = 0) :
    zDefect K (b.initZobristHash K) = 0 := by
  have hsc : zScratch K (b.initZobristHash K) = zScratch K b := rfl
  unfold zDefect
  rw [initZobristHash_closed, hsc, h0, Nat.zero_xor, Nat.xor_self]

/-- The PST initialisation does not touch the hash defect. -/
theorem zDefect_initPstEval (K : ZKeys) (b : Board) :
    zDefect K b.initPstEval = zDefect K b := rfl

/-- The history push of `parse_fen` does not touch the hash defect. -/
theorem zDefect_hashHistory (K : ZKeys) (b : Board) (hh : History) :
    zDefect K { b with hashHistory := hh } = zDefect K b := rfl

/-- Recomputing the passed-pawn mask does not touch the hash defect. -/
theorem zDefect_updatePassedPawns (K : ZKeys) (b : Board) :
    zDefect K b.updatePassedPawns = zDefect K b := rfl

/-- The tail of `parse_fen` after the scalar fields are fixed: starting
from a pieceless board with a zero stored hash, the placement fold keeps
the defect zero when every row fits. -/
theorem parseFenTail (K : ZKeys) (rows : List (List Char)) (B0 : Board)
    (b : Board) (hz : B0.zHash = 0)
    (hbits : B0.whitePieces = 0 ∧ B0.blackPieces = 0 ∧ B0.pawns = 0 ∧
      B0.bishops = 0 ∧ B0.knights = 0 ∧ B0.rooks = 0 ∧ B0.queens = 0 ∧
      B0.kings = 0)
    (hlen : rows.length ≤ 8)
    (hrows : ∀ row ∈ rows, rowWidth row ≤ 8)
    (h : (do
      let bb ← rows.enum.foldl (fun acc rowi => do
          let b2 ← acc
          parseRowChars K rowi.1 rowi.2 b2)
        (some (Board.initPstEval (Board.initZobristHash K B0)))
      pure ({ bb with
        hashHistory := bb.hashHistory.push bb.hash }).updatePassedPawns) =
      some b) :
    zDefect K b = 0 := by
  obtain ⟨e1, e2, e3, e4, e5, e6, e7, e8⟩ := hbits
  have hbase : zDefect K (Board.initPstEval (Board.initZobristHash K B0)) = 0 := by
    rw [zDefect_initPstEval]
    exact zDefect_initZobristHash K B0 hz
  have hemp : ∀ k, 0 * 8 ≤ k → k < 64 →
      sqEmptyAll (Board.initPstEval (Board.initZobristHash K B0)) ⟨k⟩ := by
    intro k _ _
    refine ⟨?_, ?_, ?_, ?_, ?_, ?_, ?_, ?_⟩
    · show B0.whitePieces.testBit k = false
      rw [e1]
      exact Nat.zero_testBit k
    · show B0.blackPieces.testBit k = false
      rw [e2]
      exact Nat.zero_testBit k
    · show B0.pawns.testBit k = false
      rw [e3]
      exact Nat.zero_testBit k
    · show B0.bishops.testBit k = false
      rw [e4]
      exact Nat.zero_testBit k
    · show B0.knights.testBit k = false
      rw [e5]
      exact Nat.zero_testBit k
    · show B0.rooks.testBit k = false
      rw [e6]
      exact Nat.zero_testBit k
    · show B0.queens.testBit k = false
      rw [e7]
      exact Nat.zero_testBit k
    · show B0.kings.testBit k = false
      rw [e8]
      exact Nat.zero_testBit k
  have hmain := rowsFoldAux K rows 0
    (Board.initPstEval (Board.initZobristHash K B0)) (by omega) hrows
    hbase hemp
  rw [show rows.enum = List.enumFrom 0 rows from rfl] at h
  rcases hfold : (List.enumFrom 0 rows).foldl (fun acc rowi => do
      let b2 ← acc
      parseRowChars K rowi.1 rowi.2 b2)
    (some (Board.initPstEval (Board.initZobristHash K B0))) with _ | bfin
  · rw [hfold] at h
    exact Option.noConfusion h
  · rw [hfold] at h hmain
    simp only [Option.bind_eq_bind, Option.some_bind, Option.pure_def] at h
    have hb := Option.some.inj h
    rw [← hb]
    rw [zDefect_updatePassedPawns, zDefect_hashHistory]
    exact hmain

/-- A board built by `parse_fen` from a FEN whose rows fit satisfies the
from-scratch hash reconstruction. -/
theorem zobristInvariant_of_parseFen (K : ZKeys) (fen : String) (b : Board)
    (hfit : fenFits fen = true) (h : parseFen K fen = some b) :
    zobristInvariant K b := by
  rw [zobristInvariant_iff_defect]
  unfold parseFen at h
  unfold fenFits at hfit
  rcases hg : fenCaptures fen.toList with _ | g
  · rw [hg] at h
    exact Option.noConfusion h
  · obtain ⟨g1, g2, g3, g4, g5, g6⟩ := g
    rw [hg] at h hfit
    simp only [Option.bind_eq_bind, Option.some_bind] at h
    by_cases hlen : ((splitOnSlash g1).reverse.length ≠ 8)
    · rw [if_pos hlen] at h
      exact Option.noConfusion h
    · rw [if_neg hlen] at h
      by_cases hhmc : (parseDigits g5 > 255)
      · rw [if_pos hhmc] at h
        exact Option.noConfusion h
      · rw [if_neg hhmc] at h
        by_cases hfmn : (parseDigits g6 > 65535)
        · rw [if_pos hfmn] at h
          exact Option.noConfusion h
        · rw [if_neg hfmn] at h
          refine parseFenTail K ((splitOnSlash g1).reverse) _ b rfl
            ⟨rfl, rfl, rfl, rfl, rfl, rfl, rfl, rfl⟩
            (by omega) ?_ h
          intro row hrow
          have hmem := List.mem_reverse.mp hrow
          have hall := List.all_eq_true.mp hfit row hmem
          exact of_decide_eq_true hall

/-- C2 (amended): the stored hash equals the from-scratch Zobrist
reconstruction (piece keys, black-to-move key, castling keys, en-passant
file key): it holds for every board `parse_fen` builds from a FEN whose
placement rows each claim at most eight files, it is preserved by every
`push` of a move consistent with the board's occupancy, and it is
preserved by every `pop` (a no-op on an empty stack, and an unmake whose
squares are consistent with the stack top otherwise).  The row-width
proviso is forced by the counterexample: `parse_fen` accepts degenerate
placements that land two pieces on one square and cancel a piece key out
of the incremental hash. -/
theorem zobrist_scratch_invariant (K : ZKeys) :
    (∀ fen b, fenFits fen = true → parseFen K fen = some b →
      zobristInvariant K b) ∧
    (∀ b m, zobristSafe b m → zobristInvariant K b →
      zobristInvariant K (b.push K m)) ∧
    (∀ b, b.sideToNotMove =
        (if b.sideToMove = Side.White then Side.Black else Side.White) →
      (match b.moveStack with
        | [] => True
        | (m, _) :: _ => zUnmakeSafe b m) →
      zobristInvariant K b → zobristInvariant K (b.pop K)) := by
  refine ⟨fun fen b hf hp => zobristInvariant_of_parseFen K fen b hf hp,
    fun b m hs hi => ?_, fun b hside hz hi => ?_⟩
  · rw [zobristInvariant_iff_defect] at hi ⊢
    rw [zDefect_push K b m hs]
    exact hi
  · rw [zobristInvariant_iff_defect] at hi ⊢
    rw [zDefect_pop K b hside hz]
    exact hi

/-- Witness for `zobrist_scratch_invariant`: the starting FEN fits and
parses, the knight development move g1f3 is occupancy-consistent, and the
three clauses apply at these inputs. -/
theorem zobrist_scratch_invariant_witness :
    fenFits "rnbqkbnr/pppppppp/8/8/8/8/PPPPPPPP/RNBQKBNR w KQkq - 0 1" = true ∧
    parseFen sampleKeys
        "rnbqkbnr/pppppppp/8/8/8/8/PPPPPPPP/RNBQKBNR w KQkq - 0 1" =
      some ((parseFen sampleKeys
        "rnbqkbnr/pppppppp/8/8/8/8/PPPPPPPP/RNBQKBNR w KQkq - 0 1").getD
        (Board.startingPosition sampleKeys)) ∧
    zobristSafe (Board.startingPosition sampleKeys)
      (Move.Regular (RegularMove.new Piece.Knight ⟨6⟩ ⟨21⟩ none)) ∧
    zobristInvariant sampleKeys (Board.startingPosition sampleKeys) ∧
    zobristInvariant sampleKeys
      ((parseFen sampleKeys
        "rnbqkbnr/pppppppp/8/8/8/8/PPPPPPPP/RNBQKBNR w KQkq - 0 1").getD
        (Board.startingPosition sampleKeys)) ∧
    zobristInvariant sampleKeys
      ((Board.startingPosition sampleKeys).push sampleKeys
        (Move.Regular (RegularMove.new Piece.Knight ⟨6⟩ ⟨21⟩ none))) ∧
    zobristInvariant sampleKeys
      ((Board.startingPosition sampleKeys).pop sampleKeys) ∧
    (match ((Board.startingPosition sampleKeys).push sampleKeys
        (Move.Regular (RegularMove.new Piece.Knight ⟨6⟩ ⟨21⟩ none))).moveStack with
      | [] => True
      | (m, _) :: _ => zUnmakeSafe
          ((Board.startingPosition sampleKeys).push sampleKeys
            (Move.Regular (RegularMove.new Piece.Knight ⟨6⟩ ⟨21⟩ none))) m) ∧
    zobristInvariant sampleKeys
      ((((Board.startingPosition sampleKeys).push sampleKeys
        (Move.Regular (RegularMove.new Piece.Knight ⟨6⟩ ⟨21⟩ none)))).pop
        sampleKeys) := by
  have hfit : fenFits
      "rnbqkbnr/pppppppp/8/8/8/8/PPPPPPPP/RNBQKBNR w KQkq - 0 1" = true := by
    decide
  have hparse : parseFen sampleKeys
      "rnbqkbnr/pppppppp/8/8/8/8/PPPPPPPP/RNBQKBNR w KQkq - 0 1" =
    some ((parseFen sampleKeys
      "rnbqkbnr/pppppppp/8/8/8/8/PPPPPPPP/RNBQKBNR w KQkq - 0 1").getD
      (Board.startingPosition sampleKeys)) := rfl
  have hsafe : zobristSafe (Board.startingPosition sampleKeys)
      (Move.Regular (RegularMove.new Piece.Knight ⟨6⟩ ⟨21⟩ none)) := by
    simp only [zobristSafe, pushPopSafe, zMakeSafe, boardsBounded, histOk,
      sqHoldsExactly, sqEmptyAll, otherSide, Board.getPieces, kindBB,
      show (RegularMove.new Piece.Knight ⟨6⟩ ⟨21⟩ none).capturedPiece =
        none from rfl,
      show (RegularMove.new Piece.Knight ⟨6⟩ ⟨21⟩ none).piece =
        Piece.Knight from rfl]
    decide
  have hstart : zobristInvariant sampleKeys
      (Board.startingPosition sampleKeys) := by
    unfold zobristInvariant
    decide
  have hside : (Board.startingPosition sampleKeys).sideToNotMove =
      (if (Board.startingPosition sampleKeys).sideToMove = Side.White
        then Side.Black else Side.White) := rfl
  have hstack : (match (Board.startingPosition sampleKeys).moveStack with
      | [] => True
      | (m, _) :: _ => zUnmakeSafe (Board.startingPosition sampleKeys) m) :=
    True.intro
  have hms : ((Board.startingPosition sampleKeys).push sampleKeys
      (Move.Regular (RegularMove.new Piece.Knight ⟨6⟩ ⟨21⟩ none))).moveStack =
    [(Move.Regular (RegularMove.new Piece.Knight ⟨6⟩ ⟨21⟩ none),
      pushUndo (Board.startingPosition sampleKeys))] := rfl
  have hstackP : (match ((Board.startingPosition sampleKeys).push sampleKeys
      (Move.Regular (RegularMove.new Piece.Knight ⟨6⟩ ⟨21⟩ none))).moveStack with
    | [] => True
    | (m, _) :: _ => zUnmakeSafe
        ((Board.startingPosition sampleKeys).push sampleKeys
          (Move.Regular (RegularMove.new Piece.Knight ⟨6⟩ ⟨21⟩ none))) m) := by
    rw [hms]
    show zUnmakeSafe _ (Move.Regular (RegularMove.new Piece.Knight ⟨6⟩ ⟨21⟩ none))
    simp only [zUnmakeSafe, sqHoldsExactly, sqEmptyAll, otherSide,
      Board.getPieces, kindBB]
    decide
  have hsideP : ((Board.startingPosition sampleKeys).push sampleKeys
      (Move.Regular (RegularMove.new Piece.Knight ⟨6⟩ ⟨21⟩ none))).sideToNotMove =
    (if ((Board.startingPosition sampleKeys).push sampleKeys
        (Move.Regular (RegularMove.new Piece.Knight ⟨6⟩ ⟨21⟩ none))).sideToMove =
        Side.White then Side.Black else Side.White) := by decide
  have hinvP := (zobrist_scratch_invariant sampleKeys).2.1 _ _ hsafe hstart
  exact ⟨hfit, hparse, hsafe, hstart,
    (zobrist_scratch_invariant sampleKeys).1 _ _ hfit hparse,
    hinvP,
    (zobrist_scratch_invariant sampleKeys).2.2 _ hside hstack hstart,
    hstackP,
    (zobrist_scratch_invariant sampleKeys).2.2 _ hsideP hstackP hinvP⟩

/-- The `None` failure is not confined to a root-probe hit: with every
root probe missing, poisoned `Alpha(-32768)`/depth-255 entries at the three
successor positions of the bare-kings board make every depth-1 child call
return from its probe, the second deepening iteration fails high at the
root without writing `pv_table[0]` (freshly cleared between iterations),
and `search` at `max_depth = 2` returns `None` although the position has
legal moves (`max_depth = 1` on the same table returns a move). -/
theorem search_none_deep_cex :
    (kingsOnlyBoard.legalMoves ≠ [] ∧
      ({ size := 45,
         entries := (((TranspositionTable.new 1).entries.set 34
           ⟨11239, 255, .Alpha (-32768)⟩).set 41
           ⟨11111, 255, .Alpha (-32768)⟩).set 13
           ⟨10903, 255, .Alpha (-32768)⟩ } :
        TranspositionTable).get kingsOnlyBoard 1 (-32767) 32767 = none ∧
      ({ size := 45,
         entries := (((TranspositionTable.new 1).entries.set 34
           ⟨11239, 255, .Alpha (-32768)⟩).set 41
           ⟨11111, 255, .Alpha (-32768)⟩).set 13
           ⟨10903, 255, .Alpha (-32768)⟩ } :
        TranspositionTable).get kingsOnlyBoard 2 (-32767) 32767 = none ∧
      searchRun sampleKeys (fun _ => 0) 0 6 2 kingsOnlyBoard
        { size := 45,
          entries := (((TranspositionTable.new 1).entries.set 34
            ⟨11239, 255, .Alpha (-32768)⟩).set 41
            ⟨11111, 255, .Alpha (-32768)⟩).set 13
            ⟨10903, 255, .Alpha (-32768)⟩ } = some none) := by
  refine ⟨by decide, by decide, by decide, by decide⟩


end Chessica
